import Mathlib

/-!
# PorfitOptima pricing worker: model of the code and its properties

The development embeds the backend of the repository
(`server/backend_src/pricing/fallback.ts`, `pricing/payload.ts`,
`workers/pricingWorker.ts`, `types/firestore.ts`) as Lean definitions and
proves properties of these definitions.

## Numbers

There are two embeddings of `pricing/fallback.ts`.

In the first (`Fallback`) a JavaScript `number` is a rational: the finite
values only.  Every arithmetic operation and every decimal literal of the
source goes through the rounding operator `rnd` of a `Runtime`, so that
embedding serves two readings:

* `exactRuntime`: `rnd = id`, exact real arithmetic;
* `ieeeRuntime`: `rnd = binary64`, round-to-nearest-even on a 53 bit
  significand (with subnormals; the exponent is unbounded above, so no
  operation overflows).

In the second (`Ieee`) a number is a `Double`: a finite double, `Infinity`,
`-Infinity` or `NaN`.  An operation whose rounded result reaches `2^1024`
overflows, and the special values propagate as in ECMAScript (`Math.max`,
`Math.min`, `||`, the comparisons, `toFixed`).  The numbers read from the
store and from the environment are finite doubles.  Where no operation
overflows the two embeddings agree.

## Document store

Firestore collections are association lists from document id to document
data.  `update` throws on a missing document, `set` creates or overwrites,
and any store call can also throw for a transient reason, which the
environment of a run decides.  Whether `set` refuses a document with a field
whose value is `undefined` (the default of the SDK) or leaves the field out is
a setting of the Firestore instance, which `lib/firebaseAdmin` makes; that
module is not embedded here, so the setting is a parameter of a run.
-/

namespace PorfitOptima

/-! ## Runtime of the host language -/

/-- Collaborators of the ECMAScript runtime that the code relies on: the
rounding applied to the result of every arithmetic operation and to every
decimal literal, and `Number::toString`, which `toFixed` uses only for
magnitudes of at least `10^21`. -/
structure Runtime where
  rnd : ℚ → ℚ
  numberToString : ℚ → String

/-- Round to the nearest integer, ties to the even one. -/
def roundHalfEven (t : ℚ) : ℤ :=
  let n : ℤ := ⌊t⌋
  let r : ℚ := t - n
  if r < 1 / 2 then n
  else if 1 / 2 < r then n + 1
  else if n % 2 = 0 then n else n + 1

/-- The binade of a non-zero `x`: `⌊log₂ |x|⌋`, not below `-1022` (the
subnormal numbers share the spacing of the lowest binade). -/
def binade (x : ℚ) : ℤ := max (Int.log 2 |x|) (-1022)

/-- Round to the nearest IEEE-754 binary64 value, ties to even: the spacing
of the values around `x` is `2^(binade x - 52)`, and `|x|` is rounded to the
nearest multiple of the spacing. -/
def binary64 (x : ℚ) : ℚ :=
  if x = 0 then 0
  else
    let q : ℚ := (2 : ℚ) ^ (binade x - 52)
    (if x < 0 then -1 else 1) * ((roundHalfEven (|x| / q) : ℚ) * q)

/-- Exact real arithmetic: no rounding. -/
def exactRuntime (numberToString : ℚ → String) : Runtime :=
  { rnd := id, numberToString := numberToString }

/-- IEEE-754 double precision arithmetic, as in ECMAScript. -/
def ieeeRuntime (numberToString : ℚ → String) : Runtime :=
  { rnd := binary64, numberToString := numberToString }

/-- The integer `n` for which `n / 10^f - |x|` is as close to zero as
possible, the larger `n` if there are two (step of `Number.prototype.toFixed`). -/
def toFixedScaled (f : ℕ) (x : ℚ) : ℕ :=
  ⌊|x| * (10 : ℚ) ^ f + 1 / 2⌋.toNat

/-- The decimal digits of `n` with a point before the last `f` digits, padded
with zeros on the left to at least `f + 1` digits. -/
def fixedDigits (f : ℕ) (n : ℕ) : String :=
  let digits := toString n
  let padded := String.mk (List.replicate (f + 1 - digits.length) '0') ++ digits
  if f = 0 then padded
  else padded.take (padded.length - f) ++ "." ++ padded.drop (padded.length - f)

/-- The string `x.toFixed(f)`. -/
def toFixed (R : Runtime) (f : ℕ) (x : ℚ) : String :=
  if (10 : ℚ) ^ 21 ≤ |x| then R.numberToString x
  else (if x < 0 then "-" else "") ++ fixedDigits f (toFixedScaled f x)

/-- The number that the decimal string `x.toFixed(f)` denotes, for a
magnitude below `10^21`. -/
def fixedValue (f : ℕ) (x : ℚ) : ℚ :=
  (if x < 0 then -1 else 1) * ((toFixedScaled f x : ℚ) / (10 : ℚ) ^ f)

/-- The number `Number(x.toFixed(f))`: the decimal string of `toFixed` parsed
back, which rounds its value as every decimal literal is rounded.  For
magnitudes of at least `10^21` the string is `Number::toString(x)`, which
parses back to `x`. -/
def toFixedNumber (R : Runtime) (f : ℕ) (x : ℚ) : ℚ :=
  if (10 : ℚ) ^ 21 ≤ |x| then x else R.rnd (fixedValue f x)

/-- What the proofs need of a rounding operator: it is monotone and it keeps
`±10^21`, the threshold of `toFixed`.  Both runtimes have the property. -/
structure Runtime.Sound (R : Runtime) : Prop where
  mono : Monotone R.rnd
  fix_pos : R.rnd ((10 : ℚ) ^ 21) = (10 : ℚ) ^ 21
  fix_neg : R.rnd (-(10 : ℚ) ^ 21) = -(10 : ℚ) ^ 21

/-- The numbers of the runtime are closed under rounding: `0` and `1` are
numbers of the runtime, and so is every rounded value.  Both runtimes have the
property. -/
structure Runtime.Closed (R : Runtime) : Prop where
  fix_zero : R.rnd 0 = 0
  fix_one : R.rnd 1 = 1
  idem : ∀ x : ℚ, R.rnd (R.rnd x) = R.rnd x

/-- What the proofs about the interpolation of `quantiles` need of a rounding
operator: the quarters `j / 4` of the integers below `2^53` are numbers of the
runtime, and the rounded product of `0`, `1/4`, `1/2` or `3/4` with the rounded
difference of two numbers of the runtime does not exceed the difference.  Both
runtimes have the property. -/
structure Runtime.Dyadic (R : Runtime) : Prop where
  quarter : ∀ j : ℕ, j < 2 ^ 53 → R.rnd ((j : ℚ) / 4) = (j : ℚ) / 4
  interp_le : ∀ k : ℕ, k < 4 → ∀ lo hi : ℚ, R.rnd lo = lo → R.rnd hi = hi → lo ≤ hi →
    R.rnd ((k : ℚ) / 4 * R.rnd (hi - lo)) ≤ hi - lo

/-- The operator `a || b` on numbers: `a` unless it is falsy, that is `0`. -/
def numOr (a b : ℚ) : ℚ := if a = 0 then b else a

/-- The operator `a || b` on strings: `a` unless it is the empty string. -/
def strOr (a b : String) : String := if a = "" then b else a

/-- Element `i` of a JavaScript array: `none` stands for `undefined`. -/
def arrayAt (xs : List ℚ) (i : ℤ) : Option ℚ :=
  if i < 0 then none else xs[i.toNat]?

/-! ## Configuration read from `process.env` -/

/-- The environment variables the backend reads, each already converted by
`Number(...)` where the code does so; `none` is an unset variable. -/
structure Env where
  FALLBACK_TARGET_MARGIN : Option ℚ := none
  FALLBACK_MIN_MARGIN : Option ℚ := none
  OPENAI_MODEL : Option String := none

/-! ## Documents (`types/firestore.ts`) -/

/-- A value of TypeScript type `unknown` stored in a document. -/
inductive Json where
  | null : Json
  | bool (b : Bool) : Json
  | num (x : ℚ) : Json
  | str (s : String) : Json
  | arr (items : List Json) : Json
  | obj (fields : List (String × Json)) : Json

abbrev Timestamp := ℕ

inductive CompetitorStatus where
  | succeeded
  | failed
deriving DecidableEq, Repr

structure CompetitorEntry where
  hostname : String
  url : String
  rawPriceText : Option String
  parsedPriceUsd : Option ℚ
  currency : Option String
  status : CompetitorStatus
  errorReason : Option String := none
  notes : Option String := none
  scrapedAt : Timestamp

inductive PricingStatus where
  | pending
  | processing
  | completed
  | failed
deriving DecidableEq, Repr

structure SnapshotStats where
  successCount : ℕ
  failureCount : ℕ
  domains : List (String × ℕ)

/-- A competitor snapshot document.  `snapshotId` is the data field of that
name (the empty string when the field is absent), not the document id. -/
structure CompetitorSnapshotDoc where
  snapshotId : String
  productId : String
  jobId : String
  scrapedAt : Timestamp
  scrapeLatencyMs : ℕ
  competitors : List CompetitorEntry
  stats : SnapshotStats
  pricingStatus : PricingStatus
  pricingInsightId : Option String := none
  lastError : Option String := none
  updatedAt : Option Timestamp := none

inductive StrategySource where
  | ai
  | rule_based
deriving DecidableEq, Repr

inductive Strategy where
  | maximize_profit
  | stay_competitive
  | clear_inventory
deriving DecidableEq, Repr

/-- The `metadata` record of an insight, with the keys the worker writes. -/
structure InsightMetadata where
  confidence : Option ℚ := none
  strategy : Option Strategy := none
  aiModel : String
  competitorCount : ℕ
deriving DecidableEq

structure PricingInsightDoc where
  insightId : String
  productId : String
  snapshotId : String
  strategySource : StrategySource
  recommendedPrice : ℚ
  priceBand : ℚ × ℚ
  expectedMargin : ℚ
  rationale : String
  dataSources : List String
  fallbackReason : Option String
  metadata : InsightMetadata
  createdAt : Timestamp
  updatedAt : Timestamp
deriving DecidableEq

structure BasicInfo where
  name : Option String := none
  description : Option String := none
  sku : Option String := none
  brand : Option String := none
  category : Option String := none
  attributes : Option (List (String × Json)) := none

structure Pricing where
  sellingPrice : Option ℚ := none
  msrp : Option ℚ := none
  history : Option (List Json) := none

structure Inventory where
  onHand : Option ℚ := none

structure Analytics where
  forecast : Option Json := none

/-- A product document.  `costStructure` lists the entries of the record in
the order `Object.values` enumerates them. -/
structure ProductDoc where
  basicInfo : Option BasicInfo := none
  costStructure : Option (List (String × ℚ)) := none
  pricing : Option Pricing := none
  inventory : Option Inventory := none
  analytics : Option Analytics := none

/-! ## `pricing/fallback.ts` -/

namespace Fallback

structure FallbackRecommendation where
  recommendedPrice : ℚ
  priceBand : ℚ × ℚ
  expectedMargin : ℚ
  rationale : String
  dataSources : List String
  strategy : Strategy

structure Quantiles where
  q1 : ℚ
  median : ℚ
  q3 : ℚ
deriving DecidableEq

/-- The closure `index` of `quantiles`, over the sorted copy of the values. -/
def index (R : Runtime) (sorted : List ℚ) (p : ℚ) : ℚ :=
  if sorted.length = 1 then (arrayAt sorted 0).getD 0
  else
    let pos := R.rnd (R.rnd ((sorted.length : ℚ) - 1) * p)
    let base : ℤ := ⌊pos⌋
    let rest := R.rnd (pos - base)
    match arrayAt sorted (base + 1) with
    | some hi =>
      R.rnd ((arrayAt sorted base).getD 0
        + R.rnd (rest * R.rnd (hi - (arrayAt sorted base).getD 0)))
    | none => (arrayAt sorted base).getD 0

/-- The function `quantiles`. -/
def quantiles (R : Runtime) (values : List ℚ) : Quantiles :=
  if values.length = 0 then { q1 := 0, median := 0, q3 := 0 }
  else
    let sorted := values.insertionSort (· ≤ ·)
    { q1 := index R sorted (R.rnd (25 / 100)),
      median := index R sorted (R.rnd (5 / 10)),
      q3 := index R sorted (R.rnd (75 / 100)) }

/-- The function `computeTotalCost` of `fallback.ts`. -/
def computeTotalCost (R : Runtime) (costStructure : Option (List (String × ℚ))) : ℚ :=
  match costStructure with
  | none => 0
  | some entries => entries.foldl (fun sum entry => R.rnd (sum + entry.2)) 0

/-- The constant `desiredMargin`: `Number(process.env.FALLBACK_TARGET_MARGIN ?? 0.18)`. -/
def desiredMargin (R : Runtime) (env : Env) : ℚ :=
  env.FALLBACK_TARGET_MARGIN.getD (R.rnd (18 / 100))

/-- The constant `minMargin`: `Number(process.env.FALLBACK_MIN_MARGIN ?? 0.1)`. -/
def minMargin (R : Runtime) (env : Env) : ℚ :=
  env.FALLBACK_MIN_MARGIN.getD (R.rnd (1 / 10))

/-- The constant `competitorPrices`: the parsed prices that are numbers. -/
def competitorPrices (snapshot : CompetitorSnapshotDoc) : List ℚ :=
  snapshot.competitors.filterMap (fun c => c.parsedPriceUsd)

/-- The constant `floorPrice`. -/
def floorPrice (R : Runtime) (env : Env) (product : ProductDoc) : ℚ :=
  R.rnd (computeTotalCost R product.costStructure * R.rnd (1 + desiredMargin R env))

/-- The constant `competitiveCeiling`. -/
def competitiveCeiling (R : Runtime) (env : Env) (product : ProductDoc)
    (snapshot : CompetitorSnapshotDoc) : ℚ :=
  let q := quantiles R (competitorPrices snapshot)
  numOr q.q3 (numOr q.median (floorPrice R env product))

/-- The constant `recommendedPrice`, before the rounding of the result. -/
def rawRecommendedPrice (R : Runtime) (env : Env) (product : ProductDoc)
    (snapshot : CompetitorSnapshotDoc) : ℚ :=
  let q := quantiles R (competitorPrices snapshot)
  let ceiling := competitiveCeiling R env product snapshot
  max (floorPrice R env product) (min ceiling (numOr q.median ceiling))

/-- The constant `expectedMargin`, before the clamp. -/
def rawExpectedMargin (R : Runtime) (env : Env) (product : ProductDoc)
    (snapshot : CompetitorSnapshotDoc) : ℚ :=
  let totalCost := computeTotalCost R product.costStructure
  if 0 < totalCost then
    R.rnd (R.rnd (R.rnd (rawRecommendedPrice R env product snapshot - totalCost) / totalCost) * 100)
  else 0

/-- The constant `safeMargin`. -/
def safeMargin (R : Runtime) (env : Env) (product : ProductDoc)
    (snapshot : CompetitorSnapshotDoc) : ℚ :=
  max (rawExpectedMargin R env product snapshot) (R.rnd (minMargin R env * 100))

/-- The constant `rationaleParts`, joined with `"; "`. -/
def rationale (R : Runtime) (env : Env) (snapshot : CompetitorSnapshotDoc) : String :=
  let q := quantiles R (competitorPrices snapshot)
  let iqr := R.rnd (q.q3 - q.q1)
  "; ".intercalate
    [ "Fallback strategy using competitor median $" ++ strOr (toFixed R 2 q.median) "0.00",
      "IQR=" ++ strOr (toFixed R 2 iqr) "0.00",
      "floor ensures >= " ++ toFixed R 1 (R.rnd (desiredMargin R env * 100)) ++ "% margin" ]

/-- The function `buildFallbackRecommendation`. -/
def buildFallbackRecommendation (R : Runtime) (env : Env) (product : ProductDoc)
    (snapshot : CompetitorSnapshotDoc) : FallbackRecommendation :=
  let recommendedPrice := rawRecommendedPrice R env product snapshot
  { recommendedPrice := toFixedNumber R 2 recommendedPrice,
    priceBand :=
      (toFixedNumber R 2 (R.rnd (recommendedPrice * R.rnd (97 / 100))),
       toFixedNumber R 2 (R.rnd (recommendedPrice * R.rnd (103 / 100)))),
    expectedMargin := toFixedNumber R 2 (safeMargin R env product snapshot),
    strategy := Strategy.stay_competitive,
    rationale := rationale R env snapshot,
    dataSources := snapshot.competitors.map (fun c => c.url) }

end Fallback

/-! ## `pricing/payload.ts` -/

namespace Payload

structure PricingPayload where
  productName : String
  productDescription : String
  sku : String
  brand : String
  category : String
  attributes : List (String × Json)
  totalCost : ℚ
  msrp : Option ℚ
  currentPrice : ℚ
  currentMargin : ℚ
  historicalPrices : List Json
  currentInventory : Option ℚ
  demandForecast : Json
  competitorUsdPrices : List ℚ
  competitorNames : List String
  competitorUrls : List String

/-- The function `computeTotalCost` of `payload.ts`. -/
def computeTotalCost (R : Runtime) (costStructure : Option (List (String × ℚ))) : ℚ :=
  match costStructure with
  | none => 0
  | some entries => entries.foldl (fun sum entry => R.rnd (sum + entry.2)) 0

/-- The function `buildPricingPayload`. -/
def buildPricingPayload (R : Runtime) (product : ProductDoc)
    (snapshot : CompetitorSnapshotDoc) : PricingPayload :=
  let totalCost := computeTotalCost R product.costStructure
  let currentPrice : ℚ := ((product.pricing.bind (fun p => p.sellingPrice)).getD 0)
  let margin : ℚ :=
    if 0 < currentPrice then R.rnd (R.rnd (R.rnd (currentPrice - totalCost) / currentPrice) * 100)
    else 0
  let competitors := snapshot.competitors.filter (fun c => c.parsedPriceUsd.isSome)
  { productName := (product.basicInfo.bind (fun b => b.name)).getD "Unnamed",
    productDescription := (product.basicInfo.bind (fun b => b.description)).getD "",
    sku := (product.basicInfo.bind (fun b => b.sku)).getD "",
    brand := (product.basicInfo.bind (fun b => b.brand)).getD "",
    category := (product.basicInfo.bind (fun b => b.category)).getD "Uncategorized",
    attributes := (product.basicInfo.bind (fun b => b.attributes)).getD [],
    totalCost := totalCost,
    msrp :=
      match product.pricing.bind (fun p => p.msrp) with
      | some m => if m = 0 then none else some m
      | none => none,
    currentPrice := currentPrice,
    currentMargin := toFixedNumber R 2 margin,
    historicalPrices := (product.pricing.bind (fun p => p.history)).getD [],
    currentInventory := product.inventory.bind (fun i => i.onHand),
    demandForecast := (product.analytics.bind (fun a => a.forecast)).getD Json.null,
    competitorUsdPrices := competitors.map (fun c => c.parsedPriceUsd.getD 0),
    competitorNames := competitors.map (fun c => c.hostname),
    competitorUrls := competitors.map (fun c => c.url) }

end Payload

/-! ## `workers/pricingWorker.ts` -/

namespace PricingWorker

/-- A thrown value: an `Error` with its message, or a value that is no `Error`. -/
inductive Thrown where
  | error (message : String)
  | nonError
deriving DecidableEq

structure AiCompetitorPrice where
  name : String
  price : ℚ
  currency : Option String := none
  url : Option String := none
  source : Option String := none
  lastVerified : Option String := none
deriving DecidableEq

/-- The type `AiResponse`: a response that `AiResponseSchema` has validated. -/
structure AiResponse where
  recommendedPrice : ℚ
  optimalPrice : ℚ
  expectedMargin : ℚ
  strategy : Strategy
  priceBand : ℚ × ℚ
  confidence : ℚ
  competitorPrices : List AiCompetitorPrice
  marketValueSummary : String
  methodology : String
  dataSources : List String
  rationale : String
  nextCheckHours : ℚ
deriving DecidableEq

/-- A Firestore collection: document id and data of every document. -/
abbrev Collection (α : Type) := List (String × α)

/-- The data of document `id` (`doc(id).get()`), `none` if there is none. -/
def Collection.get {α : Type} (c : Collection α) (id : String) : Option α :=
  (c.find? (fun e => e.1 = id)).map (fun e => e.2)

/-- Rewrite the data of the documents with id `id`. -/
def Collection.modify {α : Type} (c : Collection α) (id : String) (f : α → α) : Collection α :=
  c.map (fun e => if e.1 = id then (e.1, f e.2) else e)

/-- The call `doc(id).set(data)`: create the document or overwrite it. -/
def Collection.set {α : Type} (c : Collection α) (id : String) (data : α) : Collection α :=
  if (c.get id).isSome then c.modify id (fun _ => data) else c ++ [(id, data)]

/-- The call `doc(id).update(fields)`: `none` when the document does not exist
(Firestore rejects the update). -/
def Collection.update {α : Type} (c : Collection α) (id : String) (f : α → α) :
    Option (Collection α) :=
  if (c.get id).isSome then some (c.modify id f) else none

/-- The state the worker acts on: the three collections, the requests sent to
the model so far, and how many store calls and generated ids were used. -/
structure World where
  competitorSnapshots : Collection CompetitorSnapshotDoc
  products : Collection ProductDoc
  pricingInsights : Collection PricingInsightDoc
  aiRequests : List Payload.PricingPayload := []
  storeCalls : ℕ := 0
  idsDrawn : ℕ := 0

/-- The collaborators outside the worker.  `callOpenAi k payload` is the outcome
of the `k`-th call of `callOpenAi` (model call, `JSON.parse` and
`AiResponseSchema.parse`): the validated response or the thrown value.
`storeFails k` is the error with which the `k`-th store call is rejected for a
transient reason, `notFound id` the error of an update of a missing document,
`autoId k` the `k`-th generated document id and `serverTime k` the server
timestamp of the `k`-th store call.

`ignoreUndefinedProperties` is the setting of that name of the Firestore
instance.  The instance is made by `lib/firebaseAdmin`, which is not embedded
here, so the setting is a parameter.  When it is off, which is the default of
the SDK, `set` refuses a document that has a field whose value is `undefined`:
it throws `undefinedValue field` before anything is sent to the store.  When it
is on, `set` leaves such a field out of the document. -/
structure Collaborators where
  callOpenAi : ℕ → Payload.PricingPayload → Except Thrown AiResponse
  storeFails : ℕ → Option Thrown
  notFound : String → Thrown
  autoId : ℕ → String
  serverTime : ℕ → Timestamp
  ignoreUndefinedProperties : Bool
  undefinedValue : String → Thrown

/-- One more store call was issued. -/
def World.tick (w : World) : World := { w with storeCalls := w.storeCalls + 1 }

/-- The constant `OPENAI_MODEL`. -/
def OPENAI_MODEL (env : Env) : String := env.OPENAI_MODEL.getD "gpt-4o-mini"

/-- Whether `a` comes before `b` in `orderBy("scrapedAt", "asc")`; documents
with equal timestamps are ordered by document id. -/
def comesBefore (a b : String × CompetitorSnapshotDoc) : Bool :=
  decide (a.2.scrapedAt < b.2.scrapedAt) || (decide (a.2.scrapedAt = b.2.scrapedAt) && decide (a.1 < b.1))

/-- The first document of a query result in `scrapedAt` order. -/
def oldest : List (String × CompetitorSnapshotDoc) → Option (String × CompetitorSnapshotDoc)
  | [] => none
  | e :: rest =>
    match oldest rest with
    | none => some e
    | some b => if comesBefore b e then some b else some e

/-- The call `doc(id).update(fields)` on the snapshot collection, with
`updatedAt` set by the server. -/
def updateSnapshot (C : Collaborators) (w : World) (id : String)
    (fields : Timestamp → CompetitorSnapshotDoc → CompetitorSnapshotDoc) :
    Except Thrown Unit × World :=
  match C.storeFails w.storeCalls with
  | some e => (.error e, w.tick)
  | none =>
    match w.competitorSnapshots.update id (fields (C.serverTime w.storeCalls)) with
    | none => (.error (C.notFound id), w.tick)
    | some docs => (.ok (), { w.tick with competitorSnapshots := docs })

/-- The function `fetchNextPendingSnapshot`. -/
def fetchNextPendingSnapshot (C : Collaborators) (w : World) :
    Except Thrown (Option CompetitorSnapshotDoc) × World :=
  match C.storeFails w.storeCalls with
  | some e => (.error e, w.tick)
  | none =>
    match oldest (w.competitorSnapshots.filter (fun e => e.2.pricingStatus = PricingStatus.pending)) with
    | none => (.ok none, w.tick)
    | some doc =>
      let snapshot : CompetitorSnapshotDoc :=
        if doc.2.snapshotId = "" then { doc.2 with snapshotId := doc.1 } else doc.2
      match updateSnapshot C w.tick doc.1
          (fun now d => { d with pricingStatus := PricingStatus.processing, updatedAt := some now }) with
      | (.error e, w1) => (.error e, w1)
      | (.ok _, w1) => (.ok (some snapshot), w1)

/-- The function `getProduct`. -/
def getProduct (C : Collaborators) (w : World) (productId : String) :
    Except Thrown (Option ProductDoc) × World :=
  match C.storeFails w.storeCalls with
  | some e => (.error e, w.tick)
  | none => (.ok (w.products.get productId), w.tick)

/-- The optional entries of the `metadata` argument of `writeInsight`. -/
structure MetadataExtras where
  confidence : Option ℚ := none
  strategy : Option Strategy := none

/-- The `data` argument of `writeInsight`. -/
structure InsightData where
  recommendedPrice : ℚ
  priceBand : ℚ × ℚ
  expectedMargin : ℚ
  rationale : String
  dataSources : List String
  metadata : Option MetadataExtras := none
  fallbackReason : Option String := none

/-- The document `doc` that `writeInsight` builds. -/
def insightDoc (env : Env) (insightId : String) (now : Timestamp)
    (snapshot : CompetitorSnapshotDoc) (source : StrategySource) (data : InsightData) :
    PricingInsightDoc :=
  { insightId := insightId,
    productId := snapshot.productId,
    snapshotId := snapshot.snapshotId,
    strategySource := source,
    recommendedPrice := data.recommendedPrice,
    priceBand := data.priceBand,
    expectedMargin := data.expectedMargin,
    rationale := data.rationale,
    dataSources := data.dataSources,
    fallbackReason := data.fallbackReason,
    metadata :=
      { confidence := data.metadata.bind (fun m => m.confidence),
        strategy := data.metadata.bind (fun m => m.strategy),
        aiModel := OPENAI_MODEL env,
        competitorCount := snapshot.competitors.length },
    createdAt := now,
    updatedAt := now }

/-- The function `writeInsight`: set the insight document, then update the
snapshot.  The `product` argument is not used by the body.  The document is
built with `fallbackReason: data.fallbackReason`, which is `undefined` when the
caller gives none: `set` then refuses the document unless the store ignores
undefined properties. -/
def writeInsight (env : Env) (C : Collaborators) (w : World) (snapshot : CompetitorSnapshotDoc)
    (_product : ProductDoc) (source : StrategySource) (data : InsightData) :
    Except Thrown Unit × World :=
  let insightId := C.autoId w.idsDrawn
  let w1 : World := { w with idsDrawn := w.idsDrawn + 1 }
  if data.fallbackReason = none ∧ C.ignoreUndefinedProperties = false then
    (.error (C.undefinedValue "fallbackReason"), w1)
  else
    match C.storeFails w1.storeCalls with
    | some e => (.error e, w1.tick)
    | none =>
      let doc := insightDoc env insightId (C.serverTime w1.storeCalls) snapshot source data
      let w2 : World := { w1.tick with pricingInsights := w1.pricingInsights.set insightId doc }
      updateSnapshot C w2 snapshot.snapshotId
        (fun now d => { d with pricingStatus := PricingStatus.completed,
                               pricingInsightId := some insightId, updatedAt := some now })

/-- The `try` block of `processSnapshotOnce`: the AI call, then the insight. -/
def aiAttempt (env : Env) (C : Collaborators) (w : World) (snapshot : CompetitorSnapshotDoc)
    (product : ProductDoc) (payload : Payload.PricingPayload) : Except Thrown Unit × World :=
  let w1 : World := { w with aiRequests := w.aiRequests ++ [payload] }
  match C.callOpenAi w.aiRequests.length payload with
  | .error e => (.error e, w1)
  | .ok ai =>
    writeInsight env C w1 snapshot product StrategySource.ai
      { recommendedPrice := ai.recommendedPrice,
        priceBand := (ai.priceBand.1, ai.priceBand.2),
        expectedMargin := ai.expectedMargin,
        rationale := ai.rationale,
        dataSources := ai.dataSources,
        metadata := some { confidence := some ai.confidence } }

/-- The constant `message` of the `catch` block. -/
def errorMessage (e : Thrown) : String :=
  match e with
  | .error message => message
  | .nonError => "Unknown error"

/-- The `catch` block of `processSnapshotOnce`. -/
def fallbackAttempt (R : Runtime) (env : Env) (C : Collaborators) (w : World)
    (snapshot : CompetitorSnapshotDoc) (product : ProductDoc) (e : Thrown) :
    Except Thrown Unit × World :=
  let fallback := Fallback.buildFallbackRecommendation R env product snapshot
  writeInsight env C w snapshot product StrategySource.rule_based
    { recommendedPrice := fallback.recommendedPrice,
      priceBand := fallback.priceBand,
      expectedMargin := fallback.expectedMargin,
      rationale := fallback.rationale,
      dataSources := fallback.dataSources,
      metadata := some { strategy := some fallback.strategy },
      fallbackReason := some (errorMessage e) }

/-- The function `processSnapshotOnce`. -/
def processSnapshotOnce (R : Runtime) (env : Env) (C : Collaborators) (w : World)
    (snapshot : CompetitorSnapshotDoc) : Except Thrown Unit × World :=
  match getProduct C w snapshot.productId with
  | (.error e, w1) => (.error e, w1)
  | (.ok none, w1) =>
    updateSnapshot C w1 snapshot.snapshotId
      (fun now d => { d with pricingStatus := PricingStatus.failed,
                             lastError := some "product_not_found", updatedAt := some now })
  | (.ok (some product), w1) =>
    let payload := Payload.buildPricingPayload R product snapshot
    match aiAttempt env C w1 snapshot product payload with
    | (.ok _, w2) => (.ok (), w2)
    | (.error e, w2) => fallbackAttempt R env C w2 snapshot product e

/-- One iteration of `loop`: claim the next pending snapshot and process it.  An
error that escapes is caught and logged, and the iteration ends. -/
def loopIteration (R : Runtime) (env : Env) (C : Collaborators) (w : World) : World :=
  match fetchNextPendingSnapshot C w with
  | (.error _, w1) => w1
  | (.ok none, w1) => w1
  | (.ok (some snapshot), w1) => (processSnapshotOnce R env C w1 snapshot).2

/-- The pricing status of the snapshot document `id`, if the document exists. -/
def statusOf (w : World) (id : String) : Option PricingStatus :=
  (w.competitorSnapshots.get id).map (fun d => d.pricingStatus)

/-- A snapshot collection is well formed when no two documents share an id and
the `snapshotId` field of every document is absent or is the document id. -/
def WellFormed (c : Collection CompetitorSnapshotDoc) : Prop :=
  (c.map (fun e => e.1)).Nodup ∧ ∀ e ∈ c, e.2.snapshotId = "" ∨ e.2.snapshotId = e.1

/-- How far an invocation of `fetchNextPendingSnapshot` has run: not yet
started, suspended at the `await` of the update with the document `docs[0]` that
its query returned, or returned. -/
inductive Invocation where
  | start
  | queried (doc : String × CompetitorSnapshotDoc)
  | returned (result : Except Thrown (Option CompetitorSnapshotDoc))

/-- One store call of an invocation of `fetchNextPendingSnapshot`.  The function
has two `await` points, the query and the update; the store serves the calls of
concurrent invocations one at a time, and an invocation is suspended between its
two calls. -/
def fetchStep (C : Collaborators) (w : World) : Invocation → Invocation × World
  | .start =>
    match C.storeFails w.storeCalls with
    | some e => (.returned (.error e), w.tick)
    | none =>
      match oldest (w.competitorSnapshots.filter (fun e => e.2.pricingStatus = PricingStatus.pending)) with
      | none => (.returned (.ok none), w.tick)
      | some doc => (.queried doc, w.tick)
  | .queried doc =>
    let snapshot : CompetitorSnapshotDoc :=
      if doc.2.snapshotId = "" then { doc.2 with snapshotId := doc.1 } else doc.2
    match updateSnapshot C w doc.1
        (fun now d => { d with pricingStatus := PricingStatus.processing, updatedAt := some now }) with
    | (.error e, w1) => (.returned (.error e), w1)
    | (.ok _, w1) => (.returned (.ok (some snapshot)), w1)
  | .returned result => (.returned result, w)

/-- Two invocations of `fetchNextPendingSnapshot` on one store: the schedule
lists, store call by store call, which invocation runs next (`true` the first,
`false` the second). -/
def runConcurrent (C : Collaborators) :
    List Bool → Invocation × Invocation × World → Invocation × Invocation × World
  | [], state => state
  | true :: schedule, (a, b, w) =>
    runConcurrent C schedule ((fetchStep C w a).1, b, (fetchStep C w a).2)
  | false :: schedule, (a, b, w) =>
    runConcurrent C schedule (a, (fetchStep C w b).1, (fetchStep C w b).2)

/-- The snapshot an invocation has claimed, if it returned one. -/
def Invocation.claimed : Invocation → Option CompetitorSnapshotDoc
  | .returned (.ok (some snapshot)) => some snapshot
  | _ => none

end PricingWorker

/-! ## `pricing/aiSchema.ts` -/

/-- The property `key` of a parsed JSON value; `none` stands for `undefined`.
An object lists each of its properties once. -/
def Json.field (j : Json) (key : String) : Option Json :=
  match j with
  | Json.obj fields => (fields.find? (fun e => e.1 = key)).map (fun e => e.2)
  | _ => none

namespace AiSchema

/-- The results of validating the elements of an array: all of them, or `none`
when one element is rejected. -/
def collect {α : Type} : List (Option α) → Option (List α)
  | [] => some []
  | none :: _ => none
  | some a :: rest =>
    match collect rest with
    | some as => some (a :: as)
    | none => none

/-- The schema `z.number()` on a property value. -/
def number (v : Option Json) : Option ℚ :=
  match v with
  | some (Json.num x) => some x
  | _ => none

/-- The schema `z.string()` on a property value. -/
def string (v : Option Json) : Option String :=
  match v with
  | some (Json.str s) => some s
  | _ => none

/-- The schema `z.string().optional()`: an absent property is accepted. -/
def optionalString (v : Option Json) : Option (Option String) :=
  match v with
  | none => some none
  | some (Json.str s) => some (some s)
  | _ => none

/-- The schema `z.enum(["maximize_profit", "stay_competitive", "clear_inventory"])`. -/
def strategy (v : Option Json) : Option Strategy :=
  match v with
  | some (Json.str s) =>
    if s = "maximize_profit" then some Strategy.maximize_profit
    else if s = "stay_competitive" then some Strategy.stay_competitive
    else if s = "clear_inventory" then some Strategy.clear_inventory
    else none
  | _ => none

/-- The schema `z.tuple([z.number(), z.number()])`: an array of exactly two numbers. -/
def numberPair (v : Option Json) : Option (ℚ × ℚ) :=
  match v with
  | some (Json.arr [Json.num a, Json.num b]) => some (a, b)
  | _ => none

/-- The schema `z.number().min(0).max(1)`. -/
def unitNumber (v : Option Json) : Option ℚ :=
  match number v with
  | some x => if 0 ≤ x ∧ x ≤ 1 then some x else none
  | none => none

/-- The object schema of an element of `competitorPrices`. -/
def competitorPrice (item : Json) : Option PricingWorker.AiCompetitorPrice :=
  match item with
  | Json.obj _ =>
    match string (item.field "name"), number (item.field "price"),
      optionalString (item.field "currency"), optionalString (item.field "url"),
      optionalString (item.field "source"), optionalString (item.field "lastVerified") with
    | some name, some price, some currency, some url, some source, some lastVerified =>
      some { name := name, price := price, currency := currency, url := url, source := source,
             lastVerified := lastVerified }
    | _, _, _, _, _, _ => none
  | _ => none

/-- The schema `z.array(<element>).min(1)` of `competitorPrices`. -/
def competitorPrices (v : Option Json) : Option (List PricingWorker.AiCompetitorPrice) :=
  match v with
  | some (Json.arr items) =>
    match collect (items.map competitorPrice) with
    | some entries => if 1 ≤ entries.length then some entries else none
    | none => none
  | _ => none

/-- The schema `z.array(z.string()).min(1)`. -/
def stringList (v : Option Json) : Option (List String) :=
  match v with
  | some (Json.arr items) =>
    match collect (items.map (fun item => string (some item))) with
    | some entries => if 1 ≤ entries.length then some entries else none
    | none => none
  | _ => none

/-- The schema `AiResponseSchema`, as the validation of a parsed value: the
validated response, or `none` when `parse` throws. -/
def AiResponseSchema (j : Json) : Option PricingWorker.AiResponse :=
  match j with
  | Json.obj _ =>
    match number (j.field "recommendedPrice"), number (j.field "optimalPrice"),
      number (j.field "expectedMargin"), strategy (j.field "strategy"),
      numberPair (j.field "priceBand"), unitNumber (j.field "confidence"),
      competitorPrices (j.field "competitorPrices"), string (j.field "marketValueSummary"),
      string (j.field "methodology"), stringList (j.field "dataSources"),
      string (j.field "rationale"), number (j.field "nextCheckHours") with
    | some recommendedPrice, some optimalPrice, some expectedMargin, some strategy,
      some priceBand, some confidence, some competitorPrices, some marketValueSummary,
      some methodology, some dataSources, some rationale, some nextCheckHours =>
      some { recommendedPrice := recommendedPrice, optimalPrice := optimalPrice,
             expectedMargin := expectedMargin, strategy := strategy, priceBand := priceBand,
             confidence := confidence, competitorPrices := competitorPrices,
             marketValueSummary := marketValueSummary, methodology := methodology,
             dataSources := dataSources, rationale := rationale,
             nextCheckHours := nextCheckHours }
    | _, _, _, _, _, _, _, _, _, _, _, _ => none
  | _ => none

end AiSchema

namespace PricingWorker

/-- The function `callOpenAi`.  `complete k payload` is the `k`-th chat
completion: its `choices[0]?.message?.content` (`none` when absent) or the
thrown value; `jsonParse` is `JSON.parse`; `zodError` is the error that
`AiResponseSchema.parse` throws on a rejected value.  The latency histogram and
the counters go to the console only. -/
def callOpenAi (complete : ℕ → Payload.PricingPayload → Except Thrown (Option String))
    (jsonParse : String → Except Thrown Json) (zodError : Json → Thrown)
    (k : ℕ) (payload : Payload.PricingPayload) : Except Thrown AiResponse :=
  match complete k payload with
  | Except.error e => Except.error e
  | Except.ok content =>
    match jsonParse (content.getD "{}") with
    | Except.error e => Except.error e
    | Except.ok parsed =>
      match AiSchema.AiResponseSchema parsed with
      | some validated => Except.ok validated
      | none => Except.error (zodError parsed)

end PricingWorker

/-! ## `services/jobQueue.ts` -/

namespace JobQueue

inductive ScrapeJobStatus where
  | queued
  | running
  | succeeded
  | failed
deriving DecidableEq, Repr

structure ScrapeJobDoc where
  jobId : String
  productId : String
  urls : List String
  fxRates : Option (List (String × ℚ)) := none
  status : ScrapeJobStatus
  attempts : ℕ
  priority : Option ℚ := none
  retryAt : Option Json := none
  lastError : Option String := none
  snapshotId : Option String := none
  createdAt : Option Timestamp
  updatedAt : Option Timestamp

structure EnqueueJobParams where
  productId : String
  urls : List String
  fxRates : Option (List (String × ℚ)) := none
  priority : Option ℚ := none

structure EnqueueJobResult where
  jobId : String
  status : ScrapeJobStatus
deriving DecidableEq

/-- The code points that `String.prototype.trim` removes: the ECMAScript
`WhiteSpace` and `LineTerminator` productions. -/
def isTrimmed (c : Char) : Bool :=
  c.toNat ∈ [0x9, 0xA, 0xB, 0xC, 0xD, 0x20, 0xA0, 0x1680, 0x2028, 0x2029, 0x202F, 0x205F,
    0x3000, 0xFEFF] || (0x2000 ≤ c.toNat && c.toNat ≤ 0x200A)

/-- The method `String.prototype.trim`. -/
def trim (s : String) : String :=
  String.mk ((s.data.dropWhile isTrimmed).reverse.dropWhile isTrimmed).reverse

/-- One turn of the loop of `sanitizeUrls` on the pair `(seen, valid)`.
`parseUrl s` is the `href` of `new URL(s)`, `none` when the constructor throws. -/
def sanitizeStep (parseUrl : String → Option String) (state : List String × List String)
    (raw : String) : List String × List String :=
  let trimmed := trim raw
  if trimmed = "" then state
  else
    match parseUrl trimmed with
    | some href => if href ∈ state.1 then state else (state.1 ++ [href], state.2 ++ [href])
    | none => state

/-- The function `sanitizeUrls`. -/
def sanitizeUrls (parseUrl : String → Option String) (urls : List String) : List String :=
  (urls.foldl (sanitizeStep parseUrl) ([], [])).2

/-- The normalized `href` of every entry that is not blank and parses as a URL,
in input order and with repetitions. -/
def validHrefs (parseUrl : String → Option String) (urls : List String) : List String :=
  urls.filterMap (fun raw => if trim raw = "" then none else parseUrl (trim raw))

/-- The state `enqueueScrapeJob` acts on: the job collection, and how many
store calls and generated ids were used. -/
structure JobStore where
  scrapeJobs : PricingWorker.Collection ScrapeJobDoc
  storeCalls : ℕ := 0
  idsDrawn : ℕ := 0

/-- The function `enqueueScrapeJob`. -/
def enqueueScrapeJob (parseUrl : String → Option String) (C : PricingWorker.Collaborators)
    (s : JobStore) (params : EnqueueJobParams) :
    Except PricingWorker.Thrown EnqueueJobResult × JobStore :=
  let urls := sanitizeUrls parseUrl params.urls
  if urls.length = 0 then
    (Except.error (PricingWorker.Thrown.error "At least one valid URL is required"), s)
  else
    let jobId := C.autoId s.idsDrawn
    let s1 : JobStore := { s with idsDrawn := s.idsDrawn + 1 }
    match C.storeFails s1.storeCalls with
    | some e => (Except.error e, { s1 with storeCalls := s1.storeCalls + 1 })
    | none =>
      let now := C.serverTime s1.storeCalls
      let doc : ScrapeJobDoc :=
        { jobId := jobId,
          productId := params.productId,
          urls := urls,
          fxRates := some (params.fxRates.getD []),
          status := ScrapeJobStatus.queued,
          attempts := 0,
          priority := some (params.priority.getD 0),
          retryAt := some Json.null,
          lastError := none,
          createdAt := some now,
          updatedAt := some now }
      (Except.ok { jobId := jobId, status := ScrapeJobStatus.queued },
       { s1 with storeCalls := s1.storeCalls + 1,
                 scrapeJobs := s1.scrapeJobs.set jobId doc })

end JobQueue

/-! ## Reference definitions, written from the words of the specification -/

namespace Spec

/-- The type-7 quantile of an ascending list `s` at `p`, in the words of the
specification (not of the source): with `n` the length and
`b = floor(p·(n−1))`, the value `s[b] + (p·(n−1) − b) × (s[b+1] − s[b])`, and
`s[b]` when `b+1` is past the end. -/
def type7 (s : List ℚ) (p : ℚ) : ℚ :=
  let b : ℕ := ⌊p * ((s.length : ℚ) - 1)⌋.toNat
  if b + 1 < s.length then
    s.getD b 0 + (p * ((s.length : ℚ) - 1) - (b : ℚ)) * (s.getD (b + 1) 0 - s.getD b 0)
  else s.getD b 0

/-- The shape of an element of `competitorPrices`, in the words of the
specification: an object with a string `name` and a numeric `price`; `currency`,
`url`, `source` and `lastVerified` are optional strings. -/
def CompetitorPriceShape (item : Json) : Prop :=
  (∃ fields, item = Json.obj fields)
  ∧ (∃ name, item.field "name" = some (Json.str name))
  ∧ (∃ price, item.field "price" = some (Json.num price))
  ∧ (∀ key ∈ ["currency", "url", "source", "lastVerified"],
      item.field key = none ∨ ∃ s, item.field key = some (Json.str s))

/-- The required shape of an AI response, in the words of the specification
(not of the source): the twelve required fields with their declared types, a
strategy of the enumeration, a band of exactly two numbers, a confidence in
`[0, 1]`, a non-empty list of competitor prices and a non-empty list of data
sources. -/
def RequiredShape (j : Json) : Prop :=
  (∃ fields, j = Json.obj fields)
  ∧ (∀ key ∈ ["recommendedPrice", "optimalPrice", "expectedMargin", "nextCheckHours"],
      ∃ x, j.field key = some (Json.num x))
  ∧ (∃ s, j.field "strategy" = some (Json.str s)
      ∧ s ∈ ["maximize_profit", "stay_competitive", "clear_inventory"])
  ∧ (∃ a b, j.field "priceBand" = some (Json.arr [Json.num a, Json.num b]))
  ∧ (∃ c, j.field "confidence" = some (Json.num c) ∧ 0 ≤ c ∧ c ≤ 1)
  ∧ (∃ items, j.field "competitorPrices" = some (Json.arr items) ∧ items ≠ []
      ∧ ∀ item ∈ items, CompetitorPriceShape item)
  ∧ (∀ key ∈ ["marketValueSummary", "methodology", "rationale"],
      ∃ s, j.field key = some (Json.str s))
  ∧ (∃ sources : List String,
      j.field "dataSources" = some (Json.arr (sources.map Json.str)) ∧ sources ≠ [])

end Spec

/-! ## Concrete inputs -/

/-- A stand-in for `Number::toString` at concrete inputs.  `toFixed` consults
it only for magnitudes of at least `10^21`, which no concrete input below reaches. -/
def sampleNumberToString : ℚ → String := fun _ => "1e+21"

namespace Example

/-- A competitor entry with the given parsed price. -/
def entry (host : String) (price : Option ℚ) : CompetitorEntry :=
  { hostname := host,
    url := "https://" ++ host ++ "/item",
    rawPriceText := none,
    parsedPriceUsd := price,
    currency := some "USD",
    status := if price.isSome then CompetitorStatus.succeeded else CompetitorStatus.failed,
    scrapedAt := 100 }

/-- A snapshot with the given competitor entries, claimed by the worker. -/
def snapshotOf (competitors : List CompetitorEntry) : CompetitorSnapshotDoc :=
  { snapshotId := "snap-1",
    productId := "prod-1",
    jobId := "job-1",
    scrapedAt := 100,
    scrapeLatencyMs := 250,
    competitors := competitors,
    stats := { successCount := competitors.length, failureCount := 0, domains := [] },
    pricingStatus := PricingStatus.processing }

/-- The product of the end-to-end scenario: total cost 12. -/
def scenarioProduct : ProductDoc :=
  { costStructure := some [("manufacturing", 10), ("shipping", 2)] }

/-- The snapshot of the end-to-end scenario: competitor prices 20, 22, 25, 30. -/
def scenarioSnapshot : CompetitorSnapshotDoc :=
  snapshotOf [entry "a.com" (some 20), entry "b.com" (some 22), entry "c.com" (some 25),
    entry "d.com" (some 30)]

/-- A product whose only cost is 0.375. -/
def smallProduct : ProductDoc :=
  { costStructure := some [("materials", 3 / 8)] }

/-- A product without a cost structure. -/
def bareProduct : ProductDoc := {}

/-- A snapshot without competitor entries. -/
def emptySnapshot : CompetitorSnapshotDoc := snapshotOf []

/-- A configuration with `FALLBACK_MIN_MARGIN=0.015625`. -/
def fineMarginEnv : Env := { FALLBACK_MIN_MARGIN := some (1 / 64) }

/-- A response of the model that passes validation. -/
def aiResponse : PricingWorker.AiResponse :=
  { recommendedPrice := 24,
    optimalPrice := 24,
    expectedMargin := 100,
    strategy := Strategy.stay_competitive,
    priceBand := (23, 25),
    confidence := 1 / 2,
    competitorPrices := [{ name := "a.com", price := 20 }],
    marketValueSummary := "stable",
    methodology := "median of competitors",
    dataSources := ["https://a.com/item"],
    rationale := "close to the competitor median",
    nextCheckHours := 24 }

/-- A store that holds the scenario product and the claimed scenario snapshot. -/
def world : PricingWorker.World :=
  { competitorSnapshots := [("snap-1", scenarioSnapshot)],
    products := [("prod-1", scenarioProduct)],
    pricingInsights := [] }

/-- A store with a pending snapshot whose product is missing and a completed one. -/
def queueWorld : PricingWorker.World :=
  { competitorSnapshots :=
      [("snap-0", { scenarioSnapshot with snapshotId := "snap-0",
                                           pricingStatus := PricingStatus.completed }),
       ("snap-2", { scenarioSnapshot with snapshotId := "", productId := "prod-9",
                                           pricingStatus := PricingStatus.pending })],
    products := [("prod-1", scenarioProduct)],
    pricingInsights := [] }

/-- A store that holds the scenario product and the scenario snapshot, pending. -/
def pendingWorld : PricingWorker.World :=
  { competitorSnapshots :=
      [("snap-1", { scenarioSnapshot with pricingStatus := PricingStatus.pending })],
    products := [("prod-1", scenarioProduct)],
    pricingInsights := [] }

/-- A store in which the pending document `doc-A` carries the `snapshotId` of
another document, `doc-B`, which has failed. -/
def crossedWorld : PricingWorker.World :=
  { competitorSnapshots :=
      [("doc-A", { scenarioSnapshot with snapshotId := "doc-B",
                                         pricingStatus := PricingStatus.pending }),
       ("doc-B", { scenarioSnapshot with snapshotId := "doc-B", scrapedAt := 50,
                                         pricingStatus := PricingStatus.failed,
                                         lastError := some "product_not_found" })],
    products := [("prod-1", scenarioProduct)],
    pricingInsights := [] }

/-- Collaborators with a model that answers and a store that never fails, in the
default settings of the SDK. -/
def steadyCollaborators : PricingWorker.Collaborators :=
  { callOpenAi := fun _ _ => Except.ok aiResponse,
    storeFails := fun _ => none,
    notFound := fun id => PricingWorker.Thrown.error ("5 NOT_FOUND: no document to update: " ++ id),
    autoId := fun k => "insight-" ++ toString k,
    serverTime := fun k => 1000 + k,
    ignoreUndefinedProperties := false,
    undefinedValue := fun field =>
      PricingWorker.Thrown.error ("Cannot use undefined as a Firestore value: " ++ field) }

/-- Collaborators whose model call throws `Error("timeout")`. -/
def failingModel : PricingWorker.Collaborators :=
  { steadyCollaborators with
    callOpenAi := fun _ _ => Except.error (PricingWorker.Thrown.error "timeout") }

/-- Collaborators with a model that answers and a store that never fails and
ignores undefined properties. -/
def lenientStore : PricingWorker.Collaborators :=
  { steadyCollaborators with ignoreUndefinedProperties := true }

/-- Collaborators with a model that answers and a store that ignores undefined
properties and rejects one call, the third of the run (the snapshot update of
the AI path), as unavailable. -/
def flakyStore : PricingWorker.Collaborators :=
  { lenientStore with
    storeFails := fun k =>
      if k = 2 then some (PricingWorker.Thrown.error "14 UNAVAILABLE") else none }

/-- The minimal valid response of the model as parsed JSON: the twelve required
fields, one competitor entry and confidence 0.5.  It validates to `aiResponse`. -/
def minimalResponse : Json :=
  Json.obj
    [("recommendedPrice", Json.num 24),
     ("optimalPrice", Json.num 24),
     ("expectedMargin", Json.num 100),
     ("strategy", Json.str "stay_competitive"),
     ("priceBand", Json.arr [Json.num 23, Json.num 25]),
     ("confidence", Json.num (1 / 2)),
     ("competitorPrices", Json.arr [Json.obj [("name", Json.str "a.com"), ("price", Json.num 20)]]),
     ("marketValueSummary", Json.str "stable"),
     ("methodology", Json.str "median of competitors"),
     ("dataSources", Json.arr [Json.str "https://a.com/item"]),
     ("rationale", Json.str "close to the competitor median"),
     ("nextCheckHours", Json.num 24)]

/-- The object `j` with its property `key` set to `v`. -/
def withField (j : Json) (key : String) (v : Json) : Json :=
  match j with
  | Json.obj fields => Json.obj (fields.map (fun e => if e.1 = key then (key, v) else e))
  | other => other

/-- The object `j` without its property `key`. -/
def withoutField (j : Json) (key : String) : Json :=
  match j with
  | Json.obj fields => Json.obj (fields.filter (fun e => e.1 ≠ key))
  | other => other

/-- The text of the minimal valid response, as the model returns it. -/
def minimalText : String :=
  "\x7b\"recommendedPrice\":24,\"optimalPrice\":24,\"expectedMargin\":100," ++
  "\"strategy\":\"stay_competitive\",\"priceBand\":[23,25],\"confidence\":0.5," ++
  "\"competitorPrices\":[\x7b\"name\":\"a.com\",\"price\":20\x7d]," ++
  "\"marketValueSummary\":\"stable\",\"methodology\":\"median of competitors\"," ++
  "\"dataSources\":[\"https://a.com/item\"]," ++
  "\"rationale\":\"close to the competitor median\",\"nextCheckHours\":24\x7d"

/-- The values of `JSON.parse` at the texts used below: `minimalText` parses to
`minimalResponse`, `"{}"` to the empty object; any other text is treated as a
syntax error. -/
def jsonParse (text : String) : Except PricingWorker.Thrown Json :=
  if text = minimalText then Except.ok minimalResponse
  else if text = "{}" then Except.ok (Json.obj [])
  else Except.error (PricingWorker.Thrown.error "Unexpected token in JSON")

/-- Collaborators whose model returns `minimalText`, with `callOpenAi` built from
the model call, `JSON.parse` and the validator. -/
def parsingCollaborators : PricingWorker.Collaborators :=
  { steadyCollaborators with
    callOpenAi := PricingWorker.callOpenAi (fun _ _ => Except.ok (some minimalText)) jsonParse
      (fun _ => PricingWorker.Thrown.error "invalid response") }

/-- The same collaborators with a store that ignores undefined properties. -/
def lenientParsing : PricingWorker.Collaborators :=
  { parsingCollaborators with ignoreUndefinedProperties := true }

/-- The `href` of `new URL(s)` at the strings used below, as the URL Standard
gives it: the path of an `https` URL is never empty, so `https://b.com` has the
`href` `https://b.com/`.  Any other string is treated as one that the
constructor rejects. -/
def urlHref (s : String) : Option String :=
  if s = "https://a.com/x" then some "https://a.com/x"
  else if s = "https://b.com" then some "https://b.com/"
  else if s = "https://b.com/" then some "https://b.com/"
  else none

/-- The URL list of the specification's example. -/
def urlList : List String :=
  ["https://a.com/x", "https://a.com/x", "not a url", "https://b.com"]

/-- An empty job store. -/
def jobStore : JobQueue.JobStore := { scrapeJobs := [] }

/-- The pending document of `queueWorld`. -/
def pendingDoc : String × CompetitorSnapshotDoc :=
  ("snap-2", { scenarioSnapshot with snapshotId := "", productId := "prod-9",
                                     pricingStatus := PricingStatus.pending })

/-- A snapshot with the competitor prices 0, 0, 0 and 100: median 0, q3 25. -/
def outlierSnapshot : CompetitorSnapshotDoc :=
  snapshotOf [entry "a.com" (some 0), entry "b.com" (some 0), entry "c.com" (some 0),
    entry "d.com" (some 100)]

/-- A product of total cost 100. -/
def costlyProduct : ProductDoc :=
  { costStructure := some [("manufacturing", 100)] }

/-- A product of total cost 50. -/
def fiftyProduct : ProductDoc :=
  { costStructure := some [("materials", 50)] }

/-- A configuration with `FALLBACK_TARGET_MARGIN=0.10005` and
`FALLBACK_MIN_MARGIN=0.10005`, each the double that `Number` reads. -/
def tightEnv : Env :=
  { FALLBACK_TARGET_MARGIN := some (binary64 (10005 / 100000)),
    FALLBACK_MIN_MARGIN := some (binary64 (10005 / 100000)) }

/-- The scenario snapshot with a failed scrape added after the second entry. -/
def scenarioWithFailure : CompetitorSnapshotDoc :=
  snapshotOf [entry "a.com" (some 20), entry "b.com" (some 22), entry "e.com" none,
    entry "c.com" (some 25), entry "d.com" (some 30)]

/-- A product that sells at 3 and costs 1. -/
def pricedProduct : ProductDoc :=
  { costStructure := some [("materials", 1)],
    pricing := some { sellingPrice := some 3 } }

end Example

/-! ## Double precision with its special values -/

/-- A value of the Number type: a finite number, `Infinity`, `-Infinity` or
`NaN`.  The two zeros are not told apart: the code does not divide by a zero,
and `toFixed` prints both alike. -/
inductive Double where
  | fin (x : ℚ)
  | posInf
  | negInf
  | nan
deriving DecidableEq

namespace Double

/-- The double for the exact result `x` of an operation: `x` rounded to the
nearest double, ties to even, and an infinity when the rounded magnitude
reaches `2^1024` (overflow). -/
def ofRat (x : ℚ) : Double :=
  if (2 : ℚ) ^ 1024 ≤ |binary64 x| then (if 0 < x then posInf else negInf)
  else fin (binary64 x)

/-- The operator `-a`. -/
def neg : Double → Double
  | fin x => fin (-x)
  | posInf => negInf
  | negInf => posInf
  | nan => nan

/-- The operator `a + b`. -/
def add : Double → Double → Double
  | fin a, fin b => ofRat (a + b)
  | fin _, posInf => posInf
  | fin _, negInf => negInf
  | posInf, fin _ => posInf
  | posInf, posInf => posInf
  | negInf, fin _ => negInf
  | negInf, negInf => negInf
  | _, _ => nan

/-- The operator `a - b`. -/
def sub (a b : Double) : Double := add a (neg b)

/-- The operator `a * b`. -/
def mul : Double → Double → Double
  | fin a, fin b => ofRat (a * b)
  | fin a, posInf => if a = 0 then nan else if 0 < a then posInf else negInf
  | fin a, negInf => if a = 0 then nan else if 0 < a then negInf else posInf
  | posInf, fin b => if b = 0 then nan else if 0 < b then posInf else negInf
  | negInf, fin b => if b = 0 then nan else if 0 < b then negInf else posInf
  | posInf, posInf => posInf
  | posInf, negInf => negInf
  | negInf, posInf => negInf
  | negInf, negInf => posInf
  | _, _ => nan

/-- The operator `a / b`; a zero divisor counts as `+0`. -/
def div : Double → Double → Double
  | fin a, fin b =>
    if b = 0 then (if a = 0 then nan else if 0 < a then posInf else negInf) else ofRat (a / b)
  | fin _, posInf => fin 0
  | fin _, negInf => fin 0
  | posInf, fin b => if 0 ≤ b then posInf else negInf
  | negInf, fin b => if 0 ≤ b then negInf else posInf
  | _, _ => nan

/-- The comparison `a < b`, false when an operand is `NaN`. -/
def lt : Double → Double → Bool
  | fin a, fin b => decide (a < b)
  | fin _, posInf => true
  | negInf, fin _ => true
  | negInf, posInf => true
  | _, _ => false

/-- The comparison `a <= b`, false when an operand is `NaN`. -/
def le : Double → Double → Bool
  | fin a, fin b => decide (a ≤ b)
  | fin _, posInf => true
  | negInf, fin _ => true
  | negInf, posInf => true
  | posInf, posInf => true
  | negInf, negInf => true
  | _, _ => false

/-- The function `Math.max` of two arguments: `NaN` when an argument is `NaN`. -/
def max : Double → Double → Double
  | nan, _ => nan
  | _, nan => nan
  | a, b => if lt a b then b else a

/-- The function `Math.min` of two arguments: `NaN` when an argument is `NaN`. -/
def min : Double → Double → Double
  | nan, _ => nan
  | _, nan => nan
  | a, b => if lt b a then b else a

/-- Whether a number is truthy: it is neither a zero nor `NaN`. -/
def truthy : Double → Bool
  | fin x => decide (x ≠ 0)
  | nan => false
  | _ => true

/-- The operator `a || b` on numbers. -/
def or (a b : Double) : Double := if truthy a then a else b

/-- The function `Math.floor`. -/
def floor : Double → Double
  | fin x => fin ⌊x⌋
  | d => d

/-- The string `x.toFixed(f)`. -/
def toFixed (numberToString : ℚ → String) (f : ℕ) : Double → String
  | fin x => PorfitOptima.toFixed (ieeeRuntime numberToString) f x
  | posInf => "Infinity"
  | negInf => "-Infinity"
  | nan => "NaN"

/-- The number `Number(x.toFixed(f))`. -/
def toFixedNumber (f : ℕ) : Double → Double
  | fin x => if (10 : ℚ) ^ 21 ≤ |x| then fin x else ofRat (fixedValue f x)
  | d => d

end Double

/-! ## `pricing/fallback.ts` in double precision, overflow included -/

namespace Ieee

structure FallbackRecommendation where
  recommendedPrice : Double
  priceBand : Double × Double
  expectedMargin : Double
  rationale : String
  dataSources : List String
  strategy : Strategy

structure Quantiles where
  q1 : Double
  median : Double
  q3 : Double
deriving DecidableEq

/-- Element `i` of an array of numbers: `none` stands for `undefined`, which is
what an index that is not an integer within the array gives. -/
def arrayAt (xs : List ℚ) (i : Double) : Option ℚ :=
  match i with
  | Double.fin q => if ((⌊q⌋ : ℤ) : ℚ) = q then PorfitOptima.arrayAt xs ⌊q⌋ else none
  | _ => none

/-- An array element as a number: `undefined` counts as `NaN`, which it becomes
in arithmetic and which is falsy as well. -/
def operand : Option ℚ → Double
  | some x => Double.fin x
  | none => Double.nan

/-- The closure `index` of `quantiles`, over the sorted copy of the values. -/
def index (sorted : List ℚ) (p : Double) : Double :=
  if sorted.length = 1 then operand (arrayAt sorted (Double.fin 0))
  else
    let pos := Double.mul (Double.sub (Double.fin sorted.length) (Double.fin 1)) p
    let base := Double.floor pos
    let rest := Double.sub pos base
    match arrayAt sorted (Double.add base (Double.fin 1)) with
    | some hi =>
      Double.add (operand (arrayAt sorted base))
        (Double.mul rest (Double.sub (Double.fin hi) (operand (arrayAt sorted base))))
    | none => operand (arrayAt sorted base)

/-- The function `quantiles`.  The values are finite numbers, so the comparator
`a - b` of the sort has the sign of the comparison and the sorted copy is the
ascending arrangement. -/
def quantiles (values : List ℚ) : Quantiles :=
  if values.length = 0 then
    { q1 := Double.fin 0, median := Double.fin 0, q3 := Double.fin 0 }
  else
    let sorted := values.insertionSort (· ≤ ·)
    { q1 := index sorted (Double.ofRat (25 / 100)),
      median := index sorted (Double.ofRat (5 / 10)),
      q3 := index sorted (Double.ofRat (75 / 100)) }

/-- The function `computeTotalCost` of `fallback.ts`. -/
def computeTotalCost (costStructure : Option (List (String × ℚ))) : Double :=
  match costStructure with
  | none => Double.fin 0
  | some entries => entries.foldl (fun sum entry => Double.add sum (Double.fin entry.2))
      (Double.fin 0)

/-- The constant `desiredMargin`. -/
def desiredMargin (env : Env) : Double :=
  match env.FALLBACK_TARGET_MARGIN with
  | some v => Double.fin v
  | none => Double.ofRat (18 / 100)

/-- The constant `minMargin`. -/
def minMargin (env : Env) : Double :=
  match env.FALLBACK_MIN_MARGIN with
  | some v => Double.fin v
  | none => Double.ofRat (1 / 10)

/-- The constant `floorPrice`. -/
def floorPrice (env : Env) (product : ProductDoc) : Double :=
  Double.mul (computeTotalCost product.costStructure) (Double.add (Double.fin 1) (desiredMargin env))

/-- The constant `competitiveCeiling`. -/
def competitiveCeiling (env : Env) (product : ProductDoc) (snapshot : CompetitorSnapshotDoc) :
    Double :=
  let q := quantiles (Fallback.competitorPrices snapshot)
  Double.or q.q3 (Double.or q.median (floorPrice env product))

/-- The constant `recommendedPrice`, before the rounding of the result. -/
def rawRecommendedPrice (env : Env) (product : ProductDoc) (snapshot : CompetitorSnapshotDoc) :
    Double :=
  let q := quantiles (Fallback.competitorPrices snapshot)
  let ceiling := competitiveCeiling env product snapshot
  Double.max (floorPrice env product) (Double.min ceiling (Double.or q.median ceiling))

/-- The constant `expectedMargin`, before the clamp. -/
def rawExpectedMargin (env : Env) (product : ProductDoc) (snapshot : CompetitorSnapshotDoc) :
    Double :=
  let totalCost := computeTotalCost product.costStructure
  if Double.lt (Double.fin 0) totalCost then
    Double.mul
      (Double.div (Double.sub (rawRecommendedPrice env product snapshot) totalCost) totalCost)
      (Double.fin 100)
  else Double.fin 0

/-- The constant `safeMargin`. -/
def safeMargin (env : Env) (product : ProductDoc) (snapshot : CompetitorSnapshotDoc) : Double :=
  Double.max (rawExpectedMargin env product snapshot) (Double.mul (minMargin env) (Double.fin 100))

/-- The constant `rationaleParts`, joined with `"; "`. -/
def rationale (numberToString : ℚ → String) (env : Env) (snapshot : CompetitorSnapshotDoc) :
    String :=
  let q := quantiles (Fallback.competitorPrices snapshot)
  let iqr := Double.sub q.q3 q.q1
  "; ".intercalate
    [ "Fallback strategy using competitor median $"
        ++ strOr (Double.toFixed numberToString 2 q.median) "0.00",
      "IQR=" ++ strOr (Double.toFixed numberToString 2 iqr) "0.00",
      "floor ensures >= "
        ++ Double.toFixed numberToString 1 (Double.mul (desiredMargin env) (Double.fin 100))
        ++ "% margin" ]

/-- The function `buildFallbackRecommendation`. -/
def buildFallbackRecommendation (numberToString : ℚ → String) (env : Env) (product : ProductDoc)
    (snapshot : CompetitorSnapshotDoc) : FallbackRecommendation :=
  let recommendedPrice := rawRecommendedPrice env product snapshot
  { recommendedPrice := Double.toFixedNumber 2 recommendedPrice,
    priceBand :=
      (Double.toFixedNumber 2 (Double.mul recommendedPrice (Double.ofRat (97 / 100))),
       Double.toFixedNumber 2 (Double.mul recommendedPrice (Double.ofRat (103 / 100)))),
    expectedMargin := Double.toFixedNumber 2 (safeMargin env product snapshot),
    strategy := Strategy.stay_competitive,
    rationale := rationale numberToString env snapshot,
    dataSources := snapshot.competitors.map (fun c => c.url) }

end Ieee

/-- A finite double: a number that rounding leaves alone and whose magnitude is
below `2^1024`. -/
def IsDouble (v : ℚ) : Prop := binary64 v = v ∧ |v| < (2 : ℚ) ^ 1024

instance (v : ℚ) : Decidable (IsDouble v) := by unfold IsDouble; infer_instance

namespace Spec

/-- The type-7 quantile of an ascending list `s` at `p` with the three
operations of the interpolation carried out on doubles: position
`p·(n−1)`, base `b` and rest `p·(n−1) − b` as in `type7`, and the value
`s[b] + rest × (s[b+1] − s[b])` with each operation rounded, overflow included. -/
def type7Double (s : List ℚ) (p : ℚ) : Double :=
  let b : ℕ := ⌊p * ((s.length : ℚ) - 1)⌋.toNat
  if b + 1 < s.length then
    Double.add (Double.fin (s.getD b 0))
      (Double.mul (Double.fin (p * ((s.length : ℚ) - 1) - (b : ℚ)))
        (Double.sub (Double.fin (s.getD (b + 1) 0)) (Double.fin (s.getD b 0))))
  else Double.fin (s.getD b 0)

end Spec

namespace Example

/-- The doubles written `0.3`, `0.1` and `0.2`. -/
def tenths : List ℚ := [binary64 (3 / 10), binary64 (1 / 10), binary64 (2 / 10)]

/-- Three doubles of the largest binade: `-2^1023` twice and `2^1023`
(about `8.99e307`). -/
def hugeValues : List ℚ := [-(2 : ℚ) ^ 1023, -(2 : ℚ) ^ 1023, (2 : ℚ) ^ 1023]

/-- A product whose two costs are `2^1023` each: their sum overflows. -/
def hugeCostProduct : ProductDoc :=
  { costStructure := some [("manufacturing", (2 : ℚ) ^ 1023), ("shipping", (2 : ℚ) ^ 1023)] }

end Example

namespace Example

/-- The doubles written `1`, `0.1` and `0.2`. -/
def oneAndTenths : List ℚ := [1, binary64 (1 / 10), binary64 (2 / 10)]

end Example

namespace Example

/-- The configuration `FALLBACK_MIN_MARGIN=0.07`. -/
def sevenPercentEnv : Env := { FALLBACK_MIN_MARGIN := some (binary64 (7 / 100)) }

end Example

end PorfitOptima

/-! # Properties -/

namespace PorfitOptima

/-! ## Rounding to a fixed number of decimals -/

theorem toFixedScaled_cast (f : ℕ) (x : ℚ) :
    ((toFixedScaled f x : ℕ) : ℚ) = ((⌊|x| * (10 : ℚ) ^ f + 1 / 2⌋ : ℤ) : ℚ) := by
  have h : 0 ≤ ⌊|x| * (10 : ℚ) ^ f + 1 / 2⌋ := Int.floor_nonneg.mpr (by positivity)
  unfold toFixedScaled
  rw [← Int.cast_natCast, Int.toNat_of_nonneg h]

theorem toFixedScaled_mono (f : ℕ) {x y : ℚ} (h : |x| ≤ |y|) :
    toFixedScaled f x ≤ toFixedScaled f y := by
  unfold toFixedScaled
  apply Int.toNat_le_toNat
  apply Int.floor_mono
  have : (0 : ℚ) ≤ (10 : ℚ) ^ f := by positivity
  nlinarith

theorem fixedValue_of_nonneg (f : ℕ) {x : ℚ} (hx : 0 ≤ x) :
    fixedValue f x = (toFixedScaled f x : ℚ) / (10 : ℚ) ^ f := by
  simp [fixedValue, not_lt.mpr hx]

theorem fixedValue_of_neg (f : ℕ) {x : ℚ} (hx : x < 0) :
    fixedValue f x = -((toFixedScaled f x : ℚ) / (10 : ℚ) ^ f) := by
  simp [fixedValue, hx]

theorem fixedValue_mono (f : ℕ) : Monotone (fixedValue f) := by
  intro x y hxy
  have hc : (0 : ℚ) < (10 : ℚ) ^ f := by positivity
  rcases lt_or_le x 0 with hx | hx
  · rcases lt_or_le y 0 with hy | hy
    · rw [fixedValue_of_neg f hx, fixedValue_of_neg f hy, neg_le_neg_iff]
      have h : |y| ≤ |x| := by rw [abs_of_neg hx, abs_of_neg hy]; linarith
      have := toFixedScaled_mono f h
      gcongr
    · rw [fixedValue_of_neg f hx, fixedValue_of_nonneg f hy]
      have h1 : (0 : ℚ) ≤ (toFixedScaled f x : ℚ) / (10 : ℚ) ^ f := by positivity
      have h2 : (0 : ℚ) ≤ (toFixedScaled f y : ℚ) / (10 : ℚ) ^ f := by positivity
      linarith
  · have hy : 0 ≤ y := le_trans hx hxy
    rw [fixedValue_of_nonneg f hx, fixedValue_of_nonneg f hy]
    have h : |x| ≤ |y| := by rw [abs_of_nonneg hx, abs_of_nonneg hy]; exact hxy
    have := toFixedScaled_mono f h
    gcongr

/-- The decimal value of `toFixed` is within half a unit of the last place. -/
theorem abs_fixedValue_sub_le (f : ℕ) (x : ℚ) :
    |fixedValue f x - x| ≤ 1 / (2 * (10 : ℚ) ^ f) := by
  have hc : (0 : ℚ) < (10 : ℚ) ^ f := by positivity
  have h1 := Int.floor_le (|x| * (10 : ℚ) ^ f + 1 / 2)
  have h2 := Int.lt_floor_add_one (|x| * (10 : ℚ) ^ f + 1 / 2)
  have key : abs ((toFixedScaled f x : ℚ) / (10 : ℚ) ^ f - abs x) ≤ 1 / (2 * (10 : ℚ) ^ f) := by
    rw [toFixedScaled_cast, abs_le]
    constructor
    · rw [le_sub_iff_add_le, le_div_iff₀ hc]
      have : (-(1 / (2 * (10 : ℚ) ^ f)) + |x|) * (10 : ℚ) ^ f = |x| * (10 : ℚ) ^ f - 1 / 2 := by
        field_simp; ring
      rw [this]; linarith
    · rw [sub_le_iff_le_add, div_le_iff₀ hc]
      have : (1 / (2 * (10 : ℚ) ^ f) + |x|) * (10 : ℚ) ^ f = |x| * (10 : ℚ) ^ f + 1 / 2 := by
        field_simp; ring
      rw [this]; linarith
  rcases lt_or_le x 0 with hx | hx
  · rw [fixedValue_of_neg f hx]
    rw [abs_of_neg hx] at key
    rw [← abs_neg]
    have : -(-((toFixedScaled f x : ℚ) / (10 : ℚ) ^ f) - x)
        = (toFixedScaled f x : ℚ) / (10 : ℚ) ^ f - -x := by ring
    rw [this]; exact key
  · rw [fixedValue_of_nonneg f hx]
    rw [abs_of_nonneg hx] at key
    exact key

/-- Below the threshold of `toFixed` the decimal value stays within the threshold. -/
theorem abs_fixedValue_le (f : ℕ) {x : ℚ} (hx : |x| < (10 : ℚ) ^ 21) :
    |fixedValue f x| ≤ (10 : ℚ) ^ 21 := by
  have hc : (0 : ℚ) < (10 : ℚ) ^ f := by positivity
  have hn : (toFixedScaled f x : ℚ) / (10 : ℚ) ^ f ≤ (10 : ℚ) ^ 21 := by
    rw [div_le_iff₀ hc, toFixedScaled_cast]
    have h : ⌊|x| * (10 : ℚ) ^ f + 1 / 2⌋ ≤ ((10 : ℤ) ^ 21 * (10 : ℤ) ^ f) := by
      apply Int.le_of_lt_add_one
      rw [Int.floor_lt]
      push_cast
      have : |x| * (10 : ℚ) ^ f < (10 : ℚ) ^ 21 * (10 : ℚ) ^ f := by
        apply mul_lt_mul_of_pos_right hx hc
      linarith
    have h2 : ((⌊|x| * (10 : ℚ) ^ f + 1 / 2⌋ : ℤ) : ℚ) ≤ (((10 : ℤ) ^ 21 * (10 : ℤ) ^ f : ℤ) : ℚ) :=
      Int.cast_le.mpr h
    push_cast at h2
    exact h2
  have h0 : (0 : ℚ) ≤ (toFixedScaled f x : ℚ) / (10 : ℚ) ^ f := by positivity
  rcases lt_or_le x 0 with h | h
  · rw [fixedValue_of_neg f h, abs_neg, abs_of_nonneg h0]; exact hn
  · rw [fixedValue_of_nonneg f h, abs_of_nonneg h0]; exact hn

theorem toFixedNumber_mono (R : Runtime) (hR : R.Sound) (f : ℕ) :
    Monotone (toFixedNumber R f) := by
  intro x y hxy
  unfold toFixedNumber
  by_cases hx : (10 : ℚ) ^ 21 ≤ |x| <;> by_cases hy : (10 : ℚ) ^ 21 ≤ |y|
  · simp only [hx, hy, if_true]; exact hxy
  · simp only [hx, hy, if_true, if_false]
    have hy1 := abs_lt.mp (not_le.mp hy)
    have hxneg : x ≤ -(10 : ℚ) ^ 21 := by
      rcases le_abs.mp hx with h | h
      · linarith [hy1.2]
      · linarith
    have hb := abs_le.mp (abs_fixedValue_le f (not_le.mp hy))
    have := hR.mono hb.1
    rw [hR.fix_neg] at this
    linarith
  · simp only [hx, hy, if_true, if_false]
    have hx1 := abs_lt.mp (not_le.mp hx)
    have hypos : (10 : ℚ) ^ 21 ≤ y := by
      rcases le_abs.mp hy with h | h
      · exact h
      · linarith [hx1.1]
    have hb := abs_le.mp (abs_fixedValue_le f (not_le.mp hx))
    have := hR.mono hb.2
    rw [hR.fix_pos] at this
    linarith
  · simp only [hx, hy, if_false]
    exact hR.mono (fixedValue_mono f hxy)

/-- In exact arithmetic `Number(x.toFixed(f))` is within half a unit of the
last place of `x`. -/
theorem abs_toFixedNumber_exact_sub_le (ts : ℚ → String) (f : ℕ) (x : ℚ) :
    |toFixedNumber (exactRuntime ts) f x - x| ≤ 1 / (2 * (10 : ℚ) ^ f) := by
  unfold toFixedNumber
  split_ifs
  · simp only [sub_self, abs_zero]; positivity
  · exact abs_fixedValue_sub_le f x

theorem exactRuntime_sound (ts : ℚ → String) : (exactRuntime ts).Sound :=
  { mono := fun _ _ h => h, fix_pos := rfl, fix_neg := rfl }

/-! ## The binary64 rounding operator -/

theorem floor_le_roundHalfEven (t : ℚ) : ⌊t⌋ ≤ roundHalfEven t := by
  unfold roundHalfEven
  simp only
  split_ifs <;> omega

theorem roundHalfEven_le_floor_add_one (t : ℚ) : roundHalfEven t ≤ ⌊t⌋ + 1 := by
  unfold roundHalfEven
  simp only
  split_ifs <;> omega

theorem roundHalfEven_mono : Monotone roundHalfEven := by
  intro t u htu
  rcases lt_or_eq_of_le (Int.floor_mono htu) with h | h
  · calc roundHalfEven t ≤ ⌊t⌋ + 1 := roundHalfEven_le_floor_add_one t
      _ ≤ ⌊u⌋ := h
      _ ≤ roundHalfEven u := floor_le_roundHalfEven u
  · have hr : t - (⌊t⌋ : ℚ) ≤ u - (⌊u⌋ : ℚ) := by rw [h]; linarith
    unfold roundHalfEven
    simp only
    rw [h] at hr ⊢
    split_ifs <;> first | omega | (exfalso; linarith)

theorem roundHalfEven_intCast (k : ℤ) : roundHalfEven (k : ℚ) = k := by
  unfold roundHalfEven
  simp

theorem binade_mono {x y : ℚ} (hx : 0 < x) (hxy : x ≤ y) : binade x ≤ binade y := by
  unfold binade
  have hy : 0 < y := lt_of_lt_of_le hx hxy
  rw [abs_of_pos hx, abs_of_pos hy]
  exact max_le_max (Int.log_mono_right hx hxy) le_rfl

theorem lt_zpow_binade_succ {x : ℚ} (hx : 0 < x) : x < (2 : ℚ) ^ (binade x + 1) := by
  have h1 : x < (2 : ℚ) ^ (Int.log 2 x + 1) := by
    have := Int.lt_zpow_succ_log_self (b := 2) (by norm_num) x
    exact_mod_cast this
  have h2 : Int.log 2 x + 1 ≤ binade x + 1 := by
    unfold binade; rw [abs_of_pos hx]; have := le_max_left (Int.log 2 x) (-1022); omega
  exact lt_of_lt_of_le h1 (zpow_le_zpow_right₀ (by norm_num) h2)

theorem zpow_binade_le {x : ℚ} (hx : 0 < x) (he : -1022 < binade x) :
    (2 : ℚ) ^ binade x ≤ x := by
  have hlog : binade x = Int.log 2 x := by
    unfold binade at he ⊢
    rw [abs_of_pos hx] at he ⊢
    rcases max_cases (Int.log 2 x) (-1022) with h | h
    · exact h.1
    · rw [h.1] at he; omega
  rw [hlog]
  have := Int.zpow_log_le_self (b := 2) (by norm_num) hx
  exact_mod_cast this

theorem binary64_of_pos {x : ℚ} (hx : 0 < x) :
    binary64 x = (roundHalfEven (x / (2 : ℚ) ^ (binade x - 52)) : ℚ) * (2 : ℚ) ^ (binade x - 52) := by
  unfold binary64
  simp [ne_of_gt hx, not_lt.mpr (le_of_lt hx), abs_of_pos hx]

theorem binade_neg (x : ℚ) : binade (-x) = binade x := by
  unfold binade; rw [abs_neg]

theorem binary64_neg (x : ℚ) : binary64 (-x) = -binary64 x := by
  rcases lt_trichotomy x 0 with h | h | h
  · have h2 : ¬ (-x < 0) := by linarith
    have h3 : -x ≠ 0 := by linarith
    simp [binary64, h, h2, h3, ne_of_lt h, binade_neg]
  · simp [h, binary64]
  · have h2 : (-x < 0) := by linarith
    have h3 : -x ≠ 0 := by linarith
    have h4 : ¬ (x < 0) := by linarith
    simp [binary64, h2, h3, h4, ne_of_gt h, binade_neg]

theorem binary64_nonneg {x : ℚ} (hx : 0 ≤ x) : 0 ≤ binary64 x := by
  rcases eq_or_lt_of_le hx with h | h
  · simp [← h, binary64]
  · rw [binary64_of_pos h]
    have hq : (0 : ℚ) < (2 : ℚ) ^ (binade x - 52) := by positivity
    have ht : (0 : ℚ) ≤ x / (2 : ℚ) ^ (binade x - 52) := by positivity
    have h0 : (0 : ℤ) ≤ roundHalfEven (x / (2 : ℚ) ^ (binade x - 52)) :=
      le_trans (Int.floor_nonneg.mpr ht) (floor_le_roundHalfEven _)
    have : (0 : ℚ) ≤ (roundHalfEven (x / (2 : ℚ) ^ (binade x - 52)) : ℚ) := by exact_mod_cast h0
    positivity

/-- A positive number rounds to at most the top of its binade. -/
theorem binary64_le_zpow {x : ℚ} (hx : 0 < x) : binary64 x ≤ (2 : ℚ) ^ (binade x + 1) := by
  rw [binary64_of_pos hx]
  have hq : (0 : ℚ) < (2 : ℚ) ^ (binade x - 52) := by positivity
  have hsplit : (2 : ℚ) ^ (binade x + 1) = (2 : ℚ) ^ (53 : ℕ) * (2 : ℚ) ^ (binade x - 52) := by
    rw [← zpow_natCast, ← zpow_add₀ (by norm_num : (2 : ℚ) ≠ 0)]
    congr 1; push_cast; ring
  have ht : x / (2 : ℚ) ^ (binade x - 52) < (2 : ℚ) ^ (53 : ℕ) := by
    rw [div_lt_iff₀ hq, ← hsplit]; exact lt_zpow_binade_succ hx
  have hfl : ⌊x / (2 : ℚ) ^ (binade x - 52)⌋ < (2 : ℤ) ^ (53 : ℕ) := by
    rw [Int.floor_lt]; push_cast; exact ht
  have hr : roundHalfEven (x / (2 : ℚ) ^ (binade x - 52)) ≤ (2 : ℤ) ^ (53 : ℕ) := by
    have := roundHalfEven_le_floor_add_one (x / (2 : ℚ) ^ (binade x - 52)); omega
  have hr2 : (roundHalfEven (x / (2 : ℚ) ^ (binade x - 52)) : ℚ) ≤ (2 : ℚ) ^ (53 : ℕ) := by
    exact_mod_cast hr
  rw [hsplit]
  exact mul_le_mul_of_nonneg_right hr2 (le_of_lt hq)

/-- A positive number above the subnormal range rounds to at least the bottom
of its binade. -/
theorem zpow_le_binary64 {x : ℚ} (hx : 0 < x) (he : -1022 < binade x) :
    (2 : ℚ) ^ binade x ≤ binary64 x := by
  rw [binary64_of_pos hx]
  have hq : (0 : ℚ) < (2 : ℚ) ^ (binade x - 52) := by positivity
  have hsplit : (2 : ℚ) ^ binade x = (2 : ℚ) ^ (52 : ℕ) * (2 : ℚ) ^ (binade x - 52) := by
    rw [← zpow_natCast, ← zpow_add₀ (by norm_num : (2 : ℚ) ≠ 0)]
    congr 1; push_cast; ring
  have ht : (2 : ℚ) ^ (52 : ℕ) ≤ x / (2 : ℚ) ^ (binade x - 52) := by
    rw [le_div_iff₀ hq, ← hsplit]; exact zpow_binade_le hx he
  have hfl : (2 : ℤ) ^ (52 : ℕ) ≤ ⌊x / (2 : ℚ) ^ (binade x - 52)⌋ := by
    rw [Int.le_floor]; push_cast; exact ht
  have hr : (2 : ℤ) ^ (52 : ℕ) ≤ roundHalfEven (x / (2 : ℚ) ^ (binade x - 52)) :=
    le_trans hfl (floor_le_roundHalfEven _)
  have hr2 : (2 : ℚ) ^ (52 : ℕ) ≤ (roundHalfEven (x / (2 : ℚ) ^ (binade x - 52)) : ℚ) := by
    exact_mod_cast hr
  rw [hsplit]
  exact mul_le_mul_of_nonneg_right hr2 (le_of_lt hq)

theorem binary64_mono_of_pos {x y : ℚ} (hx : 0 < x) (hxy : x ≤ y) :
    binary64 x ≤ binary64 y := by
  have hy : 0 < y := lt_of_lt_of_le hx hxy
  rcases lt_or_eq_of_le (binade_mono hx hxy) with h | h
  · calc binary64 x ≤ (2 : ℚ) ^ (binade x + 1) := binary64_le_zpow hx
      _ ≤ (2 : ℚ) ^ binade y := zpow_le_zpow_right₀ (by norm_num) h
      _ ≤ binary64 y := by
          apply zpow_le_binary64 hy
          have : -1022 ≤ binade x := le_max_right _ _
          omega
  · rw [binary64_of_pos hx, binary64_of_pos hy, h]
    have hq : (0 : ℚ) < (2 : ℚ) ^ (binade y - 52) := by positivity
    have ht : x / (2 : ℚ) ^ (binade y - 52) ≤ y / (2 : ℚ) ^ (binade y - 52) := by gcongr
    have hr := roundHalfEven_mono ht
    have hr2 : (roundHalfEven (x / (2 : ℚ) ^ (binade y - 52)) : ℚ)
        ≤ (roundHalfEven (y / (2 : ℚ) ^ (binade y - 52)) : ℚ) := by exact_mod_cast hr
    exact mul_le_mul_of_nonneg_right hr2 (le_of_lt hq)

theorem binary64_mono : Monotone binary64 := by
  intro x y hxy
  rcases lt_trichotomy 0 x with hx | hx | hx
  · exact binary64_mono_of_pos hx hxy
  · rw [← hx]; simpa [binary64] using binary64_nonneg (le_of_eq_of_le hx hxy)
  · rcases lt_or_le y 0 with hy | hy
    · have h := binary64_mono_of_pos (x := -y) (y := -x) (by linarith) (by linarith)
      rw [binary64_neg, binary64_neg] at h
      linarith
    · have h1 := binary64_nonneg hy
      have h2 := binary64_nonneg (x := -x) (by linarith)
      rw [binary64_neg] at h2
      linarith

/-- A positive multiple of the spacing of its own binade is a binary64 value. -/
theorem binary64_eq_self {x : ℚ} (e m : ℤ) (hx : 0 < x) (he : -1022 ≤ e)
    (hlo : (2 : ℚ) ^ e ≤ x) (hhi : x < (2 : ℚ) ^ (e + 1))
    (hm : x = (m : ℚ) * (2 : ℚ) ^ (e - 52)) : binary64 x = x := by
  have hlog : Int.log 2 x = e := by
    have h1 : e ≤ Int.log 2 x := (Int.zpow_le_iff_le_log (by norm_num) hx).mp (by exact_mod_cast hlo)
    have h2 : Int.log 2 x < e + 1 := (Int.lt_zpow_iff_log_lt (by norm_num) hx).mp (by exact_mod_cast hhi)
    omega
  have hb : binade x = e := by
    unfold binade; rw [abs_of_pos hx, hlog]; exact max_eq_left he
  have hq : (2 : ℚ) ^ (e - 52) ≠ 0 := by positivity
  rw [binary64_of_pos hx, hb]
  have ht : x / (2 : ℚ) ^ (e - 52) = (m : ℚ) := by rw [hm]; field_simp
  rw [ht, roundHalfEven_intCast, ← hm]

theorem binary64_ten_pow : binary64 ((10 : ℚ) ^ 21) = (10 : ℚ) ^ 21 := by
  apply binary64_eq_self 69 7629394531250000 <;> norm_num

theorem ieeeRuntime_sound (ts : ℚ → String) : (ieeeRuntime ts).Sound :=
  { mono := binary64_mono
    fix_pos := binary64_ten_pow
    fix_neg := by
      show binary64 (-(10 : ℚ) ^ 21) = -(10 : ℚ) ^ 21
      rw [binary64_neg, binary64_ten_pow] }

/-! ## Quantiles in exact arithmetic -/

theorem sorted_getD_le {s : List ℚ} (hs : s.Sorted (· ≤ ·)) {i j : ℕ} (hij : i ≤ j)
    (hj : j < s.length) : s.getD i 0 ≤ s.getD j 0 := by
  have hi : i < s.length := lt_of_le_of_lt hij hj
  rw [List.getD_eq_getElem s 0 hi, List.getD_eq_getElem s 0 hj]
  rcases eq_or_lt_of_le hij with h | h
  · subst h; exact le_rfl
  · exact (List.pairwise_iff_getElem.mp hs) i j hi hj h

theorem toNat_floor_cast {t : ℚ} (ht : 0 ≤ t) : ((⌊t⌋.toNat : ℕ) : ℚ) = ((⌊t⌋ : ℤ) : ℚ) := by
  rw [← Int.cast_natCast, Int.toNat_of_nonneg (Int.floor_nonneg.mpr ht)]

/-- The interpolation of `Spec.type7` at position `t = p·(n−1)`. -/
theorem type7_lower {s : List ℚ} (hs : s.Sorted (· ≤ ·)) {p : ℚ}
    (ht : 0 ≤ p * ((s.length : ℚ) - 1)) :
    s.getD ⌊p * ((s.length : ℚ) - 1)⌋.toNat 0 ≤ Spec.type7 s p := by
  unfold Spec.type7
  simp only
  split_ifs with h
  · have h1 := sorted_getD_le hs (Nat.le_succ ⌊p * ((s.length : ℚ) - 1)⌋.toNat) h
    have h2 : (0 : ℚ) ≤ p * ((s.length : ℚ) - 1) - (⌊p * ((s.length : ℚ) - 1)⌋.toNat : ℚ) := by
      rw [toNat_floor_cast ht]; linarith [Int.floor_le (p * ((s.length : ℚ) - 1))]
    nlinarith
  · exact le_rfl

theorem type7_upper {s : List ℚ} (hs : s.Sorted (· ≤ ·)) {p : ℚ}
    (ht : 0 ≤ p * ((s.length : ℚ) - 1))
    (hb : ⌊p * ((s.length : ℚ) - 1)⌋.toNat + 1 < s.length) :
    Spec.type7 s p ≤ s.getD (⌊p * ((s.length : ℚ) - 1)⌋.toNat + 1) 0 := by
  unfold Spec.type7
  simp only
  rw [if_pos hb]
  have h1 := sorted_getD_le hs (Nat.le_succ ⌊p * ((s.length : ℚ) - 1)⌋.toNat) hb
  have h2 : p * ((s.length : ℚ) - 1) - (⌊p * ((s.length : ℚ) - 1)⌋.toNat : ℚ) ≤ 1 := by
    rw [toNat_floor_cast ht]; linarith [Int.lt_floor_add_one (p * ((s.length : ℚ) - 1))]
  nlinarith

/-- The type-7 quantile of an ascending list is monotone in `p`. -/
theorem type7_mono {s : List ℚ} (hs : s.Sorted (· ≤ ·)) (hn : 1 ≤ s.length) {p r : ℚ}
    (hp : 0 ≤ p) (hpr : p ≤ r) (hr : r ≤ 1) : Spec.type7 s p ≤ Spec.type7 s r := by
  have hn1 : (0 : ℚ) ≤ (s.length : ℚ) - 1 := by
    have : (1 : ℚ) ≤ (s.length : ℚ) := by exact_mod_cast hn
    linarith
  have htp : 0 ≤ p * ((s.length : ℚ) - 1) := mul_nonneg hp hn1
  have htr : 0 ≤ r * ((s.length : ℚ) - 1) := mul_nonneg (le_trans hp hpr) hn1
  have htle : p * ((s.length : ℚ) - 1) ≤ r * ((s.length : ℚ) - 1) :=
    mul_le_mul_of_nonneg_right hpr hn1
  have hbr : ⌊r * ((s.length : ℚ) - 1)⌋.toNat < s.length := by
    have h1 : r * ((s.length : ℚ) - 1) ≤ (s.length : ℚ) - 1 := by nlinarith
    have h2 : ⌊r * ((s.length : ℚ) - 1)⌋ ≤ (s.length : ℤ) - 1 := by
      have := Int.floor_mono h1
      have h3 : ⌊(s.length : ℚ) - 1⌋ = (s.length : ℤ) - 1 := by
        have : ((s.length : ℚ) - 1) = (((s.length : ℤ) - 1 : ℤ) : ℚ) := by push_cast; ring
        rw [this, Int.floor_intCast]
      omega
    omega
  have hab : ⌊p * ((s.length : ℚ) - 1)⌋.toNat ≤ ⌊r * ((s.length : ℚ) - 1)⌋.toNat :=
    Int.toNat_le_toNat (Int.floor_mono htle)
  rcases eq_or_lt_of_le hab with h | h
  · unfold Spec.type7
    simp only
    rw [← h]
    split_ifs with hb
    · have h1 := sorted_getD_le hs (Nat.le_succ ⌊p * ((s.length : ℚ) - 1)⌋.toNat) hb
      nlinarith
    · exact le_rfl
  · have hb1 : ⌊p * ((s.length : ℚ) - 1)⌋.toNat + 1 < s.length := by omega
    calc Spec.type7 s p ≤ s.getD (⌊p * ((s.length : ℚ) - 1)⌋.toNat + 1) 0 := type7_upper hs htp hb1
      _ ≤ s.getD ⌊r * ((s.length : ℚ) - 1)⌋.toNat 0 := sorted_getD_le hs h hbr
      _ ≤ Spec.type7 s r := type7_lower hs htr

/-- In exact arithmetic the closure `index` computes the type-7 quantile. -/
theorem index_exact_eq_type7 (ts : ℚ → String) (s : List ℚ) (hn : 1 ≤ s.length) {p : ℚ}
    (hp : 0 ≤ p) : Fallback.index (exactRuntime ts) s p = Spec.type7 s p := by
  have hn1 : (0 : ℚ) ≤ (s.length : ℚ) - 1 := by
    have : (1 : ℚ) ≤ (s.length : ℚ) := by exact_mod_cast hn
    linarith
  have ht : 0 ≤ p * ((s.length : ℚ) - 1) := mul_nonneg hp hn1
  have hfl : 0 ≤ ⌊p * ((s.length : ℚ) - 1)⌋ := Int.floor_nonneg.mpr ht
  unfold Fallback.index Spec.type7
  simp only [exactRuntime, id]
  by_cases h1 : s.length = 1
  · simp [h1, arrayAt]
  · rw [if_neg h1, mul_comm ((s.length : ℚ) - 1) p]
    have hbase : arrayAt s ⌊p * ((s.length : ℚ) - 1)⌋
        = s[⌊p * ((s.length : ℚ) - 1)⌋.toNat]? := by
      simp [arrayAt, not_lt.mpr hfl]
    have hnext : arrayAt s (⌊p * ((s.length : ℚ) - 1)⌋ + 1)
        = s[⌊p * ((s.length : ℚ) - 1)⌋.toNat + 1]? := by
      have h2 : ¬ (⌊p * ((s.length : ℚ) - 1)⌋ + 1 < 0) := by omega
      have h3 : (⌊p * ((s.length : ℚ) - 1)⌋ + 1).toNat = ⌊p * ((s.length : ℚ) - 1)⌋.toNat + 1 := by
        omega
      simp [arrayAt, h2, h3]
    have hcast : ((⌊p * ((s.length : ℚ) - 1)⌋ : ℤ) : ℚ) = ((⌊p * ((s.length : ℚ) - 1)⌋.toNat : ℕ) : ℚ) :=
      (toNat_floor_cast ht).symm
    rw [hbase, hnext, hcast]
    by_cases hb : ⌊p * ((s.length : ℚ) - 1)⌋.toNat + 1 < s.length
    · rw [if_pos hb, List.getElem?_eq_getElem hb]
      simp only [List.getD_eq_getElem?_getD, List.getElem?_eq_getElem hb, Option.getD_some]
    · rw [if_neg hb, List.getElem?_eq_none (not_lt.mp hb)]
      simp only [List.getD_eq_getElem?_getD]

open Fallback

/-! ## The fallback rule -/

theorem competitorPrices_eq_of_map {snapshot : CompetitorSnapshotDoc} {ps : List (Option ℚ)}
    (h : snapshot.competitors.map (fun c => c.parsedPriceUsd) = ps) :
    competitorPrices snapshot = ps.filterMap id := by
  rw [← h, List.filterMap_map]; rfl

theorem floorPrice_le_rawRecommendedPrice (R : Runtime) (env : Env) (product : ProductDoc)
    (snapshot : CompetitorSnapshotDoc) :
    floorPrice R env product ≤ rawRecommendedPrice R env product snapshot :=
  le_max_left _ _

theorem toFixedNumber_sub_le_of_exact (R : Runtime) (hR : R.rnd = id) (f : ℕ) (x : ℚ) :
    |toFixedNumber R f x - x| ≤ 1 / (2 * (10 : ℚ) ^ f) := by
  unfold toFixedNumber
  split_ifs
  · simp only [sub_self, abs_zero]; positivity
  · rw [hR]; exact abs_fixedValue_sub_le f x

/-- C1, as amended.  The recommended price before rounding is at least
`floorPrice = totalCost × (1 + desiredMargin)`; the `recommendedPrice` returned is
that price rounded to two decimals, so it is at least `floorPrice` rounded to
two decimals, and in exact arithmetic at least `floorPrice − 0.005`. -/
theorem recommendedPrice_ge_rounded_floorPrice (R : Runtime) (hR : R.Sound) (env : Env)
    (product : ProductDoc) (snapshot : CompetitorSnapshotDoc) :
    floorPrice R env product ≤ rawRecommendedPrice R env product snapshot
    ∧ (buildFallbackRecommendation R env product snapshot).recommendedPrice
        = toFixedNumber R 2 (rawRecommendedPrice R env product snapshot)
    ∧ toFixedNumber R 2 (floorPrice R env product)
        ≤ (buildFallbackRecommendation R env product snapshot).recommendedPrice
    ∧ (R.rnd = id → floorPrice R env product - 1 / 200
        ≤ (buildFallbackRecommendation R env product snapshot).recommendedPrice) := by
  have h := floorPrice_le_rawRecommendedPrice R env product snapshot
  refine ⟨h, rfl, toFixedNumber_mono R hR 2 h, fun hid => ?_⟩
  have hb := abs_le.mp
    (toFixedNumber_sub_le_of_exact R hid 2 (rawRecommendedPrice R env product snapshot))
  have h200 : (1 : ℚ) / (2 * (10 : ℚ) ^ 2) = 1 / 200 := by norm_num
  rw [h200] at hb
  show floorPrice R env product - 1 / 200
    ≤ toFixedNumber R 2 (rawRecommendedPrice R env product snapshot)
  linarith [hb.1]

/-- Witness of C1 as amended: the end-to-end scenario in exact arithmetic. -/
theorem recommendedPrice_ge_rounded_floorPrice_witness :
    (exactRuntime sampleNumberToString).Sound
    ∧ toFixedNumber (exactRuntime sampleNumberToString) 2
        (floorPrice (exactRuntime sampleNumberToString) {} Example.scenarioProduct)
      ≤ (buildFallbackRecommendation (exactRuntime sampleNumberToString) {}
          Example.scenarioProduct Example.scenarioSnapshot).recommendedPrice :=
  ⟨exactRuntime_sound _,
   (recommendedPrice_ge_rounded_floorPrice (exactRuntime sampleNumberToString)
      (exactRuntime_sound _) {} Example.scenarioProduct Example.scenarioSnapshot).2.2.1⟩

/-- C1 fails as stated.  For a product whose only cost is 0.375 and a snapshot
without competitors, `floorPrice` is `0.375 × 1.18 = 0.4425` and the returned
`recommendedPrice` is `0.44`, below `totalCost × (1 + desiredMargin)`, in exact
arithmetic and in double precision alike. -/
theorem recommendedPrice_lt_floorPrice :
    (buildFallbackRecommendation (exactRuntime sampleNumberToString) {}
        Example.smallProduct Example.emptySnapshot).recommendedPrice
      < computeTotalCost (exactRuntime sampleNumberToString) Example.smallProduct.costStructure
          * (1 + desiredMargin (exactRuntime sampleNumberToString) {})
    ∧ (buildFallbackRecommendation (ieeeRuntime sampleNumberToString) {}
        Example.smallProduct Example.emptySnapshot).recommendedPrice
      < binary64 (computeTotalCost (ieeeRuntime sampleNumberToString) Example.smallProduct.costStructure
          * binary64 (1 + desiredMargin (ieeeRuntime sampleNumberToString) {})) := by
  decide!

theorem scenario_ieee_aux (env : Env) (product : ProductDoc) (snapshot : CompetitorSnapshotDoc)
    (hcost : product.costStructure = some [("manufacturing", 10), ("shipping", 2)])
    (hprices : snapshot.competitors.map (fun c => c.parsedPriceUsd)
      = [some 20, some 22, some 25, some 30])
    (hd : desiredMargin (ieeeRuntime sampleNumberToString) env = binary64 (18 / 100))
    (hm : minMargin (ieeeRuntime sampleNumberToString) env = binary64 (1 / 10)) :
    floorPrice (ieeeRuntime sampleNumberToString) env product = binary64 (1416 / 100)
    ∧ quantiles (ieeeRuntime sampleNumberToString) (competitorPrices snapshot)
        = { q1 := 43 / 2, median := 47 / 2, q3 := 105 / 4 }
    ∧ (buildFallbackRecommendation (ieeeRuntime sampleNumberToString) env product
        snapshot).recommendedPrice = 47 / 2
    ∧ (buildFallbackRecommendation (ieeeRuntime sampleNumberToString) env product
        snapshot).priceBand = (binary64 (2279 / 100), binary64 (2421 / 100))
    ∧ (buildFallbackRecommendation (ieeeRuntime sampleNumberToString) env product
        snapshot).expectedMargin = binary64 (9583 / 100) := by
  have hp := competitorPrices_eq_of_map hprices
  simp only [buildFallbackRecommendation, safeMargin, rawExpectedMargin, rawRecommendedPrice,
    competitiveCeiling, floorPrice, hcost, hp, hd, hm]
  simp only [ieeeRuntime, sampleNumberToString]
  decide!

/-- C2, as amended.  In the end-to-end scenario (cost structure
`{manufacturing: 10, shipping: 2}`, competitor prices 20, 22, 25, 30,
`desiredMargin = 0.18`, `minMargin = 0.10`) the code, run in double precision,
computes `floorPrice = 14.16`, `q1 = 21.5`, `median = 23.5`, `q3 = 26.25` and
returns `recommendedPrice = 23.5`, `priceBand = [22.79, 24.21]` and
`expectedMargin = 95.83`.  Every decimal stands for the double nearest to it.
The lower band is 22.79 because the double product `23.5 × 0.97` is
`22.794999999999998…`, below the tie `22.795`. -/
theorem scenario_ieee (ts : ℚ → String) (env : Env) (product : ProductDoc)
    (snapshot : CompetitorSnapshotDoc)
    (hcost : product.costStructure = some [("manufacturing", 10), ("shipping", 2)])
    (hprices : snapshot.competitors.map (fun c => c.parsedPriceUsd)
      = [some 20, some 22, some 25, some 30])
    (hd : desiredMargin (ieeeRuntime ts) env = binary64 (18 / 100))
    (hm : minMargin (ieeeRuntime ts) env = binary64 (1 / 10)) :
    floorPrice (ieeeRuntime ts) env product = binary64 (1416 / 100)
    ∧ quantiles (ieeeRuntime ts) (competitorPrices snapshot)
        = { q1 := 43 / 2, median := 47 / 2, q3 := 105 / 4 }
    ∧ (buildFallbackRecommendation (ieeeRuntime ts) env product snapshot).recommendedPrice
        = 47 / 2
    ∧ (buildFallbackRecommendation (ieeeRuntime ts) env product snapshot).priceBand
        = (binary64 (2279 / 100), binary64 (2421 / 100))
    ∧ (buildFallbackRecommendation (ieeeRuntime ts) env product snapshot).expectedMargin
        = binary64 (9583 / 100) :=
  scenario_ieee_aux env product snapshot hcost hprices hd hm

/-- Witness of C2 as amended: the scenario with the default configuration. -/
theorem scenario_ieee_witness :
    (buildFallbackRecommendation (ieeeRuntime sampleNumberToString) {} Example.scenarioProduct
        Example.scenarioSnapshot).priceBand = (binary64 (2279 / 100), binary64 (2421 / 100)) :=
  (scenario_ieee sampleNumberToString {} Example.scenarioProduct Example.scenarioSnapshot
    rfl (by decide!) rfl rfl).2.2.2.1

/-- C2 fails as stated: in double precision the scenario does not return the
band `[22.80, 24.21]`; its lower end is the double of 22.79, which differs from
the double of 22.80. -/
theorem scenario_priceBand_ne :
    (buildFallbackRecommendation (ieeeRuntime sampleNumberToString) {} Example.scenarioProduct
        Example.scenarioSnapshot).priceBand ≠ (binary64 (2280 / 100), binary64 (2421 / 100))
    ∧ (buildFallbackRecommendation (ieeeRuntime sampleNumberToString) {} Example.scenarioProduct
        Example.scenarioSnapshot).priceBand.1 = binary64 (2279 / 100)
    ∧ binary64 (2279 / 100) < binary64 (2280 / 100) := by
  decide!

/-- The scenario of C2 in exact arithmetic, where the figures of the
specification come from: the band is `[22.80, 24.21]` there, since
`23.5 × 0.97 = 22.795` is a tie and ties round up. -/
theorem scenario_exact :
    floorPrice (exactRuntime sampleNumberToString) {} Example.scenarioProduct = 1416 / 100
    ∧ quantiles (exactRuntime sampleNumberToString) (competitorPrices Example.scenarioSnapshot)
        = { q1 := 43 / 2, median := 47 / 2, q3 := 105 / 4 }
    ∧ (buildFallbackRecommendation (exactRuntime sampleNumberToString) {} Example.scenarioProduct
        Example.scenarioSnapshot).recommendedPrice = 47 / 2
    ∧ (buildFallbackRecommendation (exactRuntime sampleNumberToString) {} Example.scenarioProduct
        Example.scenarioSnapshot).priceBand = (2280 / 100, 2421 / 100)
    ∧ (buildFallbackRecommendation (exactRuntime sampleNumberToString) {} Example.scenarioProduct
        Example.scenarioSnapshot).expectedMargin = 9583 / 100 := by
  decide!

/-- C3, as amended.  The band is computed from the recommended price before its
rounding: with `r` that price, `recommendedPrice` is `r` rounded to two decimals
and `priceBand` is `[0.97 × r, 1.03 × r]`, each end rounded to two decimals.  In
exact arithmetic the ends are within `0.00985` and `0.01015` of `0.97 × p` and
`1.03 × p`, for `p` the `recommendedPrice` returned. -/
theorem priceBand_of_rawRecommendedPrice (R : Runtime) (env : Env) (product : ProductDoc)
    (snapshot : CompetitorSnapshotDoc) :
    (buildFallbackRecommendation R env product snapshot).recommendedPrice
        = toFixedNumber R 2 (rawRecommendedPrice R env product snapshot)
    ∧ (buildFallbackRecommendation R env product snapshot).priceBand
        = (toFixedNumber R 2 (R.rnd (rawRecommendedPrice R env product snapshot * R.rnd (97 / 100))),
           toFixedNumber R 2 (R.rnd (rawRecommendedPrice R env product snapshot * R.rnd (103 / 100))))
    ∧ (R.rnd = id →
        |(buildFallbackRecommendation R env product snapshot).priceBand.1
            - 97 / 100 * (buildFallbackRecommendation R env product snapshot).recommendedPrice|
          ≤ 197 / 20000
        ∧ |(buildFallbackRecommendation R env product snapshot).priceBand.2
            - 103 / 100 * (buildFallbackRecommendation R env product snapshot).recommendedPrice|
          ≤ 203 / 20000) := by
  refine ⟨rfl, rfl, fun hid => ?_⟩
  have h200 : (1 : ℚ) / (2 * (10 : ℚ) ^ 2) = 1 / 200 := by norm_num
  have hp := abs_le.mp
    (toFixedNumber_sub_le_of_exact R hid 2 (rawRecommendedPrice R env product snapshot))
  have hlo := abs_le.mp (toFixedNumber_sub_le_of_exact R hid 2
    (R.rnd (rawRecommendedPrice R env product snapshot * R.rnd (97 / 100))))
  have hhi := abs_le.mp (toFixedNumber_sub_le_of_exact R hid 2
    (R.rnd (rawRecommendedPrice R env product snapshot * R.rnd (103 / 100))))
  rw [h200] at hp hlo hhi
  simp only [hid, id] at hlo hhi
  show |toFixedNumber R 2 (R.rnd (rawRecommendedPrice R env product snapshot * R.rnd (97 / 100)))
        - 97 / 100 * toFixedNumber R 2 (rawRecommendedPrice R env product snapshot)| ≤ 197 / 20000
    ∧ |toFixedNumber R 2 (R.rnd (rawRecommendedPrice R env product snapshot * R.rnd (103 / 100)))
        - 103 / 100 * toFixedNumber R 2 (rawRecommendedPrice R env product snapshot)| ≤ 203 / 20000
  simp only [hid, id]
  constructor
  · rw [abs_le]; constructor <;> linarith [hp.1, hp.2, hlo.1, hlo.2]
  · rw [abs_le]; constructor <;> linarith [hp.1, hp.2, hhi.1, hhi.2]

/-- Witness of C3 as amended: the end-to-end scenario in exact arithmetic. -/
theorem priceBand_of_rawRecommendedPrice_witness :
    |(buildFallbackRecommendation (exactRuntime sampleNumberToString) {} Example.scenarioProduct
          Example.scenarioSnapshot).priceBand.1
        - 97 / 100 * (buildFallbackRecommendation (exactRuntime sampleNumberToString) {}
          Example.scenarioProduct Example.scenarioSnapshot).recommendedPrice| ≤ 197 / 20000 :=
  ((priceBand_of_rawRecommendedPrice (exactRuntime sampleNumberToString) {}
      Example.scenarioProduct Example.scenarioSnapshot).2.2 rfl).1

/-- C3 fails as stated.  For a product whose only cost is 0.375 and a snapshot
without competitors the result has `recommendedPrice = 0.44` and
`priceBand = [0.43, 0.46]`: the band is not `[0.97 × p, 1.03 × p] = [0.4268, 0.4532]`,
and its upper end is not even `1.03 × p` rounded to two decimals, which is 0.45.
The same holds in double precision. -/
theorem priceBand_ne_of_returned_price :
    (buildFallbackRecommendation (exactRuntime sampleNumberToString) {} Example.smallProduct
        Example.emptySnapshot).recommendedPrice = 44 / 100
    ∧ (buildFallbackRecommendation (exactRuntime sampleNumberToString) {} Example.smallProduct
        Example.emptySnapshot).priceBand = (43 / 100, 46 / 100)
    ∧ (buildFallbackRecommendation (exactRuntime sampleNumberToString) {} Example.smallProduct
        Example.emptySnapshot).priceBand ≠ (97 / 100 * (44 / 100), 103 / 100 * (44 / 100))
    ∧ toFixedNumber (exactRuntime sampleNumberToString) 2 (103 / 100 * (44 / 100)) = 45 / 100
    ∧ (buildFallbackRecommendation (ieeeRuntime sampleNumberToString) {} Example.smallProduct
        Example.emptySnapshot).recommendedPrice = binary64 (44 / 100)
    ∧ (buildFallbackRecommendation (ieeeRuntime sampleNumberToString) {} Example.smallProduct
        Example.emptySnapshot).priceBand = (binary64 (43 / 100), binary64 (46 / 100))
    ∧ (buildFallbackRecommendation (ieeeRuntime sampleNumberToString) {} Example.smallProduct
        Example.emptySnapshot).priceBand
      ≠ (binary64 (binary64 (97 / 100) * binary64 (44 / 100)),
         binary64 (binary64 (103 / 100) * binary64 (44 / 100))) := by
  decide!

theorem minMargin_percent_default_exact :
    toFixedNumber (exactRuntime sampleNumberToString) 2
      (id (minMargin (exactRuntime sampleNumberToString) {} * 100)) = 10 := by
  decide!

theorem minMargin_percent_default_ieee :
    toFixedNumber (ieeeRuntime sampleNumberToString) 2
      (binary64 (minMargin (ieeeRuntime sampleNumberToString) {} * 100)) = 10 := by
  decide!

/-- Without overflow: the `expectedMargin` returned is the clamped margin
rounded to two decimals, so it is at least `minMargin × 100` rounded to two
decimals.  With the default `minMargin = 0.10`, in exact arithmetic and in
double precision, that bound is 10, which is `minMargin × 100`. -/
theorem expectedMargin_ge_rounded_minMargin (R : Runtime) (hR : R.Sound) (env : Env)
    (product : ProductDoc) (snapshot : CompetitorSnapshotDoc) :
    toFixedNumber R 2 (R.rnd (minMargin R env * 100))
        ≤ (buildFallbackRecommendation R env product snapshot).expectedMargin
    ∧ (env.FALLBACK_MIN_MARGIN = none → (R.rnd = id ∨ R.rnd = binary64) →
        R.rnd (minMargin R env * 100) = 10
        ∧ 10 ≤ (buildFallbackRecommendation R env product snapshot).expectedMargin) := by
  have h : toFixedNumber R 2 (R.rnd (minMargin R env * 100))
      ≤ (buildFallbackRecommendation R env product snapshot).expectedMargin :=
    toFixedNumber_mono R hR 2 (le_max_right _ _)
  refine ⟨h, fun henv hrnd => ?_⟩
  have hmin : minMargin R env = R.rnd (1 / 10) := by simp [minMargin, henv]
  rcases hrnd with hid | hb
  · have e1 : R.rnd (minMargin R env * 100) = 10 := by
      rw [hmin, hid]; norm_num
    have e2 : toFixedNumber R 2 10 = 10 := by
      have := minMargin_percent_default_exact
      simp only [toFixedNumber, hid, exactRuntime, minMargin] at this ⊢
      norm_num at this ⊢
      exact this
    rw [e1, e2] at h
    exact ⟨e1, h⟩
  · have e1 : R.rnd (minMargin R env * 100) = 10 := by
      rw [hmin, hb]; decide!
    have e2 : toFixedNumber R 2 10 = 10 := by
      have : toFixedNumber (ieeeRuntime sampleNumberToString) 2 10 = 10 := by decide!
      simp only [toFixedNumber, hb, ieeeRuntime] at this ⊢
      exact this
    rw [e1, e2] at h
    exact ⟨e1, h⟩

/-- The end-to-end scenario in double precision, with the default
configuration. -/
theorem expectedMargin_ge_rounded_minMargin_witness :
    (ieeeRuntime sampleNumberToString).Sound
    ∧ 10 ≤ (buildFallbackRecommendation (ieeeRuntime sampleNumberToString) {}
        Example.scenarioProduct Example.scenarioSnapshot).expectedMargin :=
  ⟨ieeeRuntime_sound _,
   ((expectedMargin_ge_rounded_minMargin (ieeeRuntime sampleNumberToString)
      (ieeeRuntime_sound _) {} Example.scenarioProduct Example.scenarioSnapshot).2
        rfl (Or.inr rfl)).2⟩

/-- Without overflow: with `FALLBACK_MIN_MARGIN=0.015625`, a product without
costs and a snapshot without competitors, `minMargin × 100 = 1.5625` and the
returned `expectedMargin` is `1.56`, in exact arithmetic and in double precision. -/
theorem expectedMargin_lt_minMargin :
    (buildFallbackRecommendation (exactRuntime sampleNumberToString) Example.fineMarginEnv
        Example.bareProduct Example.emptySnapshot).expectedMargin
      < minMargin (exactRuntime sampleNumberToString) Example.fineMarginEnv * 100
    ∧ (buildFallbackRecommendation (ieeeRuntime sampleNumberToString) Example.fineMarginEnv
        Example.bareProduct Example.emptySnapshot).expectedMargin
      < binary64 (minMargin (ieeeRuntime sampleNumberToString) Example.fineMarginEnv * 100) := by
  decide!

/-! ## The quantile helper -/

theorem quantiles_nil (R : Runtime) : quantiles R [] = { q1 := 0, median := 0, q3 := 0 } := rfl

theorem quantiles_singleton (R : Runtime) (v : ℚ) :
    quantiles R [v] = { q1 := v, median := v, q3 := v } := by
  simp [quantiles, index, arrayAt]

theorem quantiles_exact_eq (ts : ℚ → String) (values : List ℚ) (hne : values ≠ []) :
    quantiles (exactRuntime ts) values
      = { q1 := Spec.type7 (values.insertionSort (· ≤ ·)) (1 / 4),
          median := Spec.type7 (values.insertionSort (· ≤ ·)) (1 / 2),
          q3 := Spec.type7 (values.insertionSort (· ≤ ·)) (3 / 4) } := by
  have hlen : values.length ≠ 0 := by
    intro h; exact hne (List.length_eq_zero.mp h)
  have hn : 1 ≤ (values.insertionSort (· ≤ ·)).length := by
    rw [List.length_insertionSort]; omega
  unfold quantiles
  rw [if_neg hlen]
  simp only [exactRuntime, id]
  have e1 := index_exact_eq_type7 ts (values.insertionSort (· ≤ ·)) hn (p := 25 / 100) (by norm_num)
  have e2 := index_exact_eq_type7 ts (values.insertionSort (· ≤ ·)) hn (p := 5 / 10) (by norm_num)
  have e3 := index_exact_eq_type7 ts (values.insertionSort (· ≤ ·)) hn (p := 75 / 100) (by norm_num)
  simp only [exactRuntime] at e1 e2 e3
  rw [e1, e2, e3]
  norm_num

/-- In exact arithmetic `quantiles` is the type-7 linear-interpolation
reference: the empty list gives `q1 = median = q3 = 0`; for a non-empty list and any ascending
arrangement `s` of it, `q1`, `median` and `q3` are the reference value
`s[b] + (p·(n−1) − b) × (s[b+1] − s[b])`, `b = floor(p·(n−1))`, at
`p = 0.25, 0.5, 0.75` (exact arithmetic); a one-element list `[v]` gives `v`
three times. -/
theorem quantiles_eq_type7 :
    (∀ R : Runtime, quantiles R [] = { q1 := 0, median := 0, q3 := 0 })
    ∧ (∀ (ts : ℚ → String) (values s : List ℚ), values ≠ [] → s.Sorted (· ≤ ·) →
        s.Perm values →
        quantiles (exactRuntime ts) values
          = { q1 := Spec.type7 s (1 / 4), median := Spec.type7 s (1 / 2),
              q3 := Spec.type7 s (3 / 4) })
    ∧ (∀ (R : Runtime) (v : ℚ), quantiles R [v] = { q1 := v, median := v, q3 := v }) := by
  refine ⟨quantiles_nil, ?_, quantiles_singleton⟩
  intro ts values s hne hs hperm
  have hsort : values.insertionSort (· ≤ ·) = s :=
    List.eq_of_perm_of_sorted ((List.perm_insertionSort _ values).trans hperm.symm)
      (List.sorted_insertionSort _ values) hs
  rw [quantiles_exact_eq ts values hne, hsort]

/-- The quartiles of `[30, 20, 25, 22]` in exact arithmetic, through the
ascending arrangement `[20, 22, 25, 30]`. -/
theorem quantiles_eq_type7_witness :
    quantiles (exactRuntime sampleNumberToString) [30, 20, 25, 22]
      = { q1 := Spec.type7 [20, 22, 25, 30] (1 / 4),
          median := Spec.type7 [20, 22, 25, 30] (1 / 2),
          q3 := Spec.type7 [20, 22, 25, 30] (3 / 4) } :=
  quantiles_eq_type7.2.1 sampleNumberToString [30, 20, 25, 22] [20, 22, 25, 30]
    (by decide) (by decide!) (by decide!)

/-- In exact arithmetic, for every non-empty list of numbers, in any order, the
result of `quantiles` has `q1 ≤ median ≤ q3`. -/
theorem quantiles_ordered (ts : ℚ → String) (values : List ℚ) (hne : values ≠ []) :
    (quantiles (exactRuntime ts) values).q1 ≤ (quantiles (exactRuntime ts) values).median
    ∧ (quantiles (exactRuntime ts) values).median ≤ (quantiles (exactRuntime ts) values).q3 := by
  have hlen : values.length ≠ 0 := by
    intro h; exact hne (List.length_eq_zero.mp h)
  have hn : 1 ≤ (values.insertionSort (· ≤ ·)).length := by
    rw [List.length_insertionSort]; omega
  have hs := List.sorted_insertionSort (· ≤ ·) values
  rw [quantiles_exact_eq ts values hne]
  exact ⟨type7_mono hs hn (by norm_num) (by norm_num) (by norm_num),
    type7_mono hs hn (by norm_num) (by norm_num) (by norm_num)⟩

/-- The quartiles of `[30, 20, 25, 22]` in exact arithmetic. -/
theorem quantiles_ordered_witness :
    (quantiles (exactRuntime sampleNumberToString) [30, 20, 25, 22]).q1
      ≤ (quantiles (exactRuntime sampleNumberToString) [30, 20, 25, 22]).median
    ∧ (quantiles (exactRuntime sampleNumberToString) [30, 20, 25, 22]).median
      ≤ (quantiles (exactRuntime sampleNumberToString) [30, 20, 25, 22]).q3 :=
  quantiles_ordered sampleNumberToString [30, 20, 25, 22] (by decide)

namespace PricingWorker

/-! ## The document store -/

theorem Collection.get_nil {α : Type} (id : String) : Collection.get ([] : Collection α) id = none :=
  rfl

theorem Collection.get_cons {α : Type} (e : String × α) (c : Collection α) (id : String) :
    Collection.get (e :: c) id = if e.1 = id then some e.2 else Collection.get c id := by
  unfold Collection.get
  by_cases h : e.1 = id <;> simp [List.find?_cons, h]

/-- Reading after a rewrite of the documents with id `id`. -/
theorem Collection.get_modify {α : Type} (c : Collection α) (id id' : String) (F : α → α) :
    Collection.get (Collection.modify c id F) id'
      = (Collection.get c id').map (fun v => if id' = id then F v else v) := by
  unfold Collection.modify
  induction c with
  | nil => rfl
  | cons e c ih =>
    rw [List.map_cons, Collection.get_cons, Collection.get_cons, ih]
    by_cases h1 : e.1 = id
    · by_cases h2 : e.1 = id'
      · have h3 : id' = id := by rw [← h2, h1]
        simp [h1, h2, h3]
      · have h3 : ¬ id = id' := by rw [← h1]; exact h2
        simp [h1, h2, h3]
    · by_cases h2 : e.1 = id'
      · have h3 : ¬ id' = id := by rw [← h2]; exact h1
        simp [h1, h2, h3]
      · simp [h1, h2]

theorem Collection.get_append_single {α : Type} (c : Collection α) (id id' : String) (d : α) :
    Collection.get (c ++ [(id, d)]) id'
      = (Collection.get c id').orElse (fun _ => if id = id' then some d else none) := by
  induction c with
  | nil => simp [Collection.get_cons, Collection.get_nil]
  | cons e c ih =>
    rw [List.cons_append, Collection.get_cons, Collection.get_cons, ih]
    by_cases h : e.1 = id' <;> simp [h]

theorem Collection.get_set_self {α : Type} (c : Collection α) (id : String) (d : α) :
    Collection.get (Collection.set c id d) id = some d := by
  unfold Collection.set
  split_ifs with h
  · rw [Collection.get_modify c id id (fun _ => d)]
    obtain ⟨v, hv⟩ := Option.isSome_iff_exists.mp h
    simp [hv]
  · rw [Collection.get_append_single]
    have : Collection.get c id = none := by
      simpa [Option.isSome_iff_exists, Option.eq_none_iff_forall_not_mem] using h
    simp [this]

theorem Collection.get_set_of_ne {α : Type} (c : Collection α) {id id' : String} (d : α)
    (hne : id' ≠ id) : Collection.get (Collection.set c id d) id' = Collection.get c id' := by
  unfold Collection.set
  split_ifs with h
  · rw [Collection.get_modify c id id' (fun _ => d)]
    simp [hne]
  · rw [Collection.get_append_single]
    have : ¬ id = id' := fun h => hne h.symm
    cases hg : Collection.get c id' <;> simp [this]

theorem Collection.get_update {α : Type} {c c' : Collection α} {id : String} {F : α → α}
    (h : Collection.update c id F = some c') (id' : String) :
    Collection.get c' id' = (Collection.get c id').map (fun v => if id' = id then F v else v) := by
  unfold Collection.update at h
  split_ifs at h
  simp only [Option.some.injEq] at h
  rw [← h, Collection.get_modify]

theorem Collection.update_isSome {α : Type} {c : Collection α} {id : String} (F : α → α)
    (h : (Collection.get c id).isSome) :
    Collection.update c id F = some (Collection.modify c id F) := by
  unfold Collection.update
  rw [if_pos h]

/-! ## `processSnapshotOnce` -/

/-- C7.  For a claimed snapshot (its document exists) whose product exists, if
the AI step throws an error with message `m` and the store accepts the three
calls of the run, `processSnapshotOnce` returns normally, sets under a fresh id one insight with
`strategySource = "rule_based"`, `fallbackReason = m`, the `recommendedPrice`,
`priceBand`, `expectedMargin`, `rationale` and `dataSources` of
`buildFallbackRecommendation(product, snapshot)` and `metadata.strategy` its
strategy tag, and leaves the snapshot `completed` with `pricingInsightId` the id
of that insight. -/
theorem processSnapshotOnce_fallback (R : Runtime) (env : Env) (C : Collaborators) (w : World)
    (snapshot : CompetitorSnapshotDoc) (product : ProductDoc) (m : String)
    (hget : C.storeFails w.storeCalls = none)
    (hset : C.storeFails (w.storeCalls + 1) = none)
    (hupdate : C.storeFails (w.storeCalls + 2) = none)
    (hdoc : (w.competitorSnapshots.get snapshot.snapshotId).isSome)
    (hprod : w.products.get snapshot.productId = some product)
    (hai : C.callOpenAi w.aiRequests.length (Payload.buildPricingPayload R product snapshot)
      = Except.error (Thrown.error m)) :
    (processSnapshotOnce R env C w snapshot).1 = Except.ok ()
    ∧ (∃ doc : PricingInsightDoc,
        (processSnapshotOnce R env C w snapshot).2.pricingInsights
            = w.pricingInsights.set (C.autoId w.idsDrawn) doc
        ∧ (processSnapshotOnce R env C w snapshot).2.pricingInsights.get (C.autoId w.idsDrawn)
            = some doc
        ∧ doc.insightId = C.autoId w.idsDrawn
        ∧ doc.snapshotId = snapshot.snapshotId
        ∧ doc.productId = snapshot.productId
        ∧ doc.strategySource = StrategySource.rule_based
        ∧ doc.fallbackReason = some m
        ∧ doc.recommendedPrice
            = (Fallback.buildFallbackRecommendation R env product snapshot).recommendedPrice
        ∧ doc.priceBand = (Fallback.buildFallbackRecommendation R env product snapshot).priceBand
        ∧ doc.expectedMargin
            = (Fallback.buildFallbackRecommendation R env product snapshot).expectedMargin
        ∧ doc.rationale = (Fallback.buildFallbackRecommendation R env product snapshot).rationale
        ∧ doc.dataSources
            = (Fallback.buildFallbackRecommendation R env product snapshot).dataSources
        ∧ doc.metadata.strategy
            = some (Fallback.buildFallbackRecommendation R env product snapshot).strategy)
    ∧ (∃ d : CompetitorSnapshotDoc,
        (processSnapshotOnce R env C w snapshot).2.competitorSnapshots.get snapshot.snapshotId
            = some d
        ∧ d.pricingStatus = PricingStatus.completed
        ∧ d.pricingInsightId = some (C.autoId w.idsDrawn)) := by
  obtain ⟨d0, hd0⟩ := Option.isSome_iff_exists.mp hdoc
  have hrun : processSnapshotOnce R env C w snapshot
      = (Except.ok (),
         { w.tick.tick.tick with
           aiRequests := w.aiRequests ++ [Payload.buildPricingPayload R product snapshot],
           idsDrawn := w.idsDrawn + 1,
           pricingInsights := w.pricingInsights.set (C.autoId w.idsDrawn)
             (insightDoc env (C.autoId w.idsDrawn) (C.serverTime (w.storeCalls + 1)) snapshot
               StrategySource.rule_based
               { recommendedPrice :=
                   (Fallback.buildFallbackRecommendation R env product snapshot).recommendedPrice,
                 priceBand :=
                   (Fallback.buildFallbackRecommendation R env product snapshot).priceBand,
                 expectedMargin :=
                   (Fallback.buildFallbackRecommendation R env product snapshot).expectedMargin,
                 rationale :=
                   (Fallback.buildFallbackRecommendation R env product snapshot).rationale,
                 dataSources :=
                   (Fallback.buildFallbackRecommendation R env product snapshot).dataSources,
                 metadata := some
                   { strategy := some
                       (Fallback.buildFallbackRecommendation R env product snapshot).strategy },
                 fallbackReason := some m }),
           competitorSnapshots := w.competitorSnapshots.modify snapshot.snapshotId
             (fun d => { d with pricingStatus := PricingStatus.completed,
                                pricingInsightId := some (C.autoId w.idsDrawn),
                                updatedAt := some (C.serverTime (w.storeCalls + 2)) }) }) := by
    simp only [processSnapshotOnce, getProduct, hget, hset, hupdate, hprod, aiAttempt, hai,
      fallbackAttempt, writeInsight, updateSnapshot, World.tick, errorMessage,
      Collection.update_isSome _ hdoc, Nat.add_assoc, Nat.reduceAdd, reduceCtorEq, false_and,
      if_false]
  rw [hrun]
  refine ⟨rfl, ⟨_, rfl, Collection.get_set_self _ _ _, rfl, rfl, rfl, rfl, rfl, rfl, rfl, rfl,
    rfl, rfl, rfl⟩, ?_⟩
  refine ⟨{ d0 with pricingStatus := PricingStatus.completed,
                    pricingInsightId := some (C.autoId w.idsDrawn),
                    updatedAt := some (C.serverTime (w.storeCalls + 2)) }, ?_, rfl, rfl⟩
  have hget := Collection.get_modify w.competitorSnapshots snapshot.snapshotId
    snapshot.snapshotId (fun d : CompetitorSnapshotDoc =>
      { d with pricingStatus := PricingStatus.completed,
               pricingInsightId := some (C.autoId w.idsDrawn),
               updatedAt := some (C.serverTime (w.storeCalls + 2)) })
  rw [hd0] at hget
  simpa using hget

/-- Witness of C7: the scenario store with a model call that throws
`Error("timeout")`. -/
theorem processSnapshotOnce_fallback_witness :
    (processSnapshotOnce (ieeeRuntime sampleNumberToString) {} Example.failingModel
        Example.world Example.scenarioSnapshot).1 = Except.ok () :=
  (processSnapshotOnce_fallback (ieeeRuntime sampleNumberToString) {} Example.failingModel
    Example.world Example.scenarioSnapshot Example.scenarioProduct "timeout"
    rfl rfl rfl (by decide!) rfl rfl).1

/-- C8.  For a snapshot whose `productId` has no product document,
`processSnapshotOnce` leaves the insight collection unchanged and sends no
request to the model; and when the store accepts the two calls and the document
of the snapshot exists, it returns normally with the snapshot `failed` and
`lastError = "product_not_found"`. -/
theorem processSnapshotOnce_product_missing (R : Runtime) (env : Env) (C : Collaborators)
    (w : World) (snapshot : CompetitorSnapshotDoc)
    (hprod : w.products.get snapshot.productId = none) :
    (processSnapshotOnce R env C w snapshot).2.pricingInsights = w.pricingInsights
    ∧ (processSnapshotOnce R env C w snapshot).2.aiRequests = w.aiRequests
    ∧ (C.storeFails w.storeCalls = none → C.storeFails (w.storeCalls + 1) = none →
        (w.competitorSnapshots.get snapshot.snapshotId).isSome →
        (processSnapshotOnce R env C w snapshot).1 = Except.ok ()
        ∧ ∃ d : CompetitorSnapshotDoc,
            (processSnapshotOnce R env C w snapshot).2.competitorSnapshots.get snapshot.snapshotId
              = some d
            ∧ d.pricingStatus = PricingStatus.failed
            ∧ d.lastError = some "product_not_found") := by
  refine ⟨?_, ?_, ?_⟩
  · simp only [processSnapshotOnce, getProduct, hprod, updateSnapshot, World.tick]
    cases h0 : C.storeFails w.storeCalls with
    | some e => rfl
    | none =>
      simp only
      cases h1 : C.storeFails (w.storeCalls + 1) with
      | some e => rfl
      | none =>
        simp only
        cases h2 : Collection.update w.competitorSnapshots snapshot.snapshotId _ <;> rfl
  · simp only [processSnapshotOnce, getProduct, hprod, updateSnapshot, World.tick]
    cases h0 : C.storeFails w.storeCalls with
    | some e => rfl
    | none =>
      simp only
      cases h1 : C.storeFails (w.storeCalls + 1) with
      | some e => rfl
      | none =>
        simp only
        cases h2 : Collection.update w.competitorSnapshots snapshot.snapshotId _ <;> rfl
  · intro h0 h1 hdoc
    obtain ⟨d0, hd0⟩ := Option.isSome_iff_exists.mp hdoc
    have hrun : processSnapshotOnce R env C w snapshot
        = (Except.ok (),
           { w.tick.tick with
             competitorSnapshots := w.competitorSnapshots.modify snapshot.snapshotId
               (fun d => { d with pricingStatus := PricingStatus.failed,
                                  lastError := some "product_not_found",
                                  updatedAt := some (C.serverTime (w.storeCalls + 1)) }) }) := by
      simp only [processSnapshotOnce, getProduct, hprod, updateSnapshot, World.tick, h0, h1,
        Collection.update_isSome _ hdoc]
    rw [hrun]
    refine ⟨rfl, { d0 with pricingStatus := PricingStatus.failed,
                           lastError := some "product_not_found",
                           updatedAt := some (C.serverTime (w.storeCalls + 1)) }, ?_, rfl, rfl⟩
    have hget := Collection.get_modify w.competitorSnapshots snapshot.snapshotId
      snapshot.snapshotId (fun d : CompetitorSnapshotDoc =>
        { d with pricingStatus := PricingStatus.failed,
                 lastError := some "product_not_found",
                 updatedAt := some (C.serverTime (w.storeCalls + 1)) })
    rw [hd0] at hget
    simpa using hget

/-- Witness of C8: the store without the product of the scenario snapshot. -/
theorem processSnapshotOnce_product_missing_witness :
    (processSnapshotOnce (ieeeRuntime sampleNumberToString) {} Example.steadyCollaborators
        { Example.world with products := [] } Example.scenarioSnapshot).2.pricingInsights = [] :=
  (processSnapshotOnce_product_missing (ieeeRuntime sampleNumberToString) {}
    Example.steadyCollaborators { Example.world with products := [] } Example.scenarioSnapshot
    rfl).1

/-- With a store that ignores undefined properties: the model returns a valid
response and the store rejects one call, the snapshot update inside the AI-path
`writeInsight`, after the AI insight was set.  The `catch` block then runs the
fallback, and the run ends with two insight documents for the snapshot, one
`ai` and one `rule_based` (its `fallbackReason` the store error), the snapshot
`completed` and pointing at the second. -/
theorem processSnapshotOnce_two_insights :
    ((processSnapshotOnce (ieeeRuntime sampleNumberToString) {} Example.flakyStore Example.world
        Example.scenarioSnapshot).2.pricingInsights.map
        (fun e => (e.1, e.2.snapshotId, e.2.strategySource, e.2.fallbackReason)))
      = [("insight-0", "snap-1", StrategySource.ai, none),
         ("insight-1", "snap-1", StrategySource.rule_based, some "14 UNAVAILABLE")]
    ∧ ((processSnapshotOnce (ieeeRuntime sampleNumberToString) {} Example.flakyStore Example.world
        Example.scenarioSnapshot).2.competitorSnapshots.map
        (fun e => (e.1, e.2.pricingStatus, e.2.pricingInsightId)))
      = [("snap-1", PricingStatus.completed, some "insight-1")]
    ∧ (processSnapshotOnce (ieeeRuntime sampleNumberToString) {} Example.flakyStore Example.world
        Example.scenarioSnapshot).1.toBool = true := by
  decide!

/-! ## Status transitions -/

theorem oldest_mem {l : List (String × CompetitorSnapshotDoc)} {e : String × CompetitorSnapshotDoc}
    (h : oldest l = some e) : e ∈ l := by
  induction l generalizing e with
  | nil => simp [oldest] at h
  | cons a l ih =>
    unfold oldest at h
    cases hr : oldest l with
    | none =>
      rw [hr] at h
      simp only [Option.some.injEq] at h
      rw [← h]; exact List.mem_cons_self _ _
    | some b =>
      rw [hr] at h
      simp only at h
      split_ifs at h
      · simp only [Option.some.injEq] at h
        rw [← h]; exact List.mem_cons_of_mem _ (ih hr)
      · simp only [Option.some.injEq] at h
        rw [← h]; exact List.mem_cons_self _ _

theorem Collection.get_of_mem {α : Type} {c : Collection α} (hnd : (c.map (fun e => e.1)).Nodup)
    {e : String × α} (he : e ∈ c) : Collection.get c e.1 = some e.2 := by
  induction c with
  | nil => simp at he
  | cons a c ih =>
    rw [Collection.get_cons]
    rw [List.map_cons, List.nodup_cons] at hnd
    rcases List.mem_cons.mp he with h | h
    · rw [h]; simp
    · have hne : a.1 ≠ e.1 := by
        intro heq
        apply hnd.1
        rw [heq]
        exact List.mem_map_of_mem (fun e => e.1) h
      rw [if_neg hne]
      exact ih hnd.2 h

theorem Collection.map_fst_modify {α : Type} (c : Collection α) (id : String) (F : α → α) :
    (Collection.modify c id F).map (fun e => e.1) = c.map (fun e => e.1) := by
  unfold Collection.modify
  rw [List.map_map]
  apply List.map_congr_left
  intro e _
  by_cases h : e.1 = id <;> simp [h]

theorem WellFormed.modify {c : Collection CompetitorSnapshotDoc} (hc : WellFormed c) (id : String)
    {F : CompetitorSnapshotDoc → CompetitorSnapshotDoc}
    (hF : ∀ d, (F d).snapshotId = d.snapshotId) : WellFormed (Collection.modify c id F) := by
  refine ⟨by rw [Collection.map_fst_modify]; exact hc.1, ?_⟩
  intro e he
  unfold Collection.modify at he
  obtain ⟨a, ha, rfl⟩ := List.mem_map.mp he
  by_cases h : a.1 = id
  · simp only [h, if_true, hF]
    rw [← h]; exact hc.2 a ha
  · simp only [h, if_false]
    exact hc.2 a ha

/-- The status of every document after a rewrite of document `id` that sets the
status to `s`. -/
theorem status_modify (c : Collection CompetitorSnapshotDoc) (id : String)
    {F : CompetitorSnapshotDoc → CompetitorSnapshotDoc} {s : PricingStatus}
    (hF : ∀ d, (F d).pricingStatus = s) (id' : String) :
    ((Collection.modify c id F).get id').map (fun d => d.pricingStatus)
        = (c.get id').map (fun d => d.pricingStatus)
    ∨ (id' = id ∧ (c.get id').isSome
        ∧ ((Collection.modify c id F).get id').map (fun d => d.pricingStatus) = some s) := by
  rw [Collection.get_modify]
  by_cases h : id' = id
  · cases hg : c.get id' with
    | none => left; rfl
    | some d => right; exact ⟨h, rfl, by simp [h, hF]⟩
  · left
    cases hg : c.get id' <;> simp [h]

theorem updateSnapshot_snapshots (C : Collaborators) (w : World) (id : String)
    (F : Timestamp → CompetitorSnapshotDoc → CompetitorSnapshotDoc) :
    ((∃ e, (updateSnapshot C w id F).1 = Except.error e)
        ∧ (updateSnapshot C w id F).2.competitorSnapshots = w.competitorSnapshots)
    ∨ ((updateSnapshot C w id F).1 = Except.ok ()
        ∧ (updateSnapshot C w id F).2.competitorSnapshots
          = Collection.modify w.competitorSnapshots id (F (C.serverTime w.storeCalls))) := by
  unfold updateSnapshot
  cases h0 : C.storeFails w.storeCalls with
  | some e => left; exact ⟨⟨e, rfl⟩, rfl⟩
  | none =>
    simp only
    by_cases hdoc : (w.competitorSnapshots.get id).isSome
    · rw [Collection.update_isSome _ hdoc]
      right; exact ⟨rfl, rfl⟩
    · have : Collection.update w.competitorSnapshots id (F (C.serverTime w.storeCalls)) = none := by
        unfold Collection.update; rw [if_neg hdoc]
      rw [this]
      left; exact ⟨⟨_, rfl⟩, rfl⟩

theorem writeInsight_snapshots (env : Env) (C : Collaborators) (w : World)
    (snapshot : CompetitorSnapshotDoc) (product : ProductDoc) (source : StrategySource)
    (data : InsightData) :
    ((∃ e, (writeInsight env C w snapshot product source data).1 = Except.error e)
        ∧ (writeInsight env C w snapshot product source data).2.competitorSnapshots
          = w.competitorSnapshots)
    ∨ ((writeInsight env C w snapshot product source data).1 = Except.ok ()
        ∧ ∃ F : CompetitorSnapshotDoc → CompetitorSnapshotDoc,
          (∀ d, (F d).snapshotId = d.snapshotId)
          ∧ (∀ d, (F d).pricingStatus = PricingStatus.completed)
          ∧ (writeInsight env C w snapshot product source data).2.competitorSnapshots
            = Collection.modify w.competitorSnapshots snapshot.snapshotId F) := by
  unfold writeInsight
  simp only
  split_ifs with hu
  · left; exact ⟨⟨_, rfl⟩, rfl⟩
  cases h0 : C.storeFails w.storeCalls with
  | some e => left; exact ⟨⟨e, rfl⟩, rfl⟩
  | none =>
    simp only
    rcases updateSnapshot_snapshots C
      { w.tick with
        idsDrawn := w.idsDrawn + 1,
        pricingInsights := w.pricingInsights.set (C.autoId w.idsDrawn)
          (insightDoc env (C.autoId w.idsDrawn) (C.serverTime w.storeCalls) snapshot source data) }
      snapshot.snapshotId
      (fun now d => { d with pricingStatus := PricingStatus.completed,
                             pricingInsightId := some (C.autoId w.idsDrawn),
                             updatedAt := some now }) with h | h
    · left; exact h
    · right
      exact ⟨h.1, fun d => { d with pricingStatus := PricingStatus.completed,
                                     pricingInsightId := some (C.autoId w.idsDrawn),
                                     updatedAt := some (C.serverTime (w.storeCalls + 1)) },
        fun _ => rfl, fun _ => rfl, h.2⟩

theorem aiAttempt_snapshots (env : Env) (C : Collaborators) (w : World)
    (snapshot : CompetitorSnapshotDoc) (product : ProductDoc) (payload : Payload.PricingPayload) :
    ((∃ e, (aiAttempt env C w snapshot product payload).1 = Except.error e)
        ∧ (aiAttempt env C w snapshot product payload).2.competitorSnapshots
          = w.competitorSnapshots)
    ∨ ((aiAttempt env C w snapshot product payload).1 = Except.ok ()
        ∧ ∃ F : CompetitorSnapshotDoc → CompetitorSnapshotDoc,
          (∀ d, (F d).snapshotId = d.snapshotId)
          ∧ (∀ d, (F d).pricingStatus = PricingStatus.completed)
          ∧ (aiAttempt env C w snapshot product payload).2.competitorSnapshots
            = Collection.modify w.competitorSnapshots snapshot.snapshotId F) := by
  unfold aiAttempt
  simp only
  cases hc : C.callOpenAi w.aiRequests.length payload with
  | error e => left; exact ⟨⟨e, rfl⟩, rfl⟩
  | ok ai => exact writeInsight_snapshots env C _ snapshot product StrategySource.ai _

/-- What `processSnapshotOnce` does to the snapshot collection: nothing, or one
rewrite of the document `snapshot.snapshotId` that sets its status to
`completed` or to `failed` and keeps its `snapshotId` field. -/
theorem processSnapshotOnce_snapshots (R : Runtime) (env : Env) (C : Collaborators) (w : World)
    (snapshot : CompetitorSnapshotDoc) :
    (processSnapshotOnce R env C w snapshot).2.competitorSnapshots = w.competitorSnapshots
    ∨ ∃ (F : CompetitorSnapshotDoc → CompetitorSnapshotDoc) (s : PricingStatus),
        (∀ d, (F d).snapshotId = d.snapshotId) ∧ (∀ d, (F d).pricingStatus = s)
        ∧ (s = PricingStatus.completed ∨ s = PricingStatus.failed)
        ∧ (processSnapshotOnce R env C w snapshot).2.competitorSnapshots
          = Collection.modify w.competitorSnapshots snapshot.snapshotId F := by
  unfold processSnapshotOnce getProduct
  cases h0 : C.storeFails w.storeCalls with
  | some e => left; rfl
  | none =>
    simp only
    cases hp : w.products.get snapshot.productId with
    | none =>
      simp only
      rcases updateSnapshot_snapshots C w.tick snapshot.snapshotId
        (fun now d => { d with pricingStatus := PricingStatus.failed,
                               lastError := some "product_not_found",
                               updatedAt := some now }) with h | h
      · left; exact h.2
      · right
        exact ⟨fun d => { d with pricingStatus := PricingStatus.failed,
                                 lastError := some "product_not_found",
                                 updatedAt := some (C.serverTime (w.storeCalls + 1)) },
          PricingStatus.failed, fun _ => rfl, fun _ => rfl, Or.inr rfl, h.2⟩
    | some product =>
      simp only
      have ha := aiAttempt_snapshots env C w.tick snapshot product
        (Payload.buildPricingPayload R product snapshot)
      rcases hatt : aiAttempt env C w.tick snapshot product
        (Payload.buildPricingPayload R product snapshot) with ⟨r, w2⟩
      rw [hatt] at ha
      cases r with
      | ok u =>
        simp only
        rcases ha with ⟨⟨e, he⟩, _⟩ | ⟨_, F, hF1, hF2, hF3⟩
        · simp at he
        · right; exact ⟨F, PricingStatus.completed, hF1, hF2, Or.inl rfl, hF3⟩
      | error e =>
        simp only
        rcases ha with ⟨_, hcs⟩ | ⟨hok, _⟩
        · simp only at hcs
          unfold fallbackAttempt
          simp only
          rcases writeInsight_snapshots env C w2 snapshot product StrategySource.rule_based
            { recommendedPrice :=
                (Fallback.buildFallbackRecommendation R env product snapshot).recommendedPrice,
              priceBand := (Fallback.buildFallbackRecommendation R env product snapshot).priceBand,
              expectedMargin :=
                (Fallback.buildFallbackRecommendation R env product snapshot).expectedMargin,
              rationale := (Fallback.buildFallbackRecommendation R env product snapshot).rationale,
              dataSources :=
                (Fallback.buildFallbackRecommendation R env product snapshot).dataSources,
              metadata := some
                { strategy := some
                    (Fallback.buildFallbackRecommendation R env product snapshot).strategy },
              fallbackReason := some (errorMessage e) } with h | h
          · left; rw [h.2, hcs]; rfl
          · obtain ⟨_, F, hF1, hF2, hF3⟩ := h
            right
            refine ⟨F, PricingStatus.completed, hF1, hF2, Or.inl rfl, ?_⟩
            rw [hF3, hcs]; rfl
        · simp at hok

/-- What `fetchNextPendingSnapshot` does to the snapshot collection: nothing,
and then it returns no snapshot; or it rewrites one document that was
`pending` to `processing` and returns its data, with the document id as
`snapshotId` when the field is absent. -/
theorem fetchNextPendingSnapshot_snapshots (C : Collaborators) (w : World) :
    ((fetchNextPendingSnapshot C w).2.competitorSnapshots = w.competitorSnapshots
        ∧ ∀ snapshot, (fetchNextPendingSnapshot C w).1 ≠ Except.ok (some snapshot))
    ∨ ∃ doc ∈ w.competitorSnapshots, doc.2.pricingStatus = PricingStatus.pending
        ∧ (∃ F : CompetitorSnapshotDoc → CompetitorSnapshotDoc,
            (∀ d, (F d).snapshotId = d.snapshotId)
            ∧ (∀ d, (F d).pricingStatus = PricingStatus.processing)
            ∧ (fetchNextPendingSnapshot C w).2.competitorSnapshots
              = Collection.modify w.competitorSnapshots doc.1 F)
        ∧ (fetchNextPendingSnapshot C w).1
          = Except.ok (some (if doc.2.snapshotId = "" then { doc.2 with snapshotId := doc.1 }
              else doc.2)) := by
  unfold fetchNextPendingSnapshot
  cases h0 : C.storeFails w.storeCalls with
  | some e => left; exact ⟨rfl, fun _ h => by simp at h⟩
  | none =>
    simp only
    cases ho : oldest (w.competitorSnapshots.filter
        (fun e => e.2.pricingStatus = PricingStatus.pending)) with
    | none => left; exact ⟨rfl, fun _ h => by simp at h⟩
    | some doc =>
      simp only
      have hmem := List.mem_filter.mp (oldest_mem ho)
      have hu := updateSnapshot_snapshots C w.tick doc.1
        (fun now d => { d with pricingStatus := PricingStatus.processing, updatedAt := some now })
      rcases hupd : updateSnapshot C w.tick doc.1
        (fun now d => { d with pricingStatus := PricingStatus.processing, updatedAt := some now })
        with ⟨r, w1⟩
      rw [hupd] at hu
      cases r with
      | error e =>
        simp only
        rcases hu with ⟨_, hcs⟩ | ⟨hok, _⟩
        · left; exact ⟨hcs, fun _ h => by simp at h⟩
        · simp at hok
      | ok u =>
        simp only
        rcases hu with ⟨⟨e, he⟩, _⟩ | ⟨_, hcs⟩
        · simp at he
        · right
          refine ⟨doc, hmem.1, by simpa using hmem.2, ⟨_, ?_, ?_, hcs⟩, rfl⟩
          · intro d; rfl
          · intro d; rfl

theorem statusOf_eq_of_snapshots {w w' : World}
    (h : w'.competitorSnapshots = w.competitorSnapshots) (id : String) :
    statusOf w' id = statusOf w id := by
  unfold statusOf; rw [h]

/-- The two stages of a loop iteration on a well-formed snapshot collection. -/
theorem fetch_then_process (R : Runtime) (env : Env) (C : Collaborators) (w w1 : World)
    (r : Except Thrown (Option CompetitorSnapshotDoc))
    (hw : WellFormed w.competitorSnapshots) (hf : fetchNextPendingSnapshot C w = (r, w1)) :
    (∀ id, statusOf w1 id = statusOf w id
        ∨ (statusOf w id = some PricingStatus.pending
            ∧ statusOf w1 id = some PricingStatus.processing))
    ∧ WellFormed w1.competitorSnapshots
    ∧ ∀ snapshot, r = Except.ok (some snapshot) →
        statusOf w snapshot.snapshotId = some PricingStatus.pending
        ∧ statusOf w1 snapshot.snapshotId = some PricingStatus.processing
        ∧ (∀ id, statusOf (processSnapshotOnce R env C w1 snapshot).2 id = statusOf w1 id
            ∨ (id = snapshot.snapshotId
                ∧ (statusOf (processSnapshotOnce R env C w1 snapshot).2 id
                      = some PricingStatus.completed
                    ∨ statusOf (processSnapshotOnce R env C w1 snapshot).2 id
                      = some PricingStatus.failed)))
        ∧ WellFormed (processSnapshotOnce R env C w1 snapshot).2.competitorSnapshots := by
  have hfetch := fetchNextPendingSnapshot_snapshots C w
  rw [hf] at hfetch
  simp only at hfetch
  rcases hfetch with ⟨hcs, hno⟩ | ⟨doc, hmem, hpending, ⟨F, hF1, hF2, hcs⟩, hr⟩
  · refine ⟨fun id => Or.inl (statusOf_eq_of_snapshots hcs id), by rw [hcs]; exact hw, ?_⟩
    intro snapshot hs
    exact absurd hs (hno snapshot)
  · have hget : w.competitorSnapshots.get doc.1 = some doc.2 := Collection.get_of_mem hw.1 hmem
    have hw1 : WellFormed w1.competitorSnapshots := by rw [hcs]; exact hw.modify doc.1 hF1
    have hclaimed : statusOf w1 doc.1 = some PricingStatus.processing := by
      unfold statusOf
      rw [hcs, Collection.get_modify, hget]
      simp [hF2]
    refine ⟨?_, hw1, ?_⟩
    · intro id
      rcases status_modify w.competitorSnapshots doc.1 hF2 id with h | ⟨hid, _, h⟩
      · left; unfold statusOf; rw [hcs]; exact h
      · right
        refine ⟨?_, ?_⟩
        · unfold statusOf; rw [hid, hget]; simp [hpending]
        · unfold statusOf; rw [hcs]; exact h
    · intro snapshot hs
      rw [hs] at hr
      simp only [Except.ok.injEq, Option.some.injEq] at hr
      have hid : snapshot.snapshotId = doc.1 := by
        rw [hr]
        by_cases hempty : doc.2.snapshotId = ""
        · rw [if_pos hempty]
        · rw [if_neg hempty]
          rcases hw.2 doc hmem with h | h
          · exact absurd h hempty
          · exact h
      have hwas : statusOf w doc.1 = some PricingStatus.pending := by
        unfold statusOf; rw [hget]; simp [hpending]
      rw [hid]
      refine ⟨hwas, hclaimed, ?_, ?_⟩
      · intro id
        rcases processSnapshotOnce_snapshots R env C w1 snapshot with h | ⟨G, s, _, hG2, hs2, h⟩
        · left; exact statusOf_eq_of_snapshots h id
        · rw [hid] at h
          rcases status_modify w1.competitorSnapshots doc.1 hG2 id with h' | ⟨hid', _, h'⟩
          · left; unfold statusOf; rw [h]; exact h'
          · right
            refine ⟨hid', ?_⟩
            have hnew : statusOf (processSnapshotOnce R env C w1 snapshot).2 id = some s := by
              unfold statusOf; rw [h]; exact h'
            rcases hs2 with hs2 | hs2
            · left; rw [hnew, hs2]
            · right; rw [hnew, hs2]
      · rcases processSnapshotOnce_snapshots R env C w1 snapshot with h | ⟨G, s, hG1, _, _, h⟩
        · rw [h]; exact hw1
        · rw [h]; exact hw1.modify _ hG1

/-- C10, as amended.  With one worker, on a well-formed snapshot collection (no
two documents share an id, and the `snapshotId` field of a document is absent
or is its id), one step of the worker moves the `pricingStatus` of the documents only along
`pending → processing → completed` or `pending → processing → failed`:
`fetchNextPendingSnapshot` changes no status except from `pending` to
`processing`, the snapshot it returns is then `processing`, and
`processSnapshotOnce` on it changes no status except from `processing` to
`completed` or `failed`.  Both stages keep the collection well formed, so the
statement holds along every run of `loopIteration`. -/
theorem pricingStatus_transitions (R : Runtime) (env : Env) (C : Collaborators) (w : World)
    (hw : WellFormed w.competitorSnapshots) :
    (∀ id, statusOf (fetchNextPendingSnapshot C w).2 id = statusOf w id
        ∨ (statusOf w id = some PricingStatus.pending
            ∧ statusOf (fetchNextPendingSnapshot C w).2 id = some PricingStatus.processing))
    ∧ WellFormed (fetchNextPendingSnapshot C w).2.competitorSnapshots
    ∧ (∀ snapshot, (fetchNextPendingSnapshot C w).1 = Except.ok (some snapshot) →
        statusOf (fetchNextPendingSnapshot C w).2 snapshot.snapshotId
          = some PricingStatus.processing
        ∧ (∀ id,
            statusOf (processSnapshotOnce R env C (fetchNextPendingSnapshot C w).2 snapshot).2 id
              = statusOf (fetchNextPendingSnapshot C w).2 id
            ∨ (statusOf (fetchNextPendingSnapshot C w).2 id = some PricingStatus.processing
                ∧ (statusOf
                      (processSnapshotOnce R env C (fetchNextPendingSnapshot C w).2 snapshot).2 id
                      = some PricingStatus.completed
                    ∨ statusOf
                      (processSnapshotOnce R env C (fetchNextPendingSnapshot C w).2 snapshot).2 id
                      = some PricingStatus.failed)))
        ∧ WellFormed
            (processSnapshotOnce R env C (fetchNextPendingSnapshot C w).2
              snapshot).2.competitorSnapshots)
    ∧ WellFormed (loopIteration R env C w).competitorSnapshots
    ∧ (∀ id, statusOf (loopIteration R env C w) id = statusOf w id
        ∨ (statusOf w id = some PricingStatus.pending
            ∧ (statusOf (loopIteration R env C w) id = some PricingStatus.processing
              ∨ statusOf (loopIteration R env C w) id = some PricingStatus.completed
              ∨ statusOf (loopIteration R env C w) id = some PricingStatus.failed))) := by
  have key := fetch_then_process R env C w (fetchNextPendingSnapshot C w).2
    (fetchNextPendingSnapshot C w).1 hw rfl
  refine ⟨key.1, key.2.1, ?_, ?_, ?_⟩
  · intro snapshot hs
    obtain ⟨_, hclaimed, hproc, hwf⟩ := key.2.2 snapshot hs
    refine ⟨hclaimed, ?_, hwf⟩
    intro id
    rcases hproc id with h | ⟨hid, h⟩
    · left; exact h
    · right; exact ⟨by rw [hid]; exact hclaimed, h⟩
  · unfold loopIteration
    rcases hf : fetchNextPendingSnapshot C w with ⟨r, w1⟩
    rw [hf] at key
    rcases r with e | _ | snapshot
    · exact key.2.1
    · exact key.2.1
    · exact (key.2.2 snapshot rfl).2.2.2
  · intro id
    unfold loopIteration
    rcases hf : fetchNextPendingSnapshot C w with ⟨r, w1⟩
    rw [hf] at key
    simp only at key
    rcases r with e | _ | snapshot
    · rcases key.1 id with h | h
      · left; exact h
      · right; exact ⟨h.1, Or.inl h.2⟩
    · rcases key.1 id with h | h
      · left; exact h
      · right; exact ⟨h.1, Or.inl h.2⟩
    · simp only
      obtain ⟨hwas, _, hproc, _⟩ := key.2.2 snapshot rfl
      rcases hproc id with h2 | ⟨hid, h2⟩
      · rw [h2]
        rcases key.1 id with h | h
        · left; exact h
        · right; exact ⟨h.1, Or.inl h.2⟩
      · right
        refine ⟨by rw [hid]; exact hwas, Or.inr h2⟩

/-- Witness of C10 as amended: a store with a completed snapshot and a pending one whose
product is missing; the iteration claims the pending snapshot and fails it. -/
theorem pricingStatus_transitions_witness :
    WellFormed Example.queueWorld.competitorSnapshots
    ∧ statusOf Example.queueWorld "snap-2" = some PricingStatus.pending
    ∧ statusOf (fetchNextPendingSnapshot Example.steadyCollaborators Example.queueWorld).2 "snap-2"
        = some PricingStatus.processing
    ∧ statusOf (loopIteration (ieeeRuntime sampleNumberToString) {} Example.steadyCollaborators
        Example.queueWorld) "snap-2" = some PricingStatus.failed
    ∧ WellFormed (loopIteration (ieeeRuntime sampleNumberToString) {} Example.steadyCollaborators
        Example.queueWorld).competitorSnapshots :=
  ⟨⟨by decide!, by decide!⟩, by decide!, by decide!, by decide!,
   (pricingStatus_transitions (ieeeRuntime sampleNumberToString) {} Example.steadyCollaborators
      Example.queueWorld ⟨by decide!, by decide!⟩).2.2.2.1⟩

end PricingWorker
end PorfitOptima

namespace PorfitOptima
namespace AiSchema

/-! ## The AI response validator -/

theorem number_eq_some {v : Option Json} {x : ℚ} : number v = some x ↔ v = some (Json.num x) := by
  unfold number
  split <;> simp_all

theorem string_eq_some {v : Option Json} {s : String} :
    string v = some s ↔ v = some (Json.str s) := by
  unfold string
  split <;> simp_all

theorem optionalString_eq_some {v : Option Json} {r : Option String} :
    optionalString v = some r ↔ v = r.map Json.str := by
  unfold optionalString
  split <;> cases r <;> simp_all

theorem strategy_eq_some {v : Option Json} {t : Strategy} :
    strategy v = some t →
      ∃ s, v = some (Json.str s)
        ∧ (s = "maximize_profit" ∨ s = "stay_competitive" ∨ s = "clear_inventory") := by
  unfold strategy
  split
  · rename_i s
    intro h
    refine ⟨s, rfl, ?_⟩
    split_ifs at h with h1 h2 h3
    · exact Or.inl h1
    · exact Or.inr (Or.inl h2)
    · exact Or.inr (Or.inr h3)
  · intro h; simp at h

theorem numberPair_eq_some {v : Option Json} {p : ℚ × ℚ} :
    numberPair v = some p ↔ v = some (Json.arr [Json.num p.1, Json.num p.2]) := by
  unfold numberPair
  split
  · rename_i a b
    constructor
    · intro h; simp only [Option.some.injEq] at h; rw [← h]
    · intro h
      simp only [Option.some.injEq, Json.arr.injEq, List.cons.injEq, Json.num.injEq, and_true] at h
      obtain ⟨h1, h2⟩ := h
      rw [h1, h2]
  · rename_i hne
    constructor
    · intro h; simp at h
    · intro h; exact absurd h (hne p.1 p.2)

theorem unitNumber_eq_some {v : Option Json} {x : ℚ} :
    unitNumber v = some x ↔ v = some (Json.num x) ∧ 0 ≤ x ∧ x ≤ 1 := by
  unfold unitNumber
  cases hn : number v with
  | none =>
    constructor
    · intro h; simp at h
    · intro h
      rw [number_eq_some.mpr h.1] at hn
      simp at hn
  | some y =>
    have hy := number_eq_some.mp hn
    simp only
    split_ifs with hb
    · constructor
      · intro h; simp only [Option.some.injEq] at h; rw [← h]; exact ⟨hy, hb⟩
      · intro h; rw [hy] at h; simp only [Option.some.injEq, Json.num.injEq] at h; rw [h.1]
    · simp only [false_iff]
      intro h
      rw [hy] at h; simp only [Option.some.injEq, Json.num.injEq] at h
      rw [h.1] at hb; exact hb h.2

theorem collect_eq_some {α : Type} {l : List (Option α)} {r : List α} :
    collect l = some r ↔ l = r.map some := by
  induction l generalizing r with
  | nil => cases r <;> simp [collect]
  | cons a l ih =>
    cases a with
    | none => cases r <;> simp [collect]
    | some a =>
      unfold collect
      cases hc : collect l with
      | none =>
        cases r with
        | nil => simp
        | cons b r =>
          constructor
          · intro h; simp at h
          · intro h
            simp only [List.map_cons, List.cons.injEq, Option.some.injEq] at h
            rw [ih.mpr h.2] at hc
            simp at hc
      | some as =>
        have := ih.mp hc
        cases r with
        | nil => simp
        | cons b r =>
          simp only [Option.some.injEq, List.cons.injEq, List.map_cons, this]
          constructor
          · rintro ⟨h1, h2⟩; exact ⟨h1, by rw [h2]⟩
          · rintro ⟨h1, h2⟩
            exact ⟨h1, List.map_injective_iff.mpr (Option.some_injective α) h2⟩

end AiSchema
end PorfitOptima

namespace PorfitOptima
namespace AiSchema

theorem competitorPrice_eq_some {item : Json} {e : PricingWorker.AiCompetitorPrice} :
    competitorPrice item = some e ↔
      (∃ fields, item = Json.obj fields)
      ∧ item.field "name" = some (Json.str e.name)
      ∧ item.field "price" = some (Json.num e.price)
      ∧ item.field "currency" = e.currency.map Json.str
      ∧ item.field "url" = e.url.map Json.str
      ∧ item.field "source" = e.source.map Json.str
      ∧ item.field "lastVerified" = e.lastVerified.map Json.str := by
  cases item with
  | obj fields =>
    unfold competitorPrice
    simp only
    constructor
    · intro h
      split at h
      · rename_i name price currency url source lastVerified h1 h2 h3 h4 h5 h6
        simp only [Option.some.injEq] at h
        rw [← h]
        exact ⟨⟨fields, rfl⟩, string_eq_some.mp h1, number_eq_some.mp h2,
          optionalString_eq_some.mp h3, optionalString_eq_some.mp h4,
          optionalString_eq_some.mp h5, optionalString_eq_some.mp h6⟩
      · simp at h
    · rintro ⟨_, h1, h2, h3, h4, h5, h6⟩
      rw [string_eq_some.mpr h1, number_eq_some.mpr h2, optionalString_eq_some.mpr h3,
        optionalString_eq_some.mpr h4, optionalString_eq_some.mpr h5,
        optionalString_eq_some.mpr h6]
  | null => simp [competitorPrice]
  | bool b => simp [competitorPrice]
  | num x => simp [competitorPrice]
  | str s => simp [competitorPrice]
  | arr items => simp [competitorPrice]

theorem competitorPrices_eq_some {v : Option Json}
    {entries : List PricingWorker.AiCompetitorPrice} :
    competitorPrices v = some entries ↔
      ∃ items, v = some (Json.arr items) ∧ items.map competitorPrice = entries.map some
        ∧ 1 ≤ entries.length := by
  unfold competitorPrices
  split
  · rename_i items
    cases hc : collect (items.map competitorPrice) with
    | none =>
      constructor
      · intro h; simp at h
      · rintro ⟨items', h1, h2, _⟩
        simp only [Option.some.injEq, Json.arr.injEq] at h1
        rw [h1, collect_eq_some.mpr h2] at hc
        simp at hc
    | some es =>
      have hes := collect_eq_some.mp hc
      simp only
      split_ifs with hlen
      · constructor
        · intro h
          simp only [Option.some.injEq] at h
          rw [← h]
          exact ⟨items, rfl, hes, hlen⟩
        · rintro ⟨items', h1, h2, _⟩
          simp only [Option.some.injEq, Json.arr.injEq] at h1
          rw [← h1, hes] at h2
          rw [List.map_injective_iff.mpr (Option.some_injective _) h2]
      · constructor
        · intro h; simp at h
        · rintro ⟨items', h1, h2, h3⟩
          simp only [Option.some.injEq, Json.arr.injEq] at h1
          rw [← h1, hes] at h2
          rw [List.map_injective_iff.mpr (Option.some_injective _) h2] at hlen
          exact absurd h3 hlen
  · rename_i hne
    constructor
    · intro h; simp at h
    · rintro ⟨items, h1, _, _⟩
      exact absurd h1 (hne items)

theorem map_string_eq_map_some (items : List Json) (entries : List String) :
    items.map (fun item => string (some item)) = entries.map some
      ↔ items = entries.map Json.str := by
  induction items generalizing entries with
  | nil => cases entries <;> simp
  | cons a items ih =>
    cases entries with
    | nil => simp
    | cons b entries =>
      simp only [List.map_cons, List.cons.injEq]
      rw [ih, string_eq_some]
      simp

theorem stringList_eq_some {v : Option Json} {entries : List String} :
    stringList v = some entries ↔
      v = some (Json.arr (entries.map Json.str)) ∧ 1 ≤ entries.length := by
  unfold stringList
  split
  · rename_i items
    cases hc : collect (items.map (fun item => string (some item))) with
    | none =>
      constructor
      · intro h; simp at h
      · rintro ⟨h1, _⟩
        simp only [Option.some.injEq, Json.arr.injEq] at h1
        rw [collect_eq_some.mpr ((map_string_eq_map_some items entries).mpr h1)] at hc
        simp at hc
    | some es =>
      have hes := collect_eq_some.mp hc
      simp only
      split_ifs with hlen
      · constructor
        · intro h
          simp only [Option.some.injEq] at h
          rw [← h]
          refine ⟨?_, hlen⟩
          rw [(map_string_eq_map_some items es).mp hes]
        · rintro ⟨h1, _⟩
          simp only [Option.some.injEq, Json.arr.injEq] at h1
          have := (map_string_eq_map_some items entries).mpr h1
          rw [hes] at this
          rw [List.map_injective_iff.mpr (Option.some_injective _) this]
      · constructor
        · intro h; simp at h
        · rintro ⟨h1, h3⟩
          simp only [Option.some.injEq, Json.arr.injEq] at h1
          have := (map_string_eq_map_some items entries).mpr h1
          rw [hes] at this
          rw [List.map_injective_iff.mpr (Option.some_injective _) this] at hlen
          exact absurd h3 hlen
  · rename_i hne
    constructor
    · intro h; simp at h
    · rintro ⟨h1, _⟩
      exact absurd h1 (hne _)

/-- The validator, field by field. -/
theorem AiResponseSchema_eq_some {j : Json} {r : PricingWorker.AiResponse} :
    AiResponseSchema j = some r ↔
      (∃ fields, j = Json.obj fields)
      ∧ number (j.field "recommendedPrice") = some r.recommendedPrice
      ∧ number (j.field "optimalPrice") = some r.optimalPrice
      ∧ number (j.field "expectedMargin") = some r.expectedMargin
      ∧ strategy (j.field "strategy") = some r.strategy
      ∧ numberPair (j.field "priceBand") = some r.priceBand
      ∧ unitNumber (j.field "confidence") = some r.confidence
      ∧ competitorPrices (j.field "competitorPrices") = some r.competitorPrices
      ∧ string (j.field "marketValueSummary") = some r.marketValueSummary
      ∧ string (j.field "methodology") = some r.methodology
      ∧ stringList (j.field "dataSources") = some r.dataSources
      ∧ string (j.field "rationale") = some r.rationale
      ∧ number (j.field "nextCheckHours") = some r.nextCheckHours := by
  cases j with
  | obj fields =>
    unfold AiResponseSchema
    simp only
    constructor
    · intro h
      split at h
      · rename_i h1 h2 h3 h4 h5 h6 h7 h8 h9 h10 h11 h12
        simp only [Option.some.injEq] at h
        rw [← h]
        exact ⟨⟨fields, rfl⟩, h1, h2, h3, h4, h5, h6, h7, h8, h9, h10, h11, h12⟩
      · simp at h
    · rintro ⟨_, h1, h2, h3, h4, h5, h6, h7, h8, h9, h10, h11, h12⟩
      rw [h1, h2, h3, h4, h5, h6, h7, h8, h9, h10, h11, h12]
  | null => simp [AiResponseSchema]
  | bool b => simp [AiResponseSchema]
  | num x => simp [AiResponseSchema]
  | str s => simp [AiResponseSchema]
  | arr items => simp [AiResponseSchema]

end AiSchema
end PorfitOptima

namespace PorfitOptima
namespace AiSchema

theorem competitorPrice_shape {item : Json} {e : PricingWorker.AiCompetitorPrice}
    (h : competitorPrice item = some e) : Spec.CompetitorPriceShape item := by
  obtain ⟨hobj, h1, h2, h3, h4, h5, h6⟩ := competitorPrice_eq_some.mp h
  refine ⟨hobj, ⟨_, h1⟩, ⟨_, h2⟩, ?_⟩
  intro key hkey
  simp only [List.mem_cons, List.mem_singleton, List.not_mem_nil, or_false] at hkey
  rcases hkey with rfl | rfl | rfl | rfl
  · rw [h3]; cases e.currency <;> simp
  · rw [h4]; cases e.url <;> simp
  · rw [h5]; cases e.source <;> simp
  · rw [h6]; cases e.lastVerified <;> simp

theorem competitorPrice_of_shape {item : Json} (h : Spec.CompetitorPriceShape item) :
    ∃ e, competitorPrice item = some e := by
  obtain ⟨hobj, ⟨name, h1⟩, ⟨price, h2⟩, hopt⟩ := h
  have opt : ∀ key ∈ ["currency", "url", "source", "lastVerified"],
      ∃ r : Option String, item.field key = r.map Json.str := by
    intro key hkey
    rcases hopt key hkey with h | ⟨s, h⟩
    · exact ⟨none, h⟩
    · exact ⟨some s, h⟩
  obtain ⟨c, hc⟩ := opt "currency" (by simp)
  obtain ⟨u, hu⟩ := opt "url" (by simp)
  obtain ⟨so, hso⟩ := opt "source" (by simp)
  obtain ⟨lv, hlv⟩ := opt "lastVerified" (by simp)
  exact ⟨{ name := name, price := price, currency := c, url := u, source := so,
           lastVerified := lv },
    competitorPrice_eq_some.mpr ⟨hobj, h1, h2, hc, hu, hso, hlv⟩⟩

theorem map_competitorPrice_of_shape (items : List Json)
    (h : ∀ item ∈ items, Spec.CompetitorPriceShape item) :
    ∃ entries : List PricingWorker.AiCompetitorPrice,
      items.map competitorPrice = entries.map some ∧ entries.length = items.length := by
  induction items with
  | nil => exact ⟨[], rfl, rfl⟩
  | cons a items ih =>
    obtain ⟨entries, he, hl⟩ := ih (fun item hi => h item (List.mem_cons_of_mem _ hi))
    obtain ⟨e, hea⟩ := competitorPrice_of_shape (h a (List.mem_cons_self _ _))
    exact ⟨e :: entries, by simp [hea, he], by simp [hl]⟩

theorem strategy_of_mem {s : String}
    (h : s ∈ ["maximize_profit", "stay_competitive", "clear_inventory"]) :
    ∃ t, strategy (some (Json.str s)) = some t := by
  simp only [List.mem_cons, List.mem_singleton, List.not_mem_nil, or_false] at h
  rcases h with rfl | rfl | rfl
  · exact ⟨Strategy.maximize_profit, by simp [strategy]⟩
  · exact ⟨Strategy.stay_competitive, by simp [strategy]⟩
  · exact ⟨Strategy.clear_inventory, by simp [strategy]⟩

/-- An accepted value has the required shape, and the validated response
carries the values of its fields. -/
theorem shape_of_accepted {j : Json} {r : PricingWorker.AiResponse}
    (h : AiResponseSchema j = some r) :
    Spec.RequiredShape j
    ∧ j.field "recommendedPrice" = some (Json.num r.recommendedPrice)
    ∧ j.field "optimalPrice" = some (Json.num r.optimalPrice)
    ∧ j.field "expectedMargin" = some (Json.num r.expectedMargin)
    ∧ j.field "priceBand" = some (Json.arr [Json.num r.priceBand.1, Json.num r.priceBand.2])
    ∧ j.field "confidence" = some (Json.num r.confidence)
    ∧ j.field "marketValueSummary" = some (Json.str r.marketValueSummary)
    ∧ j.field "methodology" = some (Json.str r.methodology)
    ∧ j.field "dataSources" = some (Json.arr (r.dataSources.map Json.str))
    ∧ j.field "rationale" = some (Json.str r.rationale)
    ∧ j.field "nextCheckHours" = some (Json.num r.nextCheckHours) := by
  obtain ⟨hobj, h1, h2, h3, h4, h5, h6, h7, h8, h9, h10, h11, h12⟩ :=
    AiResponseSchema_eq_some.mp h
  have e1 := number_eq_some.mp h1
  have e2 := number_eq_some.mp h2
  have e3 := number_eq_some.mp h3
  obtain ⟨s, e4, hs⟩ := strategy_eq_some h4
  have e5 := numberPair_eq_some.mp h5
  obtain ⟨e6, hlo, hhi⟩ := unitNumber_eq_some.mp h6
  obtain ⟨items, e7, hitems, hlen⟩ := competitorPrices_eq_some.mp h7
  have e8 := string_eq_some.mp h8
  have e9 := string_eq_some.mp h9
  obtain ⟨e10, hlen10⟩ := stringList_eq_some.mp h10
  have e11 := string_eq_some.mp h11
  have e12 := number_eq_some.mp h12
  refine ⟨⟨hobj, ?_, ⟨s, e4, by simpa using hs⟩, ⟨_, _, e5⟩, ⟨_, e6, hlo, hhi⟩,
    ⟨items, e7, ?_, ?_⟩, ?_, ⟨r.dataSources, e10, ?_⟩⟩,
    e1, e2, e3, e5, e6, e8, e9, e10, e11, e12⟩
  · intro key hkey
    simp only [List.mem_cons, List.mem_singleton, List.not_mem_nil, or_false] at hkey
    rcases hkey with rfl | rfl | rfl | rfl
    · exact ⟨_, e1⟩
    · exact ⟨_, e2⟩
    · exact ⟨_, e3⟩
    · exact ⟨_, e12⟩
  · intro hnil
    rw [hnil] at hitems
    have : r.competitorPrices = [] := by
      cases hcp : r.competitorPrices with
      | nil => rfl
      | cons a l => rw [hcp] at hitems; simp at hitems
    rw [this] at hlen; simp at hlen
  · intro item hitem
    have hmem : competitorPrice item ∈ items.map competitorPrice := List.mem_map_of_mem _ hitem
    rw [hitems] at hmem
    obtain ⟨e, _, he⟩ := List.mem_map.mp hmem
    exact competitorPrice_shape he.symm
  · intro key hkey
    simp only [List.mem_cons, List.mem_singleton, List.not_mem_nil, or_false] at hkey
    rcases hkey with rfl | rfl | rfl
    · exact ⟨_, e8⟩
    · exact ⟨_, e9⟩
    · exact ⟨_, e11⟩
  · intro hnil; rw [hnil] at hlen10; simp at hlen10

/-- A value of the required shape is accepted. -/
theorem accepted_of_shape {j : Json} (h : Spec.RequiredShape j) :
    ∃ r, AiResponseSchema j = some r := by
  obtain ⟨hobj, hnum, ⟨s, hs, hmem⟩, ⟨a, b, hband⟩, ⟨c, hc, hlo, hhi⟩,
    ⟨items, hitems, hne, hshape⟩, hstr, ⟨sources, hsrc, hsne⟩⟩ := h
  obtain ⟨x1, h1⟩ := hnum "recommendedPrice" (by simp)
  obtain ⟨x2, h2⟩ := hnum "optimalPrice" (by simp)
  obtain ⟨x3, h3⟩ := hnum "expectedMargin" (by simp)
  obtain ⟨x12, h12⟩ := hnum "nextCheckHours" (by simp)
  obtain ⟨t, ht⟩ := strategy_of_mem hmem
  obtain ⟨entries, hentries, hlen⟩ := map_competitorPrice_of_shape items hshape
  obtain ⟨s8, h8⟩ := hstr "marketValueSummary" (by simp)
  obtain ⟨s9, h9⟩ := hstr "methodology" (by simp)
  obtain ⟨s11, h11⟩ := hstr "rationale" (by simp)
  have hlen1 : 1 ≤ entries.length := by
    rw [hlen]
    cases items with
    | nil => exact absurd rfl hne
    | cons a l => simp
  have hlen2 : 1 ≤ sources.length := by
    cases sources with
    | nil => exact absurd rfl hsne
    | cons a l => simp
  refine ⟨{ recommendedPrice := x1, optimalPrice := x2, expectedMargin := x3, strategy := t,
            priceBand := (a, b), confidence := c, competitorPrices := entries,
            marketValueSummary := s8, methodology := s9, dataSources := sources,
            rationale := s11, nextCheckHours := x12 }, ?_⟩
  refine AiResponseSchema_eq_some.mpr ⟨hobj, number_eq_some.mpr h1, number_eq_some.mpr h2,
    number_eq_some.mpr h3, by rw [hs]; exact ht, numberPair_eq_some.mpr hband,
    unitNumber_eq_some.mpr ⟨hc, hlo, hhi⟩,
    competitorPrices_eq_some.mpr ⟨items, hitems, hentries, hlen1⟩,
    string_eq_some.mpr h8, string_eq_some.mpr h9, stringList_eq_some.mpr ⟨hsrc, hlen2⟩,
    string_eq_some.mpr h11, number_eq_some.mpr h12⟩

end AiSchema
end PorfitOptima

namespace PorfitOptima
namespace AiSchema

theorem rejected_of_not_shape {j : Json} (h : ¬ Spec.RequiredShape j) :
    AiResponseSchema j = none := by
  cases hr : AiResponseSchema j with
  | none => rfl
  | some r => exact absurd (shape_of_accepted hr).1 h

theorem minimalResponse_accepted :
    AiResponseSchema Example.minimalResponse = some Example.aiResponse := by
  decide!

theorem minimalResponse_shape : Spec.RequiredShape Example.minimalResponse :=
  (shape_of_accepted minimalResponse_accepted).1

/-- C12.  Every response that `AiResponseSchema` accepts has the required
shape: the twelve required fields with their declared types, a strategy of the
enumeration, a band of exactly two numbers, a confidence in `[0, 1]`, a
non-empty list of competitor prices whose entries have a string `name` and a
numeric `price`, and a non-empty list of strings as data sources.  So a
response is rejected when it misses one of the twelve fields, when its strategy
is a string outside the enumeration, when its confidence is below 0 or above 1,
and when `competitorPrices` or `dataSources` is the empty list. -/
theorem accepted_has_required_shape :
    (∀ (j : Json) (r : PricingWorker.AiResponse), AiResponseSchema j = some r →
        Spec.RequiredShape j)
    ∧ (∀ (j : Json) (key : String),
        key ∈ ["recommendedPrice", "optimalPrice", "expectedMargin", "strategy", "priceBand",
          "confidence", "competitorPrices", "marketValueSummary", "methodology", "dataSources",
          "rationale", "nextCheckHours"] →
        j.field key = none → AiResponseSchema j = none)
    ∧ (∀ (j : Json) (s : String), j.field "strategy" = some (Json.str s) →
        s ∉ ["maximize_profit", "stay_competitive", "clear_inventory"] →
        AiResponseSchema j = none)
    ∧ (∀ (j : Json) (c : ℚ), j.field "confidence" = some (Json.num c) → (c < 0 ∨ 1 < c) →
        AiResponseSchema j = none)
    ∧ (∀ j : Json, j.field "competitorPrices" = some (Json.arr []) → AiResponseSchema j = none)
    ∧ (∀ j : Json, j.field "dataSources" = some (Json.arr []) → AiResponseSchema j = none) := by
  refine ⟨fun j r h => (shape_of_accepted h).1, ?_, ?_, ?_, ?_, ?_⟩
  · intro j key hkey hnone
    apply rejected_of_not_shape
    rintro ⟨_, hnum, ⟨s, hs, _⟩, ⟨a, b, hband⟩, ⟨c, hc, _⟩, ⟨items, hitems, _⟩, hstr,
      ⟨sources, hsrc, _⟩⟩
    simp only [List.mem_cons, List.mem_singleton, List.not_mem_nil, or_false] at hkey
    rcases hkey with rfl | rfl | rfl | rfl | rfl | rfl | rfl | rfl | rfl | rfl | rfl | rfl
    · obtain ⟨x, hx⟩ := hnum "recommendedPrice" (by simp); rw [hnone] at hx; simp at hx
    · obtain ⟨x, hx⟩ := hnum "optimalPrice" (by simp); rw [hnone] at hx; simp at hx
    · obtain ⟨x, hx⟩ := hnum "expectedMargin" (by simp); rw [hnone] at hx; simp at hx
    · rw [hnone] at hs; simp at hs
    · rw [hnone] at hband; simp at hband
    · rw [hnone] at hc; simp at hc
    · rw [hnone] at hitems; simp at hitems
    · obtain ⟨x, hx⟩ := hstr "marketValueSummary" (by simp); rw [hnone] at hx; simp at hx
    · obtain ⟨x, hx⟩ := hstr "methodology" (by simp); rw [hnone] at hx; simp at hx
    · rw [hnone] at hsrc; simp at hsrc
    · obtain ⟨x, hx⟩ := hstr "rationale" (by simp); rw [hnone] at hx; simp at hx
    · obtain ⟨x, hx⟩ := hnum "nextCheckHours" (by simp); rw [hnone] at hx; simp at hx
  · intro j s hs hnot
    apply rejected_of_not_shape
    rintro ⟨_, _, ⟨s', hs', hmem⟩, _⟩
    rw [hs] at hs'
    simp only [Option.some.injEq, Json.str.injEq] at hs'
    rw [hs'] at hnot
    exact hnot hmem
  · intro j c hc hout
    apply rejected_of_not_shape
    rintro ⟨_, _, _, _, ⟨c', hc', hlo, hhi⟩, _⟩
    rw [hc] at hc'
    simp only [Option.some.injEq, Json.num.injEq] at hc'
    rw [← hc'] at hlo hhi
    rcases hout with h | h
    · exact absurd hlo (not_le.mpr h)
    · exact absurd hhi (not_le.mpr h)
  · intro j hj
    apply rejected_of_not_shape
    rintro ⟨_, _, _, _, _, ⟨items, hitems, hne, _⟩, _⟩
    rw [hj] at hitems
    simp only [Option.some.injEq, Json.arr.injEq] at hitems
    exact hne hitems.symm
  · intro j hj
    apply rejected_of_not_shape
    rintro ⟨_, _, _, _, _, _, _, ⟨sources, hsrc, hne⟩⟩
    rw [hj] at hsrc
    simp only [Option.some.injEq, Json.arr.injEq] at hsrc
    cases sources with
    | nil => exact hne rfl
    | cons a l => simp at hsrc

/-- Witness of C12: the minimal response without `dataSources`, and the minimal
response with `strategy: "discount"`, are rejected. -/
theorem accepted_has_required_shape_witness :
    AiResponseSchema (Example.withoutField Example.minimalResponse "dataSources") = none
    ∧ AiResponseSchema
        (Example.withField Example.minimalResponse "strategy" (Json.str "discount")) = none :=
  ⟨accepted_has_required_shape.2.1 _ "dataSources" (by simp) rfl,
   accepted_has_required_shape.2.2.1 _ "discount" rfl (by decide)⟩

/-- C13.  `AiResponseSchema` accepts every response of the required shape:
the twelve required fields with the declared types, a strategy of the
enumeration, a two-number band, a confidence in `[0, 1]` with both ends
included, at least one competitor entry, each entry with `name` and `price` and
with `currency`, `url`, `source`, `lastVerified` absent or strings, and at least
one data source. -/
theorem required_shape_is_accepted (j : Json) (h : Spec.RequiredShape j) :
    ∃ r : PricingWorker.AiResponse, AiResponseSchema j = some r :=
  accepted_of_shape h

/-- Witness of C13: the minimal fully valid object, with one competitor entry
and confidence 0.5, is accepted. -/
theorem required_shape_is_accepted_witness :
    ∃ r : PricingWorker.AiResponse, AiResponseSchema Example.minimalResponse = some r :=
  required_shape_is_accepted Example.minimalResponse minimalResponse_shape

/-- C14, as amended.  `AiResponseSchema` requires `marketValueSummary`,
`methodology` and `rationale` to be strings: an accepted response has a string
in each.  It does not require them to be non-empty: a response of the required
shape whose three strings are empty is accepted, with the empty strings in the
validated response. -/
theorem strings_may_be_empty :
    (∀ (j : Json) (r : PricingWorker.AiResponse), AiResponseSchema j = some r →
        j.field "marketValueSummary" = some (Json.str r.marketValueSummary)
        ∧ j.field "methodology" = some (Json.str r.methodology)
        ∧ j.field "rationale" = some (Json.str r.rationale))
    ∧ (∀ j : Json, Spec.RequiredShape j →
        j.field "marketValueSummary" = some (Json.str "") →
        j.field "methodology" = some (Json.str "") →
        j.field "rationale" = some (Json.str "") →
        ∃ r : PricingWorker.AiResponse, AiResponseSchema j = some r
          ∧ r.marketValueSummary = "" ∧ r.methodology = "" ∧ r.rationale = "") := by
  refine ⟨fun j r h => ?_, fun j hshape h1 h2 h3 => ?_⟩
  · obtain ⟨_, _, _, _, _, _, e8, e9, _, e11, _⟩ := shape_of_accepted h
    exact ⟨e8, e9, e11⟩
  · obtain ⟨r, hr⟩ := accepted_of_shape hshape
    obtain ⟨_, _, _, _, _, _, e8, e9, _, e11, _⟩ := shape_of_accepted hr
    rw [h1] at e8; rw [h2] at e9; rw [h3] at e11
    simp only [Option.some.injEq, Json.str.injEq] at e8 e9 e11
    exact ⟨r, hr, e8.symm, e9.symm, e11.symm⟩

/-- C14 fails as stated: the minimal valid response with `marketValueSummary`,
`methodology` and `rationale` all set to the empty string is accepted. -/
theorem empty_strings_accepted :
    (AiResponseSchema
      (Example.withField
        (Example.withField
          (Example.withField Example.minimalResponse "marketValueSummary" (Json.str ""))
          "methodology" (Json.str ""))
        "rationale" (Json.str ""))).isSome = true
    ∧ (AiResponseSchema
        (Example.withField Example.minimalResponse "rationale" (Json.str ""))).isSome = true := by
  decide!

/-- Witness of C14 as amended: the minimal response with the three strings
empty. -/
theorem strings_may_be_empty_witness :
    ∃ r : PricingWorker.AiResponse,
      AiResponseSchema
        (Example.withField
          (Example.withField
            (Example.withField Example.minimalResponse "marketValueSummary" (Json.str ""))
            "methodology" (Json.str ""))
          "rationale" (Json.str "")) = some r
      ∧ r.marketValueSummary = "" ∧ r.methodology = "" ∧ r.rationale = "" :=
  strings_may_be_empty.2 _
    (shape_of_accepted
      (by decide! :
        AiResponseSchema
          (Example.withField
            (Example.withField
              (Example.withField Example.minimalResponse "marketValueSummary" (Json.str ""))
              "methodology" (Json.str ""))
            "rationale" (Json.str ""))
          = some { Example.aiResponse with marketValueSummary := "", methodology := "",
                                           rationale := "" })).1
    rfl rfl rfl

end AiSchema
end PorfitOptima

namespace PorfitOptima
namespace PricingWorker

/-- The AI path with a store that ignores undefined properties.  For a claimed
snapshot (its document exists) whose product exists, if the model returns a
text that `JSON.parse` parses and `AiResponseSchema` accepts, and the store
accepts the three calls of the run, `processSnapshotOnce` returns normally and
writes one insight, under a fresh id, with `strategySource = "ai"`, with the
`recommendedPrice`, `priceBand`, `expectedMargin`, `rationale` and `dataSources`
of the validated response, `metadata.confidence` its confidence and no
`fallbackReason`; the snapshot ends `completed` with `pricingInsightId` the id
of that insight. -/
theorem processSnapshotOnce_ai (R : Runtime) (env : Env) (C : Collaborators) (w : World)
    (snapshot : CompetitorSnapshotDoc) (product : ProductDoc)
    (complete : ℕ → Payload.PricingPayload → Except Thrown (Option String))
    (jsonParse : String → Except Thrown Json) (zodError : Json → Thrown)
    (text : String) (json : Json) (ai : AiResponse)
    (hC : C.callOpenAi = callOpenAi complete jsonParse zodError)
    (hignore : C.ignoreUndefinedProperties = true)
    (hget : C.storeFails w.storeCalls = none)
    (hset : C.storeFails (w.storeCalls + 1) = none)
    (hupdate : C.storeFails (w.storeCalls + 2) = none)
    (hdoc : (w.competitorSnapshots.get snapshot.snapshotId).isSome)
    (hprod : w.products.get snapshot.productId = some product)
    (hcomplete : complete w.aiRequests.length (Payload.buildPricingPayload R product snapshot)
      = Except.ok (some text))
    (hjson : jsonParse text = Except.ok json)
    (hvalid : AiSchema.AiResponseSchema json = some ai) :
    (processSnapshotOnce R env C w snapshot).1 = Except.ok ()
    ∧ (∃ doc : PricingInsightDoc,
        (processSnapshotOnce R env C w snapshot).2.pricingInsights
            = w.pricingInsights.set (C.autoId w.idsDrawn) doc
        ∧ (w.pricingInsights.get (C.autoId w.idsDrawn) = none →
            (processSnapshotOnce R env C w snapshot).2.pricingInsights
              = w.pricingInsights ++ [(C.autoId w.idsDrawn, doc)])
        ∧ (processSnapshotOnce R env C w snapshot).2.pricingInsights.get (C.autoId w.idsDrawn)
            = some doc
        ∧ doc.insightId = C.autoId w.idsDrawn
        ∧ doc.snapshotId = snapshot.snapshotId
        ∧ doc.productId = snapshot.productId
        ∧ doc.strategySource = StrategySource.ai
        ∧ doc.fallbackReason = none
        ∧ doc.recommendedPrice = ai.recommendedPrice
        ∧ doc.priceBand = ai.priceBand
        ∧ doc.expectedMargin = ai.expectedMargin
        ∧ doc.rationale = ai.rationale
        ∧ doc.dataSources = ai.dataSources
        ∧ doc.metadata.confidence = some ai.confidence)
    ∧ (∃ d : CompetitorSnapshotDoc,
        (processSnapshotOnce R env C w snapshot).2.competitorSnapshots.get snapshot.snapshotId
            = some d
        ∧ d.pricingStatus = PricingStatus.completed
        ∧ d.pricingInsightId = some (C.autoId w.idsDrawn)) := by
  obtain ⟨d0, hd0⟩ := Option.isSome_iff_exists.mp hdoc
  have hcall : C.callOpenAi w.aiRequests.length (Payload.buildPricingPayload R product snapshot)
      = Except.ok ai := by
    rw [hC]
    simp only [callOpenAi, hcomplete, Option.getD_some, hjson, hvalid]
  have hrun : processSnapshotOnce R env C w snapshot
      = (Except.ok (),
         { w.tick.tick.tick with
           aiRequests := w.aiRequests ++ [Payload.buildPricingPayload R product snapshot],
           idsDrawn := w.idsDrawn + 1,
           pricingInsights := w.pricingInsights.set (C.autoId w.idsDrawn)
             (insightDoc env (C.autoId w.idsDrawn) (C.serverTime (w.storeCalls + 1)) snapshot
               StrategySource.ai
               { recommendedPrice := ai.recommendedPrice,
                 priceBand := (ai.priceBand.1, ai.priceBand.2),
                 expectedMargin := ai.expectedMargin,
                 rationale := ai.rationale,
                 dataSources := ai.dataSources,
                 metadata := some { confidence := some ai.confidence } }),
           competitorSnapshots := w.competitorSnapshots.modify snapshot.snapshotId
             (fun d => { d with pricingStatus := PricingStatus.completed,
                                pricingInsightId := some (C.autoId w.idsDrawn),
                                updatedAt := some (C.serverTime (w.storeCalls + 2)) }) }) := by
    simp only [processSnapshotOnce, getProduct, hget, hset, hupdate, hprod, aiAttempt, hcall,
      writeInsight, updateSnapshot, World.tick, hignore,
      Collection.update_isSome _ hdoc, Nat.add_assoc, Nat.reduceAdd, reduceCtorEq, and_false,
      if_false]
  rw [hrun]
  refine ⟨rfl, ⟨_, rfl, ?_, Collection.get_set_self _ _ _, rfl, rfl, rfl, rfl, rfl, rfl, rfl, rfl,
    rfl, rfl, rfl⟩, ?_⟩
  · intro hfresh
    show Collection.set w.pricingInsights _ _ = _
    unfold Collection.set
    rw [hfresh]
    rfl
  · refine ⟨{ d0 with pricingStatus := PricingStatus.completed,
                      pricingInsightId := some (C.autoId w.idsDrawn),
                      updatedAt := some (C.serverTime (w.storeCalls + 2)) }, ?_, rfl, rfl⟩
    have hget' := Collection.get_modify w.competitorSnapshots snapshot.snapshotId
      snapshot.snapshotId (fun d : CompetitorSnapshotDoc =>
        { d with pricingStatus := PricingStatus.completed,
                 pricingInsightId := some (C.autoId w.idsDrawn),
                 updatedAt := some (C.serverTime (w.storeCalls + 2)) })
    rw [hd0] at hget'
    simpa using hget'

/-- The scenario store with a model that returns the minimal valid response as
text and a store that ignores undefined properties. -/
theorem processSnapshotOnce_ai_lenient :
    (processSnapshotOnce (ieeeRuntime sampleNumberToString) {} Example.lenientParsing
        Example.world Example.scenarioSnapshot).1 = Except.ok () :=
  (processSnapshotOnce_ai (ieeeRuntime sampleNumberToString) {} Example.lenientParsing
    Example.world Example.scenarioSnapshot Example.scenarioProduct
    (fun _ _ => Except.ok (some Example.minimalText)) Example.jsonParse
    (fun _ => Thrown.error "invalid response") Example.minimalText Example.minimalResponse
    Example.aiResponse (by simp only [Example.lenientParsing, Example.parsingCollaborators])
    rfl rfl rfl rfl (by decide!)
    rfl rfl (by simp [Example.jsonParse]) AiSchema.minimalResponse_accepted).1

end PricingWorker
end PorfitOptima

namespace PorfitOptima
namespace JobQueue

/-! ## The job queue -/

theorem sanitizeStep_fst_eq_snd (parseUrl : String → Option String)
    (state : List String × List String) (raw : String) (h : state.1 = state.2) :
    (sanitizeStep parseUrl state raw).1 = (sanitizeStep parseUrl state raw).2 := by
  unfold sanitizeStep
  simp only
  split_ifs with h1
  · exact h
  · cases parseUrl (trim raw) with
    | none => exact h
    | some href =>
      simp only
      split_ifs
      · exact h
      · simp [h]

theorem foldl_sanitizeStep_fst_eq_snd (parseUrl : String → Option String) (urls : List String)
    (state : List String × List String) (h : state.1 = state.2) :
    (urls.foldl (sanitizeStep parseUrl) state).1 = (urls.foldl (sanitizeStep parseUrl) state).2 := by
  induction urls generalizing state with
  | nil => exact h
  | cons raw urls ih => exact ih _ (sanitizeStep_fst_eq_snd parseUrl state raw h)

/-- The effect of one more input on the result of `sanitizeUrls`. -/
theorem sanitizeUrls_append_single (parseUrl : String → Option String) (urls : List String)
    (raw : String) :
    sanitizeUrls parseUrl (urls ++ [raw])
      = if trim raw = "" then sanitizeUrls parseUrl urls
        else
          match parseUrl (trim raw) with
          | some href =>
            if href ∈ sanitizeUrls parseUrl urls then sanitizeUrls parseUrl urls
            else sanitizeUrls parseUrl urls ++ [href]
          | none => sanitizeUrls parseUrl urls := by
  have hseen := foldl_sanitizeStep_fst_eq_snd parseUrl urls ([], []) rfl
  unfold sanitizeUrls
  rw [List.foldl_append, List.foldl_cons, List.foldl_nil]
  generalize urls.foldl (sanitizeStep parseUrl) ([], []) = st at hseen ⊢
  unfold sanitizeStep
  simp only
  split_ifs with h1
  · rfl
  · cases parseUrl (trim raw) with
    | none => rfl
    | some href =>
      simp only [hseen]
      split_ifs <;> rfl

theorem validHrefs_append_single (parseUrl : String → Option String) (urls : List String)
    (raw : String) :
    validHrefs parseUrl (urls ++ [raw])
      = validHrefs parseUrl urls
        ++ (if trim raw = "" then [] else (parseUrl (trim raw)).toList) := by
  unfold validHrefs
  rw [List.filterMap_append]
  congr 1
  simp only [List.filterMap_cons, List.filterMap_nil]
  split_ifs with h
  · rfl
  · cases parseUrl (trim raw) <;> rfl

/-- The result of `sanitizeUrls` against the hrefs of the valid inputs: the same
elements, none twice, in the order of their first occurrence. -/
theorem sanitizeUrls_spec (parseUrl : String → Option String) (urls : List String) :
    (sanitizeUrls parseUrl urls).Nodup
    ∧ (∀ u, u ∈ sanitizeUrls parseUrl urls ↔ u ∈ validHrefs parseUrl urls)
    ∧ (sanitizeUrls parseUrl urls).Pairwise
        (fun u v => (validHrefs parseUrl urls).indexOf u < (validHrefs parseUrl urls).indexOf v) := by
  induction urls using List.reverseRecOn with
  | nil => exact ⟨List.nodup_nil, fun u => by simp [sanitizeUrls, validHrefs], List.Pairwise.nil⟩
  | append_singleton urls raw ih =>
    obtain ⟨hnd, hmem, hord⟩ := ih
    rw [sanitizeUrls_append_single, validHrefs_append_single]
    by_cases hblank : trim raw = ""
    · simp only [hblank, if_true, List.append_nil]
      exact ⟨hnd, hmem, hord⟩
    · simp only [hblank, if_false]
      cases hp : parseUrl (trim raw) with
      | none =>
        simp only [Option.toList_none, List.append_nil]
        exact ⟨hnd, hmem, hord⟩
      | some href =>
        simp only [Option.toList_some]
        have hkeep : ∀ {u}, u ∈ sanitizeUrls parseUrl urls →
            (validHrefs parseUrl urls ++ [href]).indexOf u
              = (validHrefs parseUrl urls).indexOf u :=
          fun hu => List.indexOf_append_of_mem ((hmem _).mp hu)
        have hord' : (sanitizeUrls parseUrl urls).Pairwise
            (fun u v => (validHrefs parseUrl urls ++ [href]).indexOf u
              < (validHrefs parseUrl urls ++ [href]).indexOf v) := by
          refine List.Pairwise.imp_of_mem ?_ hord
          intro u v hu hv huv
          rw [hkeep hu, hkeep hv]; exact huv
        by_cases hseen : href ∈ sanitizeUrls parseUrl urls
        · rw [if_pos hseen]
          refine ⟨hnd, fun u => ?_, hord'⟩
          rw [hmem u, List.mem_append, List.mem_singleton]
          constructor
          · exact Or.inl
          · rintro (h | h)
            · exact h
            · rw [h]; exact (hmem _).mp hseen
        · rw [if_neg hseen]
          refine ⟨?_, fun u => ?_, ?_⟩
          · rw [List.nodup_append]
            refine ⟨hnd, List.nodup_singleton _, ?_⟩
            intro u hu hu'
            rw [List.mem_singleton] at hu'
            rw [hu'] at hu
            exact hseen hu
          · simp only [List.mem_append, List.mem_singleton, hmem u]
          · rw [List.pairwise_append]
            refine ⟨hord', List.pairwise_singleton _ _, ?_⟩
            intro u hu v hv
            rw [List.mem_singleton] at hv
            rw [hv, hkeep hu]
            have hnot : href ∉ validHrefs parseUrl urls := fun h => hseen ((hmem _).mpr h)
            rw [List.indexOf_append_of_not_mem hnot, List.indexOf_cons_self, Nat.add_zero]
            exact List.indexOf_lt_length.mpr ((hmem _).mp hu)

theorem mem_validHrefs {parseUrl : String → Option String} {urls : List String} {u : String} :
    u ∈ validHrefs parseUrl urls
      ↔ ∃ raw ∈ urls, trim raw ≠ "" ∧ parseUrl (trim raw) = some u := by
  unfold validHrefs
  rw [List.mem_filterMap]
  constructor
  · rintro ⟨raw, hraw, h⟩
    split_ifs at h with hb
    exact ⟨raw, hraw, hb, h⟩
  · rintro ⟨raw, hraw, hb, h⟩
    exact ⟨raw, hraw, by rw [if_neg hb]; exact h⟩

end JobQueue
end PorfitOptima

namespace PorfitOptima
namespace JobQueue

theorem trim_examples :
    trim "https://a.com/x" = "https://a.com/x" ∧ trim "not a url" = "not a url"
    ∧ trim "https://b.com" = "https://b.com" := by
  decide!

/-- C15, as amended.  For the URL list `["https://a.com/x", "https://a.com/x",
"not a url", "https://b.com"]`, with a URL parser that gives `https://a.com/x`
its own `href`, rejects `not a url` and gives `https://b.com` the `href`
`https://b.com/` (the URL Standard: the path of an `https` URL is never empty),
`sanitizeUrls` returns exactly `["https://a.com/x", "https://b.com/"]`, in that
order, and that is the list `enqueueScrapeJob` stores in the job. -/
theorem sanitizeUrls_example (parseUrl : String → Option String)
    (C : PricingWorker.Collaborators) (s : JobStore) (params : EnqueueJobParams)
    (ha : parseUrl "https://a.com/x" = some "https://a.com/x")
    (hn : parseUrl "not a url" = none)
    (hb : parseUrl "https://b.com" = some "https://b.com/")
    (hurls : params.urls = ["https://a.com/x", "https://a.com/x", "not a url", "https://b.com"])
    (hstore : C.storeFails s.storeCalls = none) :
    sanitizeUrls parseUrl params.urls = ["https://a.com/x", "https://b.com/"]
    ∧ ∃ doc : ScrapeJobDoc,
        (enqueueScrapeJob parseUrl C s params).2.scrapeJobs
            = s.scrapeJobs.set (C.autoId s.idsDrawn) doc
        ∧ doc.urls = ["https://a.com/x", "https://b.com/"] := by
  obtain ⟨t1, t2, t3⟩ := trim_examples
  have hne1 : ¬ ("https://a.com/x" = "") := by decide
  have hne2 : ¬ ("not a url" = "") := by decide
  have hne3 : ¬ ("https://b.com" = "") := by decide
  have hne4 : ¬ ("https://b.com/" = "https://a.com/x") := by decide
  have hres : sanitizeUrls parseUrl params.urls = ["https://a.com/x", "https://b.com/"] := by
    rw [hurls]
    simp [sanitizeUrls, sanitizeStep, t1, t2, t3, ha, hn, hb, hne1, hne2, hne3, hne4]
  refine ⟨hres, ?_⟩
  unfold enqueueScrapeJob
  simp only [hres, List.length_cons, List.length_nil, Nat.reduceAdd, OfNat.ofNat_ne_zero,
    if_false, hstore]
  exact ⟨_, rfl, rfl⟩

/-- Witness of C15 as amended: the example list with the `href` values of the
URL Standard. -/
theorem sanitizeUrls_example_witness :
    sanitizeUrls Example.urlHref Example.urlList = ["https://a.com/x", "https://b.com/"] :=
  (sanitizeUrls_example Example.urlHref Example.steadyCollaborators Example.jobStore
    { productId := "prod-1", urls := Example.urlList } (by decide!) (by decide!) (by decide!)
    rfl rfl).1

/-- C15 fails as stated: the second stored URL is the normalized
`https://b.com/`, not `https://b.com`, so the result is not
`["https://a.com/x", "https://b.com"]`. -/
theorem sanitizeUrls_example_ne :
    sanitizeUrls Example.urlHref Example.urlList ≠ ["https://a.com/x", "https://b.com"]
    ∧ sanitizeUrls Example.urlHref Example.urlList = ["https://a.com/x", "https://b.com/"] := by
  decide!

/-- C16.  For every input list, the list that `sanitizeUrls` returns has no
duplicates; its elements are exactly the normalized hrefs of the entries that,
once trimmed, are not blank and parse as a URL; every such href appears exactly
once; and the elements are in the order of their first occurrence among the
hrefs of the valid entries.  Blank and invalid entries are dropped. -/
theorem sanitizeUrls_dedup (parseUrl : String → Option String) (urls : List String) :
    (sanitizeUrls parseUrl urls).Nodup
    ∧ (∀ u, u ∈ sanitizeUrls parseUrl urls
        ↔ ∃ raw ∈ urls, trim raw ≠ "" ∧ parseUrl (trim raw) = some u)
    ∧ (∀ u, u ∈ validHrefs parseUrl urls → (sanitizeUrls parseUrl urls).count u = 1)
    ∧ (sanitizeUrls parseUrl urls).Pairwise
        (fun u v => (validHrefs parseUrl urls).indexOf u < (validHrefs parseUrl urls).indexOf v) := by
  obtain ⟨hnd, hmem, hord⟩ := sanitizeUrls_spec parseUrl urls
  refine ⟨hnd, fun u => ?_, fun u hu => ?_, hord⟩
  · rw [hmem u, mem_validHrefs]
  · exact List.count_eq_one_of_mem hnd ((hmem u).mpr hu)

/-- Witness of C16: in the example list the href `https://b.com/` of the valid
entry `https://b.com` appears exactly once in the result. -/
theorem sanitizeUrls_dedup_witness :
    (sanitizeUrls Example.urlHref Example.urlList).count "https://b.com/" = 1 :=
  (sanitizeUrls_dedup Example.urlHref Example.urlList).2.2.1 "https://b.com/" (by decide!)

theorem sanitizeUrls_eq_nil_iff (parseUrl : String → Option String) (urls : List String) :
    sanitizeUrls parseUrl urls = []
      ↔ ∀ raw ∈ urls, trim raw = "" ∨ parseUrl (trim raw) = none := by
  obtain ⟨_, hmem, _⟩ := sanitizeUrls_spec parseUrl urls
  constructor
  · intro h raw hraw
    by_contra hcon
    push_neg at hcon
    obtain ⟨hb, hp⟩ := hcon
    obtain ⟨u, hu⟩ := Option.ne_none_iff_exists'.mp hp
    have : u ∈ sanitizeUrls parseUrl urls :=
      (hmem u).mpr (mem_validHrefs.mpr ⟨raw, hraw, hb, hu⟩)
    rw [h] at this
    simp at this
  · intro h
    apply List.eq_nil_iff_forall_not_mem.mpr
    intro u hu
    obtain ⟨raw, hraw, hb, hp⟩ := mem_validHrefs.mp ((hmem u).mp hu)
    rcases h raw hraw with h1 | h1
    · exact hb h1
    · rw [h1] at hp; simp at hp

/-- C17.  When no input entry is a valid URL (each is blank or rejected by the
parser), `enqueueScrapeJob` fails with the error "At least one valid URL is
required" and leaves the store as it was, without a store call.  Otherwise, when
the store accepts the call, it sets one job document under a fresh id, with
status `queued`, `attempts` 0 and the non-empty list of `sanitizeUrls` as
`urls`, and returns that id with status `queued`; it does not fail with that
error. -/
theorem enqueueScrapeJob_spec (parseUrl : String → Option String)
    (C : PricingWorker.Collaborators) (s : JobStore) (params : EnqueueJobParams) :
    ((∀ raw ∈ params.urls, trim raw = "" ∨ parseUrl (trim raw) = none) →
        enqueueScrapeJob parseUrl C s params
          = (Except.error (PricingWorker.Thrown.error "At least one valid URL is required"), s))
    ∧ ((∃ raw ∈ params.urls, trim raw ≠ "" ∧ parseUrl (trim raw) ≠ none) →
        C.storeFails s.storeCalls = none →
        (enqueueScrapeJob parseUrl C s params).1
            = Except.ok { jobId := C.autoId s.idsDrawn, status := ScrapeJobStatus.queued }
        ∧ ∃ doc : ScrapeJobDoc,
            (enqueueScrapeJob parseUrl C s params).2.scrapeJobs
                = s.scrapeJobs.set (C.autoId s.idsDrawn) doc
            ∧ (s.scrapeJobs.get (C.autoId s.idsDrawn) = none →
                (enqueueScrapeJob parseUrl C s params).2.scrapeJobs
                  = s.scrapeJobs ++ [(C.autoId s.idsDrawn, doc)])
            ∧ doc.jobId = C.autoId s.idsDrawn
            ∧ doc.productId = params.productId
            ∧ doc.status = ScrapeJobStatus.queued
            ∧ doc.attempts = 0
            ∧ doc.urls = sanitizeUrls parseUrl params.urls
            ∧ doc.urls ≠ []) := by
  constructor
  · intro h
    have hnil := (sanitizeUrls_eq_nil_iff parseUrl params.urls).mpr h
    unfold enqueueScrapeJob
    simp only [hnil, List.length_nil, if_true]
  · rintro ⟨raw, hraw, hb, hp⟩ hstore
    have hne : sanitizeUrls parseUrl params.urls ≠ [] := by
      intro hnil
      rcases (sanitizeUrls_eq_nil_iff parseUrl params.urls).mp hnil raw hraw with h | h
      · exact hb h
      · exact hp h
    have hlen : ¬ (sanitizeUrls parseUrl params.urls).length = 0 := by
      intro h; exact hne (List.length_eq_zero.mp h)
    have hrun : enqueueScrapeJob parseUrl C s params
        = (Except.ok { jobId := C.autoId s.idsDrawn, status := ScrapeJobStatus.queued },
           { s with
             idsDrawn := s.idsDrawn + 1,
             storeCalls := s.storeCalls + 1,
             scrapeJobs := s.scrapeJobs.set (C.autoId s.idsDrawn)
               { jobId := C.autoId s.idsDrawn,
                 productId := params.productId,
                 urls := sanitizeUrls parseUrl params.urls,
                 fxRates := some (params.fxRates.getD []),
                 status := ScrapeJobStatus.queued,
                 attempts := 0,
                 priority := some (params.priority.getD 0),
                 retryAt := some Json.null,
                 lastError := none,
                 createdAt := some (C.serverTime s.storeCalls),
                 updatedAt := some (C.serverTime s.storeCalls) } }) := by
      unfold enqueueScrapeJob
      simp only [hlen, if_false, hstore]
    rw [hrun]
    refine ⟨rfl, _, rfl, ?_, rfl, rfl, rfl, rfl, rfl, hne⟩
    intro hfresh
    show PricingWorker.Collection.set s.scrapeJobs _ _ = _
    unfold PricingWorker.Collection.set
    rw [hfresh]
    rfl

/-- Witness of C17: the example list is enqueued as one job; a list of blank and
invalid entries is refused. -/
theorem enqueueScrapeJob_spec_witness :
    (enqueueScrapeJob Example.urlHref Example.steadyCollaborators Example.jobStore
        { productId := "prod-1", urls := Example.urlList }).1
      = Except.ok { jobId := "insight-0", status := ScrapeJobStatus.queued }
    ∧ enqueueScrapeJob Example.urlHref Example.steadyCollaborators Example.jobStore
        { productId := "prod-1", urls := ["  ", "not a url"] }
      = (Except.error (PricingWorker.Thrown.error "At least one valid URL is required"),
         Example.jobStore) :=
  ⟨((enqueueScrapeJob_spec Example.urlHref Example.steadyCollaborators Example.jobStore
      { productId := "prod-1", urls := Example.urlList }).2
        ⟨"https://b.com", by decide!, by decide!, by decide!⟩ rfl).1,
   (enqueueScrapeJob_spec Example.urlHref Example.steadyCollaborators Example.jobStore
      { productId := "prod-1", urls := ["  ", "not a url"] }).1 (by decide!)⟩

end JobQueue
end PorfitOptima

namespace PorfitOptima
namespace Payload

/-! ## The pricing payload -/

theorem toFixedNumber_zero (R : Runtime) (hR : R.rnd 0 = 0) (f : ℕ) : toFixedNumber R f 0 = 0 := by
  have h1 : ¬ ((10 : ℚ) ^ 21 ≤ |(0 : ℚ)|) := by
    rw [abs_zero]; exact not_le.mpr (by positivity)
  have h3 : ⌊(1 : ℚ) / 2⌋ = 0 := by
    rw [Int.floor_eq_iff]; norm_num
  have h2 : fixedValue f 0 = 0 := by
    simp only [fixedValue, toFixedScaled, abs_zero, zero_mul, zero_add, h3]
    simp
  unfold toFixedNumber
  rw [if_neg h1, h2, hR]

theorem computeTotalCost_exact (R : Runtime) (hR : R.rnd = id)
    (costStructure : Option (List (String × ℚ))) :
    computeTotalCost R costStructure = ((costStructure.getD []).map (fun e => e.2)).sum := by
  have key : ∀ (l : List (String × ℚ)) (a : ℚ),
      l.foldl (fun sum entry => R.rnd (sum + entry.2)) a = a + (l.map (fun e => e.2)).sum := by
    intro l
    induction l with
    | nil => intro a; simp
    | cons e l ih =>
      intro a
      rw [List.foldl_cons, ih, hR]
      simp only [id, List.map_cons, List.sum_cons]
      ring
  cases costStructure with
  | none => simp [computeTotalCost]
  | some entries => simp [computeTotalCost, key]

theorem margin_bound (R : Runtime) (hid : R.rnd = id) (cp tc : ℚ) :
    (0 < cp →
      |toFixedNumber R 2 (if 0 < cp then R.rnd (R.rnd (R.rnd (cp - tc) / cp) * 100) else 0)
        - (cp - tc) / cp * 100| ≤ 1 / 200)
    ∧ (¬ 0 < cp →
      toFixedNumber R 2 (if 0 < cp then R.rnd (R.rnd (R.rnd (cp - tc) / cp) * 100) else 0)
        = 0) := by
  constructor
  · intro hpos
    have h200 : (1 : ℚ) / (2 * (10 : ℚ) ^ 2) = 1 / 200 := by norm_num
    have hb := toFixedNumber_sub_le_of_exact R hid 2 ((cp - tc) / cp * 100)
    rw [h200] at hb
    rw [if_pos hpos]
    simp only [hid, id] at hb ⊢
    exact hb
  · intro hneg
    rw [if_neg hneg]
    exact toFixedNumber_zero R (by rw [hid]; rfl) 2

/-- C18, as amended.  `buildPricingPayload` is a total function, and a payload
field whose source value is absent takes a default: `"Unnamed"` for
`productName`, `"Uncategorized"` for `category`, the empty string for
`productDescription`, `sku` and `brand`, the empty record for `attributes`, the
empty list for `historicalPrices` and for the three competitor lists, `null` for
`msrp`, `currentInventory` and `demandForecast`, and 0 for `totalCost`,
`currentPrice` and `currentMargin`. -/
theorem buildPricingPayload_defaults (R : Runtime) (hR : R.rnd 0 = 0) (product : ProductDoc)
    (snapshot : CompetitorSnapshotDoc) :
    (product.basicInfo.bind (fun b => b.name) = none →
        (buildPricingPayload R product snapshot).productName = "Unnamed")
    ∧ (product.basicInfo.bind (fun b => b.category) = none →
        (buildPricingPayload R product snapshot).category = "Uncategorized")
    ∧ (product.basicInfo.bind (fun b => b.description) = none →
        (buildPricingPayload R product snapshot).productDescription = "")
    ∧ (product.basicInfo.bind (fun b => b.sku) = none →
        (buildPricingPayload R product snapshot).sku = "")
    ∧ (product.basicInfo.bind (fun b => b.brand) = none →
        (buildPricingPayload R product snapshot).brand = "")
    ∧ (product.basicInfo.bind (fun b => b.attributes) = none →
        (buildPricingPayload R product snapshot).attributes = [])
    ∧ (product.costStructure = none → (buildPricingPayload R product snapshot).totalCost = 0)
    ∧ (product.pricing.bind (fun p => p.msrp) = none →
        (buildPricingPayload R product snapshot).msrp = none)
    ∧ (product.pricing.bind (fun p => p.sellingPrice) = none →
        (buildPricingPayload R product snapshot).currentPrice = 0
        ∧ (buildPricingPayload R product snapshot).currentMargin = 0)
    ∧ (product.pricing.bind (fun p => p.history) = none →
        (buildPricingPayload R product snapshot).historicalPrices = [])
    ∧ (product.inventory.bind (fun i => i.onHand) = none →
        (buildPricingPayload R product snapshot).currentInventory = none)
    ∧ (product.analytics.bind (fun a => a.forecast) = none →
        (buildPricingPayload R product snapshot).demandForecast = Json.null)
    ∧ (snapshot.competitors = [] →
        (buildPricingPayload R product snapshot).competitorUsdPrices = []
        ∧ (buildPricingPayload R product snapshot).competitorNames = []
        ∧ (buildPricingPayload R product snapshot).competitorUrls = []) := by
  refine ⟨?_, ?_, ?_, ?_, ?_, ?_, ?_, ?_, ?_, ?_, ?_, ?_, ?_⟩
  · intro h; simp [buildPricingPayload, h]
  · intro h; simp [buildPricingPayload, h]
  · intro h; simp [buildPricingPayload, h]
  · intro h; simp [buildPricingPayload, h]
  · intro h; simp [buildPricingPayload, h]
  · intro h; simp [buildPricingPayload, h]
  · intro h; simp [buildPricingPayload, computeTotalCost, h]
  · intro h; simp [buildPricingPayload, h]
  · intro h
    refine ⟨by simp [buildPricingPayload, h], ?_⟩
    show toFixedNumber R 2 _ = 0
    simp only [h, Option.getD_none, lt_self_iff_false, if_false]
    exact toFixedNumber_zero R hR 2
  · intro h; simp [buildPricingPayload, h]
  · intro h; simp [buildPricingPayload, h]
  · intro h; simp [buildPricingPayload, h]
  · intro h; simp [buildPricingPayload, h]

/-- Witness of C18 as amended: the product without any optional field. -/
theorem buildPricingPayload_defaults_witness :
    (buildPricingPayload (ieeeRuntime sampleNumberToString) Example.bareProduct
        Example.emptySnapshot).productName = "Unnamed"
    ∧ (buildPricingPayload (ieeeRuntime sampleNumberToString) Example.bareProduct
        Example.emptySnapshot).currentMargin = 0 :=
  ⟨(buildPricingPayload_defaults (ieeeRuntime sampleNumberToString) (by decide!)
      Example.bareProduct Example.emptySnapshot).1 rfl,
   ((buildPricingPayload_defaults (ieeeRuntime sampleNumberToString) (by decide!)
      Example.bareProduct Example.emptySnapshot).2.2.2.2.2.2.2.2.1 rfl).2⟩

/-- C18 fails as stated: for a product without any optional field, `productName`
is `"Unnamed"` and `category` is `"Uncategorized"`, neither of them the empty
string. -/
theorem buildPricingPayload_named_defaults :
    (buildPricingPayload (ieeeRuntime sampleNumberToString) Example.bareProduct
        Example.emptySnapshot).productName = "Unnamed"
    ∧ (buildPricingPayload (ieeeRuntime sampleNumberToString) Example.bareProduct
        Example.emptySnapshot).productName ≠ ""
    ∧ (buildPricingPayload (ieeeRuntime sampleNumberToString) Example.bareProduct
        Example.emptySnapshot).category = "Uncategorized"
    ∧ (buildPricingPayload (ieeeRuntime sampleNumberToString) Example.bareProduct
        Example.emptySnapshot).category ≠ "" := by
  decide!

/-- C19, as amended.  The `currentMargin` of the payload is the margin
`(currentPrice − totalCost) / currentPrice × 100` (0 when `currentPrice` is not
positive) rounded to two decimals, where `currentPrice` is the selling price (0
if absent) and `totalCost` the total of `computeTotalCost`.  In exact arithmetic
`totalCost` is the sum of the cost-structure values, `currentMargin` is within
`0.005` of the margin when `currentPrice > 0`, and it is 0 otherwise. -/
theorem currentMargin_rounded (R : Runtime) (product : ProductDoc)
    (snapshot : CompetitorSnapshotDoc) :
    (buildPricingPayload R product snapshot).currentPrice
        = (product.pricing.bind (fun p => p.sellingPrice)).getD 0
    ∧ (buildPricingPayload R product snapshot).totalCost
        = computeTotalCost R product.costStructure
    ∧ (buildPricingPayload R product snapshot).currentMargin
        = toFixedNumber R 2
            (if 0 < (buildPricingPayload R product snapshot).currentPrice then
              R.rnd (R.rnd (R.rnd ((buildPricingPayload R product snapshot).currentPrice
                  - (buildPricingPayload R product snapshot).totalCost)
                / (buildPricingPayload R product snapshot).currentPrice) * 100)
             else 0)
    ∧ (R.rnd = id →
        (buildPricingPayload R product snapshot).totalCost
            = ((product.costStructure.getD []).map (fun e => e.2)).sum
        ∧ (0 < (buildPricingPayload R product snapshot).currentPrice →
            |(buildPricingPayload R product snapshot).currentMargin
              - ((buildPricingPayload R product snapshot).currentPrice
                  - (buildPricingPayload R product snapshot).totalCost)
                / (buildPricingPayload R product snapshot).currentPrice * 100| ≤ 1 / 200)
        ∧ (¬ 0 < (buildPricingPayload R product snapshot).currentPrice →
            (buildPricingPayload R product snapshot).currentMargin = 0)) := by
  exact ⟨rfl, rfl, rfl, fun hid => ⟨computeTotalCost_exact R hid _,
    (margin_bound R hid _ _).1, (margin_bound R hid _ _).2⟩⟩

/-- Witness of C19 as amended: a product that sells at 3 and costs 1, in exact
arithmetic. -/
theorem currentMargin_rounded_witness :
    |(buildPricingPayload (exactRuntime sampleNumberToString) Example.pricedProduct
          Example.emptySnapshot).currentMargin
        - ((buildPricingPayload (exactRuntime sampleNumberToString) Example.pricedProduct
              Example.emptySnapshot).currentPrice
            - (buildPricingPayload (exactRuntime sampleNumberToString) Example.pricedProduct
              Example.emptySnapshot).totalCost)
          / (buildPricingPayload (exactRuntime sampleNumberToString) Example.pricedProduct
              Example.emptySnapshot).currentPrice * 100| ≤ 1 / 200 :=
  ((currentMargin_rounded (exactRuntime sampleNumberToString) Example.pricedProduct
      Example.emptySnapshot).2.2.2 rfl).2.1 (by decide!)

/-- C19 fails as stated: for a product that sells at 3 and costs 1 the margin is
`(3 − 1) / 3 × 100 = 66.66…` and the payload's `currentMargin` is `66.67`, in
exact arithmetic and in double precision. -/
theorem currentMargin_ne_margin :
    (buildPricingPayload (exactRuntime sampleNumberToString) Example.pricedProduct
        Example.emptySnapshot).currentMargin = 6667 / 100
    ∧ (buildPricingPayload (exactRuntime sampleNumberToString) Example.pricedProduct
        Example.emptySnapshot).currentMargin ≠ (3 - 1) / 3 * 100
    ∧ (buildPricingPayload (ieeeRuntime sampleNumberToString) Example.pricedProduct
        Example.emptySnapshot).currentMargin = binary64 (6667 / 100)
    ∧ (buildPricingPayload (ieeeRuntime sampleNumberToString) Example.pricedProduct
        Example.emptySnapshot).currentMargin
      ≠ binary64 (binary64 (binary64 (3 - 1) / 3) * 100) := by
  decide!

/-- C20.  The payload's `competitorUsdPrices`, `competitorNames` and
`competitorUrls` have the same length, the number of snapshot entries with a
non-null `parsedPriceUsd`; they list the `parsedPriceUsd`, `hostname` and `url`
of these entries, in snapshot order, so for every index the three elements come
from the same entry. -/
theorem competitor_lists_parallel (R : Runtime) (product : ProductDoc)
    (snapshot : CompetitorSnapshotDoc) :
    (buildPricingPayload R product snapshot).competitorUsdPrices.length
        = snapshot.competitors.countP (fun c => c.parsedPriceUsd.isSome)
    ∧ (buildPricingPayload R product snapshot).competitorNames.length
        = snapshot.competitors.countP (fun c => c.parsedPriceUsd.isSome)
    ∧ (buildPricingPayload R product snapshot).competitorUrls.length
        = snapshot.competitors.countP (fun c => c.parsedPriceUsd.isSome)
    ∧ (buildPricingPayload R product snapshot).competitorUsdPrices.map some
        = (snapshot.competitors.filter (fun c => c.parsedPriceUsd.isSome)).map
            (fun c => c.parsedPriceUsd)
    ∧ (buildPricingPayload R product snapshot).competitorNames
        = (snapshot.competitors.filter (fun c => c.parsedPriceUsd.isSome)).map
            (fun c => c.hostname)
    ∧ (buildPricingPayload R product snapshot).competitorUrls
        = (snapshot.competitors.filter (fun c => c.parsedPriceUsd.isSome)).map (fun c => c.url)
    ∧ (∀ i : ℕ,
        ((buildPricingPayload R product snapshot).competitorUsdPrices[i]?).map some
            = ((snapshot.competitors.filter (fun c => c.parsedPriceUsd.isSome))[i]?).map
                (fun c => c.parsedPriceUsd)
        ∧ (buildPricingPayload R product snapshot).competitorNames[i]?
            = ((snapshot.competitors.filter (fun c => c.parsedPriceUsd.isSome))[i]?).map
                (fun c => c.hostname)
        ∧ (buildPricingPayload R product snapshot).competitorUrls[i]?
            = ((snapshot.competitors.filter (fun c => c.parsedPriceUsd.isSome))[i]?).map
                (fun c => c.url)) := by
  have hprices : (buildPricingPayload R product snapshot).competitorUsdPrices.map some
      = (snapshot.competitors.filter (fun c => c.parsedPriceUsd.isSome)).map
          (fun c => c.parsedPriceUsd) := by
    show ((snapshot.competitors.filter (fun c => c.parsedPriceUsd.isSome)).map
        (fun c => c.parsedPriceUsd.getD 0)).map some = _
    rw [List.map_map]
    apply List.map_congr_left
    intro c hc
    have hsome := (List.mem_filter.mp hc).2
    obtain ⟨x, hx⟩ := Option.isSome_iff_exists.mp hsome
    simp [hx]
  refine ⟨?_, ?_, ?_, hprices, rfl, rfl, fun i => ⟨?_, ?_, ?_⟩⟩
  · show ((snapshot.competitors.filter _).map _).length = _
    rw [List.length_map, List.countP_eq_length_filter]
  · show ((snapshot.competitors.filter _).map _).length = _
    rw [List.length_map, List.countP_eq_length_filter]
  · show ((snapshot.competitors.filter _).map _).length = _
    rw [List.length_map, List.countP_eq_length_filter]
  · rw [← List.getElem?_map, hprices, List.getElem?_map]
  · show ((snapshot.competitors.filter _).map _)[i]? = _
    rw [List.getElem?_map]
  · show ((snapshot.competitors.filter _).map _)[i]? = _
    rw [List.getElem?_map]

end Payload
end PorfitOptima

namespace PorfitOptima
open Fallback

/-! ## The fallback rule and its inputs -/

theorem foldl_rnd_add_exact (R : Runtime) (hR : R.rnd = id) (entries : List (String × ℚ)) (a : ℚ) :
    entries.foldl (fun sum entry => R.rnd (sum + entry.2)) a
      = a + (entries.map (fun e => e.2)).sum := by
  induction entries generalizing a with
  | nil => simp
  | cons e l ih =>
    rw [List.foldl_cons, ih, hR]
    simp only [id, List.map_cons, List.sum_cons]
    ring

theorem fallback_computeTotalCost_exact (R : Runtime) (hR : R.rnd = id)
    (costStructure : Option (List (String × ℚ))) :
    Fallback.computeTotalCost R costStructure
      = ((costStructure.getD []).map (fun e => e.2)).sum := by
  cases costStructure with
  | none => simp [Fallback.computeTotalCost]
  | some entries => simp [Fallback.computeTotalCost, foldl_rnd_add_exact R hR]

/-- C21.  The `computeTotalCost` of `payload.ts` and the `computeTotalCost` of
`fallback.ts` return the same value for every cost structure: 0 when the cost
structure is absent or empty, and the sum of the component values (exact
arithmetic; in general the sum accumulated in the order of `Object.values`).
Hence the `totalCost` of the payload is the total cost the fallback rule uses
for the same product. -/
theorem computeTotalCost_agree (R : Runtime) (costStructure : Option (List (String × ℚ))) :
    Payload.computeTotalCost R costStructure = Fallback.computeTotalCost R costStructure
    ∧ (costStructure = none ∨ costStructure = some [] →
        Payload.computeTotalCost R costStructure = 0
        ∧ Fallback.computeTotalCost R costStructure = 0)
    ∧ (R.rnd = id →
        Payload.computeTotalCost R costStructure
          = ((costStructure.getD []).map (fun e => e.2)).sum
        ∧ Fallback.computeTotalCost R costStructure
          = ((costStructure.getD []).map (fun e => e.2)).sum)
    ∧ (∀ (product : ProductDoc) (snapshot : CompetitorSnapshotDoc) (env : Env),
        (Payload.buildPricingPayload R product snapshot).totalCost
          = Fallback.computeTotalCost R product.costStructure
        ∧ floorPrice R env product
          = R.rnd ((Payload.buildPricingPayload R product snapshot).totalCost
              * R.rnd (1 + desiredMargin R env))) := by
  refine ⟨rfl, ?_, fun hid => ⟨?_, ?_⟩, fun _ _ _ => ⟨rfl, rfl⟩⟩
  · rintro (h | h) <;> subst h <;> exact ⟨rfl, rfl⟩
  · exact fallback_computeTotalCost_exact R hid costStructure
  · exact fallback_computeTotalCost_exact R hid costStructure

/-- Witness of C21: the cost structure of the scenario, manufacturing 10 and
shipping 2, has total 12 in both functions. -/
theorem computeTotalCost_agree_witness :
    Payload.computeTotalCost (exactRuntime sampleNumberToString)
        Example.scenarioProduct.costStructure = 10 + (2 + 0)
    ∧ Fallback.computeTotalCost (exactRuntime sampleNumberToString)
        Example.scenarioProduct.costStructure = 10 + (2 + 0)
    ∧ Payload.computeTotalCost (ieeeRuntime sampleNumberToString) none = 0 :=
  ⟨((computeTotalCost_agree (exactRuntime sampleNumberToString)
      Example.scenarioProduct.costStructure).2.2.1 rfl).1,
   ((computeTotalCost_agree (exactRuntime sampleNumberToString)
      Example.scenarioProduct.costStructure).2.2.1 rfl).2,
   ((computeTotalCost_agree (ieeeRuntime sampleNumberToString) none).2.1 (Or.inl rfl)).1⟩

/-- C22.  The `dataSources` of `buildFallbackRecommendation` is the list of the
`url` of every competitor entry of the snapshot, in snapshot order, whatever
the status and the parsed price of the entry; its length is the number of
competitor entries. -/
theorem dataSources_all_urls (R : Runtime) (env : Env) (product : ProductDoc)
    (snapshot : CompetitorSnapshotDoc) :
    (buildFallbackRecommendation R env product snapshot).dataSources
        = snapshot.competitors.map (fun c => c.url)
    ∧ (buildFallbackRecommendation R env product snapshot).dataSources.length
        = snapshot.competitors.length
    ∧ ∀ i : ℕ, (buildFallbackRecommendation R env product snapshot).dataSources[i]?
        = (snapshot.competitors[i]?).map (fun c => c.url) := by
  refine ⟨rfl, ?_, fun i => ?_⟩
  · show (snapshot.competitors.map (fun c => c.url)).length = _
    rw [List.length_map]
  · show (snapshot.competitors.map (fun c => c.url))[i]? = _
    rw [List.getElem?_map]

theorem competitorPrices_eq_nil {snapshot : CompetitorSnapshotDoc}
    (h : ∀ c ∈ snapshot.competitors, c.parsedPriceUsd = none) : competitorPrices snapshot = [] := by
  unfold competitorPrices
  rw [List.filterMap_eq_nil_iff]
  exact h

theorem rawRecommendedPrice_of_no_prices (R : Runtime) (env : Env) (product : ProductDoc)
    {snapshot : CompetitorSnapshotDoc} (h : competitorPrices snapshot = []) :
    competitiveCeiling R env product snapshot = floorPrice R env product
    ∧ rawRecommendedPrice R env product snapshot = floorPrice R env product := by
  have hc : competitiveCeiling R env product snapshot = floorPrice R env product := by
    unfold competitiveCeiling
    simp [h, quantiles_nil, numOr]
  refine ⟨hc, ?_⟩
  unfold rawRecommendedPrice
  simp [hc, h, quantiles_nil, numOr]

/-- C26.  For a snapshot with no usable competitor price (no entry, or every
`parsedPriceUsd` null) the competitive ceiling is `floorPrice`, the recommended
price before rounding is `floorPrice`, and the `recommendedPrice` returned is
`floorPrice = totalCost × (1 + desiredMargin)` rounded to two decimals. -/
theorem recommendedPrice_without_prices (R : Runtime) (env : Env) (product : ProductDoc)
    (snapshot : CompetitorSnapshotDoc)
    (h : ∀ c ∈ snapshot.competitors, c.parsedPriceUsd = none) :
    competitiveCeiling R env product snapshot = floorPrice R env product
    ∧ rawRecommendedPrice R env product snapshot = floorPrice R env product
    ∧ (buildFallbackRecommendation R env product snapshot).recommendedPrice
        = toFixedNumber R 2 (floorPrice R env product)
    ∧ floorPrice R env product
        = R.rnd (Fallback.computeTotalCost R product.costStructure * R.rnd (1 + desiredMargin R env))
    ∧ (R.rnd = id →
        (buildFallbackRecommendation R env product snapshot).recommendedPrice
          = toFixedNumber R 2
              (((product.costStructure.getD []).map (fun e => e.2)).sum
                * (1 + desiredMargin R env))) := by
  obtain ⟨hc, hr⟩ := rawRecommendedPrice_of_no_prices R env product (competitorPrices_eq_nil h)
  refine ⟨hc, hr, ?_, rfl, fun hid => ?_⟩
  · show toFixedNumber R 2 (rawRecommendedPrice R env product snapshot) = _
    rw [hr]
  · show toFixedNumber R 2 (rawRecommendedPrice R env product snapshot) = _
    rw [hr]
    unfold floorPrice
    rw [fallback_computeTotalCost_exact R hid, hid]
    rfl

/-- Witness of C26: the scenario product (total cost 12) with a snapshot whose
only entry is a failed scrape; the price is `14.16`, in double precision. -/
theorem recommendedPrice_without_prices_witness :
    (buildFallbackRecommendation (ieeeRuntime sampleNumberToString) {} Example.scenarioProduct
        (Example.snapshotOf [Example.entry "e.com" none])).recommendedPrice
      = toFixedNumber (ieeeRuntime sampleNumberToString) 2
          (floorPrice (ieeeRuntime sampleNumberToString) {} Example.scenarioProduct)
    ∧ (buildFallbackRecommendation (ieeeRuntime sampleNumberToString) {} Example.scenarioProduct
        (Example.snapshotOf [Example.entry "e.com" none])).recommendedPrice
      = binary64 (1416 / 100) :=
  ⟨(recommendedPrice_without_prices (ieeeRuntime sampleNumberToString) {} Example.scenarioProduct
      (Example.snapshotOf [Example.entry "e.com" none]) (by decide!)).2.2.1,
   by decide!⟩

end PorfitOptima

namespace PorfitOptima
open Fallback

/-! ## Dependence of the fallback rule on the snapshot and on the cost -/

/-- The snapshot enters the price, the band, the margin and the rationale of
the fallback rule through its list of usable prices only. -/
theorem fallback_congr (R : Runtime) (env : Env) (product : ProductDoc)
    {s t : CompetitorSnapshotDoc} (h : competitorPrices t = competitorPrices s) :
    rawRecommendedPrice R env product t = rawRecommendedPrice R env product s
    ∧ safeMargin R env product t = safeMargin R env product s
    ∧ rationale R env t = rationale R env s := by
  have hc : competitiveCeiling R env product t = competitiveCeiling R env product s := by
    unfold competitiveCeiling; rw [h]
  have hr : rawRecommendedPrice R env product t = rawRecommendedPrice R env product s := by
    unfold rawRecommendedPrice; rw [h, hc]
  refine ⟨hr, ?_, ?_⟩
  · unfold safeMargin rawExpectedMargin; rw [hr]
  · unfold rationale; rw [h]

/-- C29.  Adding to a snapshot, at any position, a competitor entry whose
`parsedPriceUsd` is null leaves the `recommendedPrice`, `priceBand`,
`expectedMargin`, `strategy` and `rationale` of `buildFallbackRecommendation`
unchanged, and `dataSources` gains the `url` of the entry at that position. -/
theorem failed_entry_frame (R : Runtime) (env : Env) (product : ProductDoc)
    (snapshot extended : CompetitorSnapshotDoc) (before after : List CompetitorEntry)
    (c : CompetitorEntry) (hc : c.parsedPriceUsd = none)
    (hs : snapshot.competitors = before ++ after)
    (he : extended.competitors = before ++ c :: after) :
    (buildFallbackRecommendation R env product extended).recommendedPrice
        = (buildFallbackRecommendation R env product snapshot).recommendedPrice
    ∧ (buildFallbackRecommendation R env product extended).priceBand
        = (buildFallbackRecommendation R env product snapshot).priceBand
    ∧ (buildFallbackRecommendation R env product extended).expectedMargin
        = (buildFallbackRecommendation R env product snapshot).expectedMargin
    ∧ (buildFallbackRecommendation R env product extended).strategy
        = (buildFallbackRecommendation R env product snapshot).strategy
    ∧ (buildFallbackRecommendation R env product extended).rationale
        = (buildFallbackRecommendation R env product snapshot).rationale
    ∧ (buildFallbackRecommendation R env product snapshot).dataSources
        = before.map (fun e => e.url) ++ after.map (fun e => e.url)
    ∧ (buildFallbackRecommendation R env product extended).dataSources
        = before.map (fun e => e.url) ++ c.url :: after.map (fun e => e.url) := by
  have hp : competitorPrices extended = competitorPrices snapshot := by
    unfold competitorPrices
    rw [hs, he, List.filterMap_append, List.filterMap_append, List.filterMap_cons_none hc]
  obtain ⟨hr, hm, ht⟩ := fallback_congr R env product hp
  refine ⟨?_, ?_, ?_, rfl, ht, ?_, ?_⟩
  · show toFixedNumber R 2 (rawRecommendedPrice R env product extended)
      = toFixedNumber R 2 (rawRecommendedPrice R env product snapshot)
    rw [hr]
  · show (toFixedNumber R 2 (R.rnd (rawRecommendedPrice R env product extended * R.rnd (97 / 100))),
        toFixedNumber R 2 (R.rnd (rawRecommendedPrice R env product extended * R.rnd (103 / 100))))
      = (toFixedNumber R 2 (R.rnd (rawRecommendedPrice R env product snapshot * R.rnd (97 / 100))),
        toFixedNumber R 2 (R.rnd (rawRecommendedPrice R env product snapshot * R.rnd (103 / 100))))
    rw [hr]
  · show toFixedNumber R 2 (safeMargin R env product extended)
      = toFixedNumber R 2 (safeMargin R env product snapshot)
    rw [hm]
  · show snapshot.competitors.map (fun e => e.url) = _
    rw [hs, List.map_append]
  · show extended.competitors.map (fun e => e.url) = _
    rw [he, List.map_append, List.map_cons]

/-- Witness of C29: the scenario snapshot with a failed scrape of `e.com` added
after its second entry, in double precision. -/
theorem failed_entry_frame_witness :
    (buildFallbackRecommendation (ieeeRuntime sampleNumberToString) {} Example.scenarioProduct
        Example.scenarioWithFailure).recommendedPrice
      = (buildFallbackRecommendation (ieeeRuntime sampleNumberToString) {} Example.scenarioProduct
        Example.scenarioSnapshot).recommendedPrice
    ∧ (buildFallbackRecommendation (ieeeRuntime sampleNumberToString) {} Example.scenarioProduct
        Example.scenarioWithFailure).dataSources
      = ["https://a.com/item", "https://b.com/item", "https://e.com/item", "https://c.com/item",
          "https://d.com/item"] :=
  ⟨(failed_entry_frame (ieeeRuntime sampleNumberToString) {} Example.scenarioProduct
      Example.scenarioSnapshot Example.scenarioWithFailure
      [Example.entry "a.com" (some 20), Example.entry "b.com" (some 22)]
      [Example.entry "c.com" (some 25), Example.entry "d.com" (some 30)]
      (Example.entry "e.com" none) rfl rfl rfl).1,
   by decide!⟩

/-- With median 0 and q3 not 0 the ceiling is q3 and the price before rounding
is the larger of `floorPrice` and q3. -/
theorem rawRecommendedPrice_of_median_zero (R : Runtime) (env : Env) (product : ProductDoc)
    (snapshot : CompetitorSnapshotDoc)
    (hmed : (quantiles R (competitorPrices snapshot)).median = 0)
    (hq3 : (quantiles R (competitorPrices snapshot)).q3 ≠ 0) :
    competitiveCeiling R env product snapshot = (quantiles R (competitorPrices snapshot)).q3
    ∧ rawRecommendedPrice R env product snapshot
        = max (floorPrice R env product) (quantiles R (competitorPrices snapshot)).q3 := by
  have hc : competitiveCeiling R env product snapshot
      = (quantiles R (competitorPrices snapshot)).q3 := by
    unfold competitiveCeiling
    simp [numOr, hq3]
  refine ⟨hc, ?_⟩
  unfold rawRecommendedPrice
  simp [hc, hmed, numOr]

/-- C25, as amended.  When the competitor prices have median 0 and q3 different
from 0, `competitiveCeiling` is q3 and q3 stands in for the median, so the
recommended price before rounding is `max(floorPrice, q3)`: it is q3 when
`floorPrice ≤ q3`, it is `floorPrice` when q3 is below `floorPrice`, and it is
never below `floorPrice`. -/
theorem recommendedPrice_of_median_zero (R : Runtime) (env : Env) (product : ProductDoc)
    (snapshot : CompetitorSnapshotDoc)
    (hmed : (quantiles R (competitorPrices snapshot)).median = 0)
    (hq3 : (quantiles R (competitorPrices snapshot)).q3 ≠ 0) :
    competitiveCeiling R env product snapshot = (quantiles R (competitorPrices snapshot)).q3
    ∧ numOr (quantiles R (competitorPrices snapshot)).median
        (competitiveCeiling R env product snapshot)
        = (quantiles R (competitorPrices snapshot)).q3
    ∧ rawRecommendedPrice R env product snapshot
        = max (floorPrice R env product) (quantiles R (competitorPrices snapshot)).q3
    ∧ (floorPrice R env product ≤ (quantiles R (competitorPrices snapshot)).q3 →
        rawRecommendedPrice R env product snapshot
          = (quantiles R (competitorPrices snapshot)).q3)
    ∧ ((quantiles R (competitorPrices snapshot)).q3 < floorPrice R env product →
        rawRecommendedPrice R env product snapshot = floorPrice R env product)
    ∧ floorPrice R env product ≤ rawRecommendedPrice R env product snapshot := by
  obtain ⟨hc, hr⟩ := rawRecommendedPrice_of_median_zero R env product snapshot hmed hq3
  refine ⟨hc, ?_, hr, fun h => ?_, fun h => ?_, le_max_left _ _⟩
  · rw [hc, hmed]; simp [numOr]
  · rw [hr]; exact max_eq_right h
  · rw [hr]; exact max_eq_left (le_of_lt h)

/-- Witness of C25 as amended: the competitor prices 0, 0, 0, 100 have median 0
and q3 25; with total cost 12 (`floorPrice` 14.16) the price before rounding is
25, with total cost 100 (`floorPrice` 118) it is 118.  Double precision. -/
theorem recommendedPrice_of_median_zero_witness :
    rawRecommendedPrice (ieeeRuntime sampleNumberToString) {} Example.scenarioProduct
        Example.outlierSnapshot
      = (quantiles (ieeeRuntime sampleNumberToString)
          (competitorPrices Example.outlierSnapshot)).q3
    ∧ (quantiles (ieeeRuntime sampleNumberToString)
          (competitorPrices Example.outlierSnapshot)).q3 = 25
    ∧ rawRecommendedPrice (ieeeRuntime sampleNumberToString) {} Example.costlyProduct
        Example.outlierSnapshot
      = floorPrice (ieeeRuntime sampleNumberToString) {} Example.costlyProduct
    ∧ floorPrice (ieeeRuntime sampleNumberToString) {} Example.costlyProduct = 118 :=
  ⟨(recommendedPrice_of_median_zero (ieeeRuntime sampleNumberToString) {} Example.scenarioProduct
      Example.outlierSnapshot (by decide!) (by decide!)).2.2.2.1 (by decide!),
   by decide!,
   (recommendedPrice_of_median_zero (ieeeRuntime sampleNumberToString) {} Example.costlyProduct
      Example.outlierSnapshot (by decide!) (by decide!)).2.2.2.2.1 (by decide!),
   by decide!⟩

/-- C25 fails as stated: there is no input with median 0 and q3 different from
0 for which the recommended price before rounding is q3 with q3 below
`floorPrice`; for the competitor prices 0, 0, 0, 100 (q3 = 25) and total cost
100 (`floorPrice` 118) the price before rounding is 118, not 25. -/
theorem recommendedPrice_ne_q3_below_floorPrice :
    (¬ ∃ (R : Runtime) (env : Env) (product : ProductDoc) (snapshot : CompetitorSnapshotDoc),
        (quantiles R (competitorPrices snapshot)).median = 0
        ∧ (quantiles R (competitorPrices snapshot)).q3 ≠ 0
        ∧ rawRecommendedPrice R env product snapshot
            = (quantiles R (competitorPrices snapshot)).q3
        ∧ (quantiles R (competitorPrices snapshot)).q3 < floorPrice R env product)
    ∧ (quantiles (ieeeRuntime sampleNumberToString)
          (competitorPrices Example.outlierSnapshot)).median = 0
    ∧ (quantiles (ieeeRuntime sampleNumberToString)
          (competitorPrices Example.outlierSnapshot)).q3 = 25
    ∧ floorPrice (ieeeRuntime sampleNumberToString) {} Example.costlyProduct = 118
    ∧ rawRecommendedPrice (ieeeRuntime sampleNumberToString) {} Example.costlyProduct
        Example.outlierSnapshot = 118
    ∧ floorPrice (exactRuntime sampleNumberToString) {} Example.costlyProduct = 118
    ∧ rawRecommendedPrice (exactRuntime sampleNumberToString) {} Example.costlyProduct
        Example.outlierSnapshot = 118 := by
  refine ⟨?_, by decide!, by decide!, by decide!, by decide!, by decide!, by decide!⟩
  rintro ⟨R, env, product, snapshot, _, _, hr, hlt⟩
  have h := floorPrice_le_rawRecommendedPrice R env product snapshot
  rw [hr] at h
  exact absurd hlt (not_lt.mpr h)

theorem computeTotalCost_nonneg (R : Runtime) (hmono : Monotone R.rnd) (h0 : R.rnd 0 = 0)
    (costStructure : Option (List (String × ℚ)))
    (hcost : ∀ e ∈ costStructure.getD [], 0 ≤ e.2) :
    0 ≤ Fallback.computeTotalCost R costStructure := by
  have key : ∀ (entries : List (String × ℚ)) (a : ℚ), 0 ≤ a → (∀ e ∈ entries, 0 ≤ e.2) →
      0 ≤ entries.foldl (fun sum entry => R.rnd (sum + entry.2)) a := by
    intro entries
    induction entries with
    | nil => intro a ha _; exact ha
    | cons e l ih =>
      intro a ha hl
      rw [List.foldl_cons]
      apply ih
      · have h1 : 0 ≤ a + e.2 := add_nonneg ha (hl e (List.mem_cons_self _ _))
        have := hmono h1
        rwa [h0] at this
      · intro x hx; exact hl x (List.mem_cons_of_mem _ hx)
  cases costStructure with
  | none => exact le_rfl
  | some entries => exact key entries 0 le_rfl hcost

theorem floorPrice_mono_cost (R : Runtime) (hmono : Monotone R.rnd) (h0 : R.rnd 0 = 0) (env : Env)
    (A B : ProductDoc) (hdm : -1 < desiredMargin R env)
    (hcost : Fallback.computeTotalCost R A.costStructure
      ≤ Fallback.computeTotalCost R B.costStructure) :
    floorPrice R env A ≤ floorPrice R env B := by
  unfold floorPrice
  apply hmono
  have hk : 0 ≤ R.rnd (1 + desiredMargin R env) := by
    have h1 : (0 : ℚ) ≤ 1 + desiredMargin R env := by linarith
    have := hmono h1
    rwa [h0] at this
  exact mul_le_mul_of_nonneg_right hcost hk

/-- The price before rounding is monotone in `floorPrice`, for a fixed snapshot. -/
theorem rawRecommendedPrice_mono_floorPrice (R : Runtime) (env : Env) (A B : ProductDoc)
    (snapshot : CompetitorSnapshotDoc) (h : floorPrice R env A ≤ floorPrice R env B) :
    rawRecommendedPrice R env A snapshot ≤ rawRecommendedPrice R env B snapshot := by
  unfold rawRecommendedPrice competitiveCeiling numOr
  simp only
  split_ifs <;> first
    | exact max_le_max h le_rfl
    | (simp only [min_self, max_self]; exact h)

/-- C28.  `buildFallbackRecommendation` is monotone in cost: for a fixed
snapshot and `desiredMargin > −1`, if the total cost of product `A` is at most
the total cost of product `B`, the `recommendedPrice` returned for `A` is at
most the one returned for `B`; so are the prices before rounding. -/
theorem recommendedPrice_mono_cost (R : Runtime) (hR : R.Sound) (h0 : R.rnd 0 = 0) (env : Env)
    (A B : ProductDoc) (snapshot : CompetitorSnapshotDoc) (hdm : -1 < desiredMargin R env)
    (hcost : Fallback.computeTotalCost R A.costStructure
      ≤ Fallback.computeTotalCost R B.costStructure) :
    rawRecommendedPrice R env A snapshot ≤ rawRecommendedPrice R env B snapshot
    ∧ (buildFallbackRecommendation R env A snapshot).recommendedPrice
        ≤ (buildFallbackRecommendation R env B snapshot).recommendedPrice := by
  have h := rawRecommendedPrice_mono_floorPrice R env A B snapshot
    (floorPrice_mono_cost R hR.mono h0 env A B hdm hcost)
  exact ⟨h, toFixedNumber_mono R hR 2 h⟩

/-- Witness of C28: total cost 12 against total cost 100 on the scenario
snapshot, in double precision. -/
theorem recommendedPrice_mono_cost_witness :
    (buildFallbackRecommendation (ieeeRuntime sampleNumberToString) {} Example.scenarioProduct
        Example.scenarioSnapshot).recommendedPrice
      ≤ (buildFallbackRecommendation (ieeeRuntime sampleNumberToString) {} Example.costlyProduct
        Example.scenarioSnapshot).recommendedPrice :=
  (recommendedPrice_mono_cost (ieeeRuntime sampleNumberToString) (ieeeRuntime_sound _) rfl {}
    Example.scenarioProduct Example.costlyProduct Example.scenarioSnapshot
    (by decide!) (by decide!)).2

end PorfitOptima

namespace PorfitOptima
open Fallback

/-! ## Rounding keeps the numbers of the runtime -/

theorem binade_of_mem {y : ℚ} {e : ℤ} (hy : 0 < y) (he : -1022 ≤ e)
    (hlo : (2 : ℚ) ^ e ≤ y) (hhi : y < (2 : ℚ) ^ (e + 1)) : binade y = e := by
  have hlog : Int.log 2 y = e := by
    have h1 : e ≤ Int.log 2 y := (Int.zpow_le_iff_le_log (by norm_num) hy).mp (by exact_mod_cast hlo)
    have h2 : Int.log 2 y < e + 1 := (Int.lt_zpow_iff_log_lt (by norm_num) hy).mp (by exact_mod_cast hhi)
    omega
  unfold binade; rw [abs_of_pos hy, hlog]; exact max_eq_left he

theorem binade_of_lt {y : ℚ} (hy : 0 < y) (hhi : y < (2 : ℚ) ^ (-1022 : ℤ)) :
    binade y = -1022 := by
  have h2 : Int.log 2 y < -1022 :=
    (Int.lt_zpow_iff_log_lt (by norm_num) hy).mp (by exact_mod_cast hhi)
  unfold binade; rw [abs_of_pos hy]; exact max_eq_right (le_of_lt h2)

/-- A positive multiple of the spacing of its own binade is a binary64 value. -/
theorem binary64_eq_self_of_binade {x : ℚ} (m : ℤ) (hx : 0 < x)
    (hm : x = (m : ℚ) * (2 : ℚ) ^ (binade x - 52)) : binary64 x = x := by
  have hq : (2 : ℚ) ^ (binade x - 52) ≠ 0 := by positivity
  have ht : x / (2 : ℚ) ^ (binade x - 52) = (m : ℚ) := by
    rw [div_eq_iff hq]; exact hm
  rw [binary64_of_pos hx, ht, roundHalfEven_intCast]
  exact hm.symm

theorem binary64_idem_of_pos {x : ℚ} (hx : 0 < x) : binary64 (binary64 x) = binary64 x := by
  have hq : (0 : ℚ) < (2 : ℚ) ^ (binade x - 52) := by positivity
  have hy : binary64 x
      = (roundHalfEven (x / (2 : ℚ) ^ (binade x - 52)) : ℚ) * (2 : ℚ) ^ (binade x - 52) :=
    binary64_of_pos hx
  have hnn := binary64_nonneg (le_of_lt hx)
  have hmin : (-1022 : ℤ) ≤ binade x := le_max_right _ _
  rcases eq_or_lt_of_le hnn with h0 | hpos
  · rw [← h0]; simp [binary64]
  · by_cases hsub : binary64 x < (2 : ℚ) ^ (-1022 : ℤ)
    · have he : binade x = -1022 := by
        by_contra hne
        have hlt : -1022 < binade x := lt_of_le_of_ne hmin (Ne.symm hne)
        have h1 := zpow_le_binary64 hx hlt
        have h2 : (2 : ℚ) ^ (-1022 : ℤ) ≤ (2 : ℚ) ^ binade x :=
          zpow_le_zpow_right₀ (by norm_num) (le_of_lt hlt)
        linarith
      have hb : binade (binary64 x) = -1022 := binade_of_lt hpos hsub
      apply binary64_eq_self_of_binade (roundHalfEven (x / (2 : ℚ) ^ (binade x - 52))) hpos
      rw [hb, ← he]
      exact hy
    · have hlo : (2 : ℚ) ^ binade x ≤ binary64 x := by
        rcases eq_or_lt_of_le hmin with he | he
        · rw [← he]; exact not_lt.mp hsub
        · exact zpow_le_binary64 hx he
      have hhi := binary64_le_zpow hx
      rcases eq_or_lt_of_le hhi with htop | hlt
      · apply binary64_eq_self (binade x + 1) ((2 : ℤ) ^ (52 : ℕ)) hpos (by omega)
        · rw [htop]
        · rw [htop]
          exact zpow_lt_zpow_right₀ (by norm_num) (by omega)
        · rw [htop]
          have : (2 : ℚ) ^ (binade x + 1) = (2 : ℚ) ^ (52 : ℕ) * (2 : ℚ) ^ (binade x + 1 - 52) := by
            rw [← zpow_natCast, ← zpow_add₀ (by norm_num : (2 : ℚ) ≠ 0)]
            congr 1; push_cast; ring
          rw [this]; push_cast; ring
      · have hb : binade (binary64 x) = binade x := binade_of_mem hpos hmin hlo hlt
        apply binary64_eq_self_of_binade (roundHalfEven (x / (2 : ℚ) ^ (binade x - 52))) hpos
        rw [hb]
        exact hy

/-- Rounding a binary64 value gives it back. -/
theorem binary64_idem (x : ℚ) : binary64 (binary64 x) = binary64 x := by
  rcases lt_trichotomy 0 x with hx | hx | hx
  · exact binary64_idem_of_pos hx
  · rw [← hx]; simp [binary64]
  · have h := binary64_idem_of_pos (x := -x) (by linarith)
    rw [binary64_neg, binary64_neg] at h
    linarith

theorem binary64_one : binary64 1 = 1 := by
  apply binary64_eq_self 0 ((2 : ℤ) ^ (52 : ℕ)) <;> norm_num

theorem exactRuntime_closed (ts : ℚ → String) : (exactRuntime ts).Closed :=
  { fix_zero := rfl, fix_one := rfl, idem := fun _ => rfl }

theorem ieeeRuntime_closed (ts : ℚ → String) : (ieeeRuntime ts).Closed :=
  { fix_zero := by simp [ieeeRuntime, binary64]
    fix_one := binary64_one
    idem := binary64_idem }

end PorfitOptima

namespace PorfitOptima
open Fallback

/-! ## The price band -/

theorem arrayAt_getD_fixed (R : Runtime) (h0 : R.rnd 0 = 0) (xs : List ℚ)
    (h : ∀ v ∈ xs, R.rnd v = v) (i : ℤ) :
    R.rnd ((arrayAt xs i).getD 0) = (arrayAt xs i).getD 0 := by
  unfold arrayAt
  split_ifs
  · simpa using h0
  · cases hv : xs[i.toNat]? with
    | none => simpa using h0
    | some v => simpa using h v (List.getElem?_mem hv)

theorem index_fixed (R : Runtime) (hC : R.Closed) (sorted : List ℚ)
    (h : ∀ v ∈ sorted, R.rnd v = v) (p : ℚ) :
    R.rnd (index R sorted p) = index R sorted p := by
  unfold index
  split_ifs
  · exact arrayAt_getD_fixed R hC.fix_zero sorted h 0
  · simp only
    split
    · exact hC.idem _
    · exact arrayAt_getD_fixed R hC.fix_zero sorted h _

theorem quantiles_fixed (R : Runtime) (hC : R.Closed) (values : List ℚ)
    (h : ∀ v ∈ values, R.rnd v = v) :
    R.rnd (quantiles R values).median = (quantiles R values).median
    ∧ R.rnd (quantiles R values).q3 = (quantiles R values).q3 := by
  have hs : ∀ v ∈ values.insertionSort (· ≤ ·), R.rnd v = v := fun v hv =>
    h v ((List.perm_insertionSort (· ≤ ·) values).mem_iff.mp hv)
  unfold quantiles
  split_ifs
  · exact ⟨hC.fix_zero, hC.fix_zero⟩
  · exact ⟨index_fixed R hC _ hs _, index_fixed R hC _ hs _⟩

theorem rnd_max_fixed (R : Runtime) {a b : ℚ} (ha : R.rnd a = a) (hb : R.rnd b = b) :
    R.rnd (max a b) = max a b := by
  rcases max_choice a b with h | h <;> rw [h] <;> assumption

theorem rnd_min_fixed (R : Runtime) {a b : ℚ} (ha : R.rnd a = a) (hb : R.rnd b = b) :
    R.rnd (min a b) = min a b := by
  rcases min_choice a b with h | h <;> rw [h] <;> assumption

theorem rnd_numOr_fixed (R : Runtime) {a b : ℚ} (ha : R.rnd a = a) (hb : R.rnd b = b) :
    R.rnd (numOr a b) = numOr a b := by
  unfold numOr; split_ifs <;> assumption

/-- The price before rounding is a number of the runtime when the competitor
prices are. -/
theorem rawRecommendedPrice_fixed (R : Runtime) (hC : R.Closed) (env : Env) (product : ProductDoc)
    (snapshot : CompetitorSnapshotDoc) (h : ∀ v ∈ competitorPrices snapshot, R.rnd v = v) :
    R.rnd (rawRecommendedPrice R env product snapshot)
      = rawRecommendedPrice R env product snapshot := by
  obtain ⟨hm, hq⟩ := quantiles_fixed R hC (competitorPrices snapshot) h
  have hf : R.rnd (floorPrice R env product) = floorPrice R env product := hC.idem _
  have hc : R.rnd (competitiveCeiling R env product snapshot)
      = competitiveCeiling R env product snapshot :=
    rnd_numOr_fixed R hq (rnd_numOr_fixed R hm hf)
  exact rnd_max_fixed R hf (rnd_min_fixed R hc (rnd_numOr_fixed R hm hc))

theorem floorPrice_nonneg (R : Runtime) (hmono : Monotone R.rnd) (h0 : R.rnd 0 = 0) (env : Env)
    (product : ProductDoc) (hcost : ∀ e ∈ product.costStructure.getD [], 0 ≤ e.2)
    (hdm : 0 ≤ desiredMargin R env) : 0 ≤ floorPrice R env product := by
  have htc := computeTotalCost_nonneg R hmono h0 product.costStructure hcost
  have hk : 0 ≤ R.rnd (1 + desiredMargin R env) := by
    have h1 : (0 : ℚ) ≤ 1 + desiredMargin R env := by linarith
    have := hmono h1
    rwa [h0] at this
  have := hmono (mul_nonneg htc hk)
  rw [h0] at this
  exact this

/-- C23.  For a product whose cost-structure values are all non-negative and
`desiredMargin ≥ 0`, the values that `buildFallbackRecommendation` returns
satisfy `priceBand[0] ≤ recommendedPrice ≤ priceBand[1]`.  The competitor prices
are numbers of the runtime (every rational in exact arithmetic, the doubles in
double precision). -/
theorem priceBand_contains_recommendedPrice (R : Runtime) (hR : R.Sound) (hC : R.Closed)
    (env : Env) (product : ProductDoc) (snapshot : CompetitorSnapshotDoc)
    (hcost : ∀ e ∈ product.costStructure.getD [], 0 ≤ e.2)
    (hdm : 0 ≤ desiredMargin R env)
    (hprices : ∀ v ∈ competitorPrices snapshot, R.rnd v = v) :
    (buildFallbackRecommendation R env product snapshot).priceBand.1
        ≤ (buildFallbackRecommendation R env product snapshot).recommendedPrice
    ∧ (buildFallbackRecommendation R env product snapshot).recommendedPrice
        ≤ (buildFallbackRecommendation R env product snapshot).priceBand.2 := by
  have hfix := rawRecommendedPrice_fixed R hC env product snapshot hprices
  have hr0 : 0 ≤ rawRecommendedPrice R env product snapshot :=
    le_trans (floorPrice_nonneg R hR.mono hC.fix_zero env product hcost hdm)
      (floorPrice_le_rawRecommendedPrice R env product snapshot)
  have hlo : R.rnd (97 / 100) ≤ 1 := by
    have := hR.mono (show (97 / 100 : ℚ) ≤ 1 by norm_num)
    rwa [hC.fix_one] at this
  have hhi : 1 ≤ R.rnd (103 / 100) := by
    have := hR.mono (show (1 : ℚ) ≤ 103 / 100 by norm_num)
    rwa [hC.fix_one] at this
  have h1 : R.rnd (rawRecommendedPrice R env product snapshot * R.rnd (97 / 100))
      ≤ rawRecommendedPrice R env product snapshot := by
    have := hR.mono (show rawRecommendedPrice R env product snapshot * R.rnd (97 / 100)
        ≤ rawRecommendedPrice R env product snapshot by nlinarith)
    rwa [hfix] at this
  have h2 : rawRecommendedPrice R env product snapshot
      ≤ R.rnd (rawRecommendedPrice R env product snapshot * R.rnd (103 / 100)) := by
    have := hR.mono (show rawRecommendedPrice R env product snapshot
        ≤ rawRecommendedPrice R env product snapshot * R.rnd (103 / 100) by nlinarith)
    rwa [hfix] at this
  exact ⟨toFixedNumber_mono R hR 2 h1, toFixedNumber_mono R hR 2 h2⟩

/-- Witness of C23: the end-to-end scenario in double precision, where the
result is `22.79 ≤ 23.5 ≤ 24.21`. -/
theorem priceBand_contains_recommendedPrice_witness :
    (buildFallbackRecommendation (ieeeRuntime sampleNumberToString) {} Example.scenarioProduct
        Example.scenarioSnapshot).priceBand.1
      ≤ (buildFallbackRecommendation (ieeeRuntime sampleNumberToString) {} Example.scenarioProduct
        Example.scenarioSnapshot).recommendedPrice
    ∧ (buildFallbackRecommendation (ieeeRuntime sampleNumberToString) {} Example.scenarioProduct
        Example.scenarioSnapshot).recommendedPrice
      ≤ (buildFallbackRecommendation (ieeeRuntime sampleNumberToString) {} Example.scenarioProduct
        Example.scenarioSnapshot).priceBand.2 :=
  priceBand_contains_recommendedPrice (ieeeRuntime sampleNumberToString) (ieeeRuntime_sound _)
    (ieeeRuntime_closed _) {} Example.scenarioProduct Example.scenarioSnapshot
    (by decide!) (by decide!) (by decide!)

end PorfitOptima

namespace PorfitOptima
open Fallback

/-! ## The median, the ceiling and the margin clamp -/

theorem type7_pos {s : List ℚ} (hs : s.Sorted (· ≤ ·)) (hn : 1 ≤ s.length)
    (hpos : ∀ v ∈ s, 0 < v) {p : ℚ} (hp : 0 ≤ p) (hp1 : p ≤ 1) : 0 < Spec.type7 s p := by
  have hn1 : (0 : ℚ) ≤ (s.length : ℚ) - 1 := by
    have : (1 : ℚ) ≤ (s.length : ℚ) := by exact_mod_cast hn
    linarith
  have ht : 0 ≤ p * ((s.length : ℚ) - 1) := mul_nonneg hp hn1
  have hb : ⌊p * ((s.length : ℚ) - 1)⌋.toNat < s.length := by
    have h1 : p * ((s.length : ℚ) - 1) ≤ (s.length : ℚ) - 1 := by nlinarith
    have h2 : ⌊p * ((s.length : ℚ) - 1)⌋ ≤ (s.length : ℤ) - 1 := by
      have := Int.floor_mono h1
      have h3 : ⌊(s.length : ℚ) - 1⌋ = (s.length : ℤ) - 1 := by
        have : ((s.length : ℚ) - 1) = (((s.length : ℤ) - 1 : ℤ) : ℚ) := by push_cast; ring
        rw [this, Int.floor_intCast]
      omega
    omega
  have hmem : 0 < s.getD ⌊p * ((s.length : ℚ) - 1)⌋.toNat 0 := by
    rw [List.getD_eq_getElem s 0 hb]
    exact hpos _ (List.getElem_mem _)
  exact lt_of_lt_of_le hmem (type7_lower hs ht)

theorem quantiles_exact_of_pos (ts : ℚ → String) (values : List ℚ) (hne : values ≠ [])
    (hpos : ∀ v ∈ values, 0 < v) :
    0 < (quantiles (exactRuntime ts) values).median
    ∧ (quantiles (exactRuntime ts) values).median ≤ (quantiles (exactRuntime ts) values).q3 := by
  have hlen : values.length ≠ 0 := by
    intro h; exact hne (List.length_eq_zero.mp h)
  have hn : 1 ≤ (values.insertionSort (· ≤ ·)).length := by
    rw [List.length_insertionSort]; omega
  have hs := List.sorted_insertionSort (· ≤ ·) values
  have hp : ∀ v ∈ values.insertionSort (· ≤ ·), 0 < v := fun v hv =>
    hpos v ((List.perm_insertionSort (· ≤ ·) values).mem_iff.mp hv)
  rw [quantiles_exact_eq ts values hne]
  exact ⟨type7_pos hs hn hp (by norm_num) (by norm_num),
    type7_mono hs hn (by norm_num) (by norm_num) (by norm_num)⟩

/-- In exact arithmetic, for a snapshot with at least one usable competitor
price, all of them strictly positive, the median is positive and at most q3,
the competitive ceiling is q3, and the recommended price before rounding is
`max(floorPrice, median)`. -/
theorem recommendedPrice_of_positive_prices (ts : ℚ → String) (env : Env) (product : ProductDoc)
    (snapshot : CompetitorSnapshotDoc) (hne : competitorPrices snapshot ≠ [])
    (hpos : ∀ v ∈ competitorPrices snapshot, 0 < v) :
    0 < (quantiles (exactRuntime ts) (competitorPrices snapshot)).median
    ∧ (quantiles (exactRuntime ts) (competitorPrices snapshot)).median
        ≤ (quantiles (exactRuntime ts) (competitorPrices snapshot)).q3
    ∧ competitiveCeiling (exactRuntime ts) env product snapshot
        = (quantiles (exactRuntime ts) (competitorPrices snapshot)).q3
    ∧ rawRecommendedPrice (exactRuntime ts) env product snapshot
        = max (floorPrice (exactRuntime ts) env product)
            (quantiles (exactRuntime ts) (competitorPrices snapshot)).median := by
  obtain ⟨hm, hq⟩ := quantiles_exact_of_pos ts (competitorPrices snapshot) hne hpos
  have hm0 : (quantiles (exactRuntime ts) (competitorPrices snapshot)).median ≠ 0 := ne_of_gt hm
  have hq0 : (quantiles (exactRuntime ts) (competitorPrices snapshot)).q3 ≠ 0 :=
    ne_of_gt (lt_of_lt_of_le hm hq)
  have hc : competitiveCeiling (exactRuntime ts) env product snapshot
      = (quantiles (exactRuntime ts) (competitorPrices snapshot)).q3 := by
    unfold competitiveCeiling
    simp only [numOr, if_neg hq0]
  refine ⟨hm, hq, hc, ?_⟩
  unfold rawRecommendedPrice
  simp only [hc, numOr, if_neg hm0, min_eq_right hq]

/-- The end-to-end scenario in exact arithmetic, where the median 23.5 is above
`floorPrice` 14.16 and is the price before rounding; the same value results in
double precision. -/
theorem recommendedPrice_of_positive_prices_witness :
    rawRecommendedPrice (exactRuntime sampleNumberToString) {} Example.scenarioProduct
        Example.scenarioSnapshot
      = max (floorPrice (exactRuntime sampleNumberToString) {} Example.scenarioProduct)
          (quantiles (exactRuntime sampleNumberToString)
            (competitorPrices Example.scenarioSnapshot)).median
    ∧ rawRecommendedPrice (exactRuntime sampleNumberToString) {} Example.scenarioProduct
        Example.scenarioSnapshot = 47 / 2
    ∧ rawRecommendedPrice (ieeeRuntime sampleNumberToString) {} Example.scenarioProduct
        Example.scenarioSnapshot
      = max (floorPrice (ieeeRuntime sampleNumberToString) {} Example.scenarioProduct)
          (quantiles (ieeeRuntime sampleNumberToString)
            (competitorPrices Example.scenarioSnapshot)).median :=
  ⟨(recommendedPrice_of_positive_prices sampleNumberToString {} Example.scenarioProduct
      Example.scenarioSnapshot (by decide!) (by decide!)).2.2.2,
   by decide!, by decide!⟩

theorem rawExpectedMargin_exact (R : Runtime) (hid : R.rnd = id) (env : Env) (product : ProductDoc)
    (snapshot : CompetitorSnapshotDoc)
    (htc : 0 < Fallback.computeTotalCost R product.costStructure) :
    rawExpectedMargin R env product snapshot
        = (rawRecommendedPrice R env product snapshot
            - Fallback.computeTotalCost R product.costStructure)
          / Fallback.computeTotalCost R product.costStructure * 100
    ∧ desiredMargin R env * 100 ≤ rawExpectedMargin R env product snapshot := by
  have he : rawExpectedMargin R env product snapshot
      = (rawRecommendedPrice R env product snapshot
          - Fallback.computeTotalCost R product.costStructure)
        / Fallback.computeTotalCost R product.costStructure * 100 := by
    unfold rawExpectedMargin
    simp only [if_pos htc, hid, id]
  refine ⟨he, ?_⟩
  have hf := floorPrice_le_rawRecommendedPrice R env product snapshot
  have hfl : floorPrice R env product
      = Fallback.computeTotalCost R product.costStructure * (1 + desiredMargin R env) := by
    unfold floorPrice; simp only [hid, id]
  rw [hfl] at hf
  rw [he]
  have hdiv : desiredMargin R env
      ≤ (rawRecommendedPrice R env product snapshot
          - Fallback.computeTotalCost R product.costStructure)
        / Fallback.computeTotalCost R product.costStructure := by
    rw [le_div_iff₀ htc]; linarith
  linarith

/-- C30, as amended.  The `expectedMargin` returned is
`max(margin, minMargin × 100)` rounded to two decimals, where `margin`, the
margin before clamping, is `(recommendedPrice − totalCost) / totalCost × 100` on
the unrounded price when `totalCost > 0` and 0 otherwise.  In exact arithmetic,
when `totalCost > 0` and `desiredMargin ≥ minMargin`, the clamp is inactive:
`margin ≥ desiredMargin × 100` and the `expectedMargin` returned is `margin`
rounded to two decimals.  When `totalCost ≤ 0` the `expectedMargin` returned is
`max(0, minMargin × 100)` rounded. -/
theorem expectedMargin_clamp (R : Runtime) (env : Env) (product : ProductDoc)
    (snapshot : CompetitorSnapshotDoc) :
    (buildFallbackRecommendation R env product snapshot).expectedMargin
        = toFixedNumber R 2
            (max (rawExpectedMargin R env product snapshot) (R.rnd (minMargin R env * 100)))
    ∧ (¬ 0 < Fallback.computeTotalCost R product.costStructure →
        rawExpectedMargin R env product snapshot = 0
        ∧ (buildFallbackRecommendation R env product snapshot).expectedMargin
            = toFixedNumber R 2 (max 0 (R.rnd (minMargin R env * 100))))
    ∧ (R.rnd = id → 0 < Fallback.computeTotalCost R product.costStructure →
        minMargin R env ≤ desiredMargin R env →
        rawExpectedMargin R env product snapshot
            = (rawRecommendedPrice R env product snapshot
                - Fallback.computeTotalCost R product.costStructure)
              / Fallback.computeTotalCost R product.costStructure * 100
        ∧ desiredMargin R env * 100 ≤ rawExpectedMargin R env product snapshot
        ∧ safeMargin R env product snapshot = rawExpectedMargin R env product snapshot
        ∧ (buildFallbackRecommendation R env product snapshot).expectedMargin
            = toFixedNumber R 2 (rawExpectedMargin R env product snapshot)) := by
  refine ⟨rfl, fun htc => ?_, fun hid htc hmm => ?_⟩
  · have h0 : rawExpectedMargin R env product snapshot = 0 := by
      unfold rawExpectedMargin
      simp only [if_neg htc]
    refine ⟨h0, ?_⟩
    show toFixedNumber R 2 (safeMargin R env product snapshot) = _
    unfold safeMargin
    rw [h0]
  · obtain ⟨he, hge⟩ := rawExpectedMargin_exact R hid env product snapshot htc
    have hs : safeMargin R env product snapshot = rawExpectedMargin R env product snapshot := by
      unfold safeMargin
      apply max_eq_left
      simp only [hid, id]
      linarith
    refine ⟨he, hge, hs, ?_⟩
    show toFixedNumber R 2 (safeMargin R env product snapshot) = _
    rw [hs]

/-- Witness of C30 as amended: the end-to-end scenario in exact arithmetic
(total cost 12, margins 0.18 and 0.10), where the margin before clamping is
`(23.5 − 12) / 12 × 100` and the value returned is `95.83`. -/
theorem expectedMargin_clamp_witness :
    safeMargin (exactRuntime sampleNumberToString) {} Example.scenarioProduct
        Example.scenarioSnapshot
      = rawExpectedMargin (exactRuntime sampleNumberToString) {} Example.scenarioProduct
          Example.scenarioSnapshot
    ∧ (buildFallbackRecommendation (exactRuntime sampleNumberToString) {} Example.scenarioProduct
        Example.scenarioSnapshot).expectedMargin = 9583 / 100 :=
  ⟨((expectedMargin_clamp (exactRuntime sampleNumberToString) {} Example.scenarioProduct
      Example.scenarioSnapshot).2.2 rfl (by decide!) (by decide!)).2.2.1,
   by decide!⟩

/-- C30 fails as stated in double precision.  With
`FALLBACK_TARGET_MARGIN=0.10005`, `FALLBACK_MIN_MARGIN=0.10005`, total cost 50
and no competitor, the margin before clamping is
`10.004999999999995 < desiredMargin × 100`, the clamp value `10.005` is taken,
and the `expectedMargin` returned is `10.01`, while the margin before clamping
rounded to two decimals is `10`. -/
theorem margin_clamp_taken_ieee :
    0 < Fallback.computeTotalCost (ieeeRuntime sampleNumberToString)
          Example.fiftyProduct.costStructure
    ∧ minMargin (ieeeRuntime sampleNumberToString) Example.tightEnv
        ≤ desiredMargin (ieeeRuntime sampleNumberToString) Example.tightEnv
    ∧ rawExpectedMargin (ieeeRuntime sampleNumberToString) Example.tightEnv Example.fiftyProduct
          Example.emptySnapshot
        < binary64 (desiredMargin (ieeeRuntime sampleNumberToString) Example.tightEnv * 100)
    ∧ (rawRecommendedPrice (ieeeRuntime sampleNumberToString) Example.tightEnv
          Example.fiftyProduct Example.emptySnapshot - 50) / 50 * 100
        < desiredMargin (ieeeRuntime sampleNumberToString) Example.tightEnv * 100
    ∧ safeMargin (ieeeRuntime sampleNumberToString) Example.tightEnv Example.fiftyProduct
          Example.emptySnapshot
        = binary64 (minMargin (ieeeRuntime sampleNumberToString) Example.tightEnv * 100)
    ∧ (buildFallbackRecommendation (ieeeRuntime sampleNumberToString) Example.tightEnv
          Example.fiftyProduct Example.emptySnapshot).expectedMargin = binary64 (1001 / 100)
    ∧ toFixedNumber (ieeeRuntime sampleNumberToString) 2
          (rawExpectedMargin (ieeeRuntime sampleNumberToString) Example.tightEnv
            Example.fiftyProduct Example.emptySnapshot) = 10
    ∧ (buildFallbackRecommendation (ieeeRuntime sampleNumberToString) Example.tightEnv
          Example.fiftyProduct Example.emptySnapshot).expectedMargin
        ≠ toFixedNumber (ieeeRuntime sampleNumberToString) 2
            (rawExpectedMargin (ieeeRuntime sampleNumberToString) Example.tightEnv
              Example.fiftyProduct Example.emptySnapshot) := by
  decide!

end PorfitOptima

namespace PorfitOptima
namespace PricingWorker

/-! ## Concurrent claims -/

/-- Run alone, the two store calls of an invocation are `fetchNextPendingSnapshot`. -/
theorem fetchStep_fetchStep (C : Collaborators) (w : World) :
    fetchStep C (fetchStep C w Invocation.start).2 (fetchStep C w Invocation.start).1
      = (Invocation.returned (fetchNextPendingSnapshot C w).1,
         (fetchNextPendingSnapshot C w).2) := by
  unfold fetchNextPendingSnapshot
  cases h1 : C.storeFails w.storeCalls with
  | some e => simp [fetchStep, h1]
  | none =>
    cases h2 : oldest (w.competitorSnapshots.filter
        (fun e => e.2.pricingStatus = PricingStatus.pending)) with
    | none => simp [fetchStep, h1, h2]
    | some doc =>
      simp only [fetchStep, h1, h2]
      rcases h3 : updateSnapshot C w.tick doc.1
          (fun now d => { d with pricingStatus := PricingStatus.processing,
                                 updatedAt := some now }) with ⟨r, w1⟩
      cases r <;> rfl

theorem fetchStep_start_of_pending (C : Collaborators) (w : World)
    (doc : String × CompetitorSnapshotDoc) (hstore : ∀ k, C.storeFails k = none)
    (hpend : w.competitorSnapshots.filter (fun e => e.2.pricingStatus = PricingStatus.pending)
      = [doc]) :
    fetchStep C w Invocation.start = (Invocation.queried doc, w.tick) := by
  simp [fetchStep, hstore, hpend, oldest]

theorem fetchStep_start_of_none (C : Collaborators) (w : World)
    (hstore : ∀ k, C.storeFails k = none)
    (hpend : w.competitorSnapshots.filter (fun e => e.2.pricingStatus = PricingStatus.pending)
      = []) :
    fetchStep C w Invocation.start = (Invocation.returned (Except.ok none), w.tick) := by
  simp [fetchStep, hstore, hpend, oldest]

theorem fetchStep_queried (C : Collaborators) (w : World) (doc : String × CompetitorSnapshotDoc)
    (hstore : ∀ k, C.storeFails k = none) (hget : (w.competitorSnapshots.get doc.1).isSome) :
    fetchStep C w (Invocation.queried doc)
      = (Invocation.returned (Except.ok (some
            (if doc.2.snapshotId = "" then { doc.2 with snapshotId := doc.1 } else doc.2))),
         { w.tick with
           competitorSnapshots := w.competitorSnapshots.modify doc.1
             (fun d => { d with pricingStatus := PricingStatus.processing,
                                updatedAt := some (C.serverTime w.storeCalls) }) }) := by
  simp only [fetchStep, updateSnapshot, hstore]
  rw [Collection.update_isSome _ hget]

theorem get_isSome_of_mem {α : Type} {c : Collection α} {e : String × α} (h : e ∈ c) :
    (Collection.get c e.1).isSome := by
  unfold Collection.get
  rw [Option.isSome_map', List.find?_isSome]
  exact ⟨e, h, by simp⟩

theorem get_isSome_modify {α : Type} {c : Collection α} {id : String} (F : α → α)
    (h : (Collection.get c id).isSome) : (Collection.get (Collection.modify c id F) id).isSome := by
  rw [Collection.get_modify]
  simpa using h

/-- After the claim no document is left pending, when one was. -/
theorem filter_pending_modify (c : Collection CompetitorSnapshotDoc)
    (doc : String × CompetitorSnapshotDoc) (now : Timestamp)
    (hpend : c.filter (fun e => e.2.pricingStatus = PricingStatus.pending) = [doc]) :
    (Collection.modify c doc.1
      (fun d => { d with pricingStatus := PricingStatus.processing, updatedAt := some now })).filter
        (fun e => e.2.pricingStatus = PricingStatus.pending) = [] := by
  rw [List.filter_eq_nil_iff]
  intro e he
  unfold Collection.modify at he
  rw [List.mem_map] at he
  obtain ⟨e0, he0, rfl⟩ := he
  by_cases hid : e0.1 = doc.1
  · simp [hid]
  · simp only [if_neg hid]
    intro hp
    have hmem : e0 ∈ c.filter (fun e => e.2.pricingStatus = PricingStatus.pending) :=
      List.mem_filter.mpr ⟨he0, hp⟩
    rw [hpend, List.mem_singleton] at hmem
    exact hid (by rw [hmem])

theorem statusOf_modify_processing (c : Collection CompetitorSnapshotDoc) (id : String)
    (now : Timestamp) (h : (Collection.get c id).isSome) :
    (Collection.get (Collection.modify c id
      (fun d => { d with pricingStatus := PricingStatus.processing, updatedAt := some now })) id).map
        (fun d => d.pricingStatus) = some PricingStatus.processing := by
  rw [Collection.get_modify]
  obtain ⟨v, hv⟩ := Option.isSome_iff_exists.mp h
  simp [hv]

/-- The two sequential schedules: the invocation that runs first claims the
snapshot, the other one finds no pending snapshot. -/
theorem runConcurrent_sequential (C : Collaborators) (w : World)
    (doc : String × CompetitorSnapshotDoc)
    (hstore : ∀ k, C.storeFails k = none)
    (hpend : w.competitorSnapshots.filter (fun e => e.2.pricingStatus = PricingStatus.pending)
      = [doc]) :
    (fetchStep C (fetchStep C w Invocation.start).2 (fetchStep C w Invocation.start).1).1
      = Invocation.returned (Except.ok (some
          (if doc.2.snapshotId = "" then { doc.2 with snapshotId := doc.1 } else doc.2)))
    ∧ (fetchStep C
        (fetchStep C (fetchStep C w Invocation.start).2 (fetchStep C w Invocation.start).1).2
        Invocation.start).1 = Invocation.returned (Except.ok none)
    ∧ statusOf (fetchStep C
        (fetchStep C (fetchStep C w Invocation.start).2 (fetchStep C w Invocation.start).1).2
        Invocation.start).2 doc.1 = some PricingStatus.processing := by
  have hmem : doc ∈ w.competitorSnapshots := by
    have : doc ∈ w.competitorSnapshots.filter
        (fun e => e.2.pricingStatus = PricingStatus.pending) := by rw [hpend]; simp
    exact (List.mem_filter.mp this).1
  have hget : (w.tick.competitorSnapshots.get doc.1).isSome := get_isSome_of_mem hmem
  rw [fetchStep_start_of_pending C w doc hstore hpend]
  simp only
  rw [fetchStep_queried C w.tick doc hstore hget]
  simp only
  rw [fetchStep_start_of_none C _ hstore
    (filter_pending_modify w.competitorSnapshots doc (C.serverTime w.tick.storeCalls) hpend)]
  refine ⟨by trivial, by trivial, ?_⟩
  exact statusOf_modify_processing w.competitorSnapshots doc.1 _ (get_isSome_of_mem hmem)

/-- The interleaved schedules: when both queries run before both updates, both
invocations return the snapshot. -/
theorem fetchStep_interleaved (C : Collaborators) (w : World)
    (doc : String × CompetitorSnapshotDoc) (hstore : ∀ k, C.storeFails k = none)
    (hpend : w.competitorSnapshots.filter (fun e => e.2.pricingStatus = PricingStatus.pending)
      = [doc]) :
    (fetchStep C w Invocation.start).1 = Invocation.queried doc
    ∧ (fetchStep C (fetchStep C w Invocation.start).2 Invocation.start).1 = Invocation.queried doc
    ∧ (fetchStep C (fetchStep C (fetchStep C w Invocation.start).2 Invocation.start).2
        (Invocation.queried doc)).1
      = Invocation.returned (Except.ok (some
          (if doc.2.snapshotId = "" then { doc.2 with snapshotId := doc.1 } else doc.2)))
    ∧ (fetchStep C
        (fetchStep C (fetchStep C (fetchStep C w Invocation.start).2 Invocation.start).2
          (Invocation.queried doc)).2 (Invocation.queried doc)).1
      = Invocation.returned (Except.ok (some
          (if doc.2.snapshotId = "" then { doc.2 with snapshotId := doc.1 } else doc.2)))
    ∧ statusOf (fetchStep C
        (fetchStep C (fetchStep C (fetchStep C w Invocation.start).2 Invocation.start).2
          (Invocation.queried doc)).2 (Invocation.queried doc)).2 doc.1
      = some PricingStatus.processing := by
  have hmem : doc ∈ w.competitorSnapshots := by
    have : doc ∈ w.competitorSnapshots.filter
        (fun e => e.2.pricingStatus = PricingStatus.pending) := by rw [hpend]; simp
    exact (List.mem_filter.mp this).1
  have hget : (w.competitorSnapshots.get doc.1).isSome := get_isSome_of_mem hmem
  rw [fetchStep_start_of_pending C w doc hstore hpend]
  simp only
  rw [fetchStep_start_of_pending C w.tick doc hstore hpend]
  simp only
  rw [fetchStep_queried C w.tick.tick doc hstore hget]
  simp only
  have hget2 : (({ w.tick.tick.tick with
      competitorSnapshots := w.tick.tick.competitorSnapshots.modify doc.1
        (fun d => { d with pricingStatus := PricingStatus.processing,
                           updatedAt := some (C.serverTime w.tick.tick.storeCalls) }) }
      : World).competitorSnapshots.get doc.1).isSome :=
    (get_isSome_modify (c := w.competitorSnapshots)
      (fun d => { d with pricingStatus := PricingStatus.processing,
                         updatedAt := some (C.serverTime w.tick.tick.storeCalls) }) hget :)
  rw [fetchStep_queried C
    ({ w.tick.tick.tick with
      competitorSnapshots := w.tick.tick.competitorSnapshots.modify doc.1
        (fun d => { d with pricingStatus := PricingStatus.processing,
                           updatedAt := some (C.serverTime w.tick.tick.storeCalls) }) } : World)
    doc hstore hget2]
  refine ⟨by trivial, by trivial, by trivial, by trivial, ?_⟩
  exact statusOf_modify_processing _ doc.1 _ hget2

end PricingWorker
end PorfitOptima

namespace PorfitOptima
namespace PricingWorker

theorem fetchStep_returned (C : Collaborators) (w : World)
    (r : Except Thrown (Option CompetitorSnapshotDoc)) :
    fetchStep C w (Invocation.returned r) = (Invocation.returned r, w) := rfl

/-- The schedules in which each of the two invocations makes its two store calls. -/
theorem schedule_mem_of_count (s : List Bool) (ht : s.count true = 2) (hf : s.count false = 2) :
    s ∈ [[true, true, false, false], [false, false, true, true],
          [true, false, true, false], [true, false, false, true],
          [false, true, true, false], [false, true, false, true]] := by
  have hlen : s.length = 4 := by
    have := List.count_true_add_count_false s
    omega
  match s, hlen, ht, hf with
  | [a, b, c, d], _, ht, hf =>
    revert ht hf
    cases a <;> cases b <;> cases c <;> cases d <;> decide

/-- C24, as amended.  Two invocations of `fetchNextPendingSnapshot` run against
a store that holds a single pending snapshot and accepts every call.  When one
invocation makes both its store calls before the other one starts, it claims
the snapshot and the other one finds no pending snapshot and returns no work.
When both queries run before both updates, in any of the four orders, both
invocations return the snapshot: the update does not depend on the status it
overwrites.  In every schedule in which each invocation makes its two store
calls, at least one invocation returns the snapshot and the snapshot ends
`processing`. -/
theorem concurrent_claims (C : Collaborators) (w : World) (doc : String × CompetitorSnapshotDoc)
    (hstore : ∀ k, C.storeFails k = none)
    (hpend : w.competitorSnapshots.filter (fun e => e.2.pricingStatus = PricingStatus.pending)
      = [doc]) :
    ((runConcurrent C [true, true, false, false]
          (Invocation.start, Invocation.start, w)).1.claimed
        = some (if doc.2.snapshotId = "" then { doc.2 with snapshotId := doc.1 } else doc.2)
      ∧ (runConcurrent C [true, true, false, false]
          (Invocation.start, Invocation.start, w)).2.1 = Invocation.returned (Except.ok none))
    ∧ ((runConcurrent C [false, false, true, true]
          (Invocation.start, Invocation.start, w)).2.1.claimed
        = some (if doc.2.snapshotId = "" then { doc.2 with snapshotId := doc.1 } else doc.2)
      ∧ (runConcurrent C [false, false, true, true]
          (Invocation.start, Invocation.start, w)).1 = Invocation.returned (Except.ok none))
    ∧ (∀ schedule ∈ [[true, false, true, false], [true, false, false, true],
          [false, true, true, false], [false, true, false, true]],
        (runConcurrent C schedule (Invocation.start, Invocation.start, w)).1.claimed
          = some (if doc.2.snapshotId = "" then { doc.2 with snapshotId := doc.1 } else doc.2)
        ∧ (runConcurrent C schedule (Invocation.start, Invocation.start, w)).2.1.claimed
          = some (if doc.2.snapshotId = "" then { doc.2 with snapshotId := doc.1 } else doc.2))
    ∧ (∀ schedule : List Bool, schedule.count true = 2 → schedule.count false = 2 →
        statusOf (runConcurrent C schedule (Invocation.start, Invocation.start, w)).2.2 doc.1
          = some PricingStatus.processing
        ∧ ((runConcurrent C schedule (Invocation.start, Invocation.start, w)).1.claimed
            = some (if doc.2.snapshotId = "" then { doc.2 with snapshotId := doc.1 } else doc.2)
          ∨ (runConcurrent C schedule (Invocation.start, Invocation.start, w)).2.1.claimed
            = some (if doc.2.snapshotId = "" then { doc.2 with snapshotId := doc.1 }
                else doc.2))) := by
  obtain ⟨s1, s2, s3⟩ := runConcurrent_sequential C w doc hstore hpend
  obtain ⟨i1, i2, i3, i4, i5⟩ := fetchStep_interleaved C w doc hstore hpend
  refine ⟨?_, ?_, ?_, ?_⟩
  · simp only [runConcurrent, s1, s2, fetchStep_returned, Invocation.claimed, and_self]
  · simp only [runConcurrent, s1, s2, fetchStep_returned, Invocation.claimed, and_self]
  · intro schedule hs
    simp only [List.mem_cons, List.mem_singleton, List.not_mem_nil, or_false] at hs
    rcases hs with rfl | rfl | rfl | rfl <;>
      simp only [runConcurrent, i1, i2, i3, i4, Invocation.claimed, and_self]
  · intro schedule ht hf
    have hs := schedule_mem_of_count schedule ht hf
    simp only [List.mem_cons, List.mem_singleton, List.not_mem_nil, or_false] at hs
    rcases hs with rfl | rfl | rfl | rfl | rfl | rfl
    · refine ⟨?_, Or.inl ?_⟩
      · simp only [runConcurrent, s1, s2, fetchStep_returned]; exact s3
      · simp only [runConcurrent, s1, Invocation.claimed]
    · refine ⟨?_, Or.inr ?_⟩
      · simp only [runConcurrent, s1, s2, fetchStep_returned]; exact s3
      · simp only [runConcurrent, s1, Invocation.claimed]
    · refine ⟨?_, Or.inl ?_⟩
      · simp only [runConcurrent, i1, i2]; exact i5
      · simp only [runConcurrent, i1, i2, i3, i4, Invocation.claimed]
    · refine ⟨?_, Or.inl ?_⟩
      · simp only [runConcurrent, i1, i2]; exact i5
      · simp only [runConcurrent, i1, i2, i3, i4, Invocation.claimed]
    · refine ⟨?_, Or.inl ?_⟩
      · simp only [runConcurrent, i1, i2]; exact i5
      · simp only [runConcurrent, i1, i2, i3, i4, Invocation.claimed]
    · refine ⟨?_, Or.inl ?_⟩
      · simp only [runConcurrent, i1, i2]; exact i5
      · simp only [runConcurrent, i1, i2, i3, i4, Invocation.claimed]

/-- Witness of C24 as amended: the queue store, whose only pending snapshot is
`snap-2`. -/
theorem concurrent_claims_witness :
    (runConcurrent Example.steadyCollaborators [true, true, false, false]
        (Invocation.start, Invocation.start, Example.queueWorld)).2.1
      = Invocation.returned (Except.ok none)
    ∧ statusOf (runConcurrent Example.steadyCollaborators [true, false, true, false]
        (Invocation.start, Invocation.start, Example.queueWorld)).2.2 "snap-2"
      = some PricingStatus.processing :=
  ⟨(concurrent_claims Example.steadyCollaborators Example.queueWorld
      Example.pendingDoc
      (fun _ => rfl) rfl).1.2,
   ((concurrent_claims Example.steadyCollaborators Example.queueWorld
      Example.pendingDoc
      (fun _ => rfl) rfl).2.2.2 [true, false, true, false] (by decide) (by decide)).1⟩

/-- C24 fails as stated: on the queue store, whose only pending snapshot is
`snap-2`, when the two queries run before the two updates, both invocations of
`fetchNextPendingSnapshot` return the snapshot `snap-2`, and neither returns no
work. -/
theorem both_invocations_claim :
    ((runConcurrent Example.steadyCollaborators [true, false, true, false]
        (Invocation.start, Invocation.start, Example.queueWorld)).1.claimed.map
          (fun d => d.snapshotId) = some "snap-2")
    ∧ ((runConcurrent Example.steadyCollaborators [true, false, true, false]
        (Invocation.start, Invocation.start, Example.queueWorld)).2.1.claimed.map
          (fun d => d.snapshotId) = some "snap-2")
    ∧ (Example.queueWorld.competitorSnapshots.filter
        (fun e => e.2.pricingStatus = PricingStatus.pending)).map (fun e => e.1) = ["snap-2"] := by
  decide!

end PricingWorker
end PorfitOptima

namespace PorfitOptima

/-! ## Numbers of the binary64 format -/

theorem roundHalfEven_le_add_half (z : ℚ) : (roundHalfEven z : ℚ) ≤ z + 1 / 2 := by
  have h1 := Int.floor_le z
  unfold roundHalfEven
  simp only
  split_ifs with ha hb hc
  · linarith
  · push_cast; linarith
  · linarith
  · have : z - (⌊z⌋ : ℚ) = 1 / 2 := le_antisymm (not_lt.mp hb) (not_lt.mp ha)
    push_cast; linarith

/-- Every binary64 value is an integer multiple of `2^(-1074)`. -/
theorem exists_int_mul_of_binary64 (x : ℚ) :
    ∃ a : ℤ, binary64 x = (a : ℚ) * (2 : ℚ) ^ (-1074 : ℤ) := by
  have key : ∀ y : ℚ, 0 < y → ∃ a : ℤ, binary64 y = (a : ℚ) * (2 : ℚ) ^ (-1074 : ℤ) := by
    intro y hy
    have hmin : (-1022 : ℤ) ≤ binade y := le_max_right _ _
    refine ⟨roundHalfEven (y / (2 : ℚ) ^ (binade y - 52)) * (2 : ℤ) ^ (binade y + 1022).toNat, ?_⟩
    rw [binary64_of_pos hy]
    have hsplit : (2 : ℚ) ^ (binade y - 52)
        = (2 : ℚ) ^ ((binade y + 1022).toNat : ℤ) * (2 : ℚ) ^ (-1074 : ℤ) := by
      rw [← zpow_add₀ (by norm_num : (2 : ℚ) ≠ 0)]
      congr 1
      rw [Int.toNat_of_nonneg (by omega)]
      ring
    rw [hsplit, zpow_natCast]
    push_cast
    ring
  rcases lt_trichotomy 0 x with hx | hx | hx
  · exact key x hx
  · exact ⟨0, by rw [← hx]; simp [binary64]⟩
  · obtain ⟨a, ha⟩ := key (-x) (by linarith)
    refine ⟨-a, ?_⟩
    rw [binary64_neg] at ha
    push_cast
    linarith

theorem binary64_tiny : binary64 ((2 : ℚ) ^ (-1074 : ℤ)) = (2 : ℚ) ^ (-1074 : ℤ) := by
  have hpos : (0 : ℚ) < (2 : ℚ) ^ (-1074 : ℤ) := by positivity
  have hb : binade ((2 : ℚ) ^ (-1074 : ℤ)) = -1022 :=
    binade_of_lt hpos (zpow_lt_zpow_right₀ (by norm_num) (by norm_num))
  apply binary64_eq_self_of_binade 1 hpos
  rw [hb]
  norm_num

/-- The quarters of the integers below `2^53` are binary64 values. -/
theorem binary64_quarter (j : ℕ) (hj : j < 2 ^ 53) : binary64 ((j : ℚ) / 4) = (j : ℚ) / 4 := by
  rcases Nat.eq_zero_or_pos j with h0 | hpos
  · subst h0; simp [binary64]
  · have hx : (0 : ℚ) < (j : ℚ) / 4 := by positivity
    have hjq : (j : ℚ) < (2 : ℚ) ^ (53 : ℕ) := by exact_mod_cast hj
    have hj1 : (1 : ℚ) ≤ (j : ℚ) := by exact_mod_cast hpos
    -- the binade of `j / 4` lies between `-2` and `50`
    have hlog_lo : (-2 : ℤ) ≤ Int.log 2 ((j : ℚ) / 4) := by
      apply (Int.zpow_le_iff_le_log (by norm_num) hx).mp
      norm_num
      linarith
    have hlog_hi : Int.log 2 ((j : ℚ) / 4) < 51 := by
      apply (Int.lt_zpow_iff_log_lt (by norm_num) hx).mp
      norm_num
      have : (2 : ℚ) ^ (53 : ℕ) = 4 * 2251799813685248 := by norm_num
      linarith
    have hb : binade ((j : ℚ) / 4) = Int.log 2 ((j : ℚ) / 4) := by
      unfold binade; rw [abs_of_pos hx]; exact max_eq_left (by omega)
    apply binary64_eq_self_of_binade
      ((j : ℤ) * (2 : ℤ) ^ (50 - Int.log 2 ((j : ℚ) / 4)).toNat) hx
    rw [hb]
    have hsplit : (2 : ℚ) ^ (Int.log 2 ((j : ℚ) / 4) - 52)
        = (2 : ℚ) ^ (-2 : ℤ) / (2 : ℚ) ^ ((50 - Int.log 2 ((j : ℚ) / 4)).toNat : ℤ) := by
      rw [← zpow_sub₀ (by norm_num : (2 : ℚ) ≠ 0)]
      congr 1
      rw [Int.toNat_of_nonneg (by omega)]
      ring
    rw [hsplit, zpow_natCast]
    push_cast
    have hne : ((2 : ℚ) ^ (50 - Int.log 2 ((j : ℚ) / 4)).toNat) ≠ 0 := by positivity
    field_simp
    ring

end PorfitOptima

namespace PorfitOptima

theorem binary64_zero : binary64 0 = 0 := by simp [binary64]

/-- If rounding `y > 0` gives at least `4/3` of it, `y` is at most one and a
half units of the smallest spacing and the result is one or two units. -/
theorem binary64_of_four_thirds {y : ℚ} (hy : 0 < y) (h : 4 / 3 * y ≤ binary64 y) :
    binary64 y = (2 : ℚ) ^ (-1074 : ℤ) ∨ binary64 y = 2 * (2 : ℚ) ^ (-1074 : ℤ) := by
  have hq : (0 : ℚ) < (2 : ℚ) ^ (binade y - 52) := by positivity
  have hmin : (-1022 : ℤ) ≤ binade y := le_max_right _ _
  have hround := roundHalfEven_le_add_half (y / (2 : ℚ) ^ (binade y - 52))
  have hval := binary64_of_pos hy
  -- `z := y / q` satisfies `4/3 z ≤ round z ≤ z + 1/2`, hence `z ≤ 3/2`
  have hz : y / (2 : ℚ) ^ (binade y - 52) ≤ 3 / 2 := by
    have h1 : 4 / 3 * (y / (2 : ℚ) ^ (binade y - 52))
        ≤ (roundHalfEven (y / (2 : ℚ) ^ (binade y - 52)) : ℚ) := by
      rw [hval] at h
      rw [← div_le_iff₀ hq] at h
      calc 4 / 3 * (y / (2 : ℚ) ^ (binade y - 52)) = 4 / 3 * y / (2 : ℚ) ^ (binade y - 52) := by ring
        _ ≤ _ := h
    linarith
  have he : binade y = -1022 := by
    by_contra hne
    have hlt : -1022 < binade y := lt_of_le_of_ne hmin (Ne.symm hne)
    have h1 := zpow_binade_le hy hlt
    have hsplit : (2 : ℚ) ^ binade y = (2 : ℚ) ^ (52 : ℕ) * (2 : ℚ) ^ (binade y - 52) := by
      rw [← zpow_natCast, ← zpow_add₀ (by norm_num : (2 : ℚ) ≠ 0)]
      congr 1; push_cast; ring
    have h2 : (2 : ℚ) ^ (52 : ℕ) ≤ y / (2 : ℚ) ^ (binade y - 52) := by
      rw [le_div_iff₀ hq, ← hsplit]; exact h1
    have : (2 : ℚ) ^ (52 : ℕ) ≤ 3 / 2 := le_trans h2 hz
    norm_num at this
  have hm_le : roundHalfEven (y / (2 : ℚ) ^ (binade y - 52)) ≤ 2 := by
    have : (roundHalfEven (y / (2 : ℚ) ^ (binade y - 52)) : ℚ) ≤ 2 := by linarith
    exact_mod_cast this
  have hm_pos : 0 < roundHalfEven (y / (2 : ℚ) ^ (binade y - 52)) := by
    have : (0 : ℚ) < (roundHalfEven (y / (2 : ℚ) ^ (binade y - 52)) : ℚ) := by
      have h3 : 0 < binary64 y := lt_of_lt_of_le (by positivity) h
      rw [hval] at h3
      by_contra hneg
      have := mul_nonpos_of_nonpos_of_nonneg (not_lt.mp hneg) (le_of_lt hq)
      linarith
    exact_mod_cast this
  have hq' : (2 : ℚ) ^ (binade y - 52) = (2 : ℚ) ^ (-1074 : ℤ) := by rw [he]; norm_num
  have hcases : roundHalfEven (y / (2 : ℚ) ^ (binade y - 52)) = 1
      ∨ roundHalfEven (y / (2 : ℚ) ^ (binade y - 52)) = 2 := by omega
  rw [hval]
  rcases hcases with h1 | h1
  · left; rw [h1, hq']; norm_num
  · right; rw [h1, hq']; norm_num


/-- The rounded product of `k / 4`, `k < 4`, with the rounded difference of two
binary64 values does not exceed the difference. -/
theorem binary64_interp_le (k : ℕ) (hk : k < 4) (lo hi : ℚ) (hlo : binary64 lo = lo)
    (hhi : binary64 hi = hi) (h : lo ≤ hi) :
    binary64 ((k : ℚ) / 4 * binary64 (hi - lo)) ≤ hi - lo := by
  have hd : 0 ≤ hi - lo := by linarith
  have hD : 0 ≤ binary64 (hi - lo) := binary64_nonneg hd
  have ht0 : (0 : ℚ) ≤ (k : ℚ) / 4 := by positivity
  have ht1 : (k : ℚ) / 4 ≤ 3 / 4 := by
    have : (k : ℚ) ≤ 3 := by exact_mod_cast (by omega : k ≤ 3)
    linarith
  by_contra hcon
  have hlt : hi - lo < binary64 ((k : ℚ) / 4 * binary64 (hi - lo)) := not_le.mp hcon
  -- the product rounds to the rounded difference
  have h1 : binary64 (hi - lo) ≤ binary64 ((k : ℚ) / 4 * binary64 (hi - lo)) := by
    have := binary64_mono (le_of_lt hlt)
    rwa [binary64_idem] at this
  have h2 : binary64 ((k : ℚ) / 4 * binary64 (hi - lo)) ≤ binary64 (hi - lo) := by
    have := binary64_mono (show (k : ℚ) / 4 * binary64 (hi - lo) ≤ binary64 (hi - lo) by nlinarith)
    rwa [binary64_idem] at this
  have heq : binary64 ((k : ℚ) / 4 * binary64 (hi - lo)) = binary64 (hi - lo) := le_antisymm h2 h1
  have hDpos : 0 < binary64 (hi - lo) := by rw [← heq]; exact lt_of_le_of_lt hd hlt
  have hypos : 0 < (k : ℚ) / 4 * binary64 (hi - lo) := by
    by_contra hy
    have hy0 : (k : ℚ) / 4 * binary64 (hi - lo) = 0 :=
      le_antisymm (not_lt.mp hy) (mul_nonneg ht0 hD)
    rw [hy0, binary64_zero] at heq
    linarith
  have hfour : 4 / 3 * ((k : ℚ) / 4 * binary64 (hi - lo))
      ≤ binary64 ((k : ℚ) / 4 * binary64 (hi - lo)) := by
    rw [heq]; nlinarith
  -- so the rounded difference is one or two units of the smallest spacing
  have hsmall := binary64_of_four_thirds hypos hfour
  rw [heq] at hsmall
  -- while the difference is an integer number of units
  obtain ⟨a, ha⟩ := exists_int_mul_of_binary64 hi
  obtain ⟨b, hb⟩ := exists_int_mul_of_binary64 lo
  rw [hhi] at ha
  rw [hlo] at hb
  have hτ : (0 : ℚ) < (2 : ℚ) ^ (-1074 : ℤ) := by positivity
  have hdiff : hi - lo = ((a - b : ℤ) : ℚ) * (2 : ℚ) ^ (-1074 : ℤ) := by
    rw [ha, hb]; push_cast; ring
  have hlt2 : hi - lo < binary64 (hi - lo) := by rw [← heq]; exact hlt
  have hc0 : (0 : ℤ) ≤ a - b := by
    have : (0 : ℚ) ≤ ((a - b : ℤ) : ℚ) := by
      by_contra hneg
      have := mul_neg_of_neg_of_pos (not_le.mp hneg) hτ
      rw [← hdiff] at this
      linarith
    exact_mod_cast this
  have hc2 : a - b < 2 := by
    have : ((a - b : ℤ) : ℚ) < 2 := by
      by_contra hge
      have hge' : (2 : ℚ) ≤ ((a - b : ℤ) : ℚ) := not_lt.mp hge
      have : 2 * (2 : ℚ) ^ (-1074 : ℤ) ≤ hi - lo := by
        rw [hdiff]; exact mul_le_mul_of_nonneg_right hge' (le_of_lt hτ)
      rcases hsmall with hs | hs <;> rw [hs] at hlt2 <;> linarith
    exact_mod_cast this
  have hcases : a - b = 0 ∨ a - b = 1 := by omega
  rcases hcases with hc | hc
  · rw [hc] at hdiff
    simp only [Int.cast_zero, zero_mul] at hdiff
    rw [hdiff, binary64_zero] at hDpos
    exact lt_irrefl _ hDpos
  · rw [hc] at hdiff
    simp only [Int.cast_one, one_mul] at hdiff
    rw [hdiff, binary64_tiny] at hlt2
    exact lt_irrefl _ hlt2

theorem exactRuntime_dyadic (ts : ℚ → String) : (exactRuntime ts).Dyadic :=
  { quarter := fun _ _ => rfl
    interp_le := by
      intro k hk lo hi _ _ h
      show (k : ℚ) / 4 * (hi - lo) ≤ hi - lo
      have : (k : ℚ) ≤ 3 := by exact_mod_cast (by omega : k ≤ 3)
      nlinarith }

theorem ieeeRuntime_dyadic (ts : ℚ → String) : (ieeeRuntime ts).Dyadic :=
  { quarter := binary64_quarter
    interp_le := binary64_interp_le }

end PorfitOptima

namespace PorfitOptima
open Fallback

/-! ## The interpolation of `quantiles` under rounding -/

theorem arrayAt_natCast (xs : List ℚ) (i : ℕ) : arrayAt xs (i : ℤ) = xs[i]? := by
  unfold arrayAt
  simp

theorem arrayAt_natCast_succ (xs : List ℚ) (i : ℕ) : arrayAt xs ((i : ℤ) + 1) = xs[i + 1]? := by
  have : ((i : ℤ) + 1) = ((i + 1 : ℕ) : ℤ) := by push_cast; ring
  rw [this, arrayAt_natCast]

/-- The closure `index` at the quarter `k / 4` on a list of `n ≥ 2` numbers:
position, base and rest are computed without rounding error, the base is
`b = ⌊k (n − 1) / 4⌋` and the rest is `t = (k (n − 1) mod 4) / 4`, and the
result is `s[b] + t × (s[b+1] − s[b])` with each of the three operations
rounded, or `s[b]` when `b + 1` is past the end. -/
theorem index_quarter (R : Runtime) (hD : R.Dyadic) (s : List ℚ) (hn : s.length ≠ 1)
    (hpos : 0 < s.length) (hlen : s.length < 2 ^ 51) (k : ℕ) (hk : k < 4) :
    index R s (R.rnd ((k : ℚ) / 4))
      = if k * (s.length - 1) / 4 + 1 < s.length then
          R.rnd (s.getD (k * (s.length - 1) / 4) 0
            + R.rnd (((k * (s.length - 1) % 4 : ℕ) : ℚ) / 4
                * R.rnd (s.getD (k * (s.length - 1) / 4 + 1) 0
                    - s.getD (k * (s.length - 1) / 4) 0)))
        else s.getD (k * (s.length - 1) / 4) 0 := by
  have h51 : (2 : ℕ) ^ 53 = 4 * 2 ^ 51 := by norm_num
  have hk4 : R.rnd ((k : ℚ) / 4) = (k : ℚ) / 4 := hD.quarter k (by omega)
  have hn1 : R.rnd ((s.length : ℚ) - 1) = ((s.length - 1 : ℕ) : ℚ) := by
    have e : (s.length : ℚ) - 1 = ((4 * (s.length - 1) : ℕ) : ℚ) / 4 := by
      rw [Nat.cast_mul, Nat.cast_sub hpos]; push_cast; ring
    rw [e, hD.quarter _ (by omega)]
    push_cast; ring
  have hJ : k * (s.length - 1) < 2 ^ 53 := by
    have : k * (s.length - 1) ≤ 3 * (s.length - 1) := Nat.mul_le_mul_right _ (by omega)
    omega
  have hposq : R.rnd (((s.length - 1 : ℕ) : ℚ) * ((k : ℚ) / 4))
      = ((k * (s.length - 1) : ℕ) : ℚ) / 4 := by
    have e : ((s.length - 1 : ℕ) : ℚ) * ((k : ℚ) / 4) = ((k * (s.length - 1) : ℕ) : ℚ) / 4 := by
      push_cast; ring
    rw [e, hD.quarter _ hJ]
  have hfloor : ⌊((k * (s.length - 1) : ℕ) : ℚ) / 4⌋ = ((k * (s.length - 1) / 4 : ℕ) : ℤ) := by
    have := Rat.floor_intCast_div_natCast ((k * (s.length - 1) : ℕ) : ℤ) 4
    simpa using this
  have hrest : R.rnd (((k * (s.length - 1) : ℕ) : ℚ) / 4
        - (((k * (s.length - 1) / 4 : ℕ) : ℤ) : ℚ))
      = ((k * (s.length - 1) % 4 : ℕ) : ℚ) / 4 := by
    have hdm := Nat.div_add_mod (k * (s.length - 1)) 4
    have e : ((k * (s.length - 1) : ℕ) : ℚ) / 4 - (((k * (s.length - 1) / 4 : ℕ) : ℤ) : ℚ)
        = ((k * (s.length - 1) % 4 : ℕ) : ℚ) / 4 := by
      have hq : ((k * (s.length - 1) : ℕ) : ℚ)
          = 4 * ((k * (s.length - 1) / 4 : ℕ) : ℚ) + ((k * (s.length - 1) % 4 : ℕ) : ℚ) := by
        exact_mod_cast hdm.symm
      rw [Int.cast_natCast, hq]; ring
    rw [e, hD.quarter _ (by omega)]
  unfold index
  rw [if_neg hn, hk4, hn1]
  simp only
  rw [hposq, hfloor, hrest, arrayAt_natCast_succ, arrayAt_natCast]
  by_cases hb : k * (s.length - 1) / 4 + 1 < s.length
  · rw [if_pos hb, List.getElem?_eq_getElem hb,
      List.getElem?_eq_getElem (Nat.lt_of_succ_lt hb)]
    simp only [Option.getD_some]
    rw [List.getD_eq_getElem s 0 hb, List.getD_eq_getElem s 0 (Nat.lt_of_succ_lt hb)]
  · rw [if_neg hb, List.getElem?_eq_none (not_lt.mp hb)]
    simp only [List.getD_eq_getElem?_getD]

end PorfitOptima

namespace PorfitOptima
open Fallback

theorem interp_bounds (R : Runtime) (hR : R.Sound) (hC : R.Closed) (hD : R.Dyadic) (k : ℕ)
    (hk : k < 4) (lo hi : ℚ) (hlo : R.rnd lo = lo) (hhi : R.rnd hi = hi) (h : lo ≤ hi) :
    lo ≤ R.rnd (lo + R.rnd ((k : ℚ) / 4 * R.rnd (hi - lo)))
    ∧ R.rnd (lo + R.rnd ((k : ℚ) / 4 * R.rnd (hi - lo))) ≤ hi := by
  have hd0 : 0 ≤ R.rnd (hi - lo) := by
    have := hR.mono (show (0 : ℚ) ≤ hi - lo by linarith)
    rwa [hC.fix_zero] at this
  have hx0 : 0 ≤ R.rnd ((k : ℚ) / 4 * R.rnd (hi - lo)) := by
    have := hR.mono (show (0 : ℚ) ≤ (k : ℚ) / 4 * R.rnd (hi - lo) by positivity)
    rwa [hC.fix_zero] at this
  have hx1 := hD.interp_le k hk lo hi hlo hhi h
  constructor
  · have := hR.mono (show lo ≤ lo + R.rnd ((k : ℚ) / 4 * R.rnd (hi - lo)) by linarith)
    rwa [hlo] at this
  · have := hR.mono (show lo + R.rnd ((k : ℚ) / 4 * R.rnd (hi - lo)) ≤ hi by linarith)
    rwa [hhi] at this

theorem interp_mono (R : Runtime) (hR : R.Sound) (hC : R.Closed) {j k : ℕ} (hjk : j ≤ k)
    (lo hi : ℚ) (h : lo ≤ hi) :
    R.rnd (lo + R.rnd ((j : ℚ) / 4 * R.rnd (hi - lo)))
      ≤ R.rnd (lo + R.rnd ((k : ℚ) / 4 * R.rnd (hi - lo))) := by
  have hd0 : 0 ≤ R.rnd (hi - lo) := by
    have := hR.mono (show (0 : ℚ) ≤ hi - lo by linarith)
    rwa [hC.fix_zero] at this
  have hjk' : (j : ℚ) / 4 ≤ (k : ℚ) / 4 := by
    have : (j : ℚ) ≤ (k : ℚ) := by exact_mod_cast hjk
    linarith
  apply hR.mono
  have := hR.mono (mul_le_mul_of_nonneg_right hjk' hd0)
  linarith

theorem getD_fixed (R : Runtime) (s : List ℚ) (hfix : ∀ v ∈ s, R.rnd v = v) {i : ℕ}
    (hi : i < s.length) : R.rnd (s.getD i 0) = s.getD i 0 := by
  rw [List.getD_eq_getElem s 0 hi]
  exact hfix _ (List.getElem_mem _)

/-- Under rounding the closure `index` stays above the element at its base and
is monotone in the quarter, on an ascending list of numbers of the runtime. -/
theorem index_quarter_mono (R : Runtime) (hR : R.Sound) (hC : R.Closed) (hD : R.Dyadic)
    (s : List ℚ) (hs : s.Sorted (· ≤ ·)) (hfix : ∀ v ∈ s, R.rnd v = v)
    (hpos : 0 < s.length) (hlen : s.length < 2 ^ 51) {j k : ℕ} (hjk : j ≤ k) (hk : k < 4) :
    s.getD 0 0 ≤ index R s (R.rnd ((j : ℚ) / 4))
    ∧ index R s (R.rnd ((j : ℚ) / 4)) ≤ index R s (R.rnd ((k : ℚ) / 4)) := by
  by_cases hn : s.length = 1
  · unfold index
    simp only [if_pos hn, arrayAt]
    simp [List.getD_eq_getElem?_getD]
  · have hj : j < 4 := lt_of_le_of_lt hjk hk
    have hbj : j * (s.length - 1) / 4 < s.length := by
      have : j * (s.length - 1) ≤ 3 * (s.length - 1) := Nat.mul_le_mul_right _ (by omega)
      omega
    have hbk : k * (s.length - 1) / 4 < s.length := by
      have : k * (s.length - 1) ≤ 3 * (s.length - 1) := Nat.mul_le_mul_right _ (by omega)
      omega
    have hJ : j * (s.length - 1) ≤ k * (s.length - 1) := Nat.mul_le_mul_right _ hjk
    have hb : j * (s.length - 1) / 4 ≤ k * (s.length - 1) / 4 := Nat.div_le_div_right hJ
    -- each value lies between the element at its base and the next one
    have hlow : ∀ i : ℕ, i < 4 → i * (s.length - 1) / 4 < s.length →
        s.getD (i * (s.length - 1) / 4) 0 ≤ index R s (R.rnd ((i : ℚ) / 4)) := by
      intro i hi hbi
      rw [index_quarter R hD s hn hpos hlen i hi]
      split_ifs with hnext
      · exact (interp_bounds R hR hC hD _ (Nat.mod_lt _ (by norm_num)) _ _
          (getD_fixed R s hfix hbi) (getD_fixed R s hfix hnext)
          (sorted_getD_le hs (Nat.le_succ _) hnext)).1
      · exact le_rfl
    refine ⟨le_trans (sorted_getD_le hs (Nat.zero_le _) hbj) (hlow j hj hbj), ?_⟩
    rcases eq_or_lt_of_le hb with heq | hlt
    · rw [index_quarter R hD s hn hpos hlen j hj, index_quarter R hD s hn hpos hlen k hk, heq]
      split_ifs with hnext
      · apply interp_mono R hR hC _ _ _ (sorted_getD_le hs (Nat.le_succ _) hnext)
        have h1 := Nat.div_add_mod (j * (s.length - 1)) 4
        have h2 := Nat.div_add_mod (k * (s.length - 1)) 4
        omega
      · exact le_rfl
    · have hnext : j * (s.length - 1) / 4 + 1 < s.length := by omega
      calc index R s (R.rnd ((j : ℚ) / 4))
          ≤ s.getD (j * (s.length - 1) / 4 + 1) 0 := by
            rw [index_quarter R hD s hn hpos hlen j hj, if_pos hnext]
            exact (interp_bounds R hR hC hD _ (Nat.mod_lt _ (by norm_num)) _ _
              (getD_fixed R s hfix hbj) (getD_fixed R s hfix hnext)
              (sorted_getD_le hs (Nat.le_succ _) hnext)).2
        _ ≤ s.getD (k * (s.length - 1) / 4) 0 := sorted_getD_le hs hlt hbk
        _ ≤ index R s (R.rnd ((k : ℚ) / 4)) := hlow k hk hbk

/-- Under rounding, for a non-empty list of numbers of the runtime, the three
quantiles are at least the smallest value and `q1 ≤ median ≤ q3`. -/
theorem quantiles_ordered_of_rounding (R : Runtime) (hR : R.Sound) (hC : R.Closed)
    (hD : R.Dyadic) (values : List ℚ) (hne : values ≠ []) (hlen : values.length < 2 ^ 51)
    (hfix : ∀ v ∈ values, R.rnd v = v) :
    (values.insertionSort (· ≤ ·)).getD 0 0 ≤ (quantiles R values).q1
    ∧ (quantiles R values).q1 ≤ (quantiles R values).median
    ∧ (quantiles R values).median ≤ (quantiles R values).q3 := by
  have hlen0 : values.length ≠ 0 := by
    intro h; exact hne (List.length_eq_zero.mp h)
  have hs := List.sorted_insertionSort (· ≤ ·) values
  have hfix' : ∀ v ∈ values.insertionSort (· ≤ ·), R.rnd v = v := fun v hv =>
    hfix v ((List.perm_insertionSort (· ≤ ·) values).mem_iff.mp hv)
  have hpos : 0 < (values.insertionSort (· ≤ ·)).length := by
    rw [List.length_insertionSort]; omega
  have hlen' : (values.insertionSort (· ≤ ·)).length < 2 ^ 51 := by
    rw [List.length_insertionSort]; exact hlen
  have e1 : (25 / 100 : ℚ) = ((1 : ℕ) : ℚ) / 4 := by norm_num
  have e2 : (5 / 10 : ℚ) = ((2 : ℕ) : ℚ) / 4 := by norm_num
  have e3 : (75 / 100 : ℚ) = ((3 : ℕ) : ℚ) / 4 := by norm_num
  unfold quantiles
  rw [if_neg hlen0]
  simp only
  rw [e1, e2, e3]
  have h12 := index_quarter_mono R hR hC hD _ hs hfix' hpos hlen'
    (show 1 ≤ 2 by norm_num) (by norm_num)
  have h23 := index_quarter_mono R hR hC hD _ hs hfix' hpos hlen'
    (show 2 ≤ 3 by norm_num) (by norm_num)
  exact ⟨h12.1, h12.2, h23.2⟩

end PorfitOptima

namespace PorfitOptima
open Fallback

/-! ## Double precision with overflow: rounding lemmas -/

theorem ofRat_eq_fin {x : ℚ} (h : |binary64 x| < (2 : ℚ) ^ 1024) :
    Double.ofRat x = Double.fin (binary64 x) := by
  unfold Double.ofRat
  rw [if_neg (not_le.mpr h)]

theorem ofRat_between {lo hi x : ℚ} (hlo : IsDouble lo) (hhi : IsDouble hi) (h1 : lo ≤ x)
    (h2 : x ≤ hi) :
    Double.ofRat x = Double.fin (binary64 x) ∧ lo ≤ binary64 x ∧ binary64 x ≤ hi := by
  have a1 : lo ≤ binary64 x := by
    have := binary64_mono h1
    rwa [hlo.1] at this
  have a2 : binary64 x ≤ hi := by
    have := binary64_mono h2
    rwa [hhi.1] at this
  refine ⟨ofRat_eq_fin ?_, a1, a2⟩
  have b1 := abs_lt.mp hlo.2
  have b2 := abs_lt.mp hhi.2
  exact abs_lt.mpr ⟨by linarith [b1.1], by linarith [b2.2]⟩

theorem isDouble_quarter (j : ℕ) (hj : j < 2 ^ 53) : IsDouble ((j : ℚ) / 4) := by
  refine ⟨binary64_quarter j hj, ?_⟩
  have h0 : (0 : ℚ) ≤ (j : ℚ) / 4 := by positivity
  rw [abs_of_nonneg h0]
  have h1 : (j : ℚ) < 2 ^ 53 := by exact_mod_cast hj
  have h2 : (2 : ℚ) ^ 53 ≤ 2 ^ 1024 := pow_le_pow_right₀ (by norm_num) (by norm_num)
  linarith

theorem ofRat_of_isDouble {x : ℚ} (h : IsDouble x) : Double.ofRat x = Double.fin x := by
  have := ofRat_eq_fin (x := x) (by rw [h.1]; exact h.2)
  rw [this, h.1]

theorem ofRat_quarter (j : ℕ) (hj : j < 2 ^ 53) :
    Double.ofRat ((j : ℚ) / 4) = Double.fin ((j : ℚ) / 4) :=
  ofRat_of_isDouble (isDouble_quarter j hj)

theorem isDouble_zero : IsDouble 0 := by
  have := isDouble_quarter 0 (by norm_num)
  simpa using this

theorem ieee_arrayAt_natCast (xs : List ℚ) (i : ℕ) :
    Ieee.arrayAt xs (Double.fin (i : ℚ)) = xs[i]? := by
  unfold Ieee.arrayAt
  simp only [Int.floor_natCast, Int.cast_natCast, if_true]
  exact arrayAt_natCast xs i

/-- The closure `index` at the quarter `k / 4` on a list of `n ≥ 2` numbers, in
double precision with overflow: position, base and rest are exact, and the
result is `s[b] + t × (s[b+1] − s[b])` in the arithmetic of doubles, or `s[b]`
when `b + 1` is past the end. -/
theorem ieee_index_quarter (s : List ℚ) (hn : s.length ≠ 1)
    (hpos : 0 < s.length) (hlen : s.length < 2 ^ 51) (k : ℕ) (hk : k < 4) :
    Ieee.index s (Double.ofRat ((k : ℚ) / 4))
      = if k * (s.length - 1) / 4 + 1 < s.length then
          Double.add (Double.fin (s.getD (k * (s.length - 1) / 4) 0))
            (Double.mul (Double.fin (((k * (s.length - 1) % 4 : ℕ) : ℚ) / 4))
              (Double.sub (Double.fin (s.getD (k * (s.length - 1) / 4 + 1) 0))
                (Double.fin (s.getD (k * (s.length - 1) / 4) 0))))
        else Double.fin (s.getD (k * (s.length - 1) / 4) 0) := by
  have hk4 : Double.ofRat ((k : ℚ) / 4) = Double.fin ((k : ℚ) / 4) := ofRat_quarter k (by omega)
  have hn1 : Double.sub (Double.fin (s.length : ℚ)) (Double.fin 1)
      = Double.fin ((s.length - 1 : ℕ) : ℚ) := by
    have e : (s.length : ℚ) + -1 = ((4 * (s.length - 1) : ℕ) : ℚ) / 4 := by
      rw [Nat.cast_mul, Nat.cast_sub hpos]; push_cast; ring
    show Double.ofRat ((s.length : ℚ) + -1) = _
    rw [e, ofRat_quarter _ (by omega)]
    congr 1
    push_cast; ring
  have hJ : k * (s.length - 1) < 2 ^ 53 := by
    have : k * (s.length - 1) ≤ 3 * (s.length - 1) := Nat.mul_le_mul_right _ (by omega)
    omega
  have hposq : Double.mul (Double.fin ((s.length - 1 : ℕ) : ℚ)) (Double.fin ((k : ℚ) / 4))
      = Double.fin (((k * (s.length - 1) : ℕ) : ℚ) / 4) := by
    have e : ((s.length - 1 : ℕ) : ℚ) * ((k : ℚ) / 4) = ((k * (s.length - 1) : ℕ) : ℚ) / 4 := by
      push_cast; ring
    show Double.ofRat (((s.length - 1 : ℕ) : ℚ) * ((k : ℚ) / 4)) = _
    rw [e, ofRat_quarter _ hJ]
  have hfloor : ⌊((k * (s.length - 1) : ℕ) : ℚ) / 4⌋ = ((k * (s.length - 1) / 4 : ℕ) : ℤ) := by
    have := Rat.floor_intCast_div_natCast ((k * (s.length - 1) : ℕ) : ℤ) 4
    simpa using this
  have hfl : Double.floor (Double.fin (((k * (s.length - 1) : ℕ) : ℚ) / 4))
      = Double.fin ((k * (s.length - 1) / 4 : ℕ) : ℚ) := by
    show Double.fin _ = _
    rw [hfloor, Int.cast_natCast]
  have hrest : Double.sub (Double.fin (((k * (s.length - 1) : ℕ) : ℚ) / 4))
        (Double.fin ((k * (s.length - 1) / 4 : ℕ) : ℚ))
      = Double.fin (((k * (s.length - 1) % 4 : ℕ) : ℚ) / 4) := by
    have hdm := Nat.div_add_mod (k * (s.length - 1)) 4
    have e : ((k * (s.length - 1) : ℕ) : ℚ) / 4 + -((k * (s.length - 1) / 4 : ℕ) : ℚ)
        = ((k * (s.length - 1) % 4 : ℕ) : ℚ) / 4 := by
      have hq : ((k * (s.length - 1) : ℕ) : ℚ)
          = 4 * ((k * (s.length - 1) / 4 : ℕ) : ℚ) + ((k * (s.length - 1) % 4 : ℕ) : ℚ) := by
        exact_mod_cast hdm.symm
      rw [hq]; ring
    show Double.ofRat (_ + -_) = _
    rw [e, ofRat_quarter _ (by omega)]
  have hsucc : Double.add (Double.fin ((k * (s.length - 1) / 4 : ℕ) : ℚ)) (Double.fin 1)
      = Double.fin ((k * (s.length - 1) / 4 + 1 : ℕ) : ℚ) := by
    have e : ((k * (s.length - 1) / 4 : ℕ) : ℚ) + 1
        = ((4 * (k * (s.length - 1) / 4 + 1) : ℕ) : ℚ) / 4 := by
      push_cast; ring
    have h3 : k * (s.length - 1) ≤ 3 * (s.length - 1) := Nat.mul_le_mul_right _ (by omega)
    show Double.ofRat (_ + 1) = _
    rw [e, ofRat_quarter _ (by omega)]
    congr 1
    push_cast; ring
  unfold Ieee.index
  rw [if_neg hn, hk4, hn1]
  simp only
  rw [hposq, hfl, hrest, hsucc, ieee_arrayAt_natCast, ieee_arrayAt_natCast]
  by_cases hb : k * (s.length - 1) / 4 + 1 < s.length
  · rw [if_pos hb, List.getElem?_eq_getElem hb,
      List.getElem?_eq_getElem (Nat.lt_of_succ_lt hb)]
    simp only [Ieee.operand]
    rw [List.getD_eq_getElem s 0 hb, List.getD_eq_getElem s 0 (Nat.lt_of_succ_lt hb)]
  · rw [if_neg hb, List.getElem?_eq_none (not_lt.mp hb)]
    simp only
    have hlt : k * (s.length - 1) / 4 < s.length := by
      have : k * (s.length - 1) ≤ 3 * (s.length - 1) := Nat.mul_le_mul_right _ (by omega)
      omega
    rw [List.getElem?_eq_getElem hlt, List.getD_eq_getElem s 0 hlt]
    rfl

end PorfitOptima

namespace PorfitOptima
open Fallback

/-- The interpolation step between two doubles `lo ≤ hi`: when the difference
`hi − lo` overflows the result is `NaN` (at rest `0`) or `Infinity`; otherwise
no operation overflows and the three operations round as `binary64` does. -/
theorem ieee_interp (k : ℕ) (hk : k < 4) {lo hi : ℚ} (hlo : IsDouble lo) (hhi : IsDouble hi)
    (h : lo ≤ hi) :
    ((2 : ℚ) ^ 1024 ≤ binary64 (hi - lo)
      ∧ Double.add (Double.fin lo)
          (Double.mul (Double.fin ((k : ℚ) / 4)) (Double.sub (Double.fin hi) (Double.fin lo)))
        = if k = 0 then Double.nan else Double.posInf)
    ∨ (binary64 (hi - lo) < (2 : ℚ) ^ 1024
      ∧ Double.add (Double.fin lo)
          (Double.mul (Double.fin ((k : ℚ) / 4)) (Double.sub (Double.fin hi) (Double.fin lo)))
        = Double.fin (binary64 (lo + binary64 ((k : ℚ) / 4 * binary64 (hi - lo))))) := by
  have hd : (0 : ℚ) ≤ hi - lo := by linarith
  have hD0 : 0 ≤ binary64 (hi - lo) := binary64_nonneg hd
  have hsub : Double.sub (Double.fin hi) (Double.fin lo) = Double.ofRat (hi - lo) := by
    show Double.ofRat (hi + -lo) = _
    rw [← sub_eq_add_neg]
  rw [hsub]
  have hk0 : (0 : ℚ) ≤ (k : ℚ) / 4 := by positivity
  have hk1 : (k : ℚ) / 4 ≤ 1 := by
    have : (k : ℚ) < 4 := by exact_mod_cast hk
    linarith
  have hprod0 : (0 : ℚ) ≤ (k : ℚ) / 4 * binary64 (hi - lo) := mul_nonneg hk0 hD0
  have hprod1 : (k : ℚ) / 4 * binary64 (hi - lo) ≤ binary64 (hi - lo) := by
    have := mul_le_mul_of_nonneg_right hk1 hD0
    rwa [one_mul] at this
  rcases le_or_lt ((2 : ℚ) ^ 1024) (binary64 (hi - lo)) with hov | hno
  · left
    refine ⟨hov, ?_⟩
    have hdpos : 0 < hi - lo := by
      rcases eq_or_lt_of_le hd with h0 | h0
      · rw [← h0, binary64_zero] at hov
        have : (0 : ℚ) < 2 ^ 1024 := by positivity
        linarith
      · exact h0
    have : Double.ofRat (hi - lo) = Double.posInf := by
      unfold Double.ofRat
      rw [abs_of_nonneg hD0, if_pos hov, if_pos hdpos]
    rw [this]
    by_cases hk0 : k = 0
    · subst hk0
      simp [Double.mul, Double.add]
    · have hkpos : (0 : ℚ) < (k : ℚ) / 4 := by
        have : (0 : ℚ) < (k : ℚ) := by exact_mod_cast Nat.pos_of_ne_zero hk0
        positivity
      rw [if_neg hk0]
      simp only [Double.mul, if_neg (ne_of_gt hkpos), if_pos hkpos, Double.add]
  · right
    refine ⟨hno, ?_⟩
    have habs : |binary64 (hi - lo)| < (2 : ℚ) ^ 1024 := by
      rw [abs_of_nonneg hD0]; exact hno
    have hDd : IsDouble (binary64 (hi - lo)) := by
      unfold IsDouble
      rw [binary64_idem]
      exact ⟨rfl, habs⟩
    rw [ofRat_eq_fin habs]
    have hm := ofRat_between isDouble_zero hDd hprod0 hprod1
    have hmul : Double.mul (Double.fin ((k : ℚ) / 4)) (Double.fin (binary64 (hi - lo)))
        = Double.fin (binary64 ((k : ℚ) / 4 * binary64 (hi - lo))) := hm.1
    rw [hmul]
    have hx1 := binary64_interp_le k hk lo hi hlo.1 hhi.1 h
    have ha := ofRat_between hlo hhi
      (show lo ≤ lo + binary64 ((k : ℚ) / 4 * binary64 (hi - lo)) by linarith [hm.2.1])
      (show lo + binary64 ((k : ℚ) / 4 * binary64 (hi - lo)) ≤ hi by linarith)
    exact ha.1

theorem getD_isDouble (s : List ℚ) (hd : ∀ v ∈ s, IsDouble v) {i : ℕ} (hi : i < s.length) :
    IsDouble (s.getD i 0) := by
  rw [List.getD_eq_getElem s 0 hi]
  exact hd _ (List.getElem_mem _)

/-- The closure `index` at a quarter on an ascending list of doubles: the value
of the model without overflow, unless the difference of two neighbours
overflows, when it is `NaN` or `Infinity`. -/
theorem ieee_index_cases (ts : ℚ → String) (s : List ℚ) (hs : s.Sorted (· ≤ ·))
    (hd : ∀ v ∈ s, IsDouble v) (hpos : 0 < s.length) (hlen : s.length < 2 ^ 51) (k : ℕ)
    (hk : k < 4) :
    Ieee.index s (Double.ofRat ((k : ℚ) / 4))
        = Double.fin (index (ieeeRuntime ts) s (binary64 ((k : ℚ) / 4)))
    ∨ ((Ieee.index s (Double.ofRat ((k : ℚ) / 4)) = Double.nan
          ∨ Ieee.index s (Double.ofRat ((k : ℚ) / 4)) = Double.posInf)
        ∧ ∃ a ∈ s, ∃ b ∈ s, a ≤ b ∧ (2 : ℚ) ^ 1024 ≤ binary64 (b - a)) := by
  by_cases hn : s.length = 1
  · left
    unfold Ieee.index index
    rw [if_pos hn, if_pos hn]
    have h0 : Ieee.arrayAt s (Double.fin 0) = s[0]? := by
      have := ieee_arrayAt_natCast s 0
      simpa using this
    have h1 : arrayAt s 0 = s[0]? := by
      have := arrayAt_natCast s 0
      simpa using this
    rw [h0, h1, List.getElem?_eq_getElem hpos]
    rfl
  · have hI := ieee_index_quarter s hn hpos hlen k hk
    have hR := index_quarter (ieeeRuntime ts) (ieeeRuntime_dyadic ts) s hn hpos hlen k hk
    have hbk : k * (s.length - 1) / 4 < s.length := by
      have : k * (s.length - 1) ≤ 3 * (s.length - 1) := Nat.mul_le_mul_right _ (by omega)
      omega
    by_cases hnext : k * (s.length - 1) / 4 + 1 < s.length
    · rw [if_pos hnext] at hI hR
      have hle := sorted_getD_le hs (Nat.le_succ (k * (s.length - 1) / 4)) hnext
      rcases ieee_interp (k * (s.length - 1) % 4) (Nat.mod_lt _ (by norm_num))
          (getD_isDouble s hd hbk) (getD_isDouble s hd hnext) hle with ⟨hov, hval⟩ | ⟨_, hval⟩
      · right
        refine ⟨?_, s.getD (k * (s.length - 1) / 4) 0, ?_, s.getD (k * (s.length - 1) / 4 + 1) 0,
          ?_, hle, hov⟩
        · rw [hI, hval]
          split_ifs
          · left; rfl
          · right; rfl
        · rw [List.getD_eq_getElem s 0 hbk]; exact List.getElem_mem _
        · rw [List.getD_eq_getElem s 0 hnext]; exact List.getElem_mem _
      · left
        rw [hI, hval]
        congr 1
        exact hR.symm
    · left
      rw [if_neg hnext] at hI hR
      rw [hI]
      congr 1
      exact hR.symm

end PorfitOptima

namespace PorfitOptima
open Fallback

/-! ## The quantile helper in double precision -/

theorem type7_q1_of_three (a b c : ℚ) : Spec.type7 [a, b, c] (1 / 4) = a + 1 / 2 * (b - a) := by
  have h3 : ⌊(1 : ℚ) / 4 * (((3 : ℕ) : ℚ) - 1)⌋ = 0 := by
    rw [Int.floor_eq_iff]; norm_num
  unfold Spec.type7
  simp only [List.length_cons, List.length_nil, Nat.zero_add, Nat.reduceAdd, h3]
  norm_num

theorem type7_q3_of_three (a b c : ℚ) : Spec.type7 [a, b, c] (3 / 4) = b + 1 / 2 * (c - b) := by
  have h3 : ⌊(3 : ℚ) / 4 * (((3 : ℕ) : ℚ) - 1)⌋ = 1 := by
    rw [Int.floor_eq_iff]; norm_num
  unfold Spec.type7
  simp only [List.length_cons, List.length_nil, Nat.zero_add, Nat.reduceAdd, h3]
  norm_num

theorem tenths_sorted :
    Example.tenths.insertionSort (· ≤ ·)
      = [binary64 (1 / 10), binary64 (2 / 10), binary64 (3 / 10)] := by
  decide!

theorem oneAndTenths_sorted :
    Example.oneAndTenths.insertionSort (· ≤ ·) = [binary64 (1 / 10), binary64 (2 / 10), 1] := by
  decide!

/-- The spec-side formula at the quarter `k / 4`, with base and rest as natural
numbers. -/
theorem type7Double_quarter (s : List ℚ) (hpos : 0 < s.length) (k : ℕ) :
    Spec.type7Double s ((k : ℚ) / 4)
      = if k * (s.length - 1) / 4 + 1 < s.length then
          Double.add (Double.fin (s.getD (k * (s.length - 1) / 4) 0))
            (Double.mul (Double.fin (((k * (s.length - 1) % 4 : ℕ) : ℚ) / 4))
              (Double.sub (Double.fin (s.getD (k * (s.length - 1) / 4 + 1) 0))
                (Double.fin (s.getD (k * (s.length - 1) / 4) 0))))
        else Double.fin (s.getD (k * (s.length - 1) / 4) 0) := by
  have e : (k : ℚ) / 4 * ((s.length : ℚ) - 1) = ((k * (s.length - 1) : ℕ) : ℚ) / 4 := by
    rw [Nat.cast_mul, Nat.cast_sub hpos]; push_cast; ring
  have hfloor : ⌊((k * (s.length - 1) : ℕ) : ℚ) / 4⌋ = ((k * (s.length - 1) / 4 : ℕ) : ℤ) := by
    have := Rat.floor_intCast_div_natCast ((k * (s.length - 1) : ℕ) : ℤ) 4
    simpa using this
  have hrest : ((k * (s.length - 1) : ℕ) : ℚ) / 4 - ((k * (s.length - 1) / 4 : ℕ) : ℚ)
      = ((k * (s.length - 1) % 4 : ℕ) : ℚ) / 4 := by
    have hdm := Nat.div_add_mod (k * (s.length - 1)) 4
    have hq : ((k * (s.length - 1) : ℕ) : ℚ)
        = 4 * ((k * (s.length - 1) / 4 : ℕ) : ℚ) + ((k * (s.length - 1) % 4 : ℕ) : ℚ) := by
      exact_mod_cast hdm.symm
    rw [hq]; ring
  unfold Spec.type7Double
  simp only
  rw [e, hfloor, Int.toNat_ofNat, hrest]

/-- In double precision, overflow included, `quantiles` of a non-empty list is
the type-7 interpolation with each of its three operations rounded. -/
theorem ieee_quantiles_eq (values : List ℚ) (hne : values ≠ [])
    (hlen : values.length < 2 ^ 51) :
    Ieee.quantiles values
      = { q1 := Spec.type7Double (values.insertionSort (· ≤ ·)) (1 / 4),
          median := Spec.type7Double (values.insertionSort (· ≤ ·)) (1 / 2),
          q3 := Spec.type7Double (values.insertionSort (· ≤ ·)) (3 / 4) } := by
  have hlen0 : values.length ≠ 0 := by
    intro h; exact hne (List.length_eq_zero.mp h)
  have hpos : 0 < (values.insertionSort (· ≤ ·)).length := by
    rw [List.length_insertionSort]; omega
  have hlen' : (values.insertionSort (· ≤ ·)).length < 2 ^ 51 := by
    rw [List.length_insertionSort]; exact hlen
  have e1 : (25 / 100 : ℚ) = ((1 : ℕ) : ℚ) / 4 := by norm_num
  have e2 : (5 / 10 : ℚ) = ((2 : ℕ) : ℚ) / 4 := by norm_num
  have e3 : (75 / 100 : ℚ) = ((3 : ℕ) : ℚ) / 4 := by norm_num
  have f1 : (1 / 4 : ℚ) = ((1 : ℕ) : ℚ) / 4 := by norm_num
  have f2 : (1 / 2 : ℚ) = ((2 : ℕ) : ℚ) / 4 := by norm_num
  have f3 : (3 / 4 : ℚ) = ((3 : ℕ) : ℚ) / 4 := by norm_num
  have key : ∀ k : ℕ, k < 4 →
      Ieee.index (values.insertionSort (· ≤ ·)) (Double.ofRat ((k : ℚ) / 4))
        = Spec.type7Double (values.insertionSort (· ≤ ·)) ((k : ℚ) / 4) := by
    intro k hk
    rw [type7Double_quarter _ hpos k]
    by_cases hn : (values.insertionSort (· ≤ ·)).length = 1
    · have h0 : Ieee.arrayAt (values.insertionSort (· ≤ ·)) (Double.fin 0)
          = (values.insertionSort (· ≤ ·))[0]? := by
        have := ieee_arrayAt_natCast (values.insertionSort (· ≤ ·)) 0
        simpa using this
      unfold Ieee.index
      rw [if_pos hn, h0, List.getElem?_eq_getElem hpos, hn]
      simp only [Nat.sub_self, Nat.mul_zero, Nat.zero_div, Nat.zero_add, lt_irrefl, if_false]
      rw [List.getD_eq_getElem _ 0 hpos]
      rfl
    · exact ieee_index_quarter _ hn hpos hlen' k hk
  unfold Ieee.quantiles
  rw [if_neg hlen0]
  simp only
  rw [e1, e2, e3, f1, f2, f3, key 1 (by norm_num), key 2 (by norm_num), key 3 (by norm_num)]

theorem ieee_quantiles_singleton (v : ℚ) :
    Ieee.quantiles [v] = { q1 := Double.fin v, median := Double.fin v, q3 := Double.fin v } := by
  unfold Ieee.quantiles Ieee.index
  simp [Ieee.arrayAt, arrayAt, Ieee.operand]

/-- On doubles, the three quantiles are those of the model without overflow
unless the difference of two of the values overflows; then a quantile is `NaN`
or `Infinity`. -/
theorem ieee_quantiles_cases (ts : ℚ → String) (values : List ℚ) (hne : values ≠ [])
    (hlen : values.length < 2 ^ 51) (hd : ∀ v ∈ values, IsDouble v) :
    ∀ k : ℕ, k < 4 →
      Ieee.index (values.insertionSort (· ≤ ·)) (Double.ofRat ((k : ℚ) / 4))
          = Double.fin (index (ieeeRuntime ts) (values.insertionSort (· ≤ ·))
              (binary64 ((k : ℚ) / 4)))
      ∨ ((Ieee.index (values.insertionSort (· ≤ ·)) (Double.ofRat ((k : ℚ) / 4)) = Double.nan
            ∨ Ieee.index (values.insertionSort (· ≤ ·)) (Double.ofRat ((k : ℚ) / 4))
                = Double.posInf)
          ∧ ∃ a ∈ values, ∃ b ∈ values, a ≤ b ∧ (2 : ℚ) ^ 1024 ≤ binary64 (b - a)) := by
  intro k hk
  have hlen0 : values.length ≠ 0 := by
    intro h; exact hne (List.length_eq_zero.mp h)
  have hs := List.sorted_insertionSort (· ≤ ·) values
  have hmem : ∀ v, v ∈ values.insertionSort (· ≤ ·) ↔ v ∈ values := fun v =>
    (List.perm_insertionSort (· ≤ ·) values).mem_iff
  have hd' : ∀ v ∈ values.insertionSort (· ≤ ·), IsDouble v := fun v hv =>
    hd v ((hmem v).mp hv)
  have hpos : 0 < (values.insertionSort (· ≤ ·)).length := by
    rw [List.length_insertionSort]; omega
  have hlen' : (values.insertionSort (· ≤ ·)).length < 2 ^ 51 := by
    rw [List.length_insertionSort]; exact hlen
  rcases ieee_index_cases ts _ hs hd' hpos hlen' k hk with h | ⟨h, a, ha, b, hb, hab, hov⟩
  · exact Or.inl h
  · exact Or.inr ⟨h, a, (hmem a).mp ha, b, (hmem b).mp hb, hab, hov⟩

end PorfitOptima

namespace PorfitOptima
open Fallback

theorem binary64_two_pow_1023 : binary64 ((2 : ℚ) ^ 1023) = (2 : ℚ) ^ 1023 := by
  apply binary64_eq_self 1023 (2 ^ 52) <;> norm_num

theorem binary64_two_pow_1024 : binary64 ((2 : ℚ) ^ 1024) = (2 : ℚ) ^ 1024 := by
  apply binary64_eq_self 1024 (2 ^ 52) <;> norm_num

theorem isDouble_two_pow_1023 : IsDouble ((2 : ℚ) ^ 1023) := by
  refine ⟨binary64_two_pow_1023, ?_⟩
  rw [abs_of_pos (by positivity)]
  norm_num

theorem isDouble_neg {v : ℚ} (h : IsDouble v) : IsDouble (-v) := by
  refine ⟨?_, ?_⟩
  · rw [binary64_neg, h.1]
  · rw [abs_neg]; exact h.2

theorem ofRat_two_pow_1024 : Double.ofRat ((2 : ℚ) ^ 1024) = Double.posInf := by
  unfold Double.ofRat
  rw [binary64_two_pow_1024, abs_of_pos (by positivity), if_pos le_rfl, if_pos (by positivity)]

theorem type7Double_of_three (a b c : ℚ) :
    Spec.type7Double [a, b, c] (1 / 4)
        = Double.add (Double.fin a)
            (Double.mul (Double.fin (1 / 2)) (Double.sub (Double.fin b) (Double.fin a)))
    ∧ Spec.type7Double [a, b, c] (1 / 2)
        = Double.add (Double.fin b)
            (Double.mul (Double.fin 0) (Double.sub (Double.fin c) (Double.fin b)))
    ∧ Spec.type7Double [a, b, c] (3 / 4)
        = Double.add (Double.fin b)
            (Double.mul (Double.fin (1 / 2)) (Double.sub (Double.fin c) (Double.fin b))) := by
  have f1 : (1 / 4 : ℚ) = ((1 : ℕ) : ℚ) / 4 := by norm_num
  have f2 : (1 / 2 : ℚ) = ((2 : ℕ) : ℚ) / 4 := by norm_num
  have f3 : (3 / 4 : ℚ) = ((3 : ℕ) : ℚ) / 4 := by norm_num
  refine ⟨?_, ?_, ?_⟩
  · rw [f1, type7Double_quarter _ (by simp) 1]
    norm_num
  · rw [f2, type7Double_quarter _ (by simp) 2]
    norm_num
  · rw [f3, type7Double_quarter _ (by simp) 3]
    norm_num

theorem insertionSort_of_three {a b : ℚ} (h : a ≤ b) :
    [a, a, b].insertionSort (· ≤ ·) = [a, a, b] := by
  simp [List.insertionSort, List.orderedInsert, h]

theorem hugeValues_sorted : Example.hugeValues.insertionSort (· ≤ ·) = Example.hugeValues := by
  have h0 : (0 : ℚ) < (2 : ℚ) ^ 1023 := by positivity
  exact insertionSort_of_three (by linarith)

theorem hugeValues_isDouble : ∀ v ∈ Example.hugeValues, IsDouble v := by
  intro v hv
  simp only [Example.hugeValues, List.mem_cons, List.mem_singleton, List.not_mem_nil,
    or_false, or_self_left] at hv
  rcases hv with rfl | rfl
  · exact isDouble_neg isDouble_two_pow_1023
  · exact isDouble_two_pow_1023

/-- C6 fails in double precision.  The quartiles of the doubles `-2^1023`,
`-2^1023`, `2^1023` are `q1 = -2^1023`, `median = NaN` and `q3 = Infinity`:
the difference `2^1023 − (−2^1023)` overflows, the median multiplies it by the
rest `0`.  Neither `q1 ≤ median` nor `median ≤ q3` holds. -/
theorem quantiles_unordered_at_overflow :
    (∀ v ∈ Example.hugeValues, IsDouble v)
    ∧ Ieee.quantiles Example.hugeValues
        = { q1 := Double.fin (-(2 : ℚ) ^ 1023), median := Double.nan, q3 := Double.posInf }
    ∧ Double.le (Ieee.quantiles Example.hugeValues).q1 (Ieee.quantiles Example.hugeValues).median
        = false
    ∧ Double.le (Ieee.quantiles Example.hugeValues).median (Ieee.quantiles Example.hugeValues).q3
        = false := by
  have hq : Ieee.quantiles Example.hugeValues
      = { q1 := Double.fin (-(2 : ℚ) ^ 1023), median := Double.nan, q3 := Double.posInf } := by
    rw [ieee_quantiles_eq _ (by simp [Example.hugeValues]) (by simp [Example.hugeValues]),
      hugeValues_sorted]
    obtain ⟨e1, e2, e3⟩ := type7Double_of_three (-(2 : ℚ) ^ 1023) (-(2 : ℚ) ^ 1023) ((2 : ℚ) ^ 1023)
    have s1 : Double.sub (Double.fin (-(2 : ℚ) ^ 1023)) (Double.fin (-(2 : ℚ) ^ 1023))
        = Double.fin 0 := by
      show Double.ofRat (-(2 : ℚ) ^ 1023 + - -(2 : ℚ) ^ 1023) = _
      rw [neg_neg, neg_add_cancel]
      exact ofRat_of_isDouble isDouble_zero
    have s2 : Double.sub (Double.fin ((2 : ℚ) ^ 1023)) (Double.fin (-(2 : ℚ) ^ 1023))
        = Double.posInf := by
      show Double.ofRat ((2 : ℚ) ^ 1023 + - -(2 : ℚ) ^ 1023) = _
      have : (2 : ℚ) ^ 1023 + - -(2 : ℚ) ^ 1023 = (2 : ℚ) ^ 1024 := by
        rw [neg_neg]; norm_num
      rw [this, ofRat_two_pow_1024]
    have m1 : Double.mul (Double.fin (1 / 2)) (Double.fin 0) = Double.fin 0 := by
      show Double.ofRat (1 / 2 * 0) = _
      rw [mul_zero]
      exact ofRat_of_isDouble isDouble_zero
    have a1 : Double.add (Double.fin (-(2 : ℚ) ^ 1023)) (Double.fin 0)
        = Double.fin (-(2 : ℚ) ^ 1023) := by
      show Double.ofRat (-(2 : ℚ) ^ 1023 + 0) = _
      rw [add_zero]
      exact ofRat_of_isDouble (isDouble_neg isDouble_two_pow_1023)
    have m2 : Double.mul (Double.fin 0) Double.posInf = Double.nan := by
      simp [Double.mul]
    have m3 : Double.mul (Double.fin (1 / 2)) Double.posInf = Double.posInf := by
      simp [Double.mul]
    unfold Example.hugeValues
    rw [e1, e2, e3, s1, s2, m1, a1, m2, m3]
    rfl
  refine ⟨hugeValues_isDouble, hq, ?_, ?_⟩
  · rw [hq]; rfl
  · rw [hq]; rfl

/-- The quantiles of doubles are ordered when finite: each finite quantile is
the value of the model without overflow, where `q1 ≤ median ≤ q3`. -/
theorem ieee_quantiles_finite (ts : ℚ → String) (values : List ℚ) (hne : values ≠ [])
    (hlen : values.length < 2 ^ 51) (hd : ∀ v ∈ values, IsDouble v) :
    (∀ a, (Ieee.quantiles values).q1 = Double.fin a → a = (quantiles (ieeeRuntime ts) values).q1)
    ∧ (∀ b, (Ieee.quantiles values).median = Double.fin b →
        b = (quantiles (ieeeRuntime ts) values).median)
    ∧ (∀ c, (Ieee.quantiles values).q3 = Double.fin c →
        c = (quantiles (ieeeRuntime ts) values).q3) := by
  have hlen0 : values.length ≠ 0 := by
    intro h; exact hne (List.length_eq_zero.mp h)
  have e1 : (25 / 100 : ℚ) = ((1 : ℕ) : ℚ) / 4 := by norm_num
  have e2 : (5 / 10 : ℚ) = ((2 : ℕ) : ℚ) / 4 := by norm_num
  have e3 : (75 / 100 : ℚ) = ((3 : ℕ) : ℚ) / 4 := by norm_num
  have key : ∀ k : ℕ, k < 4 → ∀ y,
      Ieee.index (values.insertionSort (· ≤ ·)) (Double.ofRat ((k : ℚ) / 4)) = Double.fin y →
      y = index (ieeeRuntime ts) (values.insertionSort (· ≤ ·)) (binary64 ((k : ℚ) / 4)) := by
    intro k hk y hy
    rcases ieee_quantiles_cases ts values hne hlen hd k hk with h | ⟨h | h, _⟩
    · rw [h] at hy
      exact (Double.fin.inj hy).symm
    · rw [h] at hy; cases hy
    · rw [h] at hy; cases hy
  unfold Ieee.quantiles quantiles
  rw [if_neg hlen0, if_neg hlen0]
  simp only [ieeeRuntime]
  rw [e1, e2, e3]
  exact ⟨key 1 (by norm_num), key 2 (by norm_num), key 3 (by norm_num)⟩

/-- When no difference of two of the values overflows, the quantiles of doubles
are finite and are those of the model without overflow. -/
theorem ieee_quantiles_of_no_overflow (ts : ℚ → String) (values : List ℚ) (hne : values ≠ [])
    (hlen : values.length < 2 ^ 51) (hd : ∀ v ∈ values, IsDouble v)
    (hno : ∀ a ∈ values, ∀ b ∈ values, a ≤ b → binary64 (b - a) < (2 : ℚ) ^ 1024) :
    Ieee.quantiles values
      = { q1 := Double.fin (quantiles (ieeeRuntime ts) values).q1,
          median := Double.fin (quantiles (ieeeRuntime ts) values).median,
          q3 := Double.fin (quantiles (ieeeRuntime ts) values).q3 } := by
  have hlen0 : values.length ≠ 0 := by
    intro h; exact hne (List.length_eq_zero.mp h)
  have e1 : (25 / 100 : ℚ) = ((1 : ℕ) : ℚ) / 4 := by norm_num
  have e2 : (5 / 10 : ℚ) = ((2 : ℕ) : ℚ) / 4 := by norm_num
  have e3 : (75 / 100 : ℚ) = ((3 : ℕ) : ℚ) / 4 := by norm_num
  have key : ∀ k : ℕ, k < 4 →
      Ieee.index (values.insertionSort (· ≤ ·)) (Double.ofRat ((k : ℚ) / 4))
        = Double.fin (index (ieeeRuntime ts) (values.insertionSort (· ≤ ·))
            (binary64 ((k : ℚ) / 4))) := by
    intro k hk
    rcases ieee_quantiles_cases ts values hne hlen hd k hk with h | ⟨_, a, ha, b, hb, hab, hov⟩
    · exact h
    · exact absurd (hno a ha b hb hab) (not_lt.mpr hov)
  unfold Ieee.quantiles quantiles
  rw [if_neg hlen0, if_neg hlen0]
  simp only [ieeeRuntime]
  rw [e1, e2, e3, key 1 (by norm_num), key 2 (by norm_num), key 3 (by norm_num)]
  rfl

/-- Doubles of one sign: no difference of two of them overflows. -/
theorem no_overflow_of_nonneg (values : List ℚ) (hd : ∀ v ∈ values, IsDouble v)
    (h0 : ∀ v ∈ values, 0 ≤ v) :
    ∀ a ∈ values, ∀ b ∈ values, a ≤ b → binary64 (b - a) < (2 : ℚ) ^ 1024 := by
  intro a ha b hb _
  have h1 : binary64 (b - a) ≤ binary64 b := binary64_mono (by linarith [h0 a ha])
  rw [(hd b hb).1] at h1
  have h2 := (abs_lt.mp (hd b hb).2).2
  exact lt_of_le_of_lt h1 h2

end PorfitOptima

namespace PorfitOptima
open Fallback

/-- C5 fails in double precision.  For the doubles `0.3`, `0.1`, `0.2` the code
returns `q1 = 0.15000000000000002`, while the reference value
`s[0] + 0.5 × (s[1] − s[0])` of the sorted doubles is another number (it is not
a double); for the doubles `1`, `0.1`, `0.2` the code returns
`q3 = 0.6000000000000001`, while the reference value rounds to `0.6`. -/
theorem quantiles_ne_type7_double :
    (∀ v ∈ Example.tenths, IsDouble v)
    ∧ (Ieee.quantiles Example.tenths).q1
        = Double.fin (binary64 (15000000000000002 / 10 ^ 17))
    ∧ (quantiles (ieeeRuntime sampleNumberToString) Example.tenths).q1
        = binary64 (15000000000000002 / 10 ^ 17)
    ∧ Spec.type7 (Example.tenths.insertionSort (· ≤ ·)) (1 / 4)
        ≠ binary64 (15000000000000002 / 10 ^ 17)
    ∧ (∀ v ∈ Example.oneAndTenths, IsDouble v)
    ∧ (Ieee.quantiles Example.oneAndTenths).q3
        = Double.fin (binary64 (6000000000000001 / 10 ^ 16))
    ∧ binary64 (Spec.type7 (Example.oneAndTenths.insertionSort (· ≤ ·)) (3 / 4))
        = binary64 (6 / 10)
    ∧ binary64 (6 / 10) ≠ binary64 (6000000000000001 / 10 ^ 16) := by
  refine ⟨by decide!, by decide!, by decide!, ?_, by decide!, by decide!, ?_, by decide!⟩
  · rw [tenths_sorted, type7_q1_of_three]
    decide!
  · rw [oneAndTenths_sorted, type7_q3_of_three]
    decide!

/-- C5, as amended.  The empty list gives `q1 = median = q3 = 0` and a
one-element list `[v]` gives `v` three times.  For a non-empty list and any
ascending arrangement `s` of it, in double precision `q1`, `median` and `q3`
are `s[b] + (p·(n−1) − b) × (s[b+1] − s[b])`, `b = floor(p·(n−1))`, at
`p = 0.25, 0.5, 0.75`, where base and rest are exact and the subtraction, the
product and the sum are each rounded to a double (overflow included); in exact
arithmetic they are the type-7 reference value itself. -/
theorem quantiles_eq_type7_rounded :
    Ieee.quantiles [] = { q1 := Double.fin 0, median := Double.fin 0, q3 := Double.fin 0 }
    ∧ (∀ values s : List ℚ, values ≠ [] → values.length < 2 ^ 51 → s.Sorted (· ≤ ·) →
        s.Perm values →
        Ieee.quantiles values
          = { q1 := Spec.type7Double s (1 / 4), median := Spec.type7Double s (1 / 2),
              q3 := Spec.type7Double s (3 / 4) })
    ∧ (∀ v : ℚ,
        Ieee.quantiles [v] = { q1 := Double.fin v, median := Double.fin v, q3 := Double.fin v })
    ∧ (∀ (ts : ℚ → String) (values s : List ℚ), values ≠ [] → s.Sorted (· ≤ ·) →
        s.Perm values →
        quantiles (exactRuntime ts) values
          = { q1 := Spec.type7 s (1 / 4), median := Spec.type7 s (1 / 2),
              q3 := Spec.type7 s (3 / 4) }) := by
  refine ⟨rfl, ?_, ieee_quantiles_singleton, ?_⟩
  · intro values s hne hlen hs hperm
    have hsort : values.insertionSort (· ≤ ·) = s :=
      List.eq_of_perm_of_sorted ((List.perm_insertionSort _ values).trans hperm.symm)
        (List.sorted_insertionSort _ values) hs
    rw [ieee_quantiles_eq values hne hlen, hsort]
  · intro ts values s hne hs hperm
    have hsort : values.insertionSort (· ≤ ·) = s :=
      List.eq_of_perm_of_sorted ((List.perm_insertionSort _ values).trans hperm.symm)
        (List.sorted_insertionSort _ values) hs
    rw [quantiles_exact_eq ts values hne, hsort]

/-- Witness of C5 as amended: the quartiles of `[30, 20, 25, 22]` through the
ascending arrangement `[20, 22, 25, 30]`, in double precision. -/
theorem quantiles_eq_type7_rounded_witness :
    Ieee.quantiles [30, 20, 25, 22]
      = { q1 := Spec.type7Double [20, 22, 25, 30] (1 / 4),
          median := Spec.type7Double [20, 22, 25, 30] (1 / 2),
          q3 := Spec.type7Double [20, 22, 25, 30] (3 / 4) } :=
  quantiles_eq_type7_rounded.2.1 [30, 20, 25, 22] [20, 22, 25, 30]
    (by decide) (by norm_num) (by decide!) (by decide!)

/-- C6, as amended.  For every non-empty list of doubles, in any order: two
neighbours among `q1`, `median`, `q3` that are finite numbers are in order;
when no difference of two of the values overflows, in particular when no value
is negative, the three are finite and `q1 ≤ median ≤ q3`; and in exact
arithmetic `q1 ≤ median ≤ q3` always. -/
theorem quantiles_ordered_when_finite (values : List ℚ) (hne : values ≠ [])
    (hlen : values.length < 2 ^ 51) (hd : ∀ v ∈ values, IsDouble v) :
    (∀ a b, (Ieee.quantiles values).q1 = Double.fin a →
        (Ieee.quantiles values).median = Double.fin b → a ≤ b)
    ∧ (∀ b c, (Ieee.quantiles values).median = Double.fin b →
        (Ieee.quantiles values).q3 = Double.fin c → b ≤ c)
    ∧ ((∀ a ∈ values, ∀ b ∈ values, a ≤ b → binary64 (b - a) < (2 : ℚ) ^ 1024) →
        ∃ a b c, Ieee.quantiles values
            = { q1 := Double.fin a, median := Double.fin b, q3 := Double.fin c }
          ∧ a ≤ b ∧ b ≤ c)
    ∧ ((∀ v ∈ values, 0 ≤ v) →
        ∃ a b c, Ieee.quantiles values
            = { q1 := Double.fin a, median := Double.fin b, q3 := Double.fin c }
          ∧ a ≤ b ∧ b ≤ c)
    ∧ (∀ ts : ℚ → String,
        (quantiles (exactRuntime ts) values).q1 ≤ (quantiles (exactRuntime ts) values).median
        ∧ (quantiles (exactRuntime ts) values).median
            ≤ (quantiles (exactRuntime ts) values).q3) := by
  have hfin := ieee_quantiles_finite sampleNumberToString values hne hlen hd
  have hord := quantiles_ordered_of_rounding (ieeeRuntime sampleNumberToString)
    (ieeeRuntime_sound _) (ieeeRuntime_closed _) (ieeeRuntime_dyadic _) values hne hlen
    (fun v hv => (hd v hv).1)
  refine ⟨?_, ?_, ?_, ?_, ?_⟩
  · intro a b ha hb
    rw [hfin.1 a ha, hfin.2.1 b hb]
    exact hord.2.1
  · intro b c hb hc
    rw [hfin.2.1 b hb, hfin.2.2 c hc]
    exact hord.2.2
  · intro hno
    exact ⟨_, _, _, ieee_quantiles_of_no_overflow sampleNumberToString values hne hlen hd hno,
      hord.2.1, hord.2.2⟩
  · intro h0
    exact ⟨_, _, _, ieee_quantiles_of_no_overflow sampleNumberToString values hne hlen hd
      (no_overflow_of_nonneg values hd h0), hord.2.1, hord.2.2⟩
  · intro ts
    have hlen0 : values.length ≠ 0 := by
      intro h; exact hne (List.length_eq_zero.mp h)
    have hn : 1 ≤ (values.insertionSort (· ≤ ·)).length := by
      rw [List.length_insertionSort]; omega
    have hs := List.sorted_insertionSort (· ≤ ·) values
    rw [quantiles_exact_eq ts values hne]
    exact ⟨type7_mono hs hn (by norm_num) (by norm_num) (by norm_num),
      type7_mono hs hn (by norm_num) (by norm_num) (by norm_num)⟩

/-- Witness of C6 as amended: the quartiles of `[30, 20, 25, 22]` in double
precision are finite and in order. -/
theorem quantiles_ordered_when_finite_witness :
    (∀ v ∈ ([30, 20, 25, 22] : List ℚ), IsDouble v)
    ∧ ∃ a b c, Ieee.quantiles [30, 20, 25, 22]
          = { q1 := Double.fin a, median := Double.fin b, q3 := Double.fin c }
        ∧ a ≤ b ∧ b ≤ c :=
  ⟨by decide!,
   (quantiles_ordered_when_finite [30, 20, 25, 22] (by decide) (by norm_num)
     (by decide!)).2.2.2.1 (by decide!)⟩

theorem or_fin_of_ne {c : ℚ} (hc : c ≠ 0) (d : Double) : Double.or (Double.fin c) d = Double.fin c := by
  simp [Double.or, Double.truthy, hc]

theorem min_fin_of_le {b c : ℚ} (h : b ≤ c) :
    Double.min (Double.fin c) (Double.fin b) = Double.fin b := by
  rcases eq_or_lt_of_le h with rfl | hlt
  · simp [Double.min, Double.lt]
  · simp [Double.min, Double.lt, hlt]

/-- C27.  For a snapshot with at least one usable competitor price, each of
them a strictly positive finite double, in double precision with overflow: the
quantiles are finite, the median is positive and at most q3, the competitive
ceiling is q3, and the recommended price before rounding is
`Math.max(floorPrice, median)`. -/
theorem recommendedPrice_eq_max_floor_median (env : Env) (product : ProductDoc)
    (snapshot : CompetitorSnapshotDoc) (hne : competitorPrices snapshot ≠ [])
    (hlen : (competitorPrices snapshot).length < 2 ^ 51)
    (hd : ∀ v ∈ competitorPrices snapshot, IsDouble v)
    (hpos : ∀ v ∈ competitorPrices snapshot, 0 < v) :
    (∃ a b c, Ieee.quantiles (competitorPrices snapshot)
          = { q1 := Double.fin a, median := Double.fin b, q3 := Double.fin c }
        ∧ 0 < b ∧ b ≤ c)
    ∧ Ieee.competitiveCeiling env product snapshot
        = (Ieee.quantiles (competitorPrices snapshot)).q3
    ∧ Ieee.rawRecommendedPrice env product snapshot
        = Double.max (Ieee.floorPrice env product)
            (Ieee.quantiles (competitorPrices snapshot)).median := by
  have hord := quantiles_ordered_of_rounding (ieeeRuntime sampleNumberToString)
    (ieeeRuntime_sound _) (ieeeRuntime_closed _) (ieeeRuntime_dyadic _)
    (competitorPrices snapshot) hne hlen (fun v hv => (hd v hv).1)
  have hq := ieee_quantiles_of_no_overflow sampleNumberToString (competitorPrices snapshot)
    hne hlen hd (no_overflow_of_nonneg _ hd (fun v hv => le_of_lt (hpos v hv)))
  have hlen0 : 0 < ((competitorPrices snapshot).insertionSort (· ≤ ·)).length := by
    rw [List.length_insertionSort]
    exact List.length_pos.mpr hne
  have hmin : 0 < ((competitorPrices snapshot).insertionSort (· ≤ ·)).getD 0 0 := by
    rw [List.getD_eq_getElem _ 0 hlen0]
    exact hpos _ ((List.perm_insertionSort (· ≤ ·) _).mem_iff.mp (List.getElem_mem _))
  have hb : 0 < (quantiles (ieeeRuntime sampleNumberToString) (competitorPrices snapshot)).median :=
    lt_of_lt_of_le hmin (le_trans hord.1 hord.2.1)
  have hc : 0 < (quantiles (ieeeRuntime sampleNumberToString) (competitorPrices snapshot)).q3 :=
    lt_of_lt_of_le hb hord.2.2
  have hceil : Ieee.competitiveCeiling env product snapshot
      = (Ieee.quantiles (competitorPrices snapshot)).q3 := by
    unfold Ieee.competitiveCeiling
    simp only [hq]
    exact or_fin_of_ne (ne_of_gt hc) _
  refine ⟨⟨_, _, _, hq, hb, hord.2.2⟩, hceil, ?_⟩
  unfold Ieee.rawRecommendedPrice
  simp only [hceil]
  simp only [hq]
  rw [or_fin_of_ne (ne_of_gt hb), min_fin_of_le hord.2.2]

/-- Witness of C27: the end-to-end scenario, where the median 23.5 is above
`floorPrice` 14.16 and is the price before rounding. -/
theorem recommendedPrice_eq_max_floor_median_witness :
    (∀ v ∈ competitorPrices Example.scenarioSnapshot, IsDouble v ∧ 0 < v)
    ∧ Ieee.rawRecommendedPrice {} Example.scenarioProduct Example.scenarioSnapshot
        = Double.max (Ieee.floorPrice {} Example.scenarioProduct)
            (Ieee.quantiles (competitorPrices Example.scenarioSnapshot)).median
    ∧ Ieee.rawRecommendedPrice {} Example.scenarioProduct Example.scenarioSnapshot
        = Double.fin (47 / 2) :=
  ⟨by decide!,
   (recommendedPrice_eq_max_floor_median {} Example.scenarioProduct Example.scenarioSnapshot
      (by decide!) (by decide!) (by decide!) (by decide!)).2.2,
   by decide!⟩

end PorfitOptima

namespace PorfitOptima
open Fallback

/-! ## The expected margin in double precision, overflow included -/

theorem isDouble_ten_pow : IsDouble ((10 : ℚ) ^ 21) := by
  refine ⟨binary64_ten_pow, ?_⟩
  rw [abs_of_pos (by positivity)]
  norm_num

/-- On a finite double, `Number(x.toFixed(f))` is the value of the model
without overflow: the result is within `±10^21` or is `x` itself. -/
theorem ieee_toFixedNumber_fin (ts : ℚ → String) (f : ℕ) (x : ℚ) :
    Double.toFixedNumber f (Double.fin x) = Double.fin (toFixedNumber (ieeeRuntime ts) f x) := by
  show (if (10 : ℚ) ^ 21 ≤ |x| then Double.fin x else Double.ofRat (fixedValue f x))
    = Double.fin (if (10 : ℚ) ^ 21 ≤ |x| then x else binary64 (fixedValue f x))
  by_cases h : (10 : ℚ) ^ 21 ≤ |x|
  · rw [if_pos h, if_pos h]
  · rw [if_neg h, if_neg h]
    have hb := abs_le.mp (abs_fixedValue_le f (not_le.mp h))
    exact (ofRat_between (isDouble_neg isDouble_ten_pow) isDouble_ten_pow hb.1 hb.2).1

theorem ofRat_ne_nan (x : ℚ) : Double.ofRat x ≠ Double.nan := by
  unfold Double.ofRat
  split_ifs <;> simp

theorem add_fin_ne_nan {a : Double} (ha : a ≠ Double.nan) (y : ℚ) :
    Double.add a (Double.fin y) ≠ Double.nan := by
  cases a with
  | fin x => exact ofRat_ne_nan _
  | posInf => simp [Double.add]
  | negInf => simp [Double.add]
  | nan => exact absurd rfl ha

theorem sub_fin_ne_nan {a : Double} (ha : a ≠ Double.nan) (y : ℚ) :
    Double.sub a (Double.fin y) ≠ Double.nan :=
  add_fin_ne_nan ha (-y)

theorem mul_fin_ne_nan {a : Double} (ha : a ≠ Double.nan) {y : ℚ} (hy : y ≠ 0) :
    Double.mul a (Double.fin y) ≠ Double.nan := by
  cases a with
  | fin x => exact ofRat_ne_nan _
  | posInf => simp only [Double.mul, if_neg hy]; split_ifs <;> simp
  | negInf => simp only [Double.mul, if_neg hy]; split_ifs <;> simp
  | nan => exact absurd rfl ha

theorem fin_mul_ne_nan {a : Double} (ha : a ≠ Double.nan) {y : ℚ} (hy : y ≠ 0) :
    Double.mul (Double.fin y) a ≠ Double.nan := by
  cases a with
  | fin x => exact ofRat_ne_nan _
  | posInf => simp only [Double.mul, if_neg hy]; split_ifs <;> simp
  | negInf => simp only [Double.mul, if_neg hy]; split_ifs <;> simp
  | nan => exact absurd rfl ha

theorem div_fin_ne_nan {a : Double} (ha : a ≠ Double.nan) {y : ℚ} (hy : y ≠ 0) :
    Double.div a (Double.fin y) ≠ Double.nan := by
  cases a with
  | fin x => simp only [Double.div, if_neg hy]; exact ofRat_ne_nan _
  | posInf => simp only [Double.div]; split_ifs <;> simp
  | negInf => simp only [Double.div]; split_ifs <;> simp
  | nan => exact absurd rfl ha

theorem or_ne_nan (a : Double) {b : Double} (hb : b ≠ Double.nan) :
    Double.or a b ≠ Double.nan := by
  unfold Double.or
  split_ifs with h
  · intro ha
    rw [ha] at h
    exact absurd h (by simp [Double.truthy])
  · exact hb

theorem max_ne_nan {a b : Double} (ha : a ≠ Double.nan) (hb : b ≠ Double.nan) :
    Double.max a b ≠ Double.nan := by
  cases a <;> cases b <;> simp_all [Double.max] <;> split_ifs <;> simp

theorem min_ne_nan {a b : Double} (ha : a ≠ Double.nan) (hb : b ≠ Double.nan) :
    Double.min a b ≠ Double.nan := by
  cases a <;> cases b <;> simp_all [Double.min] <;> split_ifs <;> simp

theorem max_nan_left (b : Double) : Double.max Double.nan b = Double.nan := by
  cases b <;> rfl

theorem le_max_right_of_ne_nan {a b : Double} (ha : a ≠ Double.nan) (hb : b ≠ Double.nan) :
    Double.le b (Double.max a b) = true := by
  cases a with
  | nan => exact absurd rfl ha
  | fin x =>
    cases b with
    | nan => exact absurd rfl hb
    | fin y =>
      simp only [Double.max, Double.lt]
      by_cases h : x < y
      · simp [h, Double.le]
      · simp [h, Double.le, not_lt.mp h]
    | posInf => simp [Double.max, Double.lt, Double.le]
    | negInf => simp [Double.max, Double.lt, Double.le]
  | posInf =>
    cases b with
    | nan => exact absurd rfl hb
    | fin y => simp [Double.max, Double.lt, Double.le]
    | posInf => simp [Double.max, Double.lt, Double.le]
    | negInf => simp [Double.max, Double.lt, Double.le]
  | negInf =>
    cases b with
    | nan => exact absurd rfl hb
    | fin y => simp [Double.max, Double.lt, Double.le]
    | posInf => simp [Double.max, Double.lt, Double.le]
    | negInf => simp [Double.max, Double.lt, Double.le]

/-- The function `Number(x.toFixed(f))` is monotone on doubles. -/
theorem ieee_toFixedNumber_mono (f : ℕ) {a b : Double} (h : Double.le a b = true) :
    Double.le (Double.toFixedNumber f a) (Double.toFixedNumber f b) = true := by
  cases a with
  | nan => simp [Double.le] at h
  | fin x =>
    cases b with
    | nan => simp [Double.le] at h
    | fin y =>
      rw [ieee_toFixedNumber_fin sampleNumberToString, ieee_toFixedNumber_fin sampleNumberToString]
      simp only [Double.le, decide_eq_true_eq] at h ⊢
      exact toFixedNumber_mono _ (ieeeRuntime_sound _) f h
    | posInf =>
      rw [ieee_toFixedNumber_fin sampleNumberToString]
      simp [Double.toFixedNumber, Double.le]
    | negInf => simp [Double.le] at h
  | posInf =>
    cases b with
    | posInf => simp [Double.toFixedNumber, Double.le]
    | nan => simp [Double.le] at h
    | fin y => simp [Double.le] at h
    | negInf => simp [Double.le] at h
  | negInf =>
    cases b with
    | nan => simp [Double.le] at h
    | fin y =>
      rw [ieee_toFixedNumber_fin sampleNumberToString]
      simp [Double.toFixedNumber, Double.le]
    | posInf => simp [Double.toFixedNumber, Double.le]
    | negInf => simp [Double.toFixedNumber, Double.le]

theorem toFixedNumber_ne_nan (f : ℕ) {a : Double} (ha : a ≠ Double.nan) :
    Double.toFixedNumber f a ≠ Double.nan := by
  cases a with
  | nan => exact absurd rfl ha
  | fin x => rw [ieee_toFixedNumber_fin sampleNumberToString]; simp
  | posInf => simp [Double.toFixedNumber]
  | negInf => simp [Double.toFixedNumber]

theorem desiredMargin_ne_nan (env : Env) : Ieee.desiredMargin env ≠ Double.nan := by
  unfold Ieee.desiredMargin
  cases env.FALLBACK_TARGET_MARGIN with
  | none => exact ofRat_ne_nan _
  | some v => simp

theorem minMargin_ne_nan (env : Env) : Ieee.minMargin env ≠ Double.nan := by
  unfold Ieee.minMargin
  cases env.FALLBACK_MIN_MARGIN with
  | none => exact ofRat_ne_nan _
  | some v => simp

theorem fin_add_ne_nan (x : ℚ) {b : Double} (hb : b ≠ Double.nan) :
    Double.add (Double.fin x) b ≠ Double.nan := by
  cases b with
  | fin y => exact ofRat_ne_nan _
  | posInf => simp [Double.add]
  | negInf => simp [Double.add]
  | nan => exact absurd rfl hb

/-- The price before rounding is a number when the floor price is. -/
theorem rawRecommendedPrice_ne_nan (env : Env) (product : ProductDoc)
    (snapshot : CompetitorSnapshotDoc) (hf : Ieee.floorPrice env product ≠ Double.nan) :
    Ieee.rawRecommendedPrice env product snapshot ≠ Double.nan := by
  have hc : Ieee.competitiveCeiling env product snapshot ≠ Double.nan := by
    unfold Ieee.competitiveCeiling
    exact or_ne_nan _ (or_ne_nan _ hf)
  unfold Ieee.rawRecommendedPrice
  exact max_ne_nan hf (min_ne_nan hc (or_ne_nan _ hc))

/-- The margin before the clamp is a number unless the total cost is
`Infinity`. -/
theorem rawExpectedMargin_ne_nan (env : Env) (product : ProductDoc)
    (snapshot : CompetitorSnapshotDoc)
    (htc : Ieee.computeTotalCost product.costStructure ≠ Double.posInf) :
    Ieee.rawExpectedMargin env product snapshot ≠ Double.nan := by
  unfold Ieee.rawExpectedMargin
  simp only
  split_ifs with hlt
  · have hone : Double.add (Double.fin 1) (Ieee.desiredMargin env) ≠ Double.nan :=
      fin_add_ne_nan 1 (desiredMargin_ne_nan env)
    have hr : ∀ t : ℚ, Ieee.computeTotalCost product.costStructure = Double.fin t → 0 < t →
        Double.mul (Double.div (Double.sub (Ieee.rawRecommendedPrice env product snapshot)
          (Double.fin t)) (Double.fin t)) (Double.fin 100) ≠ Double.nan := by
      intro t ht h0
      have hf : Ieee.floorPrice env product ≠ Double.nan := by
        unfold Ieee.floorPrice
        rw [ht]
        exact fin_mul_ne_nan hone (ne_of_gt h0)
      exact mul_fin_ne_nan (div_fin_ne_nan (sub_fin_ne_nan
        (rawRecommendedPrice_ne_nan env product snapshot hf) t) (ne_of_gt h0)) (by norm_num)
    cases htc' : Ieee.computeTotalCost product.costStructure with
    | fin t =>
      rw [htc'] at hlt
      have h0 : 0 < t := by simpa [Double.lt] using hlt
      exact hr t htc' h0
    | posInf => exact absurd htc' htc
    | negInf => rw [htc'] at hlt; simp [Double.lt] at hlt
    | nan => rw [htc'] at hlt; simp [Double.lt] at hlt
  · simp

/-- When the total cost is `Infinity` the margin before the clamp is `NaN`:
`recommendedPrice − Infinity` is `-Infinity` or `NaN`, and `-Infinity / Infinity`
is `NaN`. -/
theorem rawExpectedMargin_of_posInf (env : Env) (product : ProductDoc)
    (snapshot : CompetitorSnapshotDoc)
    (htc : Ieee.computeTotalCost product.costStructure = Double.posInf) :
    Ieee.rawExpectedMargin env product snapshot = Double.nan := by
  unfold Ieee.rawExpectedMargin
  simp only [htc]
  have hlt : Double.lt (Double.fin 0) Double.posInf = true := rfl
  rw [if_pos hlt]
  cases Ieee.rawRecommendedPrice env product snapshot <;> rfl

/-- C4, as amended.  In double precision with overflow: unless the total cost
is `Infinity`, the `expectedMargin` returned is a number and is at least
`Number((minMargin × 100).toFixed(2))`, the clamp value rounded to two
decimals; when the total cost is `Infinity` (the sum of the costs overflows)
the `expectedMargin` returned is `NaN`.  With the default `minMargin = 0.10`
the bound is 10. -/
theorem expectedMargin_nan_or_ge (numberToString : ℚ → String) (env : Env) (product : ProductDoc)
    (snapshot : CompetitorSnapshotDoc) :
    (Ieee.computeTotalCost product.costStructure ≠ Double.posInf →
      (Ieee.buildFallbackRecommendation numberToString env product snapshot).expectedMargin
          ≠ Double.nan
      ∧ Double.le (Double.toFixedNumber 2 (Double.mul (Ieee.minMargin env) (Double.fin 100)))
          (Ieee.buildFallbackRecommendation numberToString env product snapshot).expectedMargin
          = true)
    ∧ (Ieee.computeTotalCost product.costStructure = Double.posInf →
      (Ieee.buildFallbackRecommendation numberToString env product snapshot).expectedMargin
          = Double.nan)
    ∧ (env.FALLBACK_MIN_MARGIN = none →
      Double.toFixedNumber 2 (Double.mul (Ieee.minMargin env) (Double.fin 100))
        = Double.fin 10) := by
  have hmm : Double.mul (Ieee.minMargin env) (Double.fin 100) ≠ Double.nan :=
    mul_fin_ne_nan (minMargin_ne_nan env) (by norm_num)
  refine ⟨fun htc => ?_, fun htc => ?_, fun henv => ?_⟩
  · have hraw := rawExpectedMargin_ne_nan env product snapshot htc
    have hsafe : Ieee.safeMargin env product snapshot ≠ Double.nan := max_ne_nan hraw hmm
    exact ⟨toFixedNumber_ne_nan 2 hsafe,
      ieee_toFixedNumber_mono 2 (le_max_right_of_ne_nan hraw hmm)⟩
  · show Double.toFixedNumber 2 (Double.max (Ieee.rawExpectedMargin env product snapshot) _) = _
    rw [rawExpectedMargin_of_posInf env product snapshot htc, max_nan_left]
    rfl
  · have : Ieee.minMargin env = Double.ofRat (1 / 10) := by
      unfold Ieee.minMargin
      rw [henv]
    rw [this]
    decide!

theorem computeTotalCost_pair (n1 n2 : String) (c1 c2 : ℚ) :
    Ieee.computeTotalCost (some [(n1, c1), (n2, c2)])
      = Double.add (Double.add (Double.fin 0) (Double.fin c1)) (Double.fin c2) := rfl

theorem hugeCost_total :
    Ieee.computeTotalCost Example.hugeCostProduct.costStructure = Double.posInf := by
  have a1 : Double.add (Double.fin 0) (Double.fin ((2 : ℚ) ^ 1023)) = Double.fin ((2 : ℚ) ^ 1023) := by
    show Double.ofRat (0 + (2 : ℚ) ^ 1023) = _
    rw [zero_add]
    exact ofRat_of_isDouble isDouble_two_pow_1023
  have a2 : Double.add (Double.fin ((2 : ℚ) ^ 1023)) (Double.fin ((2 : ℚ) ^ 1023))
      = Double.posInf := by
    show Double.ofRat ((2 : ℚ) ^ 1023 + (2 : ℚ) ^ 1023) = _
    have : (2 : ℚ) ^ 1023 + (2 : ℚ) ^ 1023 = (2 : ℚ) ^ 1024 := by norm_num
    rw [this, ofRat_two_pow_1024]
  unfold Example.hugeCostProduct
  rw [computeTotalCost_pair, a1, a2]

/-- Witness of C4 as amended: the end-to-end scenario with the default
configuration, where the margin is 95.83, and a product whose two costs
`2^1023` sum to `Infinity`, where it is `NaN`. -/
theorem expectedMargin_nan_or_ge_witness :
    (Ieee.computeTotalCost Example.scenarioProduct.costStructure ≠ Double.posInf
      ∧ (Ieee.buildFallbackRecommendation sampleNumberToString {} Example.scenarioProduct
          Example.scenarioSnapshot).expectedMargin ≠ Double.nan
      ∧ Double.le (Double.toFixedNumber 2 (Double.mul (Ieee.minMargin {}) (Double.fin 100)))
          (Ieee.buildFallbackRecommendation sampleNumberToString {} Example.scenarioProduct
            Example.scenarioSnapshot).expectedMargin = true)
    ∧ (Ieee.computeTotalCost Example.hugeCostProduct.costStructure = Double.posInf
      ∧ (Ieee.buildFallbackRecommendation sampleNumberToString {} Example.hugeCostProduct
          Example.scenarioSnapshot).expectedMargin = Double.nan) :=
  ⟨⟨by decide!,
    (expectedMargin_nan_or_ge sampleNumberToString {} Example.scenarioProduct
      Example.scenarioSnapshot).1 (by decide!)⟩,
   ⟨hugeCost_total,
    (expectedMargin_nan_or_ge sampleNumberToString {} Example.hugeCostProduct
      Example.scenarioSnapshot).2.1 hugeCost_total⟩⟩

/-- C4 fails as stated, in double precision.  With `FALLBACK_MIN_MARGIN=0.015625`,
a product without costs and a snapshot without competitors, `minMargin × 100` is
`1.5625` and the `expectedMargin` returned is `1.56`; with
`FALLBACK_MIN_MARGIN=0.07`, `minMargin × 100` is `7.000000000000001` and the
`expectedMargin` returned is `7`; with two costs of `2^1023`, whose sum
overflows, the `expectedMargin` returned is `NaN`, which is not `≥ 10`. -/
theorem expectedMargin_below_minMargin :
    (Ieee.buildFallbackRecommendation sampleNumberToString Example.fineMarginEnv
        Example.bareProduct Example.emptySnapshot).expectedMargin
      = Double.fin (binary64 (39 / 25))
    ∧ Double.mul (Ieee.minMargin Example.fineMarginEnv) (Double.fin 100) = Double.fin (25 / 16)
    ∧ binary64 (39 / 25) < 25 / 16
    ∧ (Ieee.buildFallbackRecommendation sampleNumberToString Example.sevenPercentEnv
        Example.bareProduct Example.emptySnapshot).expectedMargin = Double.fin 7
    ∧ Double.mul (Ieee.minMargin Example.sevenPercentEnv) (Double.fin 100)
        = Double.fin (binary64 (7000000000000001 / 10 ^ 15))
    ∧ (7 : ℚ) < binary64 (7000000000000001 / 10 ^ 15)
    ∧ (Ieee.buildFallbackRecommendation sampleNumberToString {} Example.hugeCostProduct
        Example.scenarioSnapshot).expectedMargin = Double.nan
    ∧ Double.le (Double.mul (Ieee.minMargin {}) (Double.fin 100))
        (Ieee.buildFallbackRecommendation sampleNumberToString {} Example.hugeCostProduct
          Example.scenarioSnapshot).expectedMargin = false := by
  have hnan : (Ieee.buildFallbackRecommendation sampleNumberToString {} Example.hugeCostProduct
      Example.scenarioSnapshot).expectedMargin = Double.nan := by
    show Double.toFixedNumber 2 (Double.max (Ieee.rawExpectedMargin {} Example.hugeCostProduct
      Example.scenarioSnapshot) _) = _
    rw [rawExpectedMargin_of_posInf _ _ _ hugeCost_total, max_nan_left]
    rfl
  refine ⟨by decide!, by decide!, by decide!, by decide!, by decide!, by decide!, hnan, ?_⟩
  rw [hnan]
  decide!

/-- The end-to-end scenario on the model with overflow: the figures of the
model without overflow, none of the operations overflowing. -/
theorem scenario_double :
    (Ieee.buildFallbackRecommendation sampleNumberToString {} Example.scenarioProduct
        Example.scenarioSnapshot).recommendedPrice = Double.fin (47 / 2)
    ∧ (Ieee.buildFallbackRecommendation sampleNumberToString {} Example.scenarioProduct
        Example.scenarioSnapshot).priceBand
      = (Double.fin (binary64 (2279 / 100)), Double.fin (binary64 (2421 / 100)))
    ∧ (Ieee.buildFallbackRecommendation sampleNumberToString {} Example.scenarioProduct
        Example.scenarioSnapshot).expectedMargin = Double.fin (binary64 (9583 / 100))
    ∧ (Ieee.buildFallbackRecommendation sampleNumberToString {} Example.scenarioProduct
        Example.scenarioSnapshot).rationale
      = (buildFallbackRecommendation (ieeeRuntime sampleNumberToString) {} Example.scenarioProduct
        Example.scenarioSnapshot).rationale := by
  decide!

end PorfitOptima

namespace PorfitOptima
namespace PricingWorker

/-! ## The store in its default settings -/

/-- The outcomes of `writeInsight` when the caller gives a `fallbackReason`: the
set is rejected and nothing is written; or the insight is set and the update of
the snapshot is rejected; or both calls are accepted, and the snapshot document
is `completed` and points at the insight. -/
theorem writeInsight_of_reason (env : Env) (C : Collaborators) (w : World)
    (snapshot : CompetitorSnapshotDoc) (product : ProductDoc) (source : StrategySource)
    (data : InsightData) (m : String) (hm : data.fallbackReason = some m) :
    ∃ doc : PricingInsightDoc,
      doc.insightId = C.autoId w.idsDrawn
      ∧ doc.snapshotId = snapshot.snapshotId
      ∧ doc.strategySource = source
      ∧ doc.fallbackReason = some m
      ∧ (((∃ e, (writeInsight env C w snapshot product source data).1 = Except.error e)
          ∧ (writeInsight env C w snapshot product source data).2.pricingInsights
              = w.pricingInsights
          ∧ (writeInsight env C w snapshot product source data).2.competitorSnapshots
              = w.competitorSnapshots)
        ∨ ((∃ e, (writeInsight env C w snapshot product source data).1 = Except.error e)
          ∧ (writeInsight env C w snapshot product source data).2.pricingInsights
              = w.pricingInsights.set (C.autoId w.idsDrawn) doc
          ∧ (writeInsight env C w snapshot product source data).2.competitorSnapshots
              = w.competitorSnapshots)
        ∨ ((writeInsight env C w snapshot product source data).1 = Except.ok ()
          ∧ (writeInsight env C w snapshot product source data).2.pricingInsights
              = w.pricingInsights.set (C.autoId w.idsDrawn) doc
          ∧ ∃ d : CompetitorSnapshotDoc,
              (writeInsight env C w snapshot product source data).2.competitorSnapshots.get
                  snapshot.snapshotId = some d
              ∧ d.pricingStatus = PricingStatus.completed
              ∧ d.pricingInsightId = some (C.autoId w.idsDrawn))) := by
  refine ⟨insightDoc env (C.autoId w.idsDrawn) (C.serverTime w.storeCalls) snapshot source data,
    rfl, rfl, rfl, hm, ?_⟩
  unfold writeInsight
  simp only [hm, reduceCtorEq, false_and, if_false]
  cases h0 : C.storeFails w.storeCalls with
  | some e => left; exact ⟨⟨e, rfl⟩, rfl, rfl⟩
  | none =>
    right
    simp only [updateSnapshot, World.tick]
    cases h1 : C.storeFails (w.storeCalls + 1) with
    | some e => left; exact ⟨⟨e, rfl⟩, rfl, rfl⟩
    | none =>
      simp only
      by_cases hdoc : (w.competitorSnapshots.get snapshot.snapshotId).isSome
      · rw [Collection.update_isSome _ hdoc]
        right
        refine ⟨rfl, rfl, ?_⟩
        obtain ⟨d0, hd0⟩ := Option.isSome_iff_exists.mp hdoc
        refine ⟨{ d0 with pricingStatus := PricingStatus.completed,
                          pricingInsightId := some (C.autoId w.idsDrawn),
                          updatedAt := some (C.serverTime (w.storeCalls + 1)) }, ?_, rfl, rfl⟩
        have hget := Collection.get_modify w.competitorSnapshots snapshot.snapshotId
          snapshot.snapshotId (fun d : CompetitorSnapshotDoc =>
            { d with pricingStatus := PricingStatus.completed,
                     pricingInsightId := some (C.autoId w.idsDrawn),
                     updatedAt := some (C.serverTime (w.storeCalls + 1)) })
        rw [hd0] at hget
        simpa using hget
      · have hnone : Collection.update w.competitorSnapshots snapshot.snapshotId
            (fun d => { d with pricingStatus := PricingStatus.completed,
                               pricingInsightId := some (C.autoId w.idsDrawn),
                               updatedAt := some (C.serverTime (w.storeCalls + 1)) }) = none := by
          unfold Collection.update; rw [if_neg hdoc]
        rw [hnone]
        left; exact ⟨⟨_, rfl⟩, rfl, rfl⟩

/-- With the store in its default settings the `try` block never writes: the
call of the model fails, or `set` refuses the document of the AI path, whose
`fallbackReason` is `undefined`. -/
theorem aiAttempt_of_default (env : Env) (C : Collaborators) (w : World)
    (snapshot : CompetitorSnapshotDoc) (product : ProductDoc) (payload : Payload.PricingPayload)
    (hdefault : C.ignoreUndefinedProperties = false) :
    (∃ e, (aiAttempt env C w snapshot product payload).1 = Except.error e
      ∧ (C.callOpenAi w.aiRequests.length payload = Except.error e
          ∨ ((∃ ai, C.callOpenAi w.aiRequests.length payload = Except.ok ai)
              ∧ e = C.undefinedValue "fallbackReason")))
    ∧ (aiAttempt env C w snapshot product payload).2.pricingInsights = w.pricingInsights
    ∧ (aiAttempt env C w snapshot product payload).2.competitorSnapshots = w.competitorSnapshots
    ∧ (aiAttempt env C w snapshot product payload).2.storeCalls = w.storeCalls := by
  unfold aiAttempt
  simp only
  cases hc : C.callOpenAi w.aiRequests.length payload with
  | error e => exact ⟨⟨e, rfl, Or.inl rfl⟩, rfl, rfl, rfl⟩
  | ok ai =>
    simp only [writeInsight, hdefault, and_self, if_true]
    exact ⟨⟨_, rfl, Or.inr ⟨⟨ai, rfl⟩, rfl⟩⟩, trivial⟩

theorem updateSnapshot_insights (C : Collaborators) (w : World) (id : String)
    (F : Timestamp → CompetitorSnapshotDoc → CompetitorSnapshotDoc) :
    (updateSnapshot C w id F).2.pricingInsights = w.pricingInsights := by
  unfold updateSnapshot
  cases h0 : C.storeFails w.storeCalls with
  | some e => rfl
  | none =>
    simp only
    cases h1 : Collection.update w.competitorSnapshots id (F (C.serverTime w.storeCalls)) <;> rfl

theorem set_of_fresh {α : Type} (c : Collection α) (id : String) (d : α)
    (h : c.get id = none) : c.set id d = c ++ [(id, d)] := by
  unfold Collection.set
  rw [h]
  rfl

end PricingWorker
end PorfitOptima

namespace PorfitOptima
namespace PricingWorker

/-- C9.  With the store in its default settings, a run of `processSnapshotOnce`
writes at most one insight document for the snapshot, and it is an insight of
the fallback path: the insight collection is left as it was, or one document
is set under a generated id, with `strategySource = "rule_based"` and the
`snapshotId` of the snapshot.  When the run returns normally for a snapshot
whose product exists, exactly one insight was set, the snapshot document is
`completed` and its `pricingInsightId` is the id of that insight; when the run
throws, no status has changed. -/
theorem processSnapshotOnce_one_insight (R : Runtime) (env : Env) (C : Collaborators) (w : World)
    (snapshot : CompetitorSnapshotDoc) (hdefault : C.ignoreUndefinedProperties = false) :
    ((processSnapshotOnce R env C w snapshot).2.pricingInsights = w.pricingInsights
      ∨ ∃ (id : String) (doc : PricingInsightDoc),
          (processSnapshotOnce R env C w snapshot).2.pricingInsights
            = w.pricingInsights.set id doc
          ∧ (w.pricingInsights.get id = none →
              (processSnapshotOnce R env C w snapshot).2.pricingInsights
                = w.pricingInsights ++ [(id, doc)])
          ∧ doc.insightId = id
          ∧ doc.snapshotId = snapshot.snapshotId
          ∧ doc.strategySource = StrategySource.rule_based)
    ∧ ((processSnapshotOnce R env C w snapshot).1 = Except.ok () →
        (w.products.get snapshot.productId).isSome →
        ∃ (id : String) (doc : PricingInsightDoc),
          (processSnapshotOnce R env C w snapshot).2.pricingInsights
            = w.pricingInsights.set id doc
          ∧ doc.insightId = id
          ∧ doc.snapshotId = snapshot.snapshotId
          ∧ doc.strategySource = StrategySource.rule_based
          ∧ ∃ d : CompetitorSnapshotDoc,
              (processSnapshotOnce R env C w snapshot).2.competitorSnapshots.get
                  snapshot.snapshotId = some d
              ∧ d.pricingStatus = PricingStatus.completed
              ∧ d.pricingInsightId = some id)
    ∧ (∀ e, (processSnapshotOnce R env C w snapshot).1 = Except.error e →
        (processSnapshotOnce R env C w snapshot).2.competitorSnapshots
          = w.competitorSnapshots) := by
  unfold processSnapshotOnce getProduct
  cases h0 : C.storeFails w.storeCalls with
  | some e =>
    refine ⟨Or.inl rfl, fun h => ?_, fun _ _ => rfl⟩
    simp at h
  | none =>
    simp only
    cases hp : w.products.get snapshot.productId with
    | none =>
      simp only
      refine ⟨Or.inl (updateSnapshot_insights C _ _ _), fun _ h => ?_, fun e he => ?_⟩
      · simp at h
      · rcases updateSnapshot_snapshots C w.tick snapshot.snapshotId
            (fun now d => { d with pricingStatus := PricingStatus.failed,
                                   lastError := some "product_not_found",
                                   updatedAt := some now }) with h | h
        · exact h.2
        · rw [h.1] at he; simp at he
    | some product =>
      simp only
      obtain ⟨⟨e, he, -⟩, hi, hs, -⟩ := aiAttempt_of_default env C w.tick snapshot product
        (Payload.buildPricingPayload R product snapshot) hdefault
      rcases hA : aiAttempt env C w.tick snapshot product
          (Payload.buildPricingPayload R product snapshot) with ⟨r, w2⟩
      rw [hA] at he hi hs
      simp only at he hi hs
      subst he
      simp only [fallbackAttempt]
      have hi2 : w2.pricingInsights = w.pricingInsights := hi
      have hs2 : w2.competitorSnapshots = w.competitorSnapshots := hs
      obtain ⟨doc, hid, hsid, hsrc, -, hcases⟩ := writeInsight_of_reason env C w2 snapshot product
          StrategySource.rule_based
          { recommendedPrice :=
              (Fallback.buildFallbackRecommendation R env product snapshot).recommendedPrice,
            priceBand := (Fallback.buildFallbackRecommendation R env product snapshot).priceBand,
            expectedMargin :=
              (Fallback.buildFallbackRecommendation R env product snapshot).expectedMargin,
            rationale := (Fallback.buildFallbackRecommendation R env product snapshot).rationale,
            dataSources :=
              (Fallback.buildFallbackRecommendation R env product snapshot).dataSources,
            metadata := some
              { strategy := some
                  (Fallback.buildFallbackRecommendation R env product snapshot).strategy },
            fallbackReason := some (errorMessage e) } (errorMessage e) rfl
      rw [hi2, hs2] at hcases
      rcases hcases with ⟨⟨e1, h1⟩, hins, hsn⟩ | ⟨⟨e1, h1⟩, hins, hsn⟩ | ⟨h1, hins, d, hd, hd1, hd2⟩
      · refine ⟨Or.inl hins, fun h _ => ?_, fun _ _ => hsn⟩
        rw [h1] at h; simp at h
      · refine ⟨Or.inr ⟨C.autoId w2.idsDrawn, doc, hins, fun hf => ?_, hid, hsid, hsrc⟩,
          fun h _ => ?_, fun _ _ => hsn⟩
        · rw [hins]; exact set_of_fresh _ _ _ hf
        · rw [h1] at h; simp at h
      · refine ⟨Or.inr ⟨C.autoId w2.idsDrawn, doc, hins, fun hf => ?_, hid, hsid, hsrc⟩,
          fun _ _ => ⟨C.autoId w2.idsDrawn, doc, hins, hid, hsid, hsrc, d, hd, hd1, hd2⟩,
          fun e2 h2 => ?_⟩
        · rw [hins]; exact set_of_fresh _ _ _ hf
        · rw [h1] at h2; simp at h2

end PricingWorker
end PorfitOptima

namespace PorfitOptima
namespace PricingWorker

/-- Witness of C9: the scenario store in default settings, with a model that
returns the minimal valid response. -/
theorem processSnapshotOnce_one_insight_witness :
    ((processSnapshotOnce (ieeeRuntime sampleNumberToString) {} Example.parsingCollaborators
        Example.world Example.scenarioSnapshot).2.pricingInsights.map
        (fun e => (e.1, e.2.snapshotId, e.2.strategySource)))
      = [("insight-1", "snap-1", StrategySource.rule_based)]
    ∧ ∀ e, (processSnapshotOnce (ieeeRuntime sampleNumberToString) {}
          Example.parsingCollaborators Example.world Example.scenarioSnapshot).1
            = Except.error e →
        (processSnapshotOnce (ieeeRuntime sampleNumberToString) {} Example.parsingCollaborators
          Example.world Example.scenarioSnapshot).2.competitorSnapshots
          = Example.world.competitorSnapshots :=
  ⟨by decide!,
   (processSnapshotOnce_one_insight (ieeeRuntime sampleNumberToString) {}
      Example.parsingCollaborators Example.world Example.scenarioSnapshot rfl).2.2⟩

theorem mem_set {α : Type} (c : Collection α) (id : String) (d : α) (x : String × α)
    (hx : x ∈ c.set id d) : x ∈ c ∨ x.2 = d := by
  unfold Collection.set at hx
  split_ifs at hx
  · unfold Collection.modify at hx
    rw [List.mem_map] at hx
    obtain ⟨e, he, rfl⟩ := hx
    by_cases hid : e.1 = id
    · right; simp [hid]
    · left; simp [hid, he]
  · rw [List.mem_append, List.mem_singleton] at hx
    rcases hx with h | h
    · left; exact h
    · right; rw [h]

/-- C11 fails on the code with the store in its default settings.  For a
claimed snapshot whose product exists, when the model returns a text that
`JSON.parse` parses and `AiResponseSchema` accepts and the store accepts the
calls of the run, `set` refuses the insight of the AI path, whose
`fallbackReason` is `undefined`; the `catch` block takes the refusal for a
failure of the model, and the one insight that is written is the `rule_based`
insight of `buildFallbackRecommendation`, its `fallbackReason` the message of
the refusal.  No insight with `strategySource = "ai"` is added. -/
theorem processSnapshotOnce_ai_refused (R : Runtime) (env : Env) (C : Collaborators) (w : World)
    (snapshot : CompetitorSnapshotDoc) (product : ProductDoc)
    (complete : ℕ → Payload.PricingPayload → Except Thrown (Option String))
    (jsonParse : String → Except Thrown Json) (zodError : Json → Thrown)
    (text : String) (json : Json) (ai : AiResponse)
    (hC : C.callOpenAi = callOpenAi complete jsonParse zodError)
    (hdefault : C.ignoreUndefinedProperties = false)
    (hget : C.storeFails w.storeCalls = none)
    (hset : C.storeFails (w.storeCalls + 1) = none)
    (hupdate : C.storeFails (w.storeCalls + 2) = none)
    (hdoc : (w.competitorSnapshots.get snapshot.snapshotId).isSome)
    (hprod : w.products.get snapshot.productId = some product)
    (hcomplete : complete w.aiRequests.length (Payload.buildPricingPayload R product snapshot)
      = Except.ok (some text))
    (hjson : jsonParse text = Except.ok json)
    (hvalid : AiSchema.AiResponseSchema json = some ai) :
    (processSnapshotOnce R env C w snapshot).1 = Except.ok ()
    ∧ (∃ doc : PricingInsightDoc,
        (processSnapshotOnce R env C w snapshot).2.pricingInsights
            = w.pricingInsights.set (C.autoId (w.idsDrawn + 1)) doc
        ∧ doc.insightId = C.autoId (w.idsDrawn + 1)
        ∧ doc.snapshotId = snapshot.snapshotId
        ∧ doc.strategySource = StrategySource.rule_based
        ∧ doc.fallbackReason = some (errorMessage (C.undefinedValue "fallbackReason"))
        ∧ doc.recommendedPrice
            = (Fallback.buildFallbackRecommendation R env product snapshot).recommendedPrice
        ∧ doc.priceBand = (Fallback.buildFallbackRecommendation R env product snapshot).priceBand
        ∧ doc.expectedMargin
            = (Fallback.buildFallbackRecommendation R env product snapshot).expectedMargin
        ∧ doc.metadata.confidence = none)
    ∧ (∀ x ∈ (processSnapshotOnce R env C w snapshot).2.pricingInsights,
        x ∈ w.pricingInsights ∨ x.2.strategySource = StrategySource.rule_based)
    ∧ (∃ d : CompetitorSnapshotDoc,
        (processSnapshotOnce R env C w snapshot).2.competitorSnapshots.get snapshot.snapshotId
            = some d
        ∧ d.pricingStatus = PricingStatus.completed
        ∧ d.pricingInsightId = some (C.autoId (w.idsDrawn + 1))) := by
  obtain ⟨d0, hd0⟩ := Option.isSome_iff_exists.mp hdoc
  have hcall : C.callOpenAi w.aiRequests.length (Payload.buildPricingPayload R product snapshot)
      = Except.ok ai := by
    rw [hC]
    simp only [callOpenAi, hcomplete, Option.getD_some, hjson, hvalid]
  have hrun : processSnapshotOnce R env C w snapshot
      = (Except.ok (),
         { w.tick.tick.tick with
           aiRequests := w.aiRequests ++ [Payload.buildPricingPayload R product snapshot],
           idsDrawn := w.idsDrawn + 1 + 1,
           pricingInsights := w.pricingInsights.set (C.autoId (w.idsDrawn + 1))
             (insightDoc env (C.autoId (w.idsDrawn + 1)) (C.serverTime (w.storeCalls + 1)) snapshot
               StrategySource.rule_based
               { recommendedPrice :=
                   (Fallback.buildFallbackRecommendation R env product snapshot).recommendedPrice,
                 priceBand :=
                   (Fallback.buildFallbackRecommendation R env product snapshot).priceBand,
                 expectedMargin :=
                   (Fallback.buildFallbackRecommendation R env product snapshot).expectedMargin,
                 rationale :=
                   (Fallback.buildFallbackRecommendation R env product snapshot).rationale,
                 dataSources :=
                   (Fallback.buildFallbackRecommendation R env product snapshot).dataSources,
                 metadata := some
                   { strategy := some
                       (Fallback.buildFallbackRecommendation R env product snapshot).strategy },
                 fallbackReason := some (errorMessage (C.undefinedValue "fallbackReason")) }),
           competitorSnapshots := w.competitorSnapshots.modify snapshot.snapshotId
             (fun d => { d with pricingStatus := PricingStatus.completed,
                                pricingInsightId := some (C.autoId (w.idsDrawn + 1)),
                                updatedAt := some (C.serverTime (w.storeCalls + 2)) }) }) := by
    simp only [processSnapshotOnce, getProduct, hget, hset, hupdate, hprod, aiAttempt, hcall,
      fallbackAttempt, writeInsight, updateSnapshot, World.tick, errorMessage, hdefault,
      Collection.update_isSome _ hdoc, Nat.add_assoc, Nat.reduceAdd, reduceCtorEq, false_and,
      and_self, if_false, if_true]
  rw [hrun]
  refine ⟨rfl, ⟨_, rfl, rfl, rfl, rfl, rfl, rfl, rfl, rfl, rfl⟩, ?_, ?_⟩
  · intro x hx
    rcases mem_set _ _ _ x hx with h | h
    · left; exact h
    · right; rw [h]; rfl
  · refine ⟨{ d0 with pricingStatus := PricingStatus.completed,
                      pricingInsightId := some (C.autoId (w.idsDrawn + 1)),
                      updatedAt := some (C.serverTime (w.storeCalls + 2)) }, ?_, rfl, rfl⟩
    have hget := Collection.get_modify w.competitorSnapshots snapshot.snapshotId
      snapshot.snapshotId (fun d : CompetitorSnapshotDoc =>
        { d with pricingStatus := PricingStatus.completed,
                 pricingInsightId := some (C.autoId (w.idsDrawn + 1)),
                 updatedAt := some (C.serverTime (w.storeCalls + 2)) })
    rw [hd0] at hget
    simpa using hget

/-- Witness of the failure of C11: the scenario store in default settings with
a model that returns the minimal valid response as text.  The run ends with
one insight, `insight-1`, of the fallback rule. -/
theorem processSnapshotOnce_ai_refused_witness :
    (processSnapshotOnce (ieeeRuntime sampleNumberToString) {} Example.parsingCollaborators
        Example.world Example.scenarioSnapshot).1 = Except.ok ()
    ∧ ((processSnapshotOnce (ieeeRuntime sampleNumberToString) {} Example.parsingCollaborators
        Example.world Example.scenarioSnapshot).2.pricingInsights.map
        (fun e => (e.1, e.2.strategySource, e.2.fallbackReason, e.2.recommendedPrice)))
      = [("insight-1", StrategySource.rule_based,
          some "Cannot use undefined as a Firestore value: fallbackReason", 47 / 2)] :=
  ⟨(processSnapshotOnce_ai_refused (ieeeRuntime sampleNumberToString) {}
      Example.parsingCollaborators Example.world Example.scenarioSnapshot Example.scenarioProduct
      (fun _ _ => Except.ok (some Example.minimalText)) Example.jsonParse
      (fun _ => Thrown.error "invalid response") Example.minimalText Example.minimalResponse
      Example.aiResponse (by simp only [Example.parsingCollaborators]) rfl rfl rfl rfl
      (by decide!) rfl rfl (by simp [Example.jsonParse]) AiSchema.minimalResponse_accepted).1,
   by decide!⟩

/-- C10 fails as stated.  (1) Two workers: the first one queries and finds
`snap-1` pending; the second one claims and completes `snap-1`; the update of
the first one then moves `snap-1` from `completed` back to `processing`.
(2) One worker on a store in which the pending document `doc-A` carries
`snapshotId = "doc-B"`: the iteration moves `doc-B` from `failed` to
`completed` and leaves `doc-A` `processing`. -/
theorem pricingStatus_regresses :
    (statusOf (fetchStep Example.steadyCollaborators Example.pendingWorld
        Invocation.start).2 "snap-1" = some PricingStatus.pending
      ∧ statusOf (loopIteration (ieeeRuntime sampleNumberToString) {} Example.steadyCollaborators
          (fetchStep Example.steadyCollaborators Example.pendingWorld Invocation.start).2)
          "snap-1" = some PricingStatus.completed
      ∧ statusOf (fetchStep Example.steadyCollaborators
          (loopIteration (ieeeRuntime sampleNumberToString) {} Example.steadyCollaborators
            (fetchStep Example.steadyCollaborators Example.pendingWorld Invocation.start).2)
          (fetchStep Example.steadyCollaborators Example.pendingWorld Invocation.start).1).2
          "snap-1" = some PricingStatus.processing)
    ∧ (statusOf Example.crossedWorld "doc-B" = some PricingStatus.failed
      ∧ statusOf (loopIteration (ieeeRuntime sampleNumberToString) {} Example.steadyCollaborators
          Example.crossedWorld) "doc-B" = some PricingStatus.completed
      ∧ statusOf (loopIteration (ieeeRuntime sampleNumberToString) {} Example.steadyCollaborators
          Example.crossedWorld) "doc-A" = some PricingStatus.processing) := by
  decide!

end PricingWorker
end PorfitOptima
